import Mathlib

/-!
# H5VFS: the Packer (`toHDF5.cpp`) and the FUSE adapter (`h5vfs.cpp`)

A shallow embedding of the two programs of the repository and the properties
their specification states about them.

Conventions of the embedding.

* `std::string` is `String`; string algorithms of the source work on the
  character list of the string.
* `hsize_t` and `size_t` are natural numbers below `U64`; every addition the
  source performs in these types is reduced modulo `U64`.
* A loop of the source that has no syntactic bound takes a fuel argument and
  answers `none` when the fuel is used up.
* Library code (HDF5, `std::regex`, `std::filesystem`, the MD5 primitive) is
  not part of the repository.  The MD5 primitive, the regular expression
  matcher and path canonicalisation are parameters; the container is a small
  model of the HDF5 calls the source makes.
-/

namespace H5VFS

/-! ## Machine integers and bytes -/

/-- One byte of file, buffer or dataset content (`char`, `NATIVE_UINT8`). -/
abbrev Byte := Fin 256

/-- Number of values of the 64 bit unsigned types `hsize_t` and `size_t`. -/
abbrev U64 : Nat := 18446744073709551616

/-- Largest value of the signed 64 bit types `off_t` and `int64_t`, plus one. -/
abbrev I64 : Nat := 9223372036854775808

/-! ## The MD5 primitive (`picohash.h`, a parameter) -/

/-- The streaming interface of the hash primitive used by the Packer:
`picohash_init_md5`, `picohash_update` and `picohash_final`. -/
structure Hasher where
  /-- The type `picohash_ctx_t`. -/
  Ctx : Type
  /-- The context after `picohash_init_md5`. -/
  init : Ctx
  /-- The context after `picohash_update(&ctx, buffer, count)`. -/
  update : Ctx → List Byte → Ctx
  /-- The digest written by `picohash_final(&ctx, digest)`. -/
  final : Ctx → List Byte

/-! ## MD5 (RFC 1321), the function the hash primitive is taken to compute -/

/-- The table `T[1..64]` of RFC 1321: `floor(2^32 * abs(sin(i)))`. -/
def md5K : List Nat :=
  [3614090360, 3905402710, 606105819, 3250441966, 4118548399, 1200080426, 2821735955,
   4249261313, 1770035416, 2336552879, 4294925233, 2304563134, 1804603682, 4254626195,
   2792965006, 1236535329, 4129170786, 3225465664, 643717713, 3921069994, 3593408605,
   38016083, 3634488961, 3889429448, 568446438, 3275163606, 4107603335, 1163531501,
   2850285829, 4243563512, 1735328473, 2368359562, 4294588738, 2272392833, 1839030562,
   4259657740, 2763975236, 1272893353, 4139469664, 3200236656, 681279174, 3936430074,
   3572445317, 76029189, 3654602809, 3873151461, 530742520, 3299628645, 4096336452,
   1126891415, 2878612391, 4237533241, 1700485571, 2399980690, 4293915773, 2240044497,
   1873313359, 4264355552, 2734768916, 1309151649, 4149444226, 3174756917, 718787259,
   3951481745]

/-- The per-round left rotation amounts of RFC 1321. -/
def md5S : List Nat :=
  [7, 12, 17, 22, 7, 12, 17, 22, 7, 12, 17, 22, 7, 12, 17, 22,
   5, 9, 14, 20, 5, 9, 14, 20, 5, 9, 14, 20, 5, 9, 14, 20,
   4, 11, 16, 23, 4, 11, 16, 23, 4, 11, 16, 23, 4, 11, 16, 23,
   6, 10, 15, 21, 6, 10, 15, 21, 6, 10, 15, 21, 6, 10, 15, 21]

/-- Rotate a 32 bit word left. -/
def rotl32 (x s : Nat) : Nat :=
  ((x <<< s) ||| (x >>> (32 - s))) % 4294967296

/-- Complement of a 32 bit word. -/
def not32 (x : Nat) : Nat := 4294967295 - x % 4294967296

/-- The 32 bit little-endian word at byte position `4 * g` of a block. -/
def md5Word (block : List Byte) (g : Nat) : Nat :=
  (block.getD (4 * g) 0).val + 256 * (block.getD (4 * g + 1) 0).val
    + 65536 * (block.getD (4 * g + 2) 0).val + 16777216 * (block.getD (4 * g + 3) 0).val

/-- One of the 64 operations of RFC 1321 on the working state `(A, B, C, D)`. -/
def md5Step (block : List Byte) (st : Nat × Nat × Nat × Nat) (i : Nat) : Nat × Nat × Nat × Nat :=
  let (a, b, c, d) := st
  let f :=
    if i < 16 then (b &&& c) ||| (not32 b &&& d)
    else if i < 32 then (d &&& b) ||| (not32 d &&& c)
    else if i < 48 then b ^^^ c ^^^ d
    else c ^^^ (b ||| not32 d)
  let g :=
    if i < 16 then i
    else if i < 32 then (5 * i + 1) % 16
    else if i < 48 then (3 * i + 5) % 16
    else (7 * i) % 16
  let f := (f + a + md5K.getD i 0 + md5Word block g) % 4294967296
  (d, (b + rotl32 f (md5S.getD i 0)) % 4294967296, b, c)

/-- The state after one 64 byte block. -/
def md5Block (h : Nat × Nat × Nat × Nat) (block : List Byte) : Nat × Nat × Nat × Nat :=
  let (a, b, c, d) := (List.range 64).foldl (md5Step block) h
  ((h.1 + a) % 4294967296, (h.2.1 + b) % 4294967296, (h.2.2.1 + c) % 4294967296,
    (h.2.2.2 + d) % 4294967296)

/-- The `n` low bytes of a number, least significant first. -/
def leBytes : Nat → Nat → List Byte
  | 0, _ => []
  | n + 1, x => Fin.ofNat (x % 256) :: leBytes n (x / 256)

/-- The message with the padding of RFC 1321: a one bit, zeros up to 56 modulo
64 bytes, and the length in bits as a 64 bit little-endian number. -/
def md5Pad (msg : List Byte) : List Byte :=
  msg ++ [128] ++ List.replicate ((119 - msg.length % 64) % 64) 0
    ++ leBytes 8 ((8 * msg.length) % 18446744073709551616)

/-- The state after all the blocks of a padded message. -/
def md5Blocks : Nat → Nat × Nat × Nat × Nat → List Byte → Nat × Nat × Nat × Nat
  | 0, h, _ => h
  | n + 1, h, bytes => md5Blocks n (md5Block h (bytes.take 64)) (bytes.drop 64)

/-- The MD5 message digest of RFC 1321, the function the hash primitive of the
Packer is taken to compute. -/
def md5 (msg : List Byte) : List Byte :=
  let padded := md5Pad msg
  let (a, b, c, d) :=
    md5Blocks (padded.length / 64) (1732584193, 4023233417, 2562383102, 271733878) padded
  leBytes 4 a ++ leBytes 4 b ++ leBytes 4 c ++ leBytes 4 d

/-- The hash primitive computes MD5: whatever the pieces a message is fed in,
the final digest is the MD5 digest of their concatenation. -/
def Hasher.IsMD5 (H : Hasher) : Prop :=
  ∀ chunks : List (List Byte), H.final (chunks.foldl H.update H.init) = md5 chunks.flatten

/-- The hash primitive that keeps the message and computes its MD5 digest at
the end. -/
def md5Hasher : Hasher :=
  { Ctx := List Byte
    init := []
    update := fun s a => s ++ a
    final := md5 }

/-- A lowercase hexadecimal digit, as printed by `%x`. -/
def hexDigit (n : Nat) : Char :=
  if n < 10 then Char.ofNat (48 + n) else Char.ofNat (87 + n)

/-- The two characters `snprintf(hexbuf, 3, "%02x", digest[i])` writes. -/
def hex2 (b : Byte) : List Char :=
  [hexDigit (b.val / 16), hexDigit (b.val % 16)]

/-- Length of an MD5 digest, `PICOHASH_MD5_DIGEST_LENGTH`. -/
abbrev PICOHASH_MD5_DIGEST_LENGTH : Nat := 16

/-- The loop that converts the digest to `digestStr`
(toHDF5.cpp lines 451-457 and 629-635). -/
def digestString (digest : List Byte) : String :=
  String.mk ((List.range PICOHASH_MD5_DIGEST_LENGTH).flatMap
    (fun i => hex2 (digest.getD i 0)))

/-! ## The chunk loop of `storeFile` and of the hash policy -/

/-- The loop that `storeFile` (toHDF5.cpp lines 609-624) and the hash branch of
`shouldStore` (lines 437-446) share word for word:

    while (offset < hs) {
      if (offset + count > hs) count = hs - offset;
      BODY(offset, count);
      offset += count;
    }

`body` is what the loop does with one chunk.  The last argument records the
`(offset, count)` pairs in the order the body sees them. -/
def chunkLoop {σ : Type} (body : σ → Nat → Nat → σ) (hs : Nat) :
    Nat → Nat → Nat → σ → List (Nat × Nat) → Option (σ × List (Nat × Nat))
  | 0, _, _, _, _ => none
  | fuel + 1, offset, count, s, visited =>
    if offset < hs then
      let count := if (offset + count) % U64 > hs then hs - offset else count
      chunkLoop body hs fuel ((offset + count) % U64) count (body s offset count)
        (visited ++ [(offset, count)])
    else some (s, visited)

/-- What `file.read(buffer, count)` leaves in the buffer: the bytes read
overwrite its beginning, the rest keeps its old content. -/
def readInto (buffer stream : List Byte) (count : Nat) : List Byte :=
  stream.take count ++ buffer.drop (stream.take count).length

/-- The elements selected by `selectHyperslab(H5S_SELECT_SET, &count, &offset)`
replaced by the bytes written. -/
def writeHyperslab (data : List Byte) (offset : Nat) (bytes : List Byte) : List Byte :=
  data.take offset ++ bytes ++ data.drop (offset + bytes.length)

/-- What the write loop of `storeFile` holds between two iterations. -/
structure WriteState (H : Hasher) where
  /-- The bytes of the source file the stream has not read yet. -/
  stream : List Byte
  /-- The heap buffer of `chunk_size[0]` bytes. -/
  buffer : List Byte
  /-- The hash context. -/
  ctx : H.Ctx
  /-- The elements of the dataset. -/
  data : List Byte
  /-- Record of the pieces given to `picohash_update`, in order. -/
  hashed : List (List Byte)
  /-- Record of the pieces given to `dataset.write`, in order. -/
  written : List (List Byte)

/-- One iteration of the write loop of `storeFile` (lines 616-622). -/
def storeBody (H : Hasher) (s : WriteState H) (offset count : Nat) : WriteState H :=
  let buffer := readInto s.buffer s.stream count
  { stream := s.stream.drop count
    buffer := buffer
    ctx := H.update s.ctx (buffer.take count)
    data := writeHyperslab s.data offset (buffer.take count)
    hashed := s.hashed ++ [buffer.take count]
    written := s.written ++ [buffer.take count] }

/-- What the hash loop of `shouldStore` holds between two iterations. -/
structure HashState (H : Hasher) where
  /-- The bytes of the source file the stream has not read yet. -/
  stream : List Byte
  /-- The heap buffer of `chunkSize` bytes. -/
  buffer : List Byte
  /-- The hash context. -/
  ctx : H.Ctx
  /-- Record of the pieces given to `picohash_update`, in order. -/
  hashed : List (List Byte)

/-- One iteration of the hash loop of `shouldStore` (lines 443-444). -/
def hashBody (H : Hasher) (s : HashState H) (_offset count : Nat) : HashState H :=
  let buffer := readInto s.buffer s.stream count
  { stream := s.stream.drop count
    buffer := buffer
    ctx := H.update s.ctx (buffer.take count)
    hashed := s.hashed ++ [buffer.take count] }

/-- The state in which `storeFile` enters its write loop: nothing read, a fresh
buffer of `chunk_size[0]` bytes, a fresh hash context, a dataset of `hs`
elements that hold the fill value. -/
def storeEntry (H : Hasher) (chunkSize hs : Nat) (content : List Byte) : WriteState H :=
  { stream := content
    buffer := List.replicate (min chunkSize hs) 0
    ctx := H.init
    data := List.replicate hs 0
    hashed := []
    written := [] }

/-- The state in which `shouldStore` enters its hash loop. -/
def hashEntry (H : Hasher) (chunkSize : Nat) (content : List Byte) : HashState H :=
  { stream := content
    buffer := List.replicate chunkSize 0
    ctx := H.init
    hashed := [] }

/-- The write loop of `storeFile` from its entry: `offset = 0`,
`count = chunk_size[0] = min(chunkSize, hs)`. -/
def storeLoop (H : Hasher) (fuel chunkSize hs : Nat) (content : List Byte) :
    Option (WriteState H × List (Nat × Nat)) :=
  chunkLoop (storeBody H) hs fuel 0 (min chunkSize hs) (storeEntry H chunkSize hs content) []

/-- The hash loop of `shouldStore` from its entry: `offset = 0`,
`count = chunkSize`. -/
def hashLoop (H : Hasher) (fuel chunkSize hs : Nat) (content : List Byte) :
    Option (HashState H × List (Nat × Nat)) :=
  chunkLoop (hashBody H) hs fuel 0 chunkSize (hashEntry H chunkSize content) []

/-- The chunk schedule the specification describes for a file of `n` bytes and
a chunk option `c`: the first offset is 0, each next offset is the previous one
plus its count and is larger, every chunk but the last has `c` bytes, the last
one has between 1 and `c` bytes, and the counts add up to `n`. -/
def ChunkSchedule (n c : Nat) (t : List (Nat × Nat)) : Prop :=
  (∀ p, t.head? = some p → p.1 = 0) ∧
  (∀ i p q, t[i]? = some p → t[i + 1]? = some q →
    q.1 = p.1 + p.2 ∧ p.1 < q.1 ∧ p.2 = c) ∧
  (∀ p, t.getLast? = some p → 0 < p.2 ∧ p.2 ≤ c) ∧
  (t.map Prod.snd).sum = n

/-- Schedule of chunks of size `k` that starts at offset `o` and ends at `hs`
(an inductive reading of `ChunkSchedule`, used in the proofs). -/
def Sched (k hs : Nat) : Nat → List (Nat × Nat) → Prop
  | o, [] => o = hs
  | o, p :: rest =>
    p.1 = o ∧ 0 < p.2 ∧ p.2 ≤ k ∧ (rest ≠ [] → p.2 = k) ∧ Sched k hs (o + p.2) rest

/-! ## The container (the HDF5 calls the two programs make) -/

/-- Failure of a run: an exception of the container library that the source
does not catch locally (it ends the Packer run), a loop that does not end, or
an operation whose behaviour C++ leaves undefined (a read or write beyond the
end of an array or of a range). -/
inductive Err where
  | h5 (what : String)
  | diverges
  | undefined (what : String)
  deriving DecidableEq, Repr

/-- Value of an attribute, by the datatype it was created with. -/
inductive AttrVal where
  /-- Scalar of type `NATIVE_INT64`. -/
  | int64 (v : Int)
  /-- Scalar of type `NATIVE_UINT32`. -/
  | uint32 (v : Nat)
  /-- Scalar fixed length string, `StrType(C_S1, s.length)`. -/
  | str (s : String)
  /-- Any other attribute: element size, dimensions and raw value bytes. -/
  | raw (elemSize : Nat) (dims : List Nat) (bytes : List Byte)
  deriving DecidableEq, Repr

/-- The attributes of an object, in index order. -/
abbrev Attrs := List (String × AttrVal)

/-- What a link of the container leads to. -/
inductive Node where
  /-- A group and its attributes. -/
  | group (attrs : Attrs)
  /-- A dataset: element size, dimensions, raw bytes and attributes. -/
  | dataset (elemSize : Nat) (dims : List Nat) (data : List Byte) (attrs : Attrs)
  /-- A soft link and the path it records. -/
  | soft (target : String)
  deriving DecidableEq, Repr

/-- A place in the container: the names from the root group down. -/
abbrev Loc := List String

/-- The container file: the attributes of the root group and every link below
it, keyed by its absolute location, in index order.  A hard link is a second
key for a copy of the object. -/
structure H5File where
  rootAttrs : Attrs
  links : List (Loc × Node)
  deriving DecidableEq, Repr

/-- First value stored under a key of an association list. -/
def assoc {α β : Type} [DecidableEq α] (k : α) : List (α × β) → Option β
  | [] => none
  | (a, b) :: rest => if a = k then some b else assoc k rest

/-- Replace the first value stored under a key, when there is one. -/
def assocSet {α β : Type} [DecidableEq α] (k : α) (v : β) : List (α × β) → List (α × β)
  | [] => []
  | (a, b) :: rest => if a = k then (a, v) :: rest else (a, b) :: assocSet k v rest

/-- Pieces of a character list between slashes. -/
def splitSlash : List Char → List (List Char)
  | [] => [[]]
  | c :: cs =>
    if c = '/' then [] :: splitSlash cs
    else match splitSlash cs with
      | [] => [[c]]
      | w :: ws => (c :: w) :: ws

/-- The names a path string of the container consists of: the pieces between
slashes, without the empty ones and without `.`. -/
def parsePath (s : String) : Loc :=
  ((splitSlash s.data).filter (fun w => decide (w ≠ []) && decide (w ≠ ['.']))).map String.mk

/-- Location meant by a name given to a call on the object at `loc`: a name
that begins with a slash starts at the root group. -/
def resolve (loc : Loc) (name : String) : Loc :=
  if name.data.head? = some '/' then parsePath name else loc ++ parsePath name

/-- The string `getObjName()` returns for the group at a location. -/
def getObjName (loc : Loc) : String :=
  "/" ++ "/".intercalate loc

namespace H5File

/-- The object a location leads to; the empty location is the root group.
Soft links are not followed. -/
def find (f : H5File) (q : Loc) : Option Node :=
  if q = [] then some (Node.group f.rootAttrs) else assoc q f.links

/-- Whether a location leads to a group. -/
def isGroup (f : H5File) (q : Loc) : Bool :=
  match f.find q with
  | some (Node.group _) => true
  | _ => false

/-- The call `nameExists(name)` on the object at `loc` (`H5Lexists`): fails on an
empty name and when a group on the way to the last name is missing. -/
def nameExists (f : H5File) (loc : Loc) (name : String) : Except Err Bool :=
  if name = "" then throw (Err.h5 "nameExists")
  else
    let q := resolve loc name
    if q = [] then pure true
    else if f.isGroup q.dropLast then pure (f.find q).isSome
    else throw (Err.h5 "nameExists")

/-- The call `unlink(name)`: the link goes, and with it everything that was
reachable through it. -/
def unlink (f : H5File) (loc : Loc) (name : String) : Except Err H5File :=
  let q := resolve loc name
  if q = [] then throw (Err.h5 "unlink")
  else match f.find q with
    | none => throw (Err.h5 "unlink")
    | some _ => pure { f with links := f.links.filter (fun e => !(q.isPrefixOf e.1)) }

/-- A new link at a free location whose parent is a group. -/
def insert (f : H5File) (q : Loc) (n : Node) (what : String) : Except Err H5File :=
  if q = [] then throw (Err.h5 what)
  else if !f.isGroup q.dropLast then throw (Err.h5 what)
  else match f.find q with
    | some _ => throw (Err.h5 what)
    | none => pure { f with links := f.links ++ [(q, n)] }

/-- The call `createGroup(name)`. -/
def createGroup (f : H5File) (loc : Loc) (name : String) : Except Err H5File :=
  f.insert (resolve loc name) (Node.group []) "createGroup"

/-- The call `createDataSet(name, NATIVE_UINT8, dataspace)` for a dataspace of
one dimension `hs`: the elements hold the fill value 0. -/
def createDataSet (f : H5File) (loc : Loc) (name : String) (hs : Nat) : Except Err H5File :=
  f.insert (resolve loc name) (Node.dataset 1 [hs] (List.replicate hs 0) []) "createDataSet"

/-- The call `link(H5L_TYPE_SOFT, target, name)`. -/
def linkSoft (f : H5File) (loc : Loc) (target name : String) : Except Err H5File :=
  f.insert (resolve loc name) (Node.soft target) "link"

/-- The call `link(H5L_TYPE_HARD, source, name)`: the new name leads to the
object the source leads to (and, below a group, to all it contains). -/
def linkHard (f : H5File) (loc : Loc) (source name : String) : Except Err H5File :=
  let src := resolve loc source
  let dst := resolve loc name
  match f.find src with
  | none => throw (Err.h5 "link")
  | some n =>
    if src = [] then throw (Err.h5 "link")
    else do
      let g ← f.insert dst n "link"
      let below := f.links.filter (fun e => src.isPrefixOf e.1 && decide (e.1 ≠ src))
      let copies := below.map (fun e => (dst ++ e.1.drop src.length, e.2))
      pure { g with links := g.links ++ copies }

/-- The attributes of a node that can have some. -/
def attrsOf : Node → Option Attrs
  | Node.group a => some a
  | Node.dataset _ _ _ a => some a
  | Node.soft _ => none

/-- A node with its attributes replaced. -/
def withAttrs : Node → Attrs → Node
  | Node.group _, a => Node.group a
  | Node.dataset e d b _, a => Node.dataset e d b a
  | Node.soft t, _ => Node.soft t

/-- The call `createAttribute(name, ...).write(...)` on the object at `q`: the
attribute must be new. -/
def createAttribute (f : H5File) (q : Loc) (name : String) (v : AttrVal) : Except Err H5File :=
  match f.find q with
  | none => throw (Err.h5 "createAttribute")
  | some n =>
    match attrsOf n with
    | none => throw (Err.h5 "createAttribute")
    | some a =>
      if (assoc name a).isSome then throw (Err.h5 "createAttribute")
      else if q = [] then pure { f with rootAttrs := a ++ [(name, v)] }
      else pure { f with links := assocSet q (withAttrs n (a ++ [(name, v)])) f.links }

/-- The elements of the dataset at `q` after all the hyperslab writes of one
`storeFile` call. -/
def writeData (f : H5File) (q : Loc) (data : List Byte) : Except Err H5File :=
  match f.find q with
  | some (Node.dataset e d _ a) =>
    pure { f with links := assocSet q (Node.dataset e d data a) f.links }
  | _ => throw (Err.h5 "write")

/-- The call `openDataSet(name)`: the name must lead to a dataset. -/
def openDataSet (f : H5File) (loc : Loc) (name : String) :
    Except Err (Nat × List Nat × List Byte × Attrs) :=
  match f.find (resolve loc name) with
  | some (Node.dataset e d b a) => pure (e, d, b, a)
  | _ => throw (Err.h5 "openDataSet")

/-- The call `openGroup(name)`: the name must lead to a group. -/
def openGroup (f : H5File) (loc : Loc) (name : String) : Except Err Loc :=
  if f.isGroup (resolve loc name) then pure (resolve loc name)
  else throw (Err.h5 "openGroup")

end H5File

/-- The call `openAttribute(name)`: the attribute must exist. -/
def openAttribute (a : Attrs) (name : String) : Except Err AttrVal :=
  match assoc name a with
  | some v => pure v
  | none => throw (Err.h5 "openAttribute")

/-- The value `read(NATIVE_INT64, &x)` delivers: integer attributes convert,
others do not. -/
def readInt64 : AttrVal → Except Err Int
  | AttrVal.int64 v => pure v
  | AttrVal.uint32 v => pure (Int.ofNat v)
  | _ => throw (Err.h5 "read")

/-- The `std::string` built from a zeroed buffer of `size + 1` characters after
`read(StrType(C_S1, size), buffer)`: a string of the same size arrives as it
is, another one is cut to `size - 1` characters by the conversion, and the
`std::string` ends at the first NUL. -/
def readC_S1 (size : Nat) : AttrVal → Except Err String
  | AttrVal.str s =>
    let chars := if s.length = size then s.data else s.data.take (size - 1)
    pure (String.mk (chars.takeWhile (fun c => decide (c ≠ Char.ofNat 0))))
  | _ => throw (Err.h5 "read")

/-! ## The source tree, the options and the outside world -/

/-- The fields of `struct stat` the Packer reads. -/
structure Stat where
  st_mode : Nat
  st_nlink : Nat
  st_ino : Nat
  st_size : Nat
  st_mtime : Int
  st_ctime : Int
  deriving DecidableEq, Repr

/-- The macro `S_ISDIR`: the type bits of the mode are `0040000`. -/
def S_ISDIR (m : Nat) : Bool := (m / 4096) % 16 = 4

/-- The macro `S_ISREG`: the type bits of the mode are `0100000`. -/
def S_ISREG (m : Nat) : Bool := (m / 4096) % 16 = 8

/-- The macro `S_ISLNK`: the type bits of the mode are `0120000`. -/
def S_ISLNK (m : Nat) : Bool := (m / 4096) % 16 = 10

/-- What the Packer can observe of one path of the source file system, and of
the paths below it:

* `name`: the file name of the path, as the directory iterator reports it;
* `lstat`: the buffer after `lstat(path)`;
* `stat`: the buffer after `stat(path)`;
* `readlink`: the text `readlink(path)` delivers, `none` when it returns -1;
* `content`: the bytes a `std::ifstream` opened on the path delivers;
* `entries`: what `std::filesystem::directory_iterator(path)` enumerates. -/
inductive Source where
  | mk (name : String) (lstat : Stat) (stat : Stat) (readlink : Option String)
      (content : List Byte) (entries : List Source)

namespace Source

def name : Source → String
  | mk n _ _ _ _ _ => n

def lstat : Source → Stat
  | mk _ l _ _ _ _ => l

def stat : Source → Stat
  | mk _ _ s _ _ _ => s

def readlink : Source → Option String
  | mk _ _ _ r _ _ => r

def content : Source → List Byte
  | mk _ _ _ _ c _ => c

def entries : Source → List Source
  | mk _ _ _ _ _ e => e

end Source

/-- The parsed command line (class `Opts`): for a key that takes one value,
the first value given, if any. -/
structure Opts where
  acceptfileregex : List String
  rejectfileregex : List String
  acceptdirregex : List String
  rejectdirregex : List String
  updatepolicy : Option String
  storeexternalsymlinks : Option String
  /-- The value of `--chunk`, as `std::stoll` reads it. -/
  chunk : Option Int
  allowemptydirs : Option String
  newroots : Option String

/-- The call `opts.asInt("chunk", 10 * 1024 * 1024)` stored in a `size_t`. -/
def Opts.chunkSize (opts : Opts) : Nat :=
  ((opts.chunk.getD (10 * 1024 * 1024)) % (U64 : Int)).toNat

/-- The method `Opts::asBool(key, def)`: an empty value and a value that starts
with `t` or `T` mean true. -/
def asBool (value : Option String) (dflt : Bool) : Bool :=
  match value with
  | none => dflt
  | some s => s = "" || s.data.head?.map Char.toLower = some 't'

/-- Library calls whose result depends on more than the model holds. -/
structure Env where
  /-- The test `std::regex_match(str, std::regex(pattern, grep))`, for
  well-formed patterns. -/
  regexMatch : String → String → Bool
  /-- The names that make up `std::filesystem::weakly_canonical(path)`. -/
  weaklyCanonical : String → List String

/-! ## Helpers of the Packer -/

/-- The function `matchesRegex` on a list of patterns (toHDF5.cpp lines 168-179). -/
def matchesRegex (env : Env) (str : String) (regexes : List String) (onEmpty : Bool) : Bool :=
  if regexes.length = 0 then onEmpty
  else regexes.any (fun regex => env.regexMatch str regex)

/-- Index of the last slash of a character list (`find_last_of('/')`). -/
def lastSlash : List Char → Option Nat
  | [] => none
  | c :: cs =>
    match lastSlash cs with
    | some i => some (i + 1)
    | none => if c = '/' then some 0 else none

/-- The function `getLastPathChunk` (toHDF5.cpp lines 184-207). -/
def getLastPathChunk (path : String) : String :=
  match lastSlash path.data with
  | none => path
  | some lastSl =>
    if lastSl ≠ path.data.length - 1 then String.mk (path.data.drop (lastSl + 1))
    else
      -- `find_last_of('/', lastSlash - 1)`: the position wraps to `npos` at 0
      let penultimate :=
        if lastSl = 0 then lastSlash path.data else lastSlash (path.data.take lastSl)
      match penultimate with
      | none => ""
      | some pen => String.mk ((path.data.drop (pen + 1)).take (lastSl - pen - 1))

/-- The test `std::mismatch(first1, last1, first2).first == last1` on the
names of two paths.  The call is given no end for the second range: it steps
through both ranges while the names are equal and the first range has not
ended.  When the second range ends before that, its iterator is read past the
end, and the behaviour is undefined. -/
def mismatchAtEnd : List String → List String → Except Err Bool
  | [], _ => pure true
  | _ :: _, [] => throw (Err.undefined "std::mismatch")
  | a :: parent, b :: child => if a = b then mismatchAtEnd parent child else pure false

/-- The function `is_subpath` (lines 212-220): whether the names of the
canonical parent are the first names of the canonical child, and undefined
when the canonical child is a proper ancestor of the canonical parent. -/
def is_subpath (env : Env) (parent child : String) : Except Err Bool :=
  mismatchAtEnd (env.weaklyCanonical parent) (env.weaklyCanonical child)

/-- The method `lexically_relative` on the names of two canonical absolute
paths: one `..` for every name left of the base, then what is left of the
path. -/
def lexicallyRelative : List String → List String → List String
  | a :: p, b :: base =>
    if a = b then lexicallyRelative p base
    else List.replicate (base.length + 1) ".." ++ (a :: p)
  | p, [] => p
  | [], base => List.replicate base.length ".."

/-- The string of `std::filesystem::relative(p, base)`. -/
def relative (env : Env) (p base : String) : String :=
  let r := lexicallyRelative (env.weaklyCanonical p) (env.weaklyCanonical base)
  if r = [] then "." else "/".intercalate r

/-- The path `base / p` of `std::filesystem`, for a relative `p`. -/
def pathAppend (base p : String) : String :=
  if base = "" then p
  else if base.data.getLast? = some '/' then base ++ p
  else base ++ "/" ++ p

/-- The type `StoreType`. -/
inductive StoreType where
  | DONT_STORE
  | AS_INTERNAL
  | AS_HARD_LINK
  | AS_SOFT_LINK
  | AS_EXTERNAL_LINK
  deriving DecidableEq, Repr

/-- The type `StoreResult`. -/
structure StoreResult where
  storeType : StoreType := StoreType.DONT_STORE
  datasetPath : String := ""
  deriving DecidableEq, Repr

/-- A call of one of the four storing functions, with its arguments. -/
inductive Call where
  | storeFile (group : Loc) (filePath datasetName : String)
  | hardLink (sourceDataset destDataset : String)
  | softLink (sourceDataset destDataset : String)
  | externalLink (sourceFilename destGroup : String)
  deriving DecidableEq, Repr

/-- The state of a Packer process: the container, the globals `inoMap` and
`deferredLinks`, the static `singleFileMap` of `shouldStore`, and a record of
the storing calls made so far. -/
structure Packer where
  file : H5File
  inoMap : List (Nat × String) := []
  singleFileMap : List (String × String) := []
  deferredLinks : List (String × String) := []
  calls : List Call := []
  deriving DecidableEq, Repr

/-! ## The policy engine: `shouldStore` -/

/-- The update policy part of `shouldStore` (toHDF5.cpp lines 375-470), reached
when the destination name exists or, for a symbolic link, never by the two
earlier blocks.  `hs` is `result.st_size`, `mtime` is `result.st_mtime`. -/
def updatePolicyDecision (H : Hasher) (opts : Opts) (file : H5File) (group : Loc)
    (datasetName : String) (result : Stat) (content : List Byte) (isDir : Bool) :
    Except Err StoreType :=
  let updatePolicy := opts.updatepolicy.getD "never"
  if updatePolicy = "never" then pure StoreType.DONT_STORE
  else if updatePolicy = "always" then pure StoreType.AS_INTERNAL
  else if updatePolicy = "filesize" then do
    let hs := result.st_size % U64
    let dataset ← file.openDataSet group datasetName
    if dataset.2.1.prod % U64 = hs then pure StoreType.DONT_STORE
    else pure StoreType.AS_INTERNAL
  else if updatePolicy = "filetime" then do
    let hs := result.st_mtime % (U64 : Int)
    let dataset ← file.openDataSet group datasetName
    let attr ← openAttribute dataset.2.2.2 "Modified"
    let fileTime ← readInt64 attr
    if fileTime % (U64 : Int) = hs then pure StoreType.DONT_STORE
    else pure StoreType.AS_INTERNAL
  else if !isDir && updatePolicy = "hash" then do
    let chunkSize := opts.chunkSize
    let hs := result.st_size % U64
    let dataset ← file.openDataSet group datasetName
    let attr ← openAttribute dataset.2.2.2 "MD5Hash"
    let hashStr ← readC_S1 (PICOHASH_MD5_DIGEST_LENGTH * 2) attr
    match hashLoop H (hs + 1) chunkSize hs content with
    | none => throw Err.diverges
    | some (s, _) =>
      let digestStr := digestString (H.final s.ctx)
      if digestStr = hashStr then pure StoreType.DONT_STORE
      else pure StoreType.AS_INTERNAL
  else pure StoreType.DONT_STORE

/-- The branch of `shouldStore` for a symbolic link that `is_subpath` does not
find below the base path (lines 346-370): the option `storeexternalsymlinks`
decides. -/
def externalDecision (opts : Opts) (st : Packer) (datasetPath : String)
    (link : String) : StoreResult × Packer :=
  let storeExternalSymlinks := opts.storeexternalsymlinks.getD "ignore"
  if storeExternalSymlinks = "ignore" then ({ storeType := StoreType.DONT_STORE }, st)
  else if storeExternalSymlinks = "file" then ({ storeType := StoreType.AS_INTERNAL }, st)
  else if storeExternalSymlinks = "singlefile" then
    match assoc link st.singleFileMap with
    | none =>
      ({ storeType := StoreType.AS_INTERNAL },
        { st with singleFileMap := st.singleFileMap ++ [(link, datasetPath)] })
    | some first => ({ storeType := StoreType.AS_SOFT_LINK, datasetPath := first }, st)
  else if storeExternalSymlinks = "link" then
    ({ storeType := StoreType.AS_EXTERNAL_LINK, datasetPath := link }, st)
  else ({ storeType := StoreType.DONT_STORE }, st)

/-- The symbolic link part of `shouldStore` (lines 327-373), for a link text
that `readlink` delivered. -/
def symlinkDecision (env : Env) (opts : Opts) (st : Packer) (basePath datasetPath : String)
    (link : String) : Except Err (StoreResult × Packer) := do
  let linkPath := if link.data.head? = some '/' then link else pathAppend basePath link
  let below ← is_subpath env basePath linkPath
  if below then
    pure ({ storeType := StoreType.AS_SOFT_LINK, datasetPath := linkPath }, st)
  else pure (externalDecision opts st datasetPath link)

/-- The regular expression test at the head of `shouldStore` (lines 289-297):
true when the entry is rejected. -/
def filteredOut (env : Env) (opts : Opts) (datasetName : String) (isDir : Bool) : Bool :=
  (!isDir && (!matchesRegex env datasetName opts.acceptfileregex true
      || matchesRegex env datasetName opts.rejectfileregex false))
  || (isDir && (!matchesRegex env datasetName opts.acceptdirregex true
      || matchesRegex env datasetName opts.rejectdirregex false))

/-- The part of `shouldStore` after the regular expression test (lines 299-470),
for the value `existing` of `group.nameExists(datasetName)`. -/
def storeDecision (env : Env) (H : Hasher) (opts : Opts) (st : Packer) (group : Loc)
    (basePath filepath datasetName : String) (src : Source) (isDir existing : Bool) :
    Except Err (StoreResult × Packer) :=
  let datasetPath := getObjName group ++ "/" ++ datasetName
  let result := src.lstat
  if !S_ISLNK result.st_mode && !existing then
    if result.st_nlink = 1 then pure ({ storeType := StoreType.AS_INTERNAL }, st)
    else
      match assoc result.st_ino st.inoMap with
      | none =>
        pure ({ storeType := StoreType.AS_INTERNAL },
          { st with inoMap := st.inoMap ++ [(result.st_ino, filepath)] })
      | some first =>
        pure ({ storeType := StoreType.AS_HARD_LINK, datasetPath := first }, st)
  else if S_ISLNK result.st_mode && !existing then
    match src.readlink with
    | some link => symlinkDecision env opts st basePath datasetPath link
    | none => pure ({ storeType := StoreType.DONT_STORE }, st)
  else do
    let t ← updatePolicyDecision H opts st.file group datasetName result src.content isDir
    pure ({ storeType := t }, st)

/-- The function `shouldStore` (toHDF5.cpp lines 281-471).  The source path
`filepath` is seen through `src`. -/
def shouldStore (env : Env) (H : Hasher) (opts : Opts) (st : Packer) (group : Loc)
    (basePath filepath datasetName : String) (src : Source) (isDir : Bool) :
    Except Err (StoreResult × Packer) := do
  let existing ← st.file.nameExists group datasetName
  if filteredOut env opts datasetName isDir then
    pure ({ storeType := StoreType.DONT_STORE }, st)
  else storeDecision env H opts st group basePath filepath datasetName src isDir existing

/-! ## The storing functions -/

/-- The body of `storeFile` after the old link is gone (toHDF5.cpp lines
571-647): the dataset is created, filled chunk by chunk and given its
attributes.  A loop that does not end within `hs + 1` rounds is reported as
divergence. -/
def createAndFill (H : Hasher) (opts : Opts) (file : H5File) (group : Loc)
    (datasetName : String) (src : Source) : Except Err H5File := do
  let chunkSize := opts.chunkSize
  let result := src.stat
  let hs := result.st_size % U64
  let chunk_size := min chunkSize hs
  let q := resolve group datasetName
  if chunk_size = 0 then do
    let MD5Hash := "d41d8cd98f00b204e9800998ecf8427e"
    let file ← file.createDataSet group datasetName hs
    let file ← file.createAttribute q "Created" (AttrVal.int64 result.st_ctime)
    let file ← file.createAttribute q "Modified" (AttrVal.int64 result.st_mtime)
    let file ← file.createAttribute q "MD5Hash" (AttrVal.str MD5Hash)
    file.createAttribute q "Permissions" (AttrVal.uint32 (result.st_mode % 4294967296))
  else do
    let file ← file.createDataSet group datasetName hs
    match storeLoop H (hs + 1) chunkSize hs src.content with
    | none => throw Err.diverges
    | some (s, _) =>
      let file ← file.writeData q s.data
      let digestStr := digestString (H.final s.ctx)
      let file ← file.createAttribute q "MD5Hash" (AttrVal.str digestStr)
      let file ← file.createAttribute q "Created" (AttrVal.int64 result.st_ctime)
      let file ← file.createAttribute q "Modified" (AttrVal.int64 result.st_mtime)
      file.createAttribute q "Permissions" (AttrVal.uint32 (result.st_mode % 4294967296))

/-- The function `storeFile` (toHDF5.cpp lines 567-648). -/
def storeFile (H : Hasher) (opts : Opts) (st : Packer) (group : Loc)
    (filePath datasetName : String) (src : Source) : Except Err Packer := do
  let st := { st with calls := st.calls ++ [Call.storeFile group filePath datasetName] }
  let exists_ ← st.file.nameExists group datasetName
  let file ← if exists_ then st.file.unlink group datasetName else pure st.file
  let file ← createAndFill H opts file group datasetName src
  pure { st with file := file }

/-- The function `hardLink` (lines 653-664). -/
def hardLink (st : Packer) (group : Loc) (sourceDataset destDataset : String) :
    Except Err Packer := do
  let st := { st with calls := st.calls ++ [Call.hardLink sourceDataset destDataset] }
  let exists_ ← st.file.nameExists group destDataset
  let file ← if exists_ then st.file.unlink group destDataset else pure st.file
  let sourceExists ← file.nameExists group sourceDataset
  if !sourceExists then
    pure { st with file := file
                   deferredLinks := st.deferredLinks ++ [(sourceDataset, destDataset)] }
  else do
    let file ← file.linkHard group sourceDataset destDataset
    pure { st with file := file }

/-- The function `softLink` (lines 669-674). -/
def softLink (st : Packer) (group : Loc) (sourceDataset destDataset : String) :
    Except Err Packer := do
  let st := { st with calls := st.calls ++ [Call.softLink sourceDataset destDataset] }
  let exists_ ← st.file.nameExists group destDataset
  let file ← if exists_ then st.file.unlink group destDataset else pure st.file
  let file ← file.linkSoft group sourceDataset destDataset
  pure { st with file := file }

/-- The function `externalLink` (lines 680-690). -/
def externalLink (st : Packer) (group : Loc) (sourceFilename destGroup : String) :
    Except Err Packer := do
  let st := { st with calls := st.calls ++ [Call.externalLink sourceFilename destGroup] }
  let exists_ ← st.file.nameExists group destGroup
  let file ← if exists_ then st.file.unlink group destGroup else pure st.file
  let file ← file.createGroup group destGroup
  let file ← file.createAttribute (resolve group destGroup) "ExternalLink"
    (AttrVal.str sourceFilename)
  pure { st with file := file }

/-- One round of the loop of `linkDeferredFiles`. -/
def linkDeferred (group : Loc) (file : H5File) (link : String × String) : Except Err H5File := do
  let sourceExists ← file.nameExists group link.1
  if sourceExists then file.linkHard group link.1 link.2 else pure file

/-- The function `linkDeferredFiles` (lines 696-710). -/
def linkDeferredFiles (st : Packer) (group : Loc) : Except Err Packer := do
  let file ← st.deferredLinks.foldlM (linkDeferred group) st.file
  pure { st with file := file, deferredLinks := [] }

/-! ## The walker -/

/-- The archive path `"/" + getLastPathChunk(basePath) + "/" +
std::filesystem::relative(datasetPath, basePath).string()` that `handleFile`
(lines 747, 753) and `handleDirectory` (line 784) give to a link. -/
def linkPathOf (env : Env) (basePath datasetPath : String) : String :=
  "/" ++ getLastPathChunk basePath ++ "/" ++ relative env datasetPath basePath

/-- The function `handleFile` (lines 715-764). -/
def handleFile (env : Env) (H : Hasher) (opts : Opts) (st : Packer) (group : Loc)
    (basePath filePath : String) (src : Source) : Except Err (Nat × Packer) := do
  let newName := getLastPathChunk filePath
  let _ ← st.file.nameExists group newName
  let (store, st) ← shouldStore env H opts st group basePath filePath newName src false
  match store.storeType with
  | StoreType.DONT_STORE => pure (0, st)
  | StoreType.AS_INTERNAL => do
    let st ← storeFile H opts st group filePath newName src
    pure (1, st)
  | StoreType.AS_HARD_LINK => do
    let linkPath := linkPathOf env basePath store.datasetPath
    let fullname := getObjName group ++ "/" ++ newName
    let st ← hardLink st group linkPath fullname
    pure (1, st)
  | StoreType.AS_SOFT_LINK => do
    let linkPath := linkPathOf env basePath store.datasetPath
    let fullname := getObjName group ++ "/" ++ newName
    let st ← softLink st group linkPath fullname
    pure (1, st)
  | StoreType.AS_EXTERNAL_LINK => do
    let linkPath := store.datasetPath
    let fullname := getObjName group ++ "/" ++ newName
    let st ← externalLink st group linkPath fullname
    pure (1, st)

/-- The path of a directory entry: the directory path, a slash unless the
directory path ends in one, and the file name. -/
def entryPath (dirPath name : String) : String := pathAppend dirPath name

/-- The function `handleDirectory` (lines 767-825).  `walk` is the loop over
the entries of the directory (lines 813-816), given the group to fill. -/
def handleDirectory (env : Env) (H : Hasher) (opts : Opts) (st : Packer) (parentGroup : Loc)
    (basePath dirPath : String) (src : Source)
    (walk : Loc → Packer → Except Err (Nat × Packer)) : Except Err (Nat × Packer) := do
  let newName := getLastPathChunk dirPath
  let existingGroup ← st.file.nameExists parentGroup newName
  let (storeType, st) ← shouldStore env H opts st parentGroup basePath dirPath newName src true
  if storeType.storeType = StoreType.DONT_STORE then pure (0, st)
  else if storeType.storeType = StoreType.AS_SOFT_LINK then do
    let linkPath := linkPathOf env basePath storeType.datasetPath
    let fullname := getObjName parentGroup ++ "/" ++ newName
    let st ← softLink st parentGroup linkPath fullname
    pure (1, st)
  else do
    let opened ←
      if existingGroup then do
        let group ← st.file.openGroup parentGroup newName
        pure (group, st)
      else do
        let result := src.stat
        let group := resolve parentGroup newName
        let file ← st.file.createGroup parentGroup newName
        let file ← file.createAttribute group "Created" (AttrVal.int64 result.st_ctime)
        let file ← file.createAttribute group "Modified" (AttrVal.int64 result.st_mtime)
        let file ← file.createAttribute group "Permissions"
          (AttrVal.uint32 (result.st_mode % 4294967296))
        pure (group, { st with file := file })
    let (itemCount, st) ← walk opened.1 opened.2
    if itemCount = 0 && !existingGroup && !asBool opts.allowemptydirs false then do
      let file ← st.file.unlink parentGroup newName
      pure (itemCount, { st with file := file })
    else pure (itemCount, st)

mutual
/-- The function `coalescetoHDF5` (lines 827-847): the dispatch on the mode that
`stat(path)` reports. -/
def coalescetoHDF5 (env : Env) (H : Hasher) (opts : Opts) (basePath : String) :
    Source → String → Loc → Packer → Except Err (Nat × Packer)
  | Source.mk n l s r c es, path, parentGroup, st =>
    if S_ISDIR s.st_mode then
      handleDirectory env H opts st parentGroup basePath path (Source.mk n l s r c es)
        (fun group st => walkEntries env H opts basePath es path group st)
    else if S_ISREG s.st_mode then
      handleFile env H opts st parentGroup basePath path (Source.mk n l s r c es)
    else if S_ISLNK s.st_mode then
      handleFile env H opts st parentGroup basePath path (Source.mk n l s r c es)
    else pure (0, st)
/-- The loop of `handleDirectory` over the entries of the directory
(lines 813-816). -/
def walkEntries (env : Env) (H : Hasher) (opts : Opts) (basePath : String) :
    List Source → String → Loc → Packer → Except Err (Nat × Packer)
  | [], _, _, st => pure (0, st)
  | entry :: rest, dirPath, group, st => do
    let first ← coalescetoHDF5 env H opts basePath entry (entryPath dirPath entry.name) group st
    let others ← walkEntries env H opts basePath rest dirPath group first.2
    pure (first.1 + others.1, others.2)
end

/-- The loop of `main` over the input directories (lines 1034-1038), on the
open container: each root is walked from the root group with itself as base
path, then the deferred links are made. -/
def packRoots (env : Env) (H : Hasher) (opts : Opts) :
    List (String × Source) → Packer → Except Err (Nat × Packer)
  | [], st => pure (0, st)
  | (path, src) :: rest, st => do
    let walked ← coalescetoHDF5 env H opts path src path [] st
    let st ← linkDeferredFiles walked.2 []
    if rest.isEmpty then pure (walked.1, st)
    else packRoots env H opts rest st

/-! ## The adapter: what is mounted -/

/-- The type `H5O_type_t`, as far as `childObjType` returns it. -/
inductive ObjType where
  | GROUP
  | DATASET
  deriving DecidableEq, Repr

/-- An entry of the open-file table (`struct h5vfsFile`): the place of the open
dataset, `dim[0]`, the flag `isOpen`, the reference count and the cached
buffer (`none` for `nullptr`). -/
structure h5vfsFile where
  dataset : Loc := []
  dim : Nat := 0
  isOpen : Bool := false
  refcount : Nat := 0
  buffer : Option (List Byte) := none
  deriving DecidableEq, Repr

/-- The globals of the adapter that do not change after `main` has set them,
and what it sees of the host:

* `mainfile`: the opened container;
* `image`: the bytes of the file `mountedFile` on disk;
* `getOffset`: the address `dataset.getOffset()` returns for the dataset at a
  place, `none` when the call throws;
* `mountPoint`, `lastModified`, `showAttributesAsFiles`: the globals of that name;
* `uid`, `gid`: what `getuid()` and `getgid()` return;
* `hostSize`: the `st_size` that `stat` on a host path leaves in a zeroed buffer;
* `nlinks`: the number of steps after which the library gives up a path;
* `uninit`: the value found in an `hsize_t` that nothing has written. -/
structure Mount where
  mainfile : H5File
  image : List Byte
  getOffset : Loc → Option Nat
  mountPoint : String
  lastModified : Int
  showAttributesAsFiles : Bool
  uid : Nat
  gid : Nat
  hostSize : String → Nat
  nlinks : Nat
  uninit : Nat

/-- The open-file table `openFiles`, a map from paths to entries. -/
abbrev OpenFiles := List (String × h5vfsFile)

/-- The fields of `struct stat` that `h5vfs_getattr` fills. -/
structure StatBuf where
  st_mode : Nat := 0
  st_nlink : Nat := 0
  st_size : Nat := 0
  st_uid : Nat := 0
  st_gid : Nat := 0
  st_ctime : Int := 0
  st_mtime : Int := 0
  deriving DecidableEq, Repr

/-- The error number `ENOENT`. -/
abbrev ENOENT : Int := 2

/-- The error number `ENAMETOOLONG`. -/
abbrev ENAMETOOLONG : Int := 36

/-- The mode bits `S_IFDIR`, `S_IFREG` and `S_IFLNK`. -/
abbrev S_IFDIR : Nat := 0o040000

abbrev S_IFREG : Nat := 0o100000

abbrev S_IFLNK : Nat := 0o120000

/-- A `size_t` returned through the `int` result of a FUSE operation. -/
def toInt32 (n : Nat) : Int :=
  if n % 4294967296 < 2147483648 then Int.ofNat (n % 4294967296)
  else Int.ofNat (n % 4294967296) - 4294967296

/-- Path traversal by the library, from the place `cur` along the names given:
a soft link on the way is replaced by its target; the last name is followed
only when `followLast` is set.  `none` when a name is missing or the steps are
used up. -/
def H5File.walk (f : H5File) : Nat → Loc → List String → Bool → Option Loc
  | 0, _, _, _ => none
  | _ + 1, cur, [], _ => some cur
  | fuel + 1, cur, c :: rest, followLast =>
    match f.find (cur ++ [c]) with
    | none => none
    | some (Node.soft target) =>
      if rest.isEmpty && !followLast then some (cur ++ [c])
      else
        f.walk fuel (if target.data.head? = some '/' then [] else cur)
          (parsePath target ++ rest) followLast
    | some _ => f.walk fuel (cur ++ [c]) rest followLast

namespace Mount

/-- The place a path string leads to from the root group. -/
def lookup (m : Mount) (path : String) (followLast : Bool) : Option Loc :=
  m.mainfile.walk m.nlinks [] (parsePath path) followLast

/-- The object a path string leads to, soft links followed. -/
def object (m : Mount) (path : String) : Option Node :=
  match m.lookup path true with
  | some q => m.mainfile.find q
  | none => none

/-- The call `mainfile.nameExists(path)` (`H5Lexists`): fails on an empty path
and when the way to the last name does not lead to a group. -/
def nameExists (m : Mount) (path : String) : Except Err Bool :=
  if path = "" then throw (Err.h5 "nameExists")
  else
    let names := parsePath path
    match names.getLast? with
    | none => pure true
    | some last =>
      match m.mainfile.walk m.nlinks [] names.dropLast true with
      | none => throw (Err.h5 "nameExists")
      | some parent =>
        if m.mainfile.isGroup parent then pure (m.mainfile.find (parent ++ [last])).isSome
        else throw (Err.h5 "nameExists")

/-- The target of the soft link a path names, for `H5Lget_info` with type
`H5L_TYPE_SOFT` and `H5Lget_val`; `none` for anything else. -/
def softTarget (m : Mount) (path : String) : Option String :=
  match m.lookup path false with
  | some q =>
    match m.mainfile.find q with
    | some (Node.soft target) => if q = [] then none else some target
    | _ => none
  | none => none

/-- The call `mainfile.childObjType(path)`: throws unless the path leads to a
group or a dataset. -/
def childObjType (m : Mount) (path : String) : Except Err ObjType :=
  match m.object path with
  | some (Node.group _) => pure ObjType.GROUP
  | some (Node.dataset _ _ _ _) => pure ObjType.DATASET
  | _ => throw (Err.h5 "childObjType")

end Mount

/-- The function `getDatasetSize` (h5vfs.cpp lines 29-44), in `size_t`. -/
def getDatasetSize (elemSize : Nat) (dims : List Nat) : Nat :=
  (dims.foldl (fun dim d => (dim * d) % U64) 1 * elemSize) % U64

/-- The size in bytes of the datatype of an attribute (`getDataType().getSize()`). -/
def AttrVal.typeSize : AttrVal → Nat
  | AttrVal.int64 _ => 8
  | AttrVal.uint32 _ => 4
  | AttrVal.str s => s.length
  | AttrVal.raw e _ _ => e

/-- The dimensions of the dataspace of an attribute; none for a scalar. -/
def AttrVal.dims : AttrVal → List Nat
  | AttrVal.raw _ d _ => d
  | _ => []

/-- The bytes `attr.read(type, buffer)` delivers for the attribute's own type. -/
def AttrVal.bytes : AttrVal → List Byte
  | AttrVal.int64 v => leBytes 8 (v % (U64 : Int)).toNat
  | AttrVal.uint32 v => leBytes 4 v
  | AttrVal.str s => s.data.map (fun c => Fin.ofNat c.toNat)
  | AttrVal.raw _ _ b => b

/-- The separator `ATTR_FLAG`. -/
def ATTR_FLAG : String := ".attr."

/-- The method `std::string::find`: index of the first occurrence of a pattern. -/
def findSub (pat : List Char) : List Char → Option Nat
  | [] => if pat = [] then some 0 else none
  | c :: cs =>
    if pat.isPrefixOf (c :: cs) then some 0
    else (findSub pat cs).map (fun i => i + 1)

/-- The path without one trailing slash, as `getLastPart` and `getPrefix` cut it. -/
def stripSlash (path : List Char) : List Char :=
  if path.getLast? = some '/' then path.dropLast else path

/-- The function `getLastPart` (h5vfs.cpp lines 46-54). -/
def getLastPart (path : String) : String :=
  if path = "/" then path
  else
    let p := stripSlash path.data
    match lastSlash p with
    | none => String.mk p
    | some pos => String.mk (p.drop (pos + 1))

/-- The function `getPrefix` (h5vfs.cpp lines 56-65). -/
def getPrefix (path : String) : String :=
  if path = "/" then path
  else
    let p := stripSlash path.data
    match lastSlash p with
    | none => String.mk p
    | some pos => if pos = 0 then "/" else String.mk (p.take pos)

/-- The function `isNameAttribute` (h5vfs.cpp lines 67-97): the attribute the
name stands for, `none` where the source returns false. -/
def isNameAttribute (m : Mount) (name : String) : Except Err (Option AttrVal) :=
  match findSub ATTR_FLAG.data name.data with
  | none => pure none
  | some _ =>
    let pfx := getPrefix name
    let lastPart := getLastPart name
    match findSub ATTR_FLAG.data lastPart.data with
    | none => pure none
    | some attrflagpos => do
      let pfxExists ← m.nameExists pfx
      if !pfxExists then pure none
      else
        match m.object pfx with
        | some (Node.group _) =>
          -- `substr(1, attrflagpos - 1)`: the count wraps to `npos` at 0
          let dataset := String.mk
            (if attrflagpos = 0 then lastPart.data.drop 1
             else (lastPart.data.drop 1).take (attrflagpos - 1))
          let attrName := String.mk (lastPart.data.drop (attrflagpos + ATTR_FLAG.length))
          if dataset = "" || attrName = "" then pure none
          else do
            let child := pathAppend pfx dataset
            let childExists ← m.nameExists child
            if !childExists then pure none
            else do
              let _ ← m.childObjType child
              match m.object child with
              | some (Node.group attrs) => pure (assoc attrName attrs)
              | some (Node.dataset _ _ _ attrs) => pure (assoc attrName attrs)
              | _ => pure none
        | _ => throw (Err.h5 "openGroup")

/-- The attribute of an object read as `NATIVE_INT64`, when the object has it. -/
def attrInt64 (attrs : Attrs) (name : String) : Except Err (Option Int) :=
  match assoc name attrs with
  | none => pure none
  | some v => do
    let x ← readInt64 v
    pure (some x)

/-- The stat buffer after the times and the mode of an object have been taken
from its attributes `Modified`, `Created` and `Permissions`
(h5vfs.cpp lines 245-264 and 276-295); `kind` is `S_IFDIR` or `S_IFREG`. -/
def overrideFromAttrs (stbuf : StatBuf) (attrs : Attrs) (kind : Nat) : Except Err StatBuf := do
  let modified ← attrInt64 attrs "Modified"
  let created ← attrInt64 attrs "Created"
  let permissions ← attrInt64 attrs "Permissions"
  let stbuf := match modified with
    | some t => { stbuf with st_mtime := t }
    | none => stbuf
  let stbuf := match created with
    | some t => { stbuf with st_ctime := t }
    | none => stbuf
  pure (match permissions with
    | some p => { stbuf with st_mode := (kind ||| (p % (U64 : Int)).toNat) % 4294967296 }
    | none => stbuf)

/-- The function `h5vfs_getattr` (h5vfs.cpp lines 141-299): the result and the
stat buffer. -/
def h5vfs_getattr (m : Mount) (path : String) : Except Err (Int × StatBuf) :=
  let stbuf : StatBuf :=
    { st_uid := m.uid, st_gid := m.gid, st_ctime := m.lastModified, st_mtime := m.lastModified }
  if path = "." || path = ".." then
    pure (0, { stbuf with st_mode := S_IFDIR ||| 0o755, st_nlink := 2 })
  else do
    let pathExists ← m.nameExists path
    if !pathExists then do
      let attr ← isNameAttribute m path
      match attr with
      | none => pure (-ENOENT, stbuf)
      | some a =>
        let size := a.typeSize
        let size :=
          if a.dims.length ≠ 0 then a.dims.foldl (fun size d => (size * d) % U64) size else size
        pure (0, { stbuf with st_size := size, st_mode := S_IFREG ||| 0o444, st_nlink := 1 })
    else
      match m.softTarget path with
      | some link =>
        let stbuf := { stbuf with st_mode := S_IFLNK ||| 0o777, st_nlink := 1 }
        do
          let c ← m.childObjType link
          match c, m.object link with
          | ObjType.DATASET, some (Node.dataset e d _ _) =>
            pure (0, { stbuf with st_size := getDatasetSize e d })
          | _, _ => pure (0, stbuf)
      | none => do
        let c ← m.childObjType path
        match c, m.object path with
        | ObjType.GROUP, some (Node.group attrs) =>
          match assoc "ExternalLink" attrs with
          | some (AttrVal.str link) =>
            pure (0, { stbuf with st_mode := S_IFLNK ||| 0o777, st_nlink := 1,
                                  st_size := m.hostSize link })
          | some _ => throw (Err.h5 "read")
          | none => do
            let stbuf := { stbuf with st_mode := S_IFDIR ||| 0o755, st_nlink := 2 }
            let stbuf ← overrideFromAttrs stbuf attrs S_IFDIR
            pure (0, stbuf)
        | ObjType.DATASET, some (Node.dataset e d _ attrs) => do
          let stbuf := { stbuf with st_mode := S_IFREG ||| 0o444, st_nlink := 1,
                                    st_size := getDatasetSize e d }
          let stbuf ← overrideFromAttrs stbuf attrs S_IFREG
          pure (0, stbuf)
        | _, _ => pure (-ENOENT, stbuf)

/-- The method `h5vfsFile::open` (h5vfs.cpp lines 106-116). -/
def h5vfsFile.open (m : Mount) (file : h5vfsFile) (path : String) : Except Err h5vfsFile :=
  let file := { file with refcount := (file.refcount + 1) % U64 }
  if file.isOpen then pure file
  else
    match m.lookup path true with
    | some q =>
      match m.mainfile.find q with
      | some (Node.dataset e d _ _) =>
        pure { file with dataset := q, dim := getDatasetSize e d, isOpen := true }
      | _ => throw (Err.h5 "openDataSet")
    | none => throw (Err.h5 "openDataSet")

/-- The method `h5vfsFile::close` (h5vfs.cpp lines 117-128). -/
def h5vfsFile.close (file : h5vfsFile) : h5vfsFile :=
  let file := { file with refcount := (file.refcount + U64 - 1) % U64 }
  if file.refcount = 0 then { file with isOpen := false, buffer := none } else file

/-- The function `h5vfs_open` (h5vfs.cpp lines 388-401). -/
def h5vfs_open (m : Mount) (openFiles : OpenFiles) (path : String) :
    Except Err (Int × OpenFiles) := do
  let pathExists ← m.nameExists path
  if !pathExists then do
    let attr ← isNameAttribute m path
    match attr with
    | none => pure (-ENOENT, openFiles)
    | some _ => pure (0, openFiles)
  else
    match assoc path openFiles with
    | some file => do
      let file ← file.open m path
      pure (0, assocSet path file openFiles)
    | none => do
      let file ← ({} : h5vfsFile).open m path
      pure (0, openFiles ++ [(path, file)])

/-- The call `memcpy(buf, source + offset, size)`: the bytes copied, `none` when
the call reads beyond the end of the source. -/
def memcpyFrom (source : List Byte) (offset size : Nat) : Option (List Byte) :=
  if offset + size ≤ source.length then some ((source.drop offset).take size) else none

/-- Outcome of `h5vfs_read`: the value returned, the bytes put at the start of
the caller's buffer (`none` when the copy is undefined), and the table. -/
structure ReadOutcome where
  ret : Int
  buf : Option (List Byte)
  openFiles : OpenFiles

/-- The dataset part of `h5vfs_read` (h5vfs.cpp lines 432-482), for the table
entry `file` of the path.  `offset` is a file offset, `size` a `size_t`. -/
def readDataset (m : Mount) (openFiles : OpenFiles) (path : String) (file : h5vfsFile)
    (size offset : Nat) : ReadOutcome :=
  if offset % U64 ≥ file.dim then { ret := 0, buf := some [], openFiles := openFiles }
  else
    let size := if (offset + size) % U64 > file.dim then file.dim - offset else size
    match file.buffer with
    | some buffer => { ret := toInt32 size, buf := memcpyFrom buffer offset size,
                       openFiles := openFiles }
    | none =>
      match m.getOffset file.dataset with
      | some fileOffset =>
        -- `filestream.seekg(fileOffset + offset); filestream.read(buf, size)`
        { ret := toInt32 size
          buf := some ((m.image.drop ((fileOffset + offset) % U64)).take size)
          openFiles := openFiles }
      | none =>
        -- the fallback: the whole dataset is read into `file.buffer`
        let buffer :=
          match m.mainfile.find file.dataset with
          | some (Node.dataset _ _ data _) => data
          | _ => []
        { ret := toInt32 size
          buf := memcpyFrom buffer offset size
          openFiles := assocSet path { file with buffer := some buffer } openFiles }

/-- The function `h5vfs_read` (h5vfs.cpp lines 404-483). -/
def h5vfs_read (m : Mount) (openFiles : OpenFiles) (path : String) (size offset : Nat) :
    Except Err ReadOutcome :=
  match assoc path openFiles with
  | none => do
    let attr ← isNameAttribute m path
    match attr with
    | none => pure { ret := -ENOENT, buf := some [], openFiles := openFiles }
    | some a =>
      -- `hsize_t dims[1]; space.getSimpleExtentDims(dims);`: the call writes one
      -- cell for each dimension, beyond the array when there are two or more
      if a.dims.length > 1 then throw (Err.undefined "getSimpleExtentDims")
      else
        -- `attrsize *= dims[0];`: the cell is not written for a scalar
        let dims0 := a.dims.headD m.uninit
        let attrsize := (a.typeSize * dims0) % U64
        if offset % U64 ≥ attrsize then
          pure { ret := 0, buf := some [], openFiles := openFiles }
        else
          let size := if (offset + size) % U64 > attrsize then attrsize - offset else size
          pure { ret := toInt32 size, buf := memcpyFrom a.bytes offset size,
                 openFiles := openFiles }
  | some file => pure (readDataset m openFiles path file size offset)

/-- The function `h5vfs_release` (h5vfs.cpp lines 486-496). -/
def h5vfs_release (openFiles : OpenFiles) (path : String) : Int × OpenFiles :=
  match assoc path openFiles with
  | none => (-ENOENT, openFiles)
  | some file =>
    let file := file.close
    if file.refcount = 0 then (0, openFiles.filter (fun e => decide (e.1 ≠ path)))
    else (0, assocSet path file openFiles)

/-! ## Notions used to state the properties -/

/-- A name that can be the file name of a directory entry: not empty, without a
slash, and neither `.` nor `..`. -/
def simpleName (n : String) : Bool :=
  decide (n.data ≠ []) && n.data.all (fun c => decide (c ≠ '/')) && decide (n.data ≠ ['.'])
    && decide (n.data ≠ ['.', '.'])

/-- A table entry that agrees with the dataset of bytes `B` at the place `q`:
it is open on `q`, its `dim[0]` is the length of `B`, and its cached buffer is
absent or holds `B`. -/
def Consistent (q : Loc) (B : List Byte) (file : h5vfsFile) : Prop :=
  file.dataset = q ∧ file.dim = B.length ∧ (file.buffer = none ∨ file.buffer = some B)

/-- Every prefix of a place, the place included, leads to a group: the place is
reached from the root group through groups only. -/
def H5File.Reachable (f : H5File) (q : Loc) : Prop :=
  ∀ p : Loc, p <+: q → f.isGroup p = true

/-- The links of a container that `storeFile` leaves in place: all of them when
the name is free, those not at or below the name when it is taken. -/
def H5File.cleared (f : H5File) (q : Loc) : List (Loc × Node) :=
  if (f.find q).isSome then f.links.filter (fun e => !(q.isPrefixOf e.1)) else f.links

/-- The attributes `storeFile` gives a dataset, in the order it creates them:
the hash comes first for a file with content, third for an empty file. -/
def datasetAttrs (md5Hash : String) (result : Stat) (isEmpty : Bool) : Attrs :=
  if isEmpty then
    [("Created", AttrVal.int64 result.st_ctime), ("Modified", AttrVal.int64 result.st_mtime),
     ("MD5Hash", AttrVal.str md5Hash),
     ("Permissions", AttrVal.uint32 (result.st_mode % 4294967296))]
  else
    [("MD5Hash", AttrVal.str md5Hash), ("Created", AttrVal.int64 result.st_ctime),
     ("Modified", AttrVal.int64 result.st_mtime),
     ("Permissions", AttrVal.uint32 (result.st_mode % 4294967296))]

/-- The bytes `B[o .. min(o + n, |B|))` of a byte string. -/
def slice (B : List Byte) (o n : Nat) : List Byte :=
  (B.take (min (o + n) B.length)).drop o

/-- The accept and reject tests of the specification: the accept list is empty or
holds a pattern that matches the name, and no pattern of the reject list
matches it. -/
def passesFilter (env : Env) (accept reject : List String) (name : String) : Prop :=
  (accept = [] ∨ ∃ p ∈ accept, env.regexMatch name p = true) ∧
    ¬ ∃ p ∈ reject, env.regexMatch name p = true

/-- A world for examples: a pattern matches the name equal to it, and paths are
canonical as they are written. -/
def lexEnv : Env :=
  { regexMatch := fun s p => s == p
    weaklyCanonical := parsePath }

/-- Options for examples: nothing given on the command line. -/
def noOpts : Opts :=
  { acceptfileregex := [], rejectfileregex := [], acceptdirregex := [], rejectdirregex := []
    updatepolicy := none, storeexternalsymlinks := none, chunk := none
    allowemptydirs := none, newroots := none }

/-- A container for examples: a new file without links. -/
def emptyFile : H5File := { rootAttrs := [], links := [] }

/-- The stat buffer of a regular file of mode 0644, for examples. -/
def regStat (ino nlink size : Nat) : Stat :=
  { st_mode := 0o100644, st_nlink := nlink, st_ino := ino, st_size := size
    st_mtime := 5, st_ctime := 6 }

/-- The stat buffer of a directory of mode 0755, for examples. -/
def dirStat (ino : Nat) : Stat :=
  { st_mode := 0o040755, st_nlink := 2, st_ino := ino, st_size := 4096
    st_mtime := 7, st_ctime := 8 }

/-- A regular file as the Packer sees it, for examples. -/
def regFile (name : String) (ino nlink : Nat) (content : List Byte) : Source :=
  Source.mk name (regStat ino nlink content.length) (regStat ino nlink content.length) none
    content []

/-- A directory as the Packer sees it, for examples. -/
def directory (name : String) (ino : Nat) (entries : List Source) : Source :=
  Source.mk name (dirStat ino) (dirStat ino) none [] entries

/-- A mount of a container for examples: mounted at `/mnt`, no dataset has a
raw address, so that reads take the full-decode path. -/
def mountOf (f : H5File) : Mount :=
  { mainfile := f, image := [], getOffset := fun _ => none, mountPoint := "/mnt"
    lastModified := 0, showAttributesAsFiles := !(assoc "H5VFS" f.rootAttrs).isSome
    uid := 1000, gid := 1000, hostSize := fun _ => 0, nlinks := 64, uninit := 0 }

/-- The stat buffer of a symbolic link, for examples. -/
def lnkStat (ino size : Nat) : Stat :=
  { st_mode := 0o120777, st_nlink := 1, st_ino := ino, st_size := size
    st_mtime := 5, st_ctime := 6 }

/-- A symbolic link to a regular file as the Packer sees it, for examples:
`lstat` shows the link, `stat` and the content show the target. -/
def symlinkTo (name link : String) (ino : Nat) (content : List Byte) : Source :=
  Source.mk name (lnkStat ino link.length) (regStat (ino + 1) 1 content.length) (some link)
    content []

/-- A container for examples: the dataset `a.txt` with content `abc`, as
`storeFile` leaves it in the root group. -/
def abcFile : H5File :=
  { rootAttrs := []
    links := [(["a.txt"], Node.dataset 1 [3] [97, 98, 99]
      (datasetAttrs "900150983cd24fb0d6963f7d28e17f72" (regStat 11 1 3) false))] }

/-! ## Notions for the walk under the policy `never` -/

-- Two results of a call are compared by their values.
deriving instance DecidableEq for Except

/-- A place whose names are not empty, hold no slash and are not `.`. -/
def PlainLoc (g : Loc) : Prop :=
  ∀ c ∈ g, c.data ≠ [] ∧ (∀ ch ∈ c.data, ch ≠ '/') ∧ c.data ≠ ['.']

/-- The container `f'` agrees with `f` at every place that is not at or below `q`. -/
def Outside (q : Loc) (f f' : H5File) : Prop :=
  ∀ p : Loc, ¬ q <+: p → f'.find p = f.find p

/-- The container `f'` agrees with `f` at the place `g` and at every place on
the way to it. -/
def Above (g : Loc) (f f' : H5File) : Prop :=
  ∀ p : Loc, p <+: g → f'.find p = f.find p

/-- The update policy is `never`, given or by default. -/
def neverPolicy (opts : Opts) : Prop :=
  opts.updatepolicy = none ∨ opts.updatepolicy = some "never"

/-- The second state holds the container, the record of calls and the deferred
links of the first. -/
def Kept (st st' : Packer) : Prop :=
  st'.file = st.file ∧ st'.calls = st.calls ∧ st'.deferredLinks = st.deferredLinks

/-- Below the group `g`, the container holds nothing under a name that is free. -/
def ClosedBelow (f : H5File) (g : Loc) : Prop :=
  ∀ X : Loc, X ≠ [] → f.find (g ++ X) = none → ∀ e ∈ f.links, ¬ (g ++ X) <+: e.1

/-- What one call of the walker under the policy `never` does for the entry
`path` of the group `g`: the group and the places above it stay as they are,
and either nothing is counted and nothing is kept of the call, or the name of
the entry is present afterwards (or its inode was seen before). -/
def NodeInv (opts : Opts) (g : Loc) (path : String) (src : Source) (st : Packer) (n : Nat)
    (st' : Packer) : Prop :=
  Above g st.file st'.file ∧
    (ClosedBelow st.file g →
      (n = 0 ∧ Kept st st') ∨
      ((n ≠ 0 ∨ asBool opts.allowemptydirs false = true) ∧
        parsePath (getLastPathChunk path) = [getLastPathChunk path] ∧
        ((st'.file.find (g ++ [getLastPathChunk path])).isSome = true ∨
          (assoc src.lstat.st_ino st.inoMap).isSome = true)))

/-- What the loop over the entries of a directory does under the policy `never`. -/
def WalkInv (opts : Opts) (g : Loc) (st : Packer) (n : Nat) (st' : Packer) : Prop :=
  Above g st.file st'.file ∧
    (n = 0 → asBool opts.allowemptydirs false = false → ClosedBelow st.file g → Kept st st')

/-- The container `f'` is `f` with one more link, at the end, under `q`. -/
def Tip (q : Loc) (f f' : H5File) : Prop :=
  ∃ node, f' = { f with links := f.links ++ [(q, node)] }

/-- Every name on the way to a link of the container is present: the container
holds nothing below a name that is free. -/
def H5File.Closed (f : H5File) : Prop :=
  ∀ e ∈ f.links, ∀ q : Loc, q <+: e.1 → (f.find q).isSome = true

/-! ## Source trees and containers for examples -/

/-- A source tree for examples: the directory `base` with the empty file
`e.txt`. -/
def smallTree : Source := directory "base" 10 [regFile "e.txt" 11 1 []]

/-- The source tree of the root `/home/u/base` for examples: the files `a.txt`,
with the bytes given, and `b.txt` with the bytes `xyz`. -/
def baseTree (a : List Byte) : Source :=
  directory "base" 10 [regFile "a.txt" 11 1 a, regFile "b.txt" 12 1 [120, 121, 122]]

/-- A container for examples: the archive of `baseTree` with `abc` in `a.txt`,
as a first run of the Packer leaves it. -/
def baseArchive : H5File :=
  { rootAttrs := []
    links :=
      [(["base"], Node.group [("Created", AttrVal.int64 8), ("Modified", AttrVal.int64 7),
          ("Permissions", AttrVal.uint32 16877)]),
       (["base", "a.txt"], Node.dataset 1 [3] [97, 98, 99]
          (datasetAttrs "900150983cd24fb0d6963f7d28e17f72" (regStat 11 1 3) false)),
       (["base", "b.txt"], Node.dataset 1 [3] [120, 121, 122]
          (datasetAttrs "d16fb36f0911f878998c136191af705e" (regStat 12 1 3) false))] }

/-- Options for examples: only `--updatepolicy` is given. -/
def policyOpts (policy : String) : Opts := { noOpts with updatepolicy := some policy }

/-- First of two roots for examples: the directory `/r1` with the file `x`,
one of two names of the inode 7. -/
def rootOne : Source := directory "r1" 20 [regFile "x" 7 2 [1, 2, 3]]

/-- Second of two roots for examples: the directory `/r2` with the file `y`,
the other name of the inode 7. -/
def rootTwo : Source := directory "r2" 21 [regFile "y" 7 2 [1, 2, 3]]

/-- The state of the Packer for examples after the root `/r1`: the group `/r1`
and the dataset `/r1/x` are stored, and the inode map holds the source paths
seen so far. -/
def afterRootOne : Packer :=
  { file :=
      { rootAttrs := []
        links :=
          [(["r1"], Node.group [("Created", AttrVal.int64 8), ("Modified", AttrVal.int64 7),
              ("Permissions", AttrVal.uint32 16877)]),
           (["r1", "x"], Node.dataset 1 [3] [1, 2, 3]
              (datasetAttrs "5289df737df57326fcdd22597afb1fac" (regStat 7 2 3) false))] }
    inoMap := [(20, "/r1"), (7, "/r1/x")]
    calls := [Call.storeFile ["r1"] "/r1/x" "x"] }

/-- The state of the Packer for examples when it reaches `/r2/y` after the root
`/r1`: `handleDirectory` has made the group `/r2` with its attributes and
`shouldStore` has recorded the inode of the directory. -/
def atSecondRoot : Packer :=
  { afterRootOne with
    file :=
      { afterRootOne.file with
        links := afterRootOne.file.links ++
          [(["r2"], Node.group [("Created", AttrVal.int64 8), ("Modified", AttrVal.int64 7),
              ("Permissions", AttrVal.uint32 16877)])] }
    inoMap := afterRootOne.inoMap ++ [(21, "/r2")] }

/-! ## Notions for the pruning of empty directories -/

mutual
/-- Every directory entry below the source bears a name that a directory
iterator can report: not empty, without a slash, neither `.` nor `..`. -/
def Source.proper : Source → Bool
  | Source.mk _ _ _ _ _ es => properList es
/-- The entries of a list and all below them bear such names. -/
def properList : List Source → Bool
  | [] => true
  | e :: es => simpleName e.name && e.proper && properList es
end

/-- The counts `coalescetoHDF5` returns for the entries of a directory, one
after the other, in the loop of `handleDirectory` (lines 813-816), and the
state after the last. -/
def walkCounts (env : Env) (H : Hasher) (opts : Opts) (basePath : String) :
    List Source → String → Loc → Packer → Except Err (List Nat × Packer)
  | [], _, _, st => pure ([], st)
  | entry :: rest, dirPath, group, st => do
    let first ← coalescetoHDF5 env H opts basePath entry (entryPath dirPath entry.name) group st
    let others ← walkCounts env H opts basePath rest dirPath group first.2
    pure (first.1 :: others.1, others.2)

/-- The attributes `handleDirectory` gives a group it creates (lines 806-810). -/
def groupAttrs (result : Stat) : Attrs :=
  [("Created", AttrVal.int64 result.st_ctime), ("Modified", AttrVal.int64 result.st_mtime),
   ("Permissions", AttrVal.uint32 (result.st_mode % 4294967296))]

/-- The state in which `handleDirectory` starts the loop over the entries: the
one `shouldStore` left when the group was there (`present`), and else that
state with the new group `q` as the last link of the container. -/
def entered (st1 : Packer) (present : Bool) (q : Loc) (result : Stat) : Packer :=
  if present then st1
  else
    { st1 with
      file := { rootAttrs := st1.file.rootAttrs
                links := st1.file.links ++ [(q, Node.group (groupAttrs result))] } }

/-- The state `handleDirectory` returns after the loop left the state `st2`:
without the links at and below `q` when the group is pruned. -/
def pruned (st2 : Packer) (prune : Bool) (q : Loc) : Packer :=
  if prune then
    { st2 with
      file := { rootAttrs := st2.file.rootAttrs
                links := st2.file.links.filter (fun x => !(q.isPrefixOf x.1)) } }
  else st2

/-- Options for examples: the files named `x.tmp` are rejected. -/
def rejectTmp : Opts := { noOpts with rejectfileregex := ["x.tmp"] }

/-! ## Notions for the paths of links -/

/-- The arguments with which the walker handles the entry reached from a
directory through the names `xs`: `coalescetoHDF5` is called for the directory
with the path `path` and the group `group`; `handleDirectory` fills the group
`resolve group (getLastPathChunk path)`, and the loop over the entries calls
`coalescetoHDF5` for the entry `x` with the path `entryPath path x` and that
group. -/
def walkedFrom (path : String) (group : Loc) : List String → String × Loc
  | [] => (path, group)
  | x :: xs => walkedFrom (entryPath path x) (resolve group (getLastPathChunk path)) xs

/-- Options for examples: `storeexternalsymlinks=singlefile`. -/
def singlefileOpts : Opts := { noOpts with storeexternalsymlinks := some "singlefile" }

/-- A tree for examples: the directory `base` with the symbolic links `a` and
`b`, both with the link text `/etc/passwd`, an empty file. -/
def twoLinksTree : Source :=
  directory "base" 10 [symlinkTo "a" "/etc/passwd" 30 [], symlinkTo "b" "/etc/passwd" 32 []]

/-- The state of the Packer for examples after `twoLinksTree` has been packed
from `/home/u/base` with `singlefileOpts`. -/
def afterTwoLinks : Packer :=
  { file :=
      { rootAttrs := []
        links :=
          [(["base"], Node.group [("Created", AttrVal.int64 8), ("Modified", AttrVal.int64 7),
              ("Permissions", AttrVal.uint32 16877)]),
           (["base", "a"], Node.dataset 1 [0] []
              (datasetAttrs "d41d8cd98f00b204e9800998ecf8427e" (regStat 31 1 0) true)),
           (["base", "b"], Node.soft "/base/../../../base/a")] }
    inoMap := [(10, "/home/u/base")]
    singleFileMap := [("/etc/passwd", "/base/a")]
    calls := [Call.storeFile ["base"] "/home/u/base/a" "a",
              Call.softLink "/base/../../../base/a" "/base/b"] }

/-- Options for examples: `storeexternalsymlinks=link`. -/
def linkOpts : Opts := { noOpts with storeexternalsymlinks := some "link" }

/-- A tree for examples: the directory `base` with the symbolic link `d` to the
directory `/ext`, which holds the empty file `f`, and the symbolic link `p` to
the regular file `/etc/passwd`. -/
def outsideDirTree : Source :=
  directory "base" 10
    [Source.mk "d" (lnkStat 40 4) (dirStat 41) (some "/ext") [] [regFile "f" 42 1 []],
     symlinkTo "p" "/etc/passwd" 44 []]

/-- The state of the Packer for examples after `outsideDirTree` has been packed
from `/home/u/base` with `linkOpts`. -/
def afterOutsideDir : Packer :=
  { file :=
      { rootAttrs := []
        links :=
          [(["base"], Node.group [("Created", AttrVal.int64 8), ("Modified", AttrVal.int64 7),
              ("Permissions", AttrVal.uint32 16877)]),
           (["base", "d"], Node.group [("Created", AttrVal.int64 8),
              ("Modified", AttrVal.int64 7), ("Permissions", AttrVal.uint32 16877)]),
           (["base", "d", "f"], Node.dataset 1 [0] []
              (datasetAttrs "d41d8cd98f00b204e9800998ecf8427e" (regStat 42 1 0) true)),
           (["base", "p"], Node.group [("ExternalLink", AttrVal.str "/etc/passwd")])] }
    inoMap := [(10, "/home/u/base")]
    calls := [Call.storeFile ["base", "d"] "/home/u/base/d/f" "f",
              Call.externalLink "/etc/passwd" "/base/p"] }

/-! ## The adapter: `h5vfs_readlink` and `h5vfs_readdir` -/

/-- The character NUL. -/
def NUL : Char := Char.ofNat 0

/-- The characters of a `std::string` of `getSize()` characters after
`attr.read(type, &link[0])` with the type of the attribute.  A value of more
elements than one does not fit the string; the source has no defined
behaviour there, which is reported as an error here. -/
def AttrVal.chars : AttrVal → Except Err (List Char)
  | AttrVal.str s => pure s.data
  | AttrVal.raw e _ b =>
    if b.length = e then pure (b.map (fun x => Char.ofNat x.val)) else throw (Err.h5 "read")
  | v => pure (v.bytes.map (fun x => Char.ofNat x.val))

/-- The attribute `ExternalLink` of the group a path leads to, when
`childObjType` has said `H5O_TYPE_GROUP` and the group has the attribute
(h5vfs.cpp lines 307-310). -/
def externalLinkOf (m : Mount) (path : String) (c : ObjType) : Option AttrVal :=
  match c, m.object path with
  | ObjType.GROUP, some (Node.group attrs) => assoc "ExternalLink" attrs
  | _, _ => none

/-- The function `h5vfs_readlink` (h5vfs.cpp lines 301-338): the result and the
characters that `memcpy` puts at the start of `buf`, `none` when `buf` is not
written.  `size` is the `size_t` argument.  Where `H5Lget_info` fails it leaves
`info` unwritten, and the type read from it is taken to be another one than
`H5L_TYPE_SOFT`. -/
def h5vfs_readlink (m : Mount) (path : String) (size : Nat) :
    Except Err (Int × Option (List Char)) := do
  let c ← m.childObjType path
  match externalLinkOf m path c with
  | some a => do
    -- `std::string link(attrsize, '\0'); attr.read(type, &link[0]);`
    let link ← a.chars
    if link.length ≥ size then pure (-ENAMETOOLONG, none)
    else pure (0, some (link ++ [NUL]))
  | none =>
    match m.softTarget path with
    | none => pure (-ENOENT, none)
    | some target =>
      -- `info.u.val_size` counts the NUL that ends the value of the link
      let len := (target.length + 1) % U64
      if len = 0 then pure (-ENOENT, none)
      else
        -- `std::string link(len, '\0'); H5Lget_val(..., &link[0], len, ...);`
        let link := (target.data ++ [NUL]).take len
        let fullpath := m.mountPoint.data ++ link
        if fullpath.length ≥ size then pure (-ENAMETOOLONG, none)
        else pure (0, some (fullpath ++ [NUL]))

/-- The order of `strcmp` on two names: whether the first comes before the
second or is equal to it. -/
def nameLe : List Char → List Char → Bool
  | [], _ => true
  | _ :: _, [] => false
  | a :: as, b :: bs =>
    if a.toNat < b.toNat then true
    else if b.toNat < a.toNat then false
    else nameLe as bs

/-- The names of the links of the group at `q`, in the order of the name index
that `getObjnameByIdx` goes by. -/
def H5File.childNames (f : H5File) (q : Loc) : List String :=
  ((f.links.filterMap (fun e => if e.1.dropLast = q then e.1.getLast? else none)).dedup).insertionSort
    (fun a b => nameLe a.data b.data = true)

/-- The object that `childObjType(name)`, `openGroup(name)` and
`openDataSet(name)` reach from the group at `q`, soft links followed. -/
def Mount.childOf (m : Mount) (q : Loc) (name : String) : Option Node :=
  match m.mainfile.walk m.nlinks q [name] true with
  | some p => m.mainfile.find p
  | none => none

/-- The names `filler` gets for the attributes of a child (h5vfs.cpp lines
361-367 and 372-378). -/
def attrEntries (m : Mount) (name : String) (attrs : Attrs) : List String :=
  if m.showAttributesAsFiles then attrs.map (fun a => "." ++ name ++ ATTR_FLAG ++ a.1) else []

/-- One round of the loop of `h5vfs_readdir` (h5vfs.cpp lines 353-382): the
names `filler` gets for a child.  `childObjType` throws unless the name leads
to a group or a dataset. -/
def readdirEntry (m : Mount) (q : Loc) (name : String) : Except Err (List String) :=
  match m.childOf q name with
  | some (Node.group attrs) => pure (name :: attrEntries m name attrs)
  | some (Node.dataset _ _ _ attrs) => pure (name :: attrEntries m name attrs)
  | _ => throw (Err.h5 "childObjType")

/-- The loop of `h5vfs_readdir` over the names of the children. -/
def readdirLoop (m : Mount) (q : Loc) : List String → Except Err (List String)
  | [] => pure []
  | name :: rest => do
    let here ← readdirEntry m q name
    let more ← readdirLoop m q rest
    pure (here ++ more)

/-- The function `h5vfs_readdir` (h5vfs.cpp lines 341-385): the result and the
names given to `filler`, in order. -/
def h5vfs_readdir (m : Mount) (path : String) : Except Err (Int × List String) := do
  let pathExists ← m.nameExists path
  if !pathExists then pure (-ENOENT, [])
  else
    match m.lookup path true with
    | none => throw (Err.h5 "openGroup")
    | some q =>
      if m.mainfile.isGroup q then do
        let names ← readdirLoop m q (m.mainfile.childNames q)
        pure (0, "." :: ".." :: names)
      else throw (Err.h5 "openGroup")

/-! ## Examples for the adapter -/

/-- A tree for examples: the directory `base` with the empty file `target`, the
symbolic link `l` to it and the symbolic link `p` to `/etc/passwd`. -/
def linksTree : Source :=
  directory "base" 10
    [regFile "target" 11 1 [], symlinkTo "l" "/home/u/base/target" 30 [],
     symlinkTo "p" "/etc/passwd" 44 []]

/-- The container for examples that the Packer makes of `linksTree` at
`/home/u/base` with `storeexternalsymlinks=link`. -/
def linksArchive : H5File :=
  { rootAttrs := []
    links :=
      [(["base"], Node.group [("Created", AttrVal.int64 8), ("Modified", AttrVal.int64 7),
          ("Permissions", AttrVal.uint32 16877)]),
       (["base", "target"], Node.dataset 1 [0] []
          (datasetAttrs "d41d8cd98f00b204e9800998ecf8427e" (regStat 11 1 0) true)),
       (["base", "l"], Node.soft "/base/target"),
       (["base", "p"], Node.group [("ExternalLink", AttrVal.str "/etc/passwd")])] }

/-- A container for examples: a group whose attribute `Permissions` holds the
mode of a regular file. -/
def fileModeGroup : H5File :=
  { rootAttrs := [], links := [(["g"], Node.group [("Permissions", AttrVal.uint32 0o100644)])] }

/-- A container for examples, not made by the Packer: the dataset `a` with the
attribute `b.attr.c` and the dataset `a.attr.b` with the attribute `c`. -/
def twoReadings : H5File :=
  { rootAttrs := []
    links := [(["a"], Node.dataset 1 [0] [] [("b.attr.c", AttrVal.int64 1)]),
              (["a.attr.b"], Node.dataset 1 [0] [] [("c", AttrVal.int64 2)])] }

/-- A container for examples as the Packer makes it: the root group has the
attribute `H5VFS`, and the group `base` holds the empty file `e.txt`. -/
def packedArchive : H5File :=
  { rootAttrs := [("H5VFS", AttrVal.str "1.0"), ("Created", AttrVal.int64 0)]
    links :=
      [(["base"], Node.group [("Created", AttrVal.int64 8), ("Modified", AttrVal.int64 7),
          ("Permissions", AttrVal.uint32 16877)]),
       (["base", "e.txt"], Node.dataset 1 [0] []
          (datasetAttrs "d41d8cd98f00b204e9800998ecf8427e" (regStat 11 1 0) true))] }

/-! ## Examples for the listing, for attributes as files and for `open` -/

/-- Options for examples: the file name `x.tmp` is rejected. -/
def rejectTmpOpts : Opts := { noOpts with rejectfileregex := ["x.tmp"] }

/-- A tree for examples: the directory `base` with the symbolic link `l` to
the file `x.tmp` beside it. -/
def danglingTree : Source :=
  directory "base" 10 [symlinkTo "l" "/home/u/base/x.tmp" 30 [], regFile "x.tmp" 31 1 []]

/-- The container for examples that the Packer makes of `danglingTree` at
`/home/u/base` with `rejectTmpOpts`: the soft link `/base/l` is stored, its
target is not. -/
def danglingArchive : H5File :=
  { rootAttrs := []
    links :=
      [(["base"], Node.group [("Created", AttrVal.int64 8), ("Modified", AttrVal.int64 7),
          ("Permissions", AttrVal.uint32 16877)]),
       (["base", "l"], Node.soft "/base/x.tmp")] }

/-- A container for examples, not made by the Packer: the dataset `d` with a
scalar attribute `s` of four bytes, an attribute `v` of three elements of two
bytes and an attribute `m` of two by three elements of one byte. -/
def attrsFile : H5File :=
  { rootAttrs := []
    links := [(["d"], Node.dataset 1 [0] []
      [("s", AttrVal.str "abcd"), ("v", AttrVal.raw 2 [3] [1, 2, 3, 4, 5, 6]),
       ("m", AttrVal.raw 1 [2, 3] [1, 2, 3, 4, 5, 6])])] }

/-! ## The command line of the adapter: `CommandlineModifier` (modifier.h) -/

/-- A cell of an array of `char*`: not written since `new`, `nullptr`, or a
string. -/
inductive Slot where
  | junk
  | null
  | arg (s : String)
  deriving DecidableEq, Repr

/-- The loop `for (int i = lo; i < hi; i++)` with the given body. -/
def forLoop {σ : Type} (lo hi : Nat) (body : Nat → σ → σ) (s : σ) : σ :=
  (List.range' lo (hi - lo)).foldl (fun s i => body i s) s

/-- The members of a `CommandlineModifier` that change: `argcMod`, the array
`argvMod` and the array `argvModDelete` (`none` for a flag not written since
`new`).  The `int` values of the class are natural numbers here; an index that
can be negative is an integer where it is tested. -/
structure CommandlineModifier where
  argcMod : Nat
  argvMod : List Slot
  argvModDelete : List (Option Bool)
  deriving DecidableEq, Repr

namespace CommandlineModifier

/-- The method `copySlots` (modifier.h lines 13-22), called by the constructor
on the original `argv` of `argc` strings. -/
def copySlots (argv : List String) : CommandlineModifier :=
  let argcMod := argv.length
  let arrays := forLoop 0 argcMod
    (fun i (a : List Slot × List (Option Bool)) =>
      (a.1.set i (match argv[i]? with
        | some s => Slot.arg s
        | none => Slot.junk), a.2.set i (some false)))
    (List.replicate (argcMod + 1) Slot.junk, List.replicate argcMod none)
  { argcMod := argcMod, argvMod := arrays.1.set argcMod Slot.null, argvModDelete := arrays.2 }

/-- The method `addSlotAt` (modifier.h lines 37-59). -/
def addSlotAt (cm : CommandlineModifier) (index : Int) : Except String CommandlineModifier :=
  if index > cm.argcMod ∨ index < 0 then throw "Index out of bounds"
  else
    let index := index.toNat
    let argcMod := cm.argcMod + 1
    let temp : List Slot × List (Option Bool) :=
      (List.replicate (argcMod + 1) Slot.junk, List.replicate argcMod none)
    let temp := forLoop 0 (min index (argcMod - 1))
      (fun i a => (a.1.set i (cm.argvMod.getD i Slot.junk),
                   a.2.set i (cm.argvModDelete.getD i none))) temp
    let temp := forLoop (index + 1) argcMod
      (fun i a => (a.1.set i (cm.argvMod.getD (i - 1) Slot.junk),
                   a.2.set i (cm.argvModDelete.getD (i - 1) none))) temp
    let argvModTemp := (temp.1.set index Slot.null).set argcMod Slot.null
    let argvModDeleteTemp := temp.2.set index (some false)
    pure { argcMod := argcMod, argvMod := argvModTemp, argvModDelete := argvModDeleteTemp }

/-- The method `deleteSlot` (modifier.h lines 61-82). -/
def deleteSlot (cm : CommandlineModifier) (index : Int) : Except String CommandlineModifier :=
  if index < 0 ∨ index ≥ cm.argcMod then throw "Index out of bounds"
  else
    let index := index.toNat
    let argcMod := cm.argcMod - 1
    let temp : List Slot × List (Option Bool) :=
      (List.replicate (argcMod + 1) Slot.junk, List.replicate argcMod none)
    let temp := forLoop 0 index
      (fun i a => (a.1.set i (cm.argvMod.getD i Slot.junk),
                   a.2.set i (cm.argvModDelete.getD i none))) temp
    let temp := forLoop index argcMod
      (fun i a => (a.1.set i (cm.argvMod.getD (i + 1) Slot.junk),
                   a.2.set i (cm.argvModDelete.getD (i + 1) none))) temp
    pure { argcMod := argcMod, argvMod := temp.1.set argcMod Slot.null, argvModDelete := temp.2 }

/-- The constructor (modifier.h lines 86-89). -/
def new (argv : List String) : CommandlineModifier := copySlots argv

/-- The method `deleteArgument` (modifier.h lines 95-97). -/
def deleteArgument (cm : CommandlineModifier) (index : Int) :
    Except String CommandlineModifier :=
  cm.deleteSlot index

/-- The method `addArgument(const std::string&)` (modifier.h lines 107-113). -/
def addArgument (cm : CommandlineModifier) (arg : String) : Except String CommandlineModifier := do
  let cm ← cm.addSlotAt cm.argcMod
  pure { cm with argvMod := cm.argvMod.set (cm.argcMod - 1) (Slot.arg arg)
                 argvModDelete := cm.argvModDelete.set (cm.argcMod - 1) (some true) }

/-- The method `getArgv`. -/
def getArgv (cm : CommandlineModifier) : List Slot := cm.argvMod

/-- The method `getArgc`. -/
def getArgc (cm : CommandlineModifier) : Nat := cm.argcMod

end CommandlineModifier

/-- The state of a modifier whose array holds the strings `L` and the
terminating `nullptr`, with the flags `D`. -/
def CommandlineModifier.holding (L : List String) (D : List Bool) : CommandlineModifier :=
  { argcMod := L.length, argvMod := L.map Slot.arg ++ [Slot.null], argvModDelete := D.map some }

/-- The command line that `main` of the adapter hands to `fuse_main`
(h5vfs.cpp lines 515 and 539-549), for `argc >= 3`. -/
def fuseArguments (argv : List String) : Except String CommandlineModifier := do
  let clmod := CommandlineModifier.new argv
  let clmod ← clmod.deleteArgument 1
  let clmod ← clmod.addArgument "-ofsname=h5vfs"
  clmod.addArgument "-oro"

/-! ## The command line of the Packer: keys and globs -/

/-- The member `params` of the class `Opts` (toHDF5.cpp line 30): the values
given for each key. -/
abbrev Params := List (String × List String)

namespace Params

/-- The values `params[key]` holds; none for a key that is not there. -/
def values (p : Params) (key : String) : List String := (assoc key p).getD []

/-- The map after `params[key]` has been evaluated: `operator[]` makes the key,
without values, when it is not there. -/
def touch (p : Params) (key : String) : Params :=
  match assoc key p with
  | some _ => p
  | none => p ++ [(key, [])]

/-- The call `params[key].push_back(value)`. -/
def pushBack (p : Params) (key value : String) : Params :=
  match assoc key p with
  | some vs => assocSet key (vs ++ [value]) p
  | none => p ++ [(key, [value])]

/-- The method `addKey` (toHDF5.cpp lines 37-41), as far as `params` goes. -/
def addKey (p : Params) (key : String) : Params :=
  match assoc key p with
  | some _ => assocSet key [] p
  | none => p ++ [(key, [])]

end Params

/-- The keys that `main` of the Packer registers (toHDF5.cpp lines 891-907),
each with its flag `multi`. -/
def packerKeys : List (String × Bool) :=
  [("path", false), ("help", false), ("acceptfile", true), ("acceptfileregex", true),
   ("acceptdir", true), ("acceptdirregex", true), ("rejectfile", true),
   ("rejectfileregex", true), ("rejectdir", true), ("rejectdirregex", true), ("chunk", false),
   ("output", false), ("updatepolicy", false), ("newroots", false),
   ("storeexternalsymlinks", false), ("allowemptydirs", false)]

/-- One round of the loop of `Opts::parse` (toHDF5.cpp lines 47-82) for the
argument `arg`; an error stands for `exit(-1)`. -/
def parseArg (multi : List (String × Bool)) (p : Params) (arg : String) :
    Except String Params :=
  if arg.data.take 2 = ['-', '-'] then
    let key := arg.data.drop 2
    let split : List Char × List Char :=
      match findSub ['='] key with
      | some pos => (key.take pos, key.drop (pos + 1))
      | none => (key, [])
    let key := String.mk (split.1.map Char.toLower)
    let value := split.2
    let value :=
      if value.length > 1 ∧ value.head? = some '"' ∧ value.getLast? = some '"'
      then (value.drop 1).take (value.length - 2) else value
    match assoc key p with
    | none => throw ("Unknown key " ++ key)
    | some vs =>
      if vs.length > 1 ∧ (assoc key multi).getD false = false then
        throw ("Multiple values for " ++ key)
      else pure (p.pushBack key (String.mk value))
  else pure (p.pushBack "path" arg)

/-- The method `Opts::parse` on `argv[1]`, ..., after the calls of `addKey`. -/
def parseArgs (args : List String) : Except String Params :=
  args.foldlM (parseArg packerKeys) (packerKeys.foldl (fun p k => p.addKey k.1) [])

/-- The function `globToRegex` (toHDF5.cpp lines 130-152). -/
def globToRegex (glob : String) : String :=
  glob.data.foldl (fun regex c =>
    if c = '*' then regex ++ ".*"
    else if c = '?' then regex.push '.'
    else if c = '.' then regex ++ "\\."
    else regex.push c) ""

/-- One of the four loops of `main` over globs (toHDF5.cpp lines 955-973):
the regular expression of each value of the key `globs` is appended to the
values of the key `regexes`. -/
def globLoop (globs regexes : String) (p : Params) : Params :=
  (p.values globs).foldl (fun p glob => p.pushBack regexes (globToRegex glob)) (p.touch globs)

/-- The four loops of `main` over globs (toHDF5.cpp lines 955-973), with the
keys as the source names them. -/
def mainGlobs (p : Params) : Params :=
  let p := globLoop "acceptfile" "acceptfileregex" p
  let p := globLoop "allowdir" "allowdirregex" p
  let p := globLoop "rejectfile" "rejectfileregex" p
  globLoop "rejectdir" "rejectdirregex" p

/-- The options with the four lists of patterns that `shouldStore` reads from
the parameters (toHDF5.cpp lines 289-297). -/
def Opts.withPatterns (opts : Opts) (p : Params) : Opts :=
  { opts with
    acceptfileregex := p.values "acceptfileregex"
    rejectfileregex := p.values "rejectfileregex"
    acceptdirregex := p.values "acceptdirregex"
    rejectdirregex := p.values "rejectdirregex" }

/-- The options for the filters that `main` reaches for a command line:
`parse`, then the loops over globs. -/
def filterOpts (args : List String) : Except String Opts := do
  let p ← parseArgs args
  pure (noOpts.withPatterns (mainGlobs p))

/-- A tree for examples: the directory `base` with the directories `keep` and
`other`, each with an empty file. -/
def twoDirsTree : Source :=
  directory "base" 10
    [directory "keep" 11 [regFile "f" 12 1 []], directory "other" 13 [regFile "g" 14 1 []]]

/-! ## Notions for the open-file table -/

/-- A call of `h5vfs_open` or of `h5vfs_release` on a path. -/
inductive FileOp where
  | open (path : String)
  | release (path : String)
  deriving DecidableEq, Repr

/-- One call on the table: the result of the call and the table after it. -/
def applyOp (m : Mount) (t : OpenFiles) : FileOp → Except Err (Int × OpenFiles)
  | FileOp.open p => h5vfs_open m t p
  | FileOp.release p => pure (h5vfs_release t p)

/-- A sequence of calls, one after the other: the results and the table after
the last call. -/
def runOps (m : Mount) : List FileOp → OpenFiles → Except Err (List Int × OpenFiles)
  | [], t => pure ([], t)
  | op :: ops, t => do
    let r ← applyOp m t op
    let rest ← runOps m ops r.2
    pure (r.1 :: rest.1, rest.2)

/-- The number of calls of `h5vfs_open` on a path in a sequence. -/
def opens (p : String) : List FileOp → Nat
  | [] => 0
  | FileOp.open q :: ops => (if q = p then 1 else 0) + opens p ops
  | FileOp.release _ :: ops => opens p ops

/-- The number of calls of `h5vfs_release` on a path in a sequence. -/
def releases (p : String) : List FileOp → Nat
  | [] => 0
  | FileOp.open _ :: ops => releases p ops
  | FileOp.release q :: ops => (if q = p then 1 else 0) + releases p ops

/-- A path whose name exists and which leads to a dataset. -/
def isDatasetPath (m : Mount) (p : String) : Bool :=
  decide (m.nameExists p = .ok true) &&
    (match m.object p with
      | some (Node.dataset _ _ _ _) => true
      | _ => false)

/-- The table agrees with a count of references for every path: a path with
the count 0 is not in the table, and the entry of any other path is open and
has the count as its `refcount`. -/
def Counted (c : String → Nat) (t : OpenFiles) : Prop :=
  ∀ p, (c p = 0 → assoc p t = none) ∧
    (0 < c p → ∃ file, assoc p t = some file ∧ file.refcount = c p ∧ file.isOpen = true)

/-! ## Notions for the deferred links -/

/-- The course of a drain of the deferred links as the specification describes
it, from a container to the container it leaves: the pairs are visited in the
order of the queue; a pair whose source exists when it is visited gets its
hard link, any other pair leaves the container as it is. -/
inductive Drained (g : Loc) : List (String × String) → H5File → H5File → Prop where
  | done (f : H5File) : Drained g [] f f
  | linked (s d : String) (rest : List (String × String)) (f f1 f2 : H5File) :
      f.nameExists g s = .ok true → f.linkHard g s d = .ok f1 → Drained g rest f1 f2 →
      Drained g ((s, d) :: rest) f f2
  | skipped (s d : String) (rest : List (String × String)) (f f2 : H5File) :
      f.nameExists g s = .ok false → Drained g rest f f2 →
      Drained g ((s, d) :: rest) f f2

/-- A state of the Packer for examples: the group `/base` holds the dataset
`a`, and three links wait in the queue: one from a name that does not exist,
one from `a`, and one from the destination of the second. -/
def chainQueue : Packer :=
  { file :=
      { rootAttrs := []
        links := [(["base"], Node.group []), (["base", "a"], Node.dataset 1 [1] [7] [])] }
    deferredLinks := [("/base/x", "/base/y"), ("/base/a", "/base/b"), ("/base/b", "/base/c")] }

/-! ## Examples for a symbolic link to a directory above the base path -/

/-- The names of a path with every `..` resolved: it takes itself and the name
before it away (`lexically_normal`, below the root directory). -/
def lexicallyNormal (names : List String) : List String :=
  names.foldl (fun acc n => if n = ".." then acc.dropLast else acc ++ [n]) []

/-- A world for examples in which no directory is a symbolic link: the
canonical names of a path are its names with every `..` resolved; a pattern
matches the name equal to it. -/
def normalEnv : Env :=
  { regexMatch := fun s p => s == p
    weaklyCanonical := fun s => lexicallyNormal (parsePath s) }

/-- The symbolic link `up` to the directory above, with the text `link`, as the
Packer sees it: `lstat` shows the link, `stat` the directory. -/
def upLink (link : String) : Source :=
  Source.mk "up" (lnkStat 40 link.length) (dirStat 9) (some link) [] []

/-- A tree for examples: the directory `base` with the file `a` and the
symbolic link `up` with the text `..`. -/
def upLinkTree : Source :=
  directory "base" 10 [regFile "a" 11 1 [], upLink ".."]

/-- A state of the Packer for examples: the container holds the group `/base`. -/
def inBase : Packer :=
  { file := { rootAttrs := [], links := [(["base"], Node.group [])] } }

/-! ## Notions for the count of stored items -/

/-- The place a storing call is made for: the dataset, the link or the group it
is to create. -/
def Call.place : Call → Loc
  | Call.storeFile group _ datasetName => resolve group datasetName
  | Call.hardLink _ destDataset => parsePath destDataset
  | Call.softLink _ destDataset => parsePath destDataset
  | Call.externalLink _ destGroup => parsePath destGroup

/-- From the state `st` to the state `st'` exactly `n` storing calls were made
(`storeFile`, `hardLink`, `softLink`, `externalLink`), each for a place at or
below `g`. -/
def StoredBelow (g : Loc) (n : Nat) (st st' : Packer) : Prop :=
  ∃ new : List Call, st'.calls = st.calls ++ new ∧ new.length = n ∧ ∀ c ∈ new, g <+: c.place

/-! ## Lemmas on the chunk loop -/

theorem chunkLoop_done {σ : Type} (body : σ → Nat → Nat → σ) (hs fuel offset count : Nat)
    (s : σ) (vis : List (Nat × Nat)) (h : hs ≤ offset) :
    chunkLoop body hs (fuel + 1) offset count s vis = some (s, vis) := by
  simp [chunkLoop, Nat.not_lt.mpr h]

/-- The loop, entered with the chunk size `k` still in `count`, returns when
the fuel exceeds the bytes left, its state is the fold of the body over the
chunks it visited and these form a schedule. -/
theorem chunkLoop_sched {σ : Type} (body : σ → Nat → Nat → σ) (hs k : Nat)
    (hk : 0 < k) (hk63 : k < I64) (hhs : hs < I64) :
    ∀ (fuel offset : Nat) (s : σ) (vis : List (Nat × Nat)),
      offset ≤ hs → hs - offset < fuel →
      ∃ t, chunkLoop body hs fuel offset k s vis
          = some (t.foldl (fun s p => body s p.1 p.2) s, vis ++ t) ∧
        Sched k hs offset t := by
  intro fuel
  induction fuel with
  | zero => intro offset s vis _ h; omega
  | succ fuel ih =>
    intro offset s vis hle hfuel
    by_cases hlt : offset < hs
    · by_cases hover : (offset + k) % U64 > hs
      · -- the final, possibly short, chunk
        have hfuel1 : ∃ f, fuel = f + 1 := ⟨fuel - 1, by omega⟩
        obtain ⟨f, rfl⟩ := hfuel1
        refine ⟨[(offset, hs - offset)], ?_, ?_⟩
        · have hnext : (offset + (hs - offset)) % U64 = hs := by
            simp only [U64]; simp only [I64] at hhs; omega
          rw [chunkLoop]
          simp only [hlt, if_true, hover, hnext]
          rw [chunkLoop_done body hs f hs _ _ _ (le_refl hs)]
          simp
        · simp only [U64] at hover
          simp only [I64] at hhs hk63
          refine ⟨rfl, ?_, ?_, ?_, ?_⟩
          · show 0 < hs - offset
            omega
          · show hs - offset ≤ k
            omega
          · intro h; exact absurd rfl h
          · show offset + (hs - offset) = hs
            omega
      · -- a full chunk
        have hsum : (offset + k) % U64 = offset + k := by
          simp only [U64]; simp only [I64] at hhs hk63; omega
        have hle' : offset + k ≤ hs := by
          rw [hsum] at hover; omega
        obtain ⟨t, ht, hs'⟩ := ih (offset + k) (body s offset k)
          (vis ++ [(offset, k)]) hle' (by omega)
        refine ⟨(offset, k) :: t, ?_, ?_⟩
        · have hover' : ¬ (offset + k > hs) := by omega
          rw [chunkLoop]
          simp only [hlt, if_true, hsum, hover', if_false]
          rw [ht]
          simp
        · exact ⟨rfl, hk, le_refl k, fun _ => rfl, hs'⟩
    · have hEq : offset = hs := by omega
      refine ⟨[], ?_, ?_⟩
      · rw [chunkLoop_done body hs fuel offset k s vis (by omega)]
        simp
      · exact hEq

theorem Sched.sum {k hs : Nat} : ∀ (t : List (Nat × Nat)) (o : Nat),
    Sched k hs o t → o + (t.map Prod.snd).sum = hs
  | [], o, h => by simpa [Sched] using h
  | p :: rest, o, h => by
    obtain ⟨_, _, _, _, hrest⟩ := h
    have := Sched.sum rest (o + p.2) hrest
    simp only [List.map_cons, List.sum_cons]
    omega

theorem Sched.head {k hs : Nat} (t : List (Nat × Nat)) (o : Nat) (h : Sched k hs o t)
    (p : Nat × Nat) (hp : t.head? = some p) : p.1 = o := by
  cases t with
  | nil => simp at hp
  | cons q rest =>
    simp only [List.head?_cons, Option.some.injEq] at hp
    subst hp
    exact h.1

theorem Sched.last {k hs : Nat} : ∀ (t : List (Nat × Nat)) (o : Nat),
    Sched k hs o t → ∀ p, t.getLast? = some p → 0 < p.2 ∧ p.2 ≤ k
  | [], _, _, p, hp => by simp at hp
  | [q], _, h, p, hp => by
    simp only [List.getLast?_singleton, Option.some.injEq] at hp
    subst hp
    exact ⟨h.2.1, h.2.2.1⟩
  | q :: r :: rest, o, h, p, hp => by
    rw [List.getLast?_cons_cons] at hp
    exact Sched.last (r :: rest) (o + q.2) h.2.2.2.2 p hp

theorem Sched.step {k hs : Nat} : ∀ (t : List (Nat × Nat)) (o : Nat),
    Sched k hs o t → ∀ i p q, t[i]? = some p → t[i + 1]? = some q →
      q.1 = p.1 + p.2 ∧ p.1 < q.1 ∧ p.2 = k
  | [], _, _, i, p, q, hp, _ => by simp at hp
  | a :: rest, o, h, 0, p, q, hp, hq => by
    simp only [List.getElem?_cons_zero, Option.some.injEq] at hp
    simp only [List.getElem?_cons_succ] at hq
    obtain ⟨hstart, hpos, _, hfull, hrest⟩ := h
    have hne : rest ≠ [] := by
      intro hnil; subst hnil; simp at hq
    have hq1 : q.1 = o + a.2 :=
      Sched.head rest _ hrest q (by
        cases rest with
        | nil => simp at hq
        | cons b r => simpa using hq)
    have hk := hfull hne
    rw [← hp]
    refine ⟨by omega, by omega, hk⟩
  | a :: rest, o, h, i + 1, p, q, hp, hq => by
    simp only [List.getElem?_cons_succ] at hp hq
    exact Sched.step rest (o + a.2) h.2.2.2.2 i p q hp hq

theorem Sched.chunkSchedule {k hs : Nat} (t : List (Nat × Nat)) (h : Sched k hs 0 t) :
    ChunkSchedule hs k t := by
  refine ⟨fun p hp => Sched.head t 0 h p hp, Sched.step t 0 h, Sched.last t 0 h, ?_⟩
  have := Sched.sum t 0 h
  omega

theorem Sched.short {k hs : Nat} (t : List (Nat × Nat)) (o : Nat) (h : Sched k hs o t)
    (hk : hs ≤ o + k) : t.length ≤ 1 := by
  match t, h with
  | [], _ => simp
  | [_], _ => simp
  | p :: q :: rest, h =>
    obtain ⟨_, _, _, hfull, hrest⟩ := h
    have hp : p.2 = k := hfull (by simp)
    have hq := hrest.2.1
    have hsum := Sched.sum (q :: rest) (o + p.2) hrest
    simp only [List.map_cons, List.sum_cons] at hsum
    omega

theorem chunkSchedule_of_short {n c : Nat} (t : List (Nat × Nat)) {k : Nat}
    (h : Sched k n 0 t) (hkc : k ≤ c) (hlen : t.length ≤ 1) : ChunkSchedule n c t := by
  refine ⟨fun p hp => Sched.head t 0 h p hp, ?_, ?_, ?_⟩
  · intro i p q hp hq
    have : i + 1 < t.length := by
      rcases List.getElem?_eq_some_iff.mp hq with ⟨hlt, _⟩
      exact hlt
    omega
  · intro p hp
    have := Sched.last t 0 h p hp
    omega
  · have := Sched.sum t 0 h
    omega

/-- C3. Chunk schedule: for a file of `n` bytes and a chunk option `c > 0` (both
in the range of their signed 64 bit types), the write loop of `storeFile` and
the hash loop of `shouldStore` return whenever they are given more than `n`
rounds, and the `(offset, count)` pairs each of them visits start at offset 0,
continue at the previous offset plus the previous count (which is larger), have
`c` bytes in every chunk but the last, between 1 and `c` bytes in the last,
and add up to `n` bytes. -/
theorem C3_chunk_schedule (H : Hasher) (n c fuel : Nat) (content : List Byte)
    (hc : 0 < c) (hc63 : c < I64) (hn : n < I64) (hfuel : n < fuel) :
    (∃ s t, storeLoop H fuel c n content = some (s, t) ∧ ChunkSchedule n c t) ∧
    (∃ s t, hashLoop H fuel c n content = some (s, t) ∧ ChunkSchedule n c t) := by
  constructor
  · by_cases hn0 : n = 0
    · subst hn0
      obtain ⟨f, rfl⟩ : ∃ f, fuel = f + 1 := ⟨fuel - 1, by omega⟩
      refine ⟨_, [], chunkLoop_done _ 0 f 0 _ _ _ (le_refl 0), ?_⟩
      refine ⟨by simp, by simp, by simp, by simp⟩
    · have hk : 0 < min c n := by omega
      have hk63 : min c n < I64 := by simp only [I64] at *; omega
      obtain ⟨t, ht, hsched⟩ := chunkLoop_sched (storeBody H) n (min c n) hk hk63 hn fuel 0
        _ [] (Nat.zero_le n) (by omega)
      refine ⟨_, t, by simpa [storeLoop] using ht, ?_⟩
      by_cases hcn : c ≤ n
      · rw [Nat.min_eq_left hcn] at hsched
        exact Sched.chunkSchedule t hsched
      · have hmin : min c n = n := Nat.min_eq_right (by omega)
        rw [hmin] at hsched
        exact chunkSchedule_of_short t hsched (by omega) (Sched.short t 0 hsched (by omega))
  · obtain ⟨t, ht, hsched⟩ := chunkLoop_sched (hashBody H) n c hc hc63 hn fuel 0
      _ [] (Nat.zero_le n) (by omega)
    exact ⟨_, t, by simpa [hashLoop] using ht, Sched.chunkSchedule t hsched⟩

/-- C3 at a file of 10 bytes and a chunk option of 4. -/
theorem C3_chunk_schedule_witness :
    (∃ s t, storeLoop md5Hasher 11 4 10 [] = some (s, t) ∧ ChunkSchedule 10 4 t) ∧
    (∃ s t, hashLoop md5Hasher 11 4 10 [] = some (s, t) ∧ ChunkSchedule 10 4 t) :=
  C3_chunk_schedule md5Hasher 10 4 11 [] (by decide) (by decide) (by decide) (by decide)

/-- The chunks of a file of 10 bytes under a chunk option of 4. -/
theorem storeLoop_visits_example :
    (storeLoop md5Hasher 11 4 10 []).map Prod.snd = some [(0, 4), (4, 4), (8, 2)] := by
  decide

/-- With a count of 0 the loop makes no progress on a non-empty file. -/
theorem chunkLoop_zero {σ : Type} (body : σ → Nat → Nat → σ) (hs : Nat) (h : 0 < hs) :
    ∀ (fuel : Nat) (s : σ) (vis : List (Nat × Nat)), chunkLoop body hs fuel 0 0 s vis = none := by
  intro fuel
  induction fuel with
  | zero => intro s vis; rfl
  | succ fuel ih =>
    intro s vis
    rw [chunkLoop]
    have h0 : ¬ ((0 + 0) % U64 > hs) := by simp
    simp only [h, if_true, h0, if_false]
    exact ih _ _

/-- With a chunk option of 0 the hash loop of `shouldStore` does not end on a
non-empty file, whatever the number of rounds it is given. -/
theorem hashLoop_chunk_zero (H : Hasher) (hs : Nat) (content : List Byte) (h : 0 < hs) :
    ∀ fuel, hashLoop H fuel 0 hs content = none := by
  intro fuel
  exact chunkLoop_zero (hashBody H) hs h fuel _ _

theorem take_readInto (buffer stream : List Byte) (count : Nat) (h : count ≤ stream.length) :
    (readInto buffer stream count).take count = stream.take count := by
  unfold readInto
  have hl : (stream.take count).length = count := by simp [List.length_take, h]
  rw [List.take_append_of_le_length (by omega)]
  simp

theorem writeHyperslab_next (B : List Byte) (hs o n : Nat) (hB : B.length = hs)
    (hle : o + n ≤ hs) :
    writeHyperslab (B.take o ++ List.replicate (hs - o) 0) o ((B.drop o).take n)
      = B.take (o + n) ++ List.replicate (hs - (o + n)) 0 := by
  have h1 : (B.take o).length = o := by
    rw [List.length_take]; omega
  have h2 : ((B.drop o).take n).length = n := by
    rw [List.length_take, List.length_drop]; omega
  unfold writeHyperslab
  rw [List.take_left' h1, h2]
  have h3 : List.drop (o + n) (B.take o ++ List.replicate (hs - o) 0)
      = List.replicate (hs - (o + n)) 0 := by
    have := @List.drop_append _ (B.take o) (List.replicate (hs - o) (0 : Byte)) n
    rw [h1] at this
    rw [this, List.drop_replicate]
    congr 1
    omega
  rw [h3, List.take_add]

theorem storeBody_fold (H : Hasher) (B : List Byte) (k hs : Nat) (hB : B.length = hs) :
    ∀ (t : List (Nat × Nat)) (o : Nat) (s : WriteState H), Sched k hs o t → o ≤ hs →
      s.stream = B.drop o → s.data = B.take o ++ List.replicate (hs - o) 0 →
      (t.foldl (fun s p => storeBody H s p.1 p.2) s).data = B ∧
      ∃ chunks : List (List Byte), chunks.flatten = B.drop o ∧
        (t.foldl (fun s p => storeBody H s p.1 p.2) s).hashed = s.hashed ++ chunks ∧
        (t.foldl (fun s p => storeBody H s p.1 p.2) s).written = s.written ++ chunks ∧
        (t.foldl (fun s p => storeBody H s p.1 p.2) s).ctx = chunks.foldl H.update s.ctx := by
  intro t
  induction t with
  | nil =>
    intro o s h _ _ hdata
    have ho : o = hs := h
    subst ho
    refine ⟨?_, [], ?_, ?_, ?_, ?_⟩
    · simp [hdata, ← hB]
    · simp [← hB]
    · simp
    · simp
    · simp
  | cons p rest ih =>
    intro o s h hle hstream hdata
    obtain ⟨hp1, hpos, _, _, hrest⟩ := h
    have hsum := Sched.sum rest (o + p.2) hrest
    have hle' : o + p.2 ≤ hs := by omega
    have hcount : p.2 ≤ s.stream.length := by
      rw [hstream, List.length_drop]; omega
    have htake := take_readInto s.buffer s.stream p.2 hcount
    have hstream' : (storeBody H s p.1 p.2).stream = B.drop (o + p.2) := by
      simp [storeBody, hstream, List.drop_drop]
    have hdata' : (storeBody H s p.1 p.2).data
        = B.take (o + p.2) ++ List.replicate (hs - (o + p.2)) 0 := by
      show writeHyperslab s.data p.1 ((readInto s.buffer s.stream p.2).take p.2) = _
      rw [htake, hp1, hdata, hstream]
      exact writeHyperslab_next B hs o p.2 hB hle'
    obtain ⟨hd, chunks, hjoin, hhashed, hwritten, hctx⟩ :=
      ih (o + p.2) (storeBody H s p.1 p.2) hrest hle' hstream' hdata'
    have hb : (storeBody H s p.1 p.2).hashed = s.hashed ++ [s.stream.take p.2] := by
      simp only [storeBody, htake]
    have hw : (storeBody H s p.1 p.2).written = s.written ++ [s.stream.take p.2] := by
      simp only [storeBody, htake]
    have hc : (storeBody H s p.1 p.2).ctx = H.update s.ctx (s.stream.take p.2) := by
      simp only [storeBody, htake]
    refine ⟨by simpa using hd, (s.stream.take p.2) :: chunks, ?_, ?_, ?_, ?_⟩
    · rw [List.flatten_cons, hjoin, hstream, ← List.drop_drop, List.take_append_drop]
    · simp only [List.foldl_cons]; rw [hhashed, hb]; simp
    · simp only [List.foldl_cons]; rw [hwritten, hw]; simp
    · simp only [List.foldl_cons]; rw [hctx, hc]

theorem hashBody_fold (H : Hasher) (B : List Byte) (k hs : Nat) (hB : B.length = hs) :
    ∀ (t : List (Nat × Nat)) (o : Nat) (s : HashState H), Sched k hs o t → o ≤ hs →
      s.stream = B.drop o →
      ∃ chunks : List (List Byte), chunks.flatten = B.drop o ∧
        (t.foldl (fun s p => hashBody H s p.1 p.2) s).hashed = s.hashed ++ chunks ∧
        (t.foldl (fun s p => hashBody H s p.1 p.2) s).ctx = chunks.foldl H.update s.ctx := by
  intro t
  induction t with
  | nil =>
    intro o s h _ _
    have ho : o = hs := h
    subst ho
    exact ⟨[], by simp [← hB], by simp, by simp⟩
  | cons p rest ih =>
    intro o s h hle hstream
    obtain ⟨hp1, hpos, _, _, hrest⟩ := h
    have hsum := Sched.sum rest (o + p.2) hrest
    have hle' : o + p.2 ≤ hs := by omega
    have hcount : p.2 ≤ s.stream.length := by
      rw [hstream, List.length_drop]; omega
    have htake := take_readInto s.buffer s.stream p.2 hcount
    have hstream' : (hashBody H s p.1 p.2).stream = B.drop (o + p.2) := by
      simp [hashBody, hstream, List.drop_drop]
    obtain ⟨chunks, hjoin, hhashed, hctx⟩ :=
      ih (o + p.2) (hashBody H s p.1 p.2) hrest hle' hstream'
    have hb : (hashBody H s p.1 p.2).hashed = s.hashed ++ [s.stream.take p.2] := by
      simp only [hashBody, htake]
    have hc : (hashBody H s p.1 p.2).ctx = H.update s.ctx (s.stream.take p.2) := by
      simp only [hashBody, htake]
    refine ⟨(s.stream.take p.2) :: chunks, ?_, ?_, ?_⟩
    · rw [List.flatten_cons, hjoin, hstream, ← List.drop_drop, List.take_append_drop]
    · simp only [List.foldl_cons]; rw [hhashed, hb]; simp
    · simp only [List.foldl_cons]; rw [hctx, hc]

/-- What the write loop of `storeFile` leaves for a file of `B.length` bytes
and a positive chunk size. -/
theorem storeLoop_result (H : Hasher) (c : Nat) (B : List Byte) (hc : 0 < c) (hc63 : c < I64)
    (hB : B.length < I64) (hne : B ≠ []) :
    ∃ s t, storeLoop H (B.length + 1) c B.length B = some (s, t) ∧ s.data = B ∧
      s.hashed.flatten = B ∧ s.written.flatten = B ∧ s.ctx = s.hashed.foldl H.update H.init := by
  have hlen : 0 < B.length := List.length_pos.mpr hne
  have hk : 0 < min c B.length := by omega
  have hk63 : min c B.length < I64 := by simp only [I64] at *; omega
  obtain ⟨t, ht, hsched⟩ := chunkLoop_sched (storeBody H) B.length (min c B.length) hk hk63 hB
    (B.length + 1) 0 (storeEntry H c B.length B) [] (Nat.zero_le _) (by omega)
  obtain ⟨hd, chunks, hjoin, hh, hw, hctx⟩ := storeBody_fold H B (min c B.length) B.length rfl t 0
    (storeEntry H c B.length B) hsched (Nat.zero_le _) (by simp [storeEntry])
    (by simp [storeEntry])
  refine ⟨_, t, by simpa [storeLoop] using ht, hd, ?_, ?_, ?_⟩
  · rw [hh]; simpa [storeEntry] using hjoin
  · rw [hw]; simpa [storeEntry] using hjoin
  · rw [hctx, hh]; simp [storeEntry]

/-- What the hash loop of `shouldStore` leaves for a file of `B.length` bytes
and a positive chunk size. -/
theorem hashLoop_result (H : Hasher) (c : Nat) (B : List Byte) (hc : 0 < c) (hc63 : c < I64)
    (hB : B.length < I64) :
    ∃ s t, hashLoop H (B.length + 1) c B.length B = some (s, t) ∧
      s.hashed.flatten = B ∧ s.ctx = s.hashed.foldl H.update H.init := by
  obtain ⟨t, ht, hsched⟩ := chunkLoop_sched (hashBody H) B.length c hc hc63 hB
    (B.length + 1) 0 (hashEntry H c B) [] (Nat.zero_le _) (by omega)
  obtain ⟨chunks, hjoin, hh, hctx⟩ := hashBody_fold H B c B.length rfl t 0
    (hashEntry H c B) hsched (Nat.zero_le _) (by simp [hashEntry])
  refine ⟨_, t, by simpa [hashLoop] using ht, ?_, ?_⟩
  · rw [hh]; simpa [hashEntry] using hjoin
  · rw [hctx, hh]; simp [hashEntry]

/-! ## Lemmas on names and association lists -/

theorem splitSlash_noSlash : ∀ (cs : List Char), (∀ c ∈ cs, c ≠ '/') → splitSlash cs = [cs]
  | [], _ => rfl
  | c :: cs, h => by
    have hc : c ≠ '/' := h c (by simp)
    have ih := splitSlash_noSlash cs (fun d hd => h d (by simp [hd]))
    simp [splitSlash, hc, ih]

theorem simpleName_iff (n : String) :
    simpleName n = true ↔
      n.data ≠ [] ∧ (∀ c ∈ n.data, c ≠ '/') ∧ n.data ≠ ['.'] ∧ n.data ≠ ['.', '.'] := by
  simp [simpleName, and_assoc]

theorem parsePath_simple (n : String) (h : simpleName n = true) : parsePath n = [n] := by
  obtain ⟨h1, h2, h3, _⟩ := (simpleName_iff n).mp h
  simp [parsePath, splitSlash_noSlash n.data h2, h1, h3]

theorem simple_ne_empty (n : String) (h : simpleName n = true) : n ≠ "" := by
  obtain ⟨h1, _, _⟩ := (simpleName_iff n).mp h
  intro h0; subst h0; exact h1 rfl

theorem resolve_simple (g : Loc) (n : String) (h : simpleName n = true) :
    resolve g n = g ++ [n] := by
  obtain ⟨h1, h2, _⟩ := (simpleName_iff n).mp h
  have hhead : n.data.head? ≠ some '/' := by
    intro hh
    cases hd : n.data with
    | nil => exact h1 hd
    | cons c cs =>
      rw [hd] at hh
      simp at hh
      exact h2 c (by rw [hd]; simp) hh
  simp [resolve, hhead, parsePath_simple n h]

theorem assoc_append_none {α β : Type} [DecidableEq α] (k : α) :
    ∀ (l m : List (α × β)), assoc k l = none → assoc k (l ++ m) = assoc k m
  | [], _, _ => rfl
  | (a, b) :: rest, m, h => by
    by_cases hk : a = k
    · simp [assoc, hk] at h
    · simp only [assoc, hk, if_false] at h
      simp only [List.cons_append, assoc, hk, if_false]
      exact assoc_append_none k rest m h

theorem assoc_append_some {α β : Type} [DecidableEq α] (k : α) (v : β) :
    ∀ (l m : List (α × β)), assoc k l = some v → assoc k (l ++ m) = some v
  | [], _, h => by simp [assoc] at h
  | (a, b) :: rest, m, h => by
    by_cases hk : a = k
    · simp only [assoc, hk, if_true] at h
      simp [assoc, hk, h]
    · simp only [assoc, hk, if_false] at h
      simp only [List.cons_append, assoc, hk, if_false]
      exact assoc_append_some k v rest m h

theorem assoc_append {α β : Type} [DecidableEq α] (k : α) (l m : List (α × β)) :
    assoc k (l ++ m) = (assoc k l).orElse (fun _ => assoc k m) := by
  cases h : assoc k l with
  | none => simp [assoc_append_none k l m h]
  | some v => simp [assoc_append_some k v l m h]

theorem assocSet_append_none {α β : Type} [DecidableEq α] (k : α) (v : β) :
    ∀ (l m : List (α × β)), assoc k l = none → assocSet k v (l ++ m) = l ++ assocSet k v m
  | [], _, _ => rfl
  | (a, b) :: rest, m, h => by
    by_cases hk : a = k
    · simp [assoc, hk] at h
    · simp only [assoc, hk, if_false] at h
      have ih := assocSet_append_none k v rest m h
      show assocSet k v ((a, b) :: (rest ++ m)) = (a, b) :: (rest ++ assocSet k v m)
      simp only [assocSet, hk, if_false, ih]

theorem assoc_assocSet_ne {α β : Type} [DecidableEq α] (k k' : α) (v : β) (hne : k' ≠ k) :
    ∀ (l : List (α × β)), assoc k' (assocSet k v l) = assoc k' l
  | [] => rfl
  | (a, b) :: rest => by
    by_cases hk : a = k
    · subst hk
      have : ¬ a = k' := fun h => hne h.symm
      simp [assocSet, assoc, this]
    · simp only [assocSet, hk, if_false, assoc]
      rw [assoc_assocSet_ne k k' v hne rest]

theorem assoc_filter_keep {α β : Type} [DecidableEq α] (k : α) (p : α × β → Bool)
    (hp : ∀ v, p (k, v) = true) :
    ∀ (l : List (α × β)), assoc k (l.filter p) = assoc k l
  | [] => rfl
  | (a, b) :: rest => by
    by_cases hk : a = k
    · subst hk
      simp [List.filter, hp b, assoc]
    · cases hpa : p (a, b) with
      | true =>
        simp only [List.filter, hpa, assoc, hk, if_false]
        exact assoc_filter_keep k p hp rest
      | false =>
        simp only [List.filter, hpa, assoc, hk, if_false]
        exact assoc_filter_keep k p hp rest

theorem assoc_filter_drop {α β : Type} [DecidableEq α] (k : α) (p : α × β → Bool)
    (hp : ∀ v, p (k, v) = false) :
    ∀ (l : List (α × β)), assoc k (l.filter p) = none
  | [] => rfl
  | (a, b) :: rest => by
    by_cases hk : a = k
    · subst hk
      simp only [List.filter, hp b]
      exact assoc_filter_drop a p hp rest
    · cases hpa : p (a, b) with
      | true =>
        simp only [List.filter, hpa, assoc, hk, if_false]
        exact assoc_filter_drop k p hp rest
      | false =>
        simp only [List.filter, hpa]
        exact assoc_filter_drop k p hp rest

/-! ## Lemmas on the calls of the container -/

theorem not_isPrefixOf_snoc (g : Loc) (n : String) : (g ++ [n]).isPrefixOf g = false := by
  cases h : (g ++ [n]).isPrefixOf g with
  | false => rfl
  | true =>
    have hp : (g ++ [n]) <+: g := List.isPrefixOf_iff_prefix.mp h
    have := hp.length_le
    simp at this

theorem isPrefixOf_self (q : Loc) : q.isPrefixOf q = true :=
  List.isPrefixOf_iff_prefix.mpr (List.prefix_refl q)

/-- Looking up a place in a container given by its parts. -/
theorem find_mk (r : Attrs) (L : List (Loc × Node)) (q : Loc) (hq : q ≠ []) :
    H5File.find { rootAttrs := r, links := L } q = assoc q L := by
  simp [H5File.find, hq]

theorem isGroup_root (f : H5File) : f.isGroup [] = true := by
  simp [H5File.isGroup, H5File.find]

/-- After the links at and below `g ++ [n]` are cleared, the name is free and
the group `g` is still a group. -/
theorem cleared_spec (f : H5File) (g : Loc) (n : String) (hg : f.isGroup g = true) :
    assoc (g ++ [n]) (f.cleared (g ++ [n])) = none ∧
    H5File.isGroup { f with links := f.cleared (g ++ [n]) } g = true := by
  have hq : g ++ [n] ≠ [] := by simp
  unfold H5File.cleared
  by_cases hex : (f.find (g ++ [n])).isSome = true
  · simp only [hex, if_true]
    refine ⟨assoc_filter_drop _ _ (fun v => by simp [isPrefixOf_self]) _, ?_⟩
    by_cases hg0 : g = []
    · subst hg0; exact isGroup_root _
    · have hkeep : assoc g (f.links.filter (fun e => !((g ++ [n]).isPrefixOf e.1))) = assoc g f.links :=
        assoc_filter_keep _ _ (fun v => by simp [not_isPrefixOf_snoc]) _
      simp only [H5File.isGroup, H5File.find, hg0, if_false, hkeep]
      simpa [H5File.isGroup, H5File.find, hg0] using hg
  · simp only [hex]
    refine ⟨?_, ?_⟩
    · have : f.find (g ++ [n]) = none := by
        cases h : f.find (g ++ [n]) with
        | none => rfl
        | some v => simp [h] at hex
      simpa [H5File.find, hq] using this
    · simpa using hg

theorem nameExists_simple (f : H5File) (g : Loc) (n : String) (hn : simpleName n = true)
    (hg : f.isGroup g = true) :
    f.nameExists g n = .ok (f.find (g ++ [n])).isSome := by
  have hq : g ++ [n] ≠ [] := by simp
  simp [H5File.nameExists, simple_ne_empty n hn, resolve_simple g n hn, hq, hg]
  rfl

theorem unlink_simple (f : H5File) (g : Loc) (n : String) (hn : simpleName n = true)
    (hex : (f.find (g ++ [n])).isSome = true) :
    f.unlink g n = .ok { f with links := f.cleared (g ++ [n]) } := by
  have hq : g ++ [n] ≠ [] := by simp
  cases h : f.find (g ++ [n]) with
  | none => simp [h] at hex
  | some v =>
    simp [H5File.unlink, resolve_simple g n hn, hq, h, H5File.cleared]
    rfl

theorem insert_free (r : Attrs) (L : List (Loc × Node)) (g : Loc) (n : String) (node : Node)
    (what : String) (hfree : assoc (g ++ [n]) L = none)
    (hg : H5File.isGroup { rootAttrs := r, links := L } g = true) :
    H5File.insert { rootAttrs := r, links := L } (g ++ [n]) node what
      = .ok { rootAttrs := r, links := L ++ [(g ++ [n], node)] } := by
  have hq : g ++ [n] ≠ [] := by simp
  simp [H5File.insert, hq, hg, H5File.find, hfree]
  rfl

theorem createAttribute_tip (r : Attrs) (L : List (Loc × Node)) (q : Loc) (node : Node)
    (a : Attrs) (name : String) (v : AttrVal) (hq : q ≠ []) (hfree : assoc q L = none)
    (ha : H5File.attrsOf node = some a) (hnew : assoc name a = none) :
    H5File.createAttribute { rootAttrs := r, links := L ++ [(q, node)] } q name v
      = .ok { rootAttrs := r, links := L ++ [(q, H5File.withAttrs node (a ++ [(name, v)]))] } := by
  have hfind : assoc q (L ++ [(q, node)]) = some node := by
    rw [assoc_append_none q L _ hfree]; simp [assoc]
  have hset : assocSet q (H5File.withAttrs node (a ++ [(name, v)])) (L ++ [(q, node)])
      = L ++ [(q, H5File.withAttrs node (a ++ [(name, v)]))] := by
    rw [assocSet_append_none q _ L _ hfree]; simp [assocSet]
  simp [H5File.createAttribute, H5File.find, hq, hfind, ha, hnew, hset]
  rfl

theorem writeData_tip (r : Attrs) (L : List (Loc × Node)) (q : Loc) (e : Nat) (d : List Nat)
    (b data : List Byte) (a : Attrs) (hq : q ≠ []) (hfree : assoc q L = none) :
    H5File.writeData { rootAttrs := r, links := L ++ [(q, Node.dataset e d b a)] } q data
      = .ok { rootAttrs := r, links := L ++ [(q, Node.dataset e d data a)] } := by
  have hfind : assoc q (L ++ [(q, Node.dataset e d b a)]) = some (Node.dataset e d b a) := by
    rw [assoc_append_none q L _ hfree]; simp [assoc]
  have hset : assocSet q (Node.dataset e d data a) (L ++ [(q, Node.dataset e d b a)])
      = L ++ [(q, Node.dataset e d data a)] := by
    rw [assocSet_append_none q _ L _ hfree]; simp [assocSet]
  simp [H5File.writeData, H5File.find, hq, hfind, hset]
  rfl

theorem chunkSize_of (opts : Opts) (c : Nat) (h : opts.chunk = some (c : Int)) (hc : c < I64) :
    opts.chunkSize = c := by
  simp only [Opts.chunkSize, h, Option.getD_some, U64]
  simp only [I64] at hc
  omega


theorem createDataSet_free (r : Attrs) (L : List (Loc × Node)) (g : Loc) (n : String) (hs : Nat)
    (hn : simpleName n = true) (hfree : assoc (g ++ [n]) L = none)
    (hg : H5File.isGroup { rootAttrs := r, links := L } g = true) :
    H5File.createDataSet { rootAttrs := r, links := L } g n hs
      = .ok { rootAttrs := r,
              links := L ++ [(g ++ [n], Node.dataset 1 [hs] (List.replicate hs 0) [])] } := by
  unfold H5File.createDataSet
  rw [resolve_simple g n hn]
  exact insert_free r L g n _ _ hfree hg

theorem createAttribute_dataset (r : Attrs) (L : List (Loc × Node)) (q : Loc) {e : Nat}
    {d : List Nat} {b : List Byte} {a : Attrs} (name : String) (v : AttrVal) (hq : q ≠ [])
    (hfree : assoc q L = none) (hnew : assoc name a = none) :
    H5File.createAttribute { rootAttrs := r, links := L ++ [(q, Node.dataset e d b a)] } q name v
      = .ok { rootAttrs := r, links := L ++ [(q, Node.dataset e d b (a ++ [(name, v)]))] } :=
  createAttribute_tip r L q _ a name v hq hfree rfl hnew

/-- The container `createAndFill` returns for a free name in a group. -/
theorem createAndFill_ok (H : Hasher) (opts : Opts) (r : Attrs) (L : List (Loc × Node))
    (group : Loc) (name : String) (src : Source) (c : Nat)
    (hchunk : opts.chunk = some (c : Int)) (hc : 0 < c) (hc63 : c < I64)
    (hsize : src.stat.st_size = src.content.length) (hlen : src.content.length < I64)
    (hname : simpleName name = true) (hfree : assoc (group ++ [name]) L = none)
    (hgroup : H5File.isGroup { rootAttrs := r, links := L } group = true) :
    ∃ h : String,
      createAndFill H opts { rootAttrs := r, links := L } group name src = .ok
        { rootAttrs := r
          links := L ++ [(group ++ [name], Node.dataset 1 [src.content.length] src.content
            (datasetAttrs h src.stat (decide (src.content = []))))] } ∧
      (src.content = [] → h = "d41d8cd98f00b204e9800998ecf8427e") ∧
      (src.content ≠ [] → ∃ s t,
        storeLoop H (src.content.length + 1) c src.content.length src.content = some (s, t) ∧
        s.hashed.flatten = src.content ∧ s.written.flatten = src.content ∧
        h = digestString (H.final (s.hashed.foldl H.update H.init))) := by
  have hq : group ++ [name] ≠ [] := by simp
  have hcs := chunkSize_of opts c hchunk hc63
  have hhs : src.stat.st_size % U64 = src.content.length := by
    rw [hsize]; simp only [U64]; simp only [I64] at hlen; omega
  have hres := resolve_simple group name hname
  by_cases hB : src.content = []
  · refine ⟨"d41d8cd98f00b204e9800998ecf8427e", ?_, fun _ => rfl, fun h => absurd hB h⟩
    have hlen0 : src.content.length = 0 := by simp [hB]
    have hmin : min c (src.content.length) = 0 := by omega
    unfold createAndFill
    simp only [hcs, hhs, hmin, if_true, hres]
    rw [createDataSet_free r L group name _ hname hfree hgroup]
    simp only [bind, Except.bind]
    rw [createAttribute_dataset r L _ "Created" _ hq hfree (by simp [assoc])]
    simp only [List.nil_append]
    rw [createAttribute_dataset r L _ "Modified" _ hq hfree (by simp [assoc])]
    simp only [List.cons_append, List.nil_append]
    rw [createAttribute_dataset r L _ "MD5Hash" _ hq hfree (by simp [assoc])]
    simp only [List.cons_append, List.nil_append]
    rw [createAttribute_dataset r L _ "Permissions" _ hq hfree (by simp [assoc])]
    simp [datasetAttrs, hB]
  · obtain ⟨s, t, hloop, hdata, hh, hw, hctx⟩ := storeLoop_result H c src.content hc hc63 hlen hB
    refine ⟨digestString (H.final (s.hashed.foldl H.update H.init)), ?_, fun h => absurd h hB,
      fun _ => ⟨s, t, hloop, hh, hw, rfl⟩⟩
    have hpos : 0 < src.content.length := List.length_pos.mpr hB
    have hmin : ¬ (min c (src.content.length) = 0) := by omega
    unfold createAndFill
    simp only [hcs, hhs, hmin, if_false, hres]
    rw [createDataSet_free r L group name _ hname hfree hgroup]
    simp only [bind, Except.bind, hloop]
    rw [writeData_tip r L _ _ _ _ s.data _ hq hfree]
    simp only []
    rw [createAttribute_dataset r L _ "MD5Hash" _ hq hfree (by simp [assoc])]
    simp only [List.nil_append]
    rw [createAttribute_dataset r L _ "Created" _ hq hfree (by simp [assoc])]
    simp only [List.cons_append, List.nil_append]
    rw [createAttribute_dataset r L _ "Modified" _ hq hfree (by simp [assoc])]
    simp only [List.cons_append, List.nil_append]
    rw [createAttribute_dataset r L _ "Permissions" _ hq hfree (by simp [assoc])]
    simp [datasetAttrs, hB, hdata, hctx]

/-- The state `storeFile` returns for a name that is a plain file name in a
group of the container. -/
theorem storeFile_ok (H : Hasher) (opts : Opts) (st : Packer) (group : Loc)
    (filePath name : String) (src : Source) (c : Nat)
    (hchunk : opts.chunk = some (c : Int)) (hc : 0 < c) (hc63 : c < I64)
    (hsize : src.stat.st_size = src.content.length) (hlen : src.content.length < I64)
    (hname : simpleName name = true) (hgroup : st.file.isGroup group = true) :
    ∃ h : String,
      storeFile H opts st group filePath name src = .ok
        { st with
          calls := st.calls ++ [Call.storeFile group filePath name]
          file := { rootAttrs := st.file.rootAttrs
                    links := st.file.cleared (group ++ [name]) ++
                      [(group ++ [name], Node.dataset 1 [src.content.length] src.content
                        (datasetAttrs h src.stat (decide (src.content = []))))] } } ∧
      (src.content = [] → h = "d41d8cd98f00b204e9800998ecf8427e") ∧
      (src.content ≠ [] → ∃ s t,
        storeLoop H (src.content.length + 1) c src.content.length src.content = some (s, t) ∧
        s.hashed.flatten = src.content ∧ s.written.flatten = src.content ∧
        h = digestString (H.final (s.hashed.foldl H.update H.init))) := by
  obtain ⟨hfree, hgrp⟩ := cleared_spec st.file group name hgroup
  obtain ⟨h, hfill, h1, h2⟩ := createAndFill_ok H opts st.file.rootAttrs
    (st.file.cleared (group ++ [name])) group name src c hchunk hc hc63 hsize hlen hname hfree hgrp
  refine ⟨h, ?_, h1, h2⟩
  unfold storeFile
  simp only []
  rw [nameExists_simple st.file group name hname hgroup]
  by_cases hex : (st.file.find (group ++ [name])).isSome = true
  · simp only [hex, bind, Except.bind, if_true]
    rw [unlink_simple st.file group name hname hex]
    simp only []
    rw [hfill]
    rfl
  · have hex' : (st.file.find (group ++ [name])).isSome = false := by simpa using hex
    have hcl : st.file.cleared (group ++ [name]) = st.file.links := by
      simp [H5File.cleared, hex']
    rw [hcl] at hfill ⊢
    have hfill' : createAndFill H opts st.file group name src = _ := hfill
    simp only [hex', bind, Except.bind, pure, Except.pure]
    rw [hfill']
    rfl

/-! ## The hash attribute -/

theorem hexDigit_mem (n : Nat) (h : n < 16) : hexDigit n ∈ "0123456789abcdef".data := by
  interval_cases n <;> decide

theorem hex2_mem (b : Byte) : ∀ ch ∈ hex2 b, ch ∈ "0123456789abcdef".data := by
  intro ch hch
  have hb := b.isLt
  simp only [hex2, List.mem_cons, List.mem_singleton, List.not_mem_nil, or_false] at hch
  rcases hch with h | h
  · rw [h]; exact hexDigit_mem _ (by omega)
  · rw [h]; exact hexDigit_mem _ (by omega)

theorem digestString_hex (d : List Byte) :
    ∀ ch ∈ (digestString d).data, ch ∈ "0123456789abcdef".data := by
  intro ch hch
  simp only [digestString, List.mem_flatMap] at hch
  obtain ⟨i, _, hi⟩ := hch
  exact hex2_mem _ ch hi

theorem flatMap_length_two {α β : Type} (f : α → List β) (h : ∀ a, (f a).length = 2) :
    ∀ l : List α, (l.flatMap f).length = 2 * l.length
  | [] => rfl
  | a :: l => by
    simp only [List.flatMap_cons, List.length_append, h a, flatMap_length_two f h l,
      List.length_cons]
    omega

theorem digestString_length (d : List Byte) : (digestString d).length = 32 := by
  simp only [digestString, String.length]
  rw [flatMap_length_two _ (fun i => by simp [hex2])]
  simp only [List.length_range]
  rfl

theorem md5Hasher_isMD5 : md5Hasher.IsMD5 := by
  intro chunks
  have h : ∀ (cs : List (List Byte)) (acc : List Byte),
      cs.foldl md5Hasher.update acc = acc ++ cs.flatten := by
    intro cs
    induction cs with
    | nil => intro acc; simp
    | cons c cs ih =>
      intro acc
      simp only [List.foldl_cons, List.flatten_cons]
      rw [ih]
      simp [md5Hasher]
  show md5 (chunks.foldl md5Hasher.update []) = md5 chunks.flatten
  rw [h]; simp

set_option maxRecDepth 100000 in
theorem md5_empty : digestString (md5 []) = "d41d8cd98f00b204e9800998ecf8427e" := by
  decide

set_option maxRecDepth 100000 in
theorem md5_abc : digestString (md5 [97, 98, 99]) = "900150983cd24fb0d6963f7d28e17f72" := by
  decide

theorem find_tip (r : Attrs) (L : List (Loc × Node)) (q : Loc) (node : Node) (hq : q ≠ [])
    (hfree : assoc q L = none) :
    H5File.find { rootAttrs := r, links := L ++ [(q, node)] } q = some node := by
  rw [find_mk r _ q hq, assoc_append_none q L _ hfree]
  simp [assoc]

theorem assoc_md5 (h : String) (result : Stat) (b : Bool) :
    assoc "MD5Hash" (datasetAttrs h result b) = some (AttrVal.str h) := by
  cases b <;> simp [datasetAttrs, assoc]

/-- C2. MD5 invariant: when the hash primitive computes MD5, `storeFile` for a
file content `B` and a positive chunk option returns, and leaves under the
name a dataset whose bytes are `B` and whose `MD5Hash` attribute is the 32
lowercase hexadecimal characters of the MD5 digest of exactly these bytes; for
a content that is not empty the write loop returns, the concatenation of the
pieces it fed to the hash and the concatenation of the pieces it wrote to the
dataset are both `B`, and the attribute is the digest of what was fed. -/
theorem C2_md5_invariant (H : Hasher) (opts : Opts) (st : Packer) (group : Loc)
    (filePath name : String) (src : Source) (c : Nat) (hmd5 : H.IsMD5)
    (hchunk : opts.chunk = some (c : Int)) (hc : 0 < c) (hc63 : c < I64)
    (hsize : src.stat.st_size = src.content.length) (hlen : src.content.length < I64)
    (hname : simpleName name = true) (hgroup : st.file.isGroup group = true) :
    ∃ (st' : Packer) (data : List Byte) (attrs : Attrs) (h : String),
      storeFile H opts st group filePath name src = .ok st' ∧
      st'.file.find (group ++ [name]) = some (Node.dataset 1 [data.length] data attrs) ∧
      data = src.content ∧
      assoc "MD5Hash" attrs = some (AttrVal.str h) ∧
      h = digestString (md5 data) ∧
      h.length = 32 ∧ (∀ ch ∈ h.data, ch ∈ "0123456789abcdef".data) ∧
      (src.content ≠ [] → ∃ s t,
        storeLoop H (src.content.length + 1) c src.content.length src.content = some (s, t) ∧
        s.hashed.flatten = src.content ∧ s.written.flatten = src.content ∧
        s.data = src.content ∧
        h = digestString (H.final (s.hashed.foldl H.update H.init))) := by
  obtain ⟨h, hstore, hempty, hfull⟩ := storeFile_ok H opts st group filePath name src c hchunk hc
    hc63 hsize hlen hname hgroup
  obtain ⟨hfree, _⟩ := cleared_spec st.file group name hgroup
  have hh : h = digestString (md5 src.content) := by
    by_cases hB : src.content = []
    · rw [hempty hB, hB]; exact md5_empty.symm
    · obtain ⟨s, t, _, hflat, _, hd⟩ := hfull hB
      rw [hd, hmd5 s.hashed, hflat]
  refine ⟨_, src.content, datasetAttrs h src.stat (decide (src.content = [])), h, hstore, ?_,
    rfl, assoc_md5 h _ _, hh, ?_, ?_, ?_⟩
  · exact find_tip _ _ _ _ (by simp) hfree
  · rw [hh]; exact digestString_length _
  · rw [hh]; exact digestString_hex _
  · intro hB
    obtain ⟨s, t, hloop, hflat, hw, hd⟩ := hfull hB
    obtain ⟨s', t', hloop', hdata', _, _, _⟩ :=
      storeLoop_result H c src.content hc hc63 hlen hB
    rw [hloop] at hloop'
    have hs : s = s' := by injection hloop' with h1; exact (Prod.mk.inj h1).1
    exact ⟨s, t, hloop, hflat, hw, hs ▸ hdata', hd⟩

/-- C2 at the file `a.txt` with content `abc`, stored with a chunk option of 2
in the root group of a new container. -/
theorem C2_md5_invariant_witness :
    ∃ (st' : Packer) (data : List Byte) (attrs : Attrs) (h : String),
      storeFile md5Hasher { noOpts with chunk := some 2 } { file := emptyFile } []
        "/base/a.txt" "a.txt" (regFile "a.txt" 11 1 [97, 98, 99]) = .ok st' ∧
      st'.file.find ([] ++ ["a.txt"]) = some (Node.dataset 1 [data.length] data attrs) ∧
      data = (regFile "a.txt" 11 1 [97, 98, 99]).content ∧
      assoc "MD5Hash" attrs = some (AttrVal.str h) ∧
      h = digestString (md5 data) ∧
      h.length = 32 ∧ (∀ ch ∈ h.data, ch ∈ "0123456789abcdef".data) ∧
      ((regFile "a.txt" 11 1 [97, 98, 99]).content ≠ [] → ∃ s t,
        storeLoop md5Hasher ((regFile "a.txt" 11 1 [97, 98, 99]).content.length + 1) 2
          (regFile "a.txt" 11 1 [97, 98, 99]).content.length
          (regFile "a.txt" 11 1 [97, 98, 99]).content = some (s, t) ∧
        s.hashed.flatten = (regFile "a.txt" 11 1 [97, 98, 99]).content ∧
        s.written.flatten = (regFile "a.txt" 11 1 [97, 98, 99]).content ∧
        s.data = (regFile "a.txt" 11 1 [97, 98, 99]).content ∧
        h = digestString (md5Hasher.final (s.hashed.foldl md5Hasher.update md5Hasher.init))) :=
  C2_md5_invariant md5Hasher { noOpts with chunk := some 2 } { file := emptyFile } []
    "/base/a.txt" "a.txt" (regFile "a.txt" 11 1 [97, 98, 99]) 2 md5Hasher_isMD5 rfl (by decide)
    (by decide) rfl (by decide) (by decide) (by decide)

/-- Scenario S1 of the specification: the hash attribute of a file with content
`abc`. -/
theorem storeFile_abc :
    (storeFile md5Hasher noOpts { file := emptyFile } [] "/base/a.txt" "a.txt"
      (regFile "a.txt" 11 1 [97, 98, 99])).toOption.map (fun st => st.file.links)
    = some [(["a.txt"], Node.dataset 1 [3] [97, 98, 99]
        [("MD5Hash", AttrVal.str "900150983cd24fb0d6963f7d28e17f72"),
         ("Created", AttrVal.int64 6), ("Modified", AttrVal.int64 5),
         ("Permissions", AttrVal.uint32 33188)])] := by
  decide
/-! ## Lemmas on the adapter -/

theorem assoc_snoc_ne {α β : Type} [DecidableEq α] (k k' : α) (v : β) (hne : k' ≠ k)
    (l : List (α × β)) : assoc k' (l ++ [(k, v)]) = assoc k' l := by
  rw [assoc_append]
  cases h : assoc k' l with
  | none =>
    have : ¬ k = k' := fun h => hne h.symm
    simp [assoc, this]
  | some w => simp

theorem assoc_assocSet_same {α β : Type} [DecidableEq α] (k : α) (v : β) :
    ∀ (l : List (α × β)), (assoc k l).isSome = true → assoc k (assocSet k v l) = some v
  | [], h => by simp [assoc] at h
  | (a, b) :: rest, h => by
    by_cases hk : a = k
    · simp [assocSet, assoc, hk]
    · simp only [assoc, hk, if_false] at h
      simp only [assocSet, hk, if_false, assoc]
      exact assoc_assocSet_same k v rest h

theorem cleared_keep (f : H5File) (q p : Loc) (hp : q.isPrefixOf p = false) :
    assoc p (f.cleared q) = assoc p f.links := by
  unfold H5File.cleared
  split
  · exact assoc_filter_keep p _ (fun v => by simp [hp]) _
  · rfl

/-- A path of plain names, each of which leads to an object that is not a soft
link, is walked name by name. -/
theorem walk_plain (f : H5File) (follow : Bool) :
    ∀ (rest : List String) (cur : Loc) (fuel : Nat), rest.length < fuel →
      (∀ p : List String, p <+: rest → p ≠ [] →
        ∃ n, f.find (cur ++ p) = some n ∧ ∀ t, n ≠ Node.soft t) →
      f.walk fuel cur rest follow = some (cur ++ rest) := by
  intro rest
  induction rest with
  | nil =>
    intro cur fuel hfuel _
    obtain ⟨k, rfl⟩ : ∃ k, fuel = k + 1 := ⟨fuel - 1, by simp at hfuel; omega⟩
    simp [H5File.walk]
  | cons c rest ih =>
    intro cur fuel hfuel hall
    obtain ⟨k, rfl⟩ : ∃ k, fuel = k + 1 := ⟨fuel - 1, by simp at hfuel; omega⟩
    obtain ⟨n, hn, hsoft⟩ := hall [c] (by simp) (by simp)
    have hrec : f.walk k (cur ++ [c]) rest follow = some (cur ++ [c] ++ rest) := by
      apply ih (cur ++ [c]) k (by simp at hfuel; omega)
      intro p hp hne
      have := hall (c :: p) (by simpa using hp) (by simp)
      simpa using this
    rw [H5File.walk, hn]
    cases n with
    | soft t => exact absurd rfl (hsoft t)
    | group a => simpa using hrec
    | dataset e d b a => simpa using hrec

theorem isGroup_find (f : H5File) (p : Loc) (h : f.isGroup p = true) :
    ∃ a, f.find p = some (Node.group a) := by
  unfold H5File.isGroup at h
  split at h
  · rename_i a heq; exact ⟨a, heq⟩
  · simp at h

theorem walk_reachable (f : H5File) (g : Loc) (fuel : Nat) (follow : Bool)
    (hreach : f.Reachable g) (hfuel : g.length < fuel) :
    f.walk fuel [] g follow = some g := by
  have := walk_plain f follow g [] fuel hfuel (by
    intro p hp _
    obtain ⟨a, ha⟩ := isGroup_find f p (hreach p hp)
    exact ⟨_, by simpa using ha, fun t => by simp⟩)
  simpa using this

theorem walk_dataset (f : H5File) (g : Loc) (name : String) (fuel : Nat) (follow : Bool)
    {e : Nat} {d : List Nat} {b : List Byte} {a : Attrs}
    (hreach : f.Reachable g) (hds : f.find (g ++ [name]) = some (Node.dataset e d b a))
    (hfuel : g.length + 1 < fuel) :
    f.walk fuel [] (g ++ [name]) follow = some (g ++ [name]) := by
  have := walk_plain f follow (g ++ [name]) [] fuel (by simp; omega) (by
    intro p hp _
    rcases List.prefix_concat_iff.mp hp with h | h
    · subst h
      exact ⟨_, by simpa using hds, fun t => by simp⟩
    · obtain ⟨a, ha⟩ := isGroup_find f p (hreach p h)
      exact ⟨_, by simpa using ha, fun t => by simp⟩)
  simpa using this

theorem parsePath_ne_empty (path : String) (h : parsePath path ≠ []) : path ≠ "" := by
  intro h0
  subst h0
  exact h (by decide)

/-- What the adapter finds at a path that names a dataset in a group reached
through groups. -/
theorem mount_dataset (m : Mount) (path : String) (g : Loc) (name : String)
    {e : Nat} {d : List Nat} {b : List Byte} {a : Attrs}
    (hparse : parsePath path = g ++ [name]) (hreach : m.mainfile.Reachable g)
    (hds : m.mainfile.find (g ++ [name]) = some (Node.dataset e d b a))
    (hfuel : g.length + 1 < m.nlinks) :
    m.nameExists path = .ok true ∧ m.softTarget path = none ∧
    m.lookup path true = some (g ++ [name]) ∧
    m.object path = some (Node.dataset e d b a) ∧
    m.childObjType path = .ok ObjType.DATASET := by
  have hne : path ≠ "" := parsePath_ne_empty path (by rw [hparse]; simp)
  have hlook : ∀ follow, m.lookup path follow = some (g ++ [name]) := by
    intro follow
    unfold Mount.lookup
    rw [hparse]
    exact walk_dataset m.mainfile g name m.nlinks follow hreach hds hfuel
  have hobj : m.object path = some (Node.dataset e d b a) := by
    simp [Mount.object, hlook true, hds]
  refine ⟨?_, ?_, hlook true, hobj, ?_⟩
  · have hw := walk_reachable m.mainfile g m.nlinks true hreach (by omega)
    have hg : m.mainfile.isGroup g = true := hreach g (List.prefix_refl g)
    simp [Mount.nameExists, hne, hparse, hw, hg, hds]
    rfl
  · simp [Mount.softTarget, hlook false, hds]
  · simp [Mount.childObjType, hobj]
    rfl

theorem overrideFromAttrs_datasetAttrs (sb : StatBuf) (h : String) (result : Stat) (b : Bool)
    (kind : Nat) :
    ∃ sb', overrideFromAttrs sb (datasetAttrs h result b) kind = .ok sb' ∧
      sb'.st_size = sb.st_size := by
  refine ⟨{ sb with
    st_mode := (kind ||| ((Int.ofNat (result.st_mode % 4294967296)) % (U64 : Int)).toNat)
      % 4294967296
    st_ctime := result.st_ctime
    st_mtime := result.st_mtime }, ?_, rfl⟩
  cases b <;>
    simp [overrideFromAttrs, datasetAttrs, attrInt64, assoc, readInt64,
      bind, Except.bind, pure, Except.pure]

theorem getDatasetSize_bytes (n : Nat) (h : n < U64) : getDatasetSize 1 [n] = n := by
  simp only [getDatasetSize, List.foldl_cons, List.foldl_nil, U64] at *
  omega

theorem slice_eq (B : List Byte) (o n : Nat) :
    slice B o n = (B.drop o).take (min n (B.length - o)) := by
  unfold slice
  rw [List.drop_take]
  congr 1
  omega

theorem slice_beyond (B : List Byte) (o n : Nat) (h : B.length ≤ o) : slice B o n = [] := by
  rw [slice_eq]
  have : B.length - o = 0 := by omega
  simp [this]

theorem memcpyFrom_slice (B : List Byte) (o n : Nat) (h : o < B.length) :
    memcpyFrom B o (min n (B.length - o)) = some (slice B o n) := by
  have : o + min n (B.length - o) ≤ B.length := by omega
  simp [memcpyFrom, this, slice_eq]

theorem image_slice (image B : List Byte) (addr o s : Nat) (h : o + s ≤ B.length)
    (himg : (image.drop addr).take B.length = B) :
    (image.drop (addr + o)).take s = (B.drop o).take s := by
  have hdrop : image.drop (addr + o) = (image.drop addr).drop o := by
    rw [List.drop_drop]
  rw [hdrop]
  generalize image.drop addr = X at himg
  have hB : List.take (o + s) B = List.take (o + s) X := by
    conv_lhs => rw [← himg]
    rw [List.take_take]
    congr 1
    omega
  rw [List.take_drop, List.take_drop, hB]

theorem not_dot_paths (path : String) (g : Loc) (name : String) (hname : simpleName name = true)
    (hparse : parsePath path = g ++ [name]) : path ≠ "." ∧ path ≠ ".." := by
  obtain ⟨_, _, _, h4⟩ := (simpleName_iff name).mp hname
  constructor
  · intro h; subst h
    have : parsePath "." = [] := by decide
    rw [this] at hparse
    simp at hparse
  · intro h; subst h
    have : parsePath ".." = [".."] := by decide
    rw [this] at hparse
    have hlen : g.length + 1 = 1 := by
      have := congrArg List.length hparse
      simpa using this.symm
    have hg : g = [] := List.length_eq_zero.mp (by omega)
    subst hg
    simp at hparse
    exact h4 (by rw [← hparse])

/-- The stat buffer `h5vfs_getattr` fills for a dataset the Packer wrote. -/
theorem getattr_stored (m : Mount) (path : String) (g : Loc) (name : String) (B : List Byte)
    (h : String) (result : Stat) (isEmpty : Bool) (hname : simpleName name = true)
    (hparse : parsePath path = g ++ [name]) (hreach : m.mainfile.Reachable g)
    (hds : m.mainfile.find (g ++ [name])
      = some (Node.dataset 1 [B.length] B (datasetAttrs h result isEmpty)))
    (hfuel : g.length + 1 < m.nlinks) (hB : B.length < I64) :
    ∃ sb, h5vfs_getattr m path = .ok (0, sb) ∧ sb.st_size = B.length := by
  obtain ⟨hex, hsoft, _, hobj, hct⟩ := mount_dataset m path g name hparse hreach hds hfuel
  obtain ⟨hd1, hd2⟩ := not_dot_paths path g name hname hparse
  obtain ⟨sb, hsb, hsize⟩ := overrideFromAttrs_datasetAttrs
    { st_uid := m.uid, st_gid := m.gid, st_ctime := m.lastModified, st_mtime := m.lastModified,
      st_mode := S_IFREG ||| 0o444, st_nlink := 1, st_size := getDatasetSize 1 [B.length] }
    h result isEmpty S_IFREG
  refine ⟨sb, ?_, ?_⟩
  · unfold h5vfs_getattr
    simp only [hd1, hd2, decide_False, Bool.or_self, Bool.false_eq_true, if_false, hex, hsoft,
      hct, hobj, bind, Except.bind, Bool.not_true]
    simp only [hsb]
    rfl
  · rw [hsize]
    exact getDatasetSize_bytes _ (by simp only [U64, I64] at *; omega)

/-- The table entry `h5vfs_open` makes for a dataset that is not open yet. -/
theorem open_stored (m : Mount) (t : OpenFiles) (path : String) (g : Loc) (name : String)
    (B : List Byte) (a : Attrs) (hparse : parsePath path = g ++ [name])
    (hreach : m.mainfile.Reachable g)
    (hds : m.mainfile.find (g ++ [name]) = some (Node.dataset 1 [B.length] B a))
    (hfuel : g.length + 1 < m.nlinks) (hB : B.length < I64) (hnew : assoc path t = none) :
    ∃ file, h5vfs_open m t path = .ok (0, t ++ [(path, file)]) ∧
      Consistent (g ++ [name]) B file ∧ file.refcount = 1 := by
  obtain ⟨hex, _, hlook, _, _⟩ := mount_dataset m path g name hparse hreach hds hfuel
  have hsz : getDatasetSize 1 [B.length] = B.length :=
    getDatasetSize_bytes _ (by simp only [U64, I64] at *; omega)
  refine ⟨{ dataset := g ++ [name], dim := B.length, isOpen := true, refcount := 1,
            buffer := none }, ?_, ⟨rfl, rfl, Or.inl rfl⟩, rfl⟩
  unfold h5vfs_open
  simp only [hex, bind, Except.bind, Bool.not_true, Bool.false_eq_true, if_false, hnew,
    h5vfsFile.open, hlook, hds, hsz]
  rfl

/-- What `h5vfs_read` copies from a dataset whose table entry agrees with it. -/
theorem read_consistent (m : Mount) (t : OpenFiles) (path : String) (q : Loc) (B : List Byte)
    (file : h5vfsFile) (o n : Nat) {e : Nat} {d : List Nat} {a : Attrs}
    (hds : m.mainfile.find q = some (Node.dataset e d B a))
    (hlayout : ∀ addr, m.getOffset q = some addr →
      addr + B.length < U64 ∧ (m.image.drop addr).take B.length = B)
    (ht : assoc path t = some file) (hcons : Consistent q B file)
    (ho : o < I64) (hn : n < I64) :
    ∃ r, h5vfs_read m t path n o = .ok r ∧ r.buf = some (slice B o n) ∧
      ∃ file', assoc path r.openFiles = some file' ∧ Consistent q B file' := by
  obtain ⟨hq, hdim, hbuf⟩ := hcons
  refine ⟨readDataset m t path file n o, by simp [h5vfs_read, ht]; rfl, ?_⟩
  unfold readDataset
  have ho64 : o % U64 = o := by simp only [U64, I64] at *; omega
  have hsum : (o + n) % U64 = o + n := by simp only [U64, I64] at *; omega
  rw [ho64, hsum, hdim]
  by_cases hbeyond : o ≥ B.length
  · simp only [hbeyond, if_true]
    exact ⟨by rw [slice_beyond B o n hbeyond], file, ht, hq, hdim, hbuf⟩
  · have hlt : o < B.length := by omega
    have hsize : (if o + n > B.length then B.length - o else n) = min n (B.length - o) := by
      split <;> omega
    simp only [hbeyond, if_false, hsize]
    rcases hbuf with hnone | hsome
    · rw [hnone, hq]
      cases hoff : m.getOffset q with
      | some addr =>
        obtain ⟨haddr, himg⟩ := hlayout addr hoff
        have hmod : (addr + o) % U64 = addr + o := by simp only [U64] at *; omega
        refine ⟨?_, file, ht, hq, hdim, Or.inl hnone⟩
        simp only [hmod]
        rw [image_slice m.image B addr o _ (by omega) himg, slice_eq]
      | none =>
        simp only [hds]
        exact ⟨memcpyFrom_slice B o n hlt, _, assoc_assocSet_same path _ t (by simp [ht]),
          rfl, rfl, Or.inr rfl⟩
    · rw [hsome]
      exact ⟨memcpyFrom_slice B o n hlt, file, ht, hq, hdim, Or.inr hsome⟩

theorem reachable_stored (f : H5File) (g : Loc) (name : String) (node : Node)
    (hreach : f.Reachable g) :
    H5File.Reachable { rootAttrs := f.rootAttrs,
                       links := f.cleared (g ++ [name]) ++ [(g ++ [name], node)] } g := by
  intro p hp
  have hlen := hp.length_le
  have hne : p ≠ g ++ [name] := by
    intro h; rw [h] at hlen; simp at hlen
  have hnp : (g ++ [name]).isPrefixOf p = false := by
    cases hb : (g ++ [name]).isPrefixOf p with
    | false => rfl
    | true =>
      have := (List.isPrefixOf_iff_prefix.mp hb).length_le
      simp at this; omega
  have hgp := hreach p hp
  by_cases hp0 : p = []
  · subst hp0; exact isGroup_root _
  · have hfind : H5File.find
        ⟨f.rootAttrs, f.cleared (g ++ [name]) ++ [(g ++ [name], node)]⟩ p = f.find p := by
      rw [find_mk _ _ p hp0, assoc_snoc_ne _ _ _ hne, cleared_keep f _ p hnp]
      simp [H5File.find, hp0]
    simpa [H5File.isGroup, hfind] using hgp

/-- C1. Pack/read round trip: for a file content `B` and a chunk option `c > 0`,
`storeFile` returns and leaves under the name a dataset of one dimension
`|B|` that holds `B`; on every mount of the resulting container `h5vfs_getattr`
on the path of the dataset reports `st_size = |B|`, `h5vfs_open` makes a table
entry for it, and `h5vfs_read` with an offset `o` and a size `n` (both below
`2^63`) puts exactly the bytes `B[o .. min(o + n, |B|))` into the caller's
buffer, by the raw-offset path (when the container file holds the bytes of the
dataset at the address the library reports), by the full-decode path and from
the cached buffer alike. -/
theorem C1_pack_read_round_trip (H : Hasher) (opts : Opts) (st : Packer) (group : Loc)
    (filePath name : String) (src : Source) (c : Nat)
    (hchunk : opts.chunk = some (c : Int)) (hc : 0 < c) (hc63 : c < I64)
    (hsize : src.stat.st_size = src.content.length) (hlen : src.content.length < I64)
    (hname : simpleName name = true) (hreach : st.file.Reachable group) :
    ∃ (st' : Packer) (attrs : Attrs),
      storeFile H opts st group filePath name src = .ok st' ∧
      st'.file.find (group ++ [name])
        = some (Node.dataset 1 [src.content.length] src.content attrs) ∧
      ∀ (m : Mount) (path : String), m.mainfile = st'.file →
        parsePath path = group ++ [name] → group.length + 1 < m.nlinks →
        (∀ addr, m.getOffset (group ++ [name]) = some addr →
          addr + src.content.length < U64 ∧
          (m.image.drop addr).take src.content.length = src.content) →
        (∃ sb, h5vfs_getattr m path = .ok (0, sb) ∧ sb.st_size = src.content.length) ∧
        (∀ t, assoc path t = none →
          ∃ file, h5vfs_open m t path = .ok (0, t ++ [(path, file)]) ∧
            Consistent (group ++ [name]) src.content file) ∧
        (∀ t file o n, assoc path t = some file →
          Consistent (group ++ [name]) src.content file → o < I64 → n < I64 →
          ∃ r, h5vfs_read m t path n o = .ok r ∧ r.buf = some (slice src.content o n) ∧
            ∃ file', assoc path r.openFiles = some file' ∧
              Consistent (group ++ [name]) src.content file') := by
  have hgroup : st.file.isGroup group = true := hreach group (List.prefix_refl group)
  obtain ⟨h, hstore, _, _⟩ := storeFile_ok H opts st group filePath name src c hchunk hc
    hc63 hsize hlen hname hgroup
  obtain ⟨hfree, _⟩ := cleared_spec st.file group name hgroup
  have hfind := find_tip st.file.rootAttrs (st.file.cleared (group ++ [name])) (group ++ [name])
    (Node.dataset 1 [src.content.length] src.content
      (datasetAttrs h src.stat (decide (src.content = [])))) (by simp) hfree
  refine ⟨_, _, hstore, hfind, ?_⟩
  intro m path hm hparse hfuel hlayout
  have hreach' : m.mainfile.Reachable group := by
    rw [hm]; exact reachable_stored st.file group name _ hreach
  have hds : m.mainfile.find (group ++ [name])
      = some (Node.dataset 1 [src.content.length] src.content
          (datasetAttrs h src.stat (decide (src.content = [])))) := by
    rw [hm]; exact hfind
  refine ⟨?_, ?_, ?_⟩
  · exact getattr_stored m path group name src.content h src.stat _ hname hparse hreach' hds
      hfuel hlen
  · intro t ht
    obtain ⟨file, hopen, hcons, _⟩ := open_stored m t path group name src.content _ hparse
      hreach' hds hfuel hlen ht
    exact ⟨file, hopen, hcons⟩
  · intro t file o n ht hcons ho hn
    exact read_consistent m t path (group ++ [name]) src.content file o n hds hlayout ht hcons
      ho hn

/-- C1 at the file `a.txt` with content `abc`, stored with a chunk option of 2
in the root group of a new container. -/
theorem C1_pack_read_round_trip_witness :
    ∃ (st' : Packer) (attrs : Attrs),
      storeFile md5Hasher { noOpts with chunk := some 2 } { file := emptyFile } []
        "/a.txt" "a.txt" (regFile "a.txt" 11 1 [97, 98, 99]) = .ok st' ∧
      st'.file.find ([] ++ ["a.txt"])
        = some (Node.dataset 1 [(regFile "a.txt" 11 1 [97, 98, 99]).content.length]
            (regFile "a.txt" 11 1 [97, 98, 99]).content attrs) ∧
      ∀ (m : Mount) (path : String), m.mainfile = st'.file →
        parsePath path = [] ++ ["a.txt"] → ([] : Loc).length + 1 < m.nlinks →
        (∀ addr, m.getOffset ([] ++ ["a.txt"]) = some addr →
          addr + (regFile "a.txt" 11 1 [97, 98, 99]).content.length < U64 ∧
          (m.image.drop addr).take (regFile "a.txt" 11 1 [97, 98, 99]).content.length
            = (regFile "a.txt" 11 1 [97, 98, 99]).content) →
        (∃ sb, h5vfs_getattr m path = .ok (0, sb) ∧
          sb.st_size = (regFile "a.txt" 11 1 [97, 98, 99]).content.length) ∧
        (∀ t, assoc path t = none →
          ∃ file, h5vfs_open m t path = .ok (0, t ++ [(path, file)]) ∧
            Consistent ([] ++ ["a.txt"]) (regFile "a.txt" 11 1 [97, 98, 99]).content file) ∧
        (∀ t file o n, assoc path t = some file →
          Consistent ([] ++ ["a.txt"]) (regFile "a.txt" 11 1 [97, 98, 99]).content file →
          o < I64 → n < I64 →
          ∃ r, h5vfs_read m t path n o = .ok r ∧
            r.buf = some (slice (regFile "a.txt" 11 1 [97, 98, 99]).content o n) ∧
            ∃ file', assoc path r.openFiles = some file' ∧
              Consistent ([] ++ ["a.txt"]) (regFile "a.txt" 11 1 [97, 98, 99]).content file') :=
  C1_pack_read_round_trip md5Hasher { noOpts with chunk := some 2 } { file := emptyFile } []
    "/a.txt" "a.txt" (regFile "a.txt" 11 1 [97, 98, 99]) 2 rfl (by decide) (by decide) rfl
    (by decide) (by decide) (fun p hp => by rw [List.prefix_nil.mp hp]; rfl)

/-- Scenario S1 of the specification, from the walker to the adapter: the tree
`/home/u/base` with the file `a.txt` of content `abc` is packed, the result is
mounted, the file is opened, and 3 bytes are read at offset 0, then 2 bytes at
offset 2. -/
theorem scenario_S1 :
    (do
      let packed ← packRoots lexEnv md5Hasher noOpts
        [("/home/u/base", directory "base" 10 [regFile "a.txt" 11 1 [97, 98, 99]])]
        { file := emptyFile }
      let m := mountOf packed.2.file
      let sb ← h5vfs_getattr m "/base/a.txt"
      let opened ← h5vfs_open m [] "/base/a.txt"
      let r1 ← h5vfs_read m opened.2 "/base/a.txt" 3 0
      let r2 ← h5vfs_read m r1.openFiles "/base/a.txt" 2 2
      pure (packed.1, sb.2.st_size, r1.ret, r1.buf, r2.ret, r2.buf) :
        Except Err (Nat × Nat × Int × Option (List Byte) × Int × Option (List Byte)))
    = .ok (1, 3, 3, some [97, 98, 99], 1, some [99]) := by
  rfl

/-! ## Read clipping -/

theorem toInt32_small (n : Nat) (h : n < 2147483648) : toInt32 n = (n : Int) := by
  have h1 : n % 4294967296 = n := by omega
  simp [toInt32, h1, h]

/-- C10 as stated fails: an open dataset of `2^32` bytes, a read of `2^31` bytes
at offset 0.  The request lies inside the dataset, so the claim has the read
return `n = 2^31`; the size goes back through the `int` result of the
operation and `h5vfs_read` returns `-2^31`. -/
theorem C10_counterexample :
    0 + 2147483648 ≤ 4294967296 ∧
    (h5vfs_read (mountOf emptyFile)
        [("/f", { dataset := ["f"], dim := 4294967296, isOpen := true, refcount := 1 })]
        "/f" 2147483648 0).map (fun r => r.ret) = .ok (-2147483648) ∧
    (-2147483648 : Int) ≠ 2147483648 := by
  refine ⟨by decide, ?_, by decide⟩
  rfl

/-- C10, amended. Read clipping: for an open dataset of `L` bytes (a table entry
with `dim[0] = L` whose cached buffer, when present, has `L` bytes), an offset
`o` and a requested size `n` of at most `2^31 - 1` (the sizes the `int` result
can return), `h5vfs_read` returns 0 when `o >= L` (always when `L = 0`),
`L - o` when `o < L` and `o + n > L`, and `n` otherwise; the copy it makes is
defined, that is it reads nothing beyond position `L` of its source, and it
puts at most `L - o` bytes into the caller's buffer. -/
theorem C10_read_clipping (m : Mount) (t : OpenFiles) (path : String) (file : h5vfsFile)
    (B : List Byte) (o n : Nat) {e : Nat} {d : List Nat} {a : Attrs}
    (ht : assoc path t = some file) (hdim : file.dim = B.length)
    (hds : m.mainfile.find file.dataset = some (Node.dataset e d B a))
    (hcache : ∀ b, file.buffer = some b → b.length = B.length)
    (ho : o < I64) (hn : n < 2147483648) :
    ∃ r, h5vfs_read m t path n o = .ok r ∧
      (B.length ≤ o → r.ret = 0) ∧
      (B.length = 0 → r.ret = 0) ∧
      (o < B.length → B.length < o + n → r.ret = ((B.length - o : Nat) : Int)) ∧
      (o < B.length → o + n ≤ B.length → r.ret = (n : Int)) ∧
      ∃ bytes, r.buf = some bytes ∧ bytes.length ≤ B.length - o := by
  refine ⟨readDataset m t path file n o, by simp [h5vfs_read, ht]; rfl, ?_⟩
  unfold readDataset
  have ho64 : o % U64 = o := by simp only [U64, I64] at *; omega
  have hsum : (o + n) % U64 = o + n := by simp only [U64, I64] at *; omega
  rw [ho64, hsum, hdim]
  by_cases hbeyond : o ≥ B.length
  · rw [if_pos hbeyond]
    exact ⟨fun _ => rfl, fun _ => rfl, fun h => by omega, fun h => by omega, [], rfl, by simp⟩
  · have hlt : o < B.length := by omega
    have hsize : (if o + n > B.length then B.length - o else n) = min n (B.length - o) := by
      split <;> omega
    have hret : toInt32 (min n (B.length - o)) = ((min n (B.length - o) : Nat) : Int) :=
      toInt32_small _ (by omega)
    rw [if_neg hbeyond]
    simp only [hsize]
    have hcopy : ∀ src : List Byte, src.length = B.length →
        ∃ bytes, memcpyFrom src o (min n (B.length - o)) = some bytes ∧
          bytes.length ≤ B.length - o := by
      intro src hsrc
      have hle : o + min n (B.length - o) ≤ src.length := by omega
      refine ⟨_, by simp [memcpyFrom, hle]; rfl, ?_⟩
      simp [List.length_take, List.length_drop, hsrc]
    have hvals : ∀ r : Int, r = ((min n (B.length - o) : Nat) : Int) →
        (B.length ≤ o → r = 0) ∧ (B.length = 0 → r = 0) ∧
        (o < B.length → B.length < o + n → r = ((B.length - o : Nat) : Int)) ∧
        (o < B.length → o + n ≤ B.length → r = (n : Int)) := by
      intro r hr
      refine ⟨fun h => by omega, fun h => by omega, fun _ h => ?_, fun _ h => ?_⟩
      · rw [hr, Nat.min_eq_right (by omega)]
      · rw [hr, Nat.min_eq_left (by omega)]
    cases hb : file.buffer with
    | some buffer =>
      simp only []
      obtain ⟨h1, h2, h3, h4⟩ := hvals _ hret
      exact ⟨h1, h2, h3, h4, hcopy buffer (hcache buffer hb)⟩
    | none =>
      simp only []
      cases hoff : m.getOffset file.dataset with
      | some addr =>
        simp only []
        obtain ⟨h1, h2, h3, h4⟩ := hvals _ hret
        refine ⟨h1, h2, h3, h4, _, rfl, ?_⟩
        simp only [List.length_take]
        omega
      | none =>
        simp only [hds]
        obtain ⟨h1, h2, h3, h4⟩ := hvals _ hret
        exact ⟨h1, h2, h3, h4, hcopy B rfl⟩

/-- C10, amended, at a dataset of 3 bytes, offset 1 and size 5. -/
theorem C10_read_clipping_witness :
    ∃ r, h5vfs_read (mountOf ⟨[], [(["f"], Node.dataset 1 [3] [97, 98, 99] [])]⟩)
        [("/f", { dataset := ["f"], dim := 3, isOpen := true, refcount := 1 })] "/f" 5 1
        = .ok r ∧
      (([97, 98, 99] : List Byte).length ≤ 1 → r.ret = 0) ∧
      (([97, 98, 99] : List Byte).length = 0 → r.ret = 0) ∧
      (1 < ([97, 98, 99] : List Byte).length → ([97, 98, 99] : List Byte).length < 1 + 5 →
        r.ret = ((([97, 98, 99] : List Byte).length - 1 : Nat) : Int)) ∧
      (1 < ([97, 98, 99] : List Byte).length → 1 + 5 ≤ ([97, 98, 99] : List Byte).length →
        r.ret = ((5 : Nat) : Int)) ∧
      ∃ bytes, r.buf = some bytes ∧ bytes.length ≤ ([97, 98, 99] : List Byte).length - 1 :=
  C10_read_clipping (mountOf ⟨[], [(["f"], Node.dataset 1 [3] [97, 98, 99] [])]⟩)
    [("/f", { dataset := ["f"], dim := 3, isOpen := true, refcount := 1 })] "/f"
    { dataset := ["f"], dim := 3, isOpen := true, refcount := 1 } [97, 98, 99] 1 5
    rfl rfl rfl (fun b hb => by simp at hb) (by decide) (by decide)
/-! ## The decisions of `shouldStore` -/

theorem matchesRegex_true (env : Env) (name : String) (l : List String) :
    matchesRegex env name l true = true ↔ (l = [] ∨ ∃ p ∈ l, env.regexMatch name p = true) := by
  unfold matchesRegex
  cases l with
  | nil => simp
  | cons a l => simp

theorem matchesRegex_false (env : Env) (name : String) (l : List String) :
    matchesRegex env name l false = true ↔ ∃ p ∈ l, env.regexMatch name p = true := by
  unfold matchesRegex
  cases l with
  | nil => simp
  | cons a l => simp

theorem filteredOut_iff (env : Env) (opts : Opts) (name : String) (isDir : Bool) :
    filteredOut env opts name isDir = false ↔
      passesFilter env (if isDir then opts.acceptdirregex else opts.acceptfileregex)
        (if isDir then opts.rejectdirregex else opts.rejectfileregex) name := by
  unfold passesFilter
  cases isDir
  · simp only [filteredOut, Bool.not_false, Bool.true_and, Bool.false_and, Bool.or_false,
      Bool.false_eq_true, if_false]
    rw [← matchesRegex_true, ← matchesRegex_false]
    cases matchesRegex env name opts.acceptfileregex true <;>
      cases matchesRegex env name opts.rejectfileregex false <;> simp
  · simp only [filteredOut, Bool.not_true, Bool.false_and, Bool.true_and, Bool.false_or,
      if_true]
    rw [← matchesRegex_true, ← matchesRegex_false]
    cases matchesRegex env name opts.acceptdirregex true <;>
      cases matchesRegex env name opts.rejectdirregex false <;> simp

/-- C5. Regex filter: for an entry name, the accept and reject lists of its kind
(the file lists for a file, the directory lists for a directory) and whatever
`group.nameExists` answers, `shouldStore` goes on to its decision blocks exactly
when the accept list is empty or holds a matching pattern and no pattern of the
reject list matches; otherwise it returns `DONT_STORE` and leaves the state as
it is, whatever the other arguments. -/
theorem C5_regex_filter (env : Env) (H : Hasher) (opts : Opts) (st : Packer) (group : Loc)
    (basePath filepath name : String) (src : Source) (isDir existing : Bool)
    (hex : st.file.nameExists group name = .ok existing) :
    (filteredOut env opts name isDir = false ↔
      passesFilter env (if isDir then opts.acceptdirregex else opts.acceptfileregex)
        (if isDir then opts.rejectdirregex else opts.rejectfileregex) name) ∧
    (passesFilter env (if isDir then opts.acceptdirregex else opts.acceptfileregex)
        (if isDir then opts.rejectdirregex else opts.rejectfileregex) name →
      shouldStore env H opts st group basePath filepath name src isDir
        = storeDecision env H opts st group basePath filepath name src isDir existing) ∧
    (¬ passesFilter env (if isDir then opts.acceptdirregex else opts.acceptfileregex)
        (if isDir then opts.rejectdirregex else opts.rejectfileregex) name →
      shouldStore env H opts st group basePath filepath name src isDir
        = .ok ({ storeType := StoreType.DONT_STORE }, st)) := by
  refine ⟨filteredOut_iff env opts name isDir, ?_, ?_⟩
  · intro hp
    have hf := (filteredOut_iff env opts name isDir).mpr hp
    simp [shouldStore, hex, hf, bind, Except.bind]
  · intro hp
    have hf : filteredOut env opts name isDir = true := by
      cases h : filteredOut env opts name isDir with
      | true => rfl
      | false => exact absurd ((filteredOut_iff env opts name isDir).mp h) hp
    simp [shouldStore, hex, hf, bind, Except.bind]
    rfl

/-- C5 at the file name `a.log` in the root group of a new container, with the
reject list `a.log` (a pattern that matches the name equal to it). -/
theorem C5_regex_filter_witness :
    (filteredOut lexEnv { noOpts with rejectfileregex := ["a.log"] } "a.log" false = false ↔
      passesFilter lexEnv
        (if false then ({ noOpts with rejectfileregex := ["a.log"] } : Opts).acceptdirregex
          else ({ noOpts with rejectfileregex := ["a.log"] } : Opts).acceptfileregex)
        (if false then ({ noOpts with rejectfileregex := ["a.log"] } : Opts).rejectdirregex
          else ({ noOpts with rejectfileregex := ["a.log"] } : Opts).rejectfileregex) "a.log") ∧
    (passesFilter lexEnv
        (if false then ({ noOpts with rejectfileregex := ["a.log"] } : Opts).acceptdirregex
          else ({ noOpts with rejectfileregex := ["a.log"] } : Opts).acceptfileregex)
        (if false then ({ noOpts with rejectfileregex := ["a.log"] } : Opts).rejectdirregex
          else ({ noOpts with rejectfileregex := ["a.log"] } : Opts).rejectfileregex) "a.log" →
      shouldStore lexEnv md5Hasher { noOpts with rejectfileregex := ["a.log"] }
          { file := emptyFile } [] "/b" "/b/a.log" "a.log" (regFile "a.log" 3 1 []) false
        = storeDecision lexEnv md5Hasher { noOpts with rejectfileregex := ["a.log"] }
          { file := emptyFile } [] "/b" "/b/a.log" "a.log" (regFile "a.log" 3 1 []) false false) ∧
    (¬ passesFilter lexEnv
        (if false then ({ noOpts with rejectfileregex := ["a.log"] } : Opts).acceptdirregex
          else ({ noOpts with rejectfileregex := ["a.log"] } : Opts).acceptfileregex)
        (if false then ({ noOpts with rejectfileregex := ["a.log"] } : Opts).rejectdirregex
          else ({ noOpts with rejectfileregex := ["a.log"] } : Opts).rejectfileregex) "a.log" →
      shouldStore lexEnv md5Hasher { noOpts with rejectfileregex := ["a.log"] }
          { file := emptyFile } [] "/b" "/b/a.log" "a.log" (regFile "a.log" 3 1 []) false
        = .ok ({ storeType := StoreType.DONT_STORE }, { file := emptyFile })) :=
  C5_regex_filter lexEnv md5Hasher { noOpts with rejectfileregex := ["a.log"] }
    { file := emptyFile } [] "/b" "/b/a.log" "a.log" (regFile "a.log" 3 1 []) false false rfl

/-- A rejected name is not stored: the run of C5's example. -/
theorem shouldStore_rejected_example :
    shouldStore lexEnv md5Hasher { noOpts with rejectfileregex := ["a.log"] }
        { file := emptyFile } [] "/b" "/b/a.log" "a.log" (regFile "a.log" 3 1 []) false
      = .ok ({ storeType := StoreType.DONT_STORE }, { file := emptyFile }) := by
  rfl

/-- The test of `std::mismatch` answers true exactly when the first list of
names begins the second, and is undefined exactly when the second list is a
proper beginning of the first. -/
theorem mismatchAtEnd_spec : ∀ (parent child : List String),
    (mismatchAtEnd parent child = .ok true ↔ parent <+: child) ∧
    (mismatchAtEnd parent child = .error (Err.undefined "std::mismatch") ↔
      (child <+: parent ∧ child ≠ parent)) ∧
    (mismatchAtEnd parent child = .ok false ↔ (¬ parent <+: child ∧ ¬ child <+: parent))
  | [], child => by
    simp [mismatchAtEnd, pure, Except.pure]
  | a :: parent, [] => by
    simp [mismatchAtEnd, throw, throwThe, MonadExceptOf.throw]
  | a :: parent, b :: child => by
    obtain ⟨h1, h2, h3⟩ := mismatchAtEnd_spec parent child
    by_cases hab : a = b
    · subst hab
      simp only [mismatchAtEnd, if_true, List.cons_prefix_cons, true_and, ne_eq, List.cons.injEq]
      exact ⟨h1, h2, h3⟩
    · have hba : ¬ b = a := fun h => hab h.symm
      simp [mismatchAtEnd, hab, hba, pure, Except.pure, List.cons_prefix_cons]

/-- The symbolic link part of `shouldStore` where the test of `is_subpath` is
defined: for a symbolic link that passes the filter, whose name is not in the
group yet and whose text `readlink` delivers, `shouldStore` returns
`AS_SOFT_LINK` with the resolved path (the text itself when it is absolute,
the base path joined with it when it is relative) when `is_subpath` finds the
resolved path below the base path; where `is_subpath` answers false it
returns `DONT_STORE` when `storeexternalsymlinks` is `ignore` or not given,
`AS_INTERNAL` when it is `file`, and `AS_EXTERNAL_LINK` with the unmodified
link text when it is `link`.  The state is left as it is in all these cases.
Where the behaviour of `is_subpath` is undefined, so is the one of
`shouldStore`. -/
theorem symlink_decision_defined (env : Env) (H : Hasher) (opts : Opts) (st : Packer)
    (group : Loc) (basePath filepath name : String) (src : Source) (isDir : Bool) (link : String)
    (hlnk : S_ISLNK src.lstat.st_mode = true)
    (hpass : filteredOut env opts name isDir = false)
    (hex : st.file.nameExists group name = .ok false)
    (hread : src.readlink = some link) :
    (is_subpath env basePath
        (if link.data.head? = some '/' then link else pathAppend basePath link) = .ok true →
      shouldStore env H opts st group basePath filepath name src isDir
        = .ok ({ storeType := StoreType.AS_SOFT_LINK,
                 datasetPath := if link.data.head? = some '/' then link
                                else pathAppend basePath link }, st)) ∧
    (is_subpath env basePath
        (if link.data.head? = some '/' then link else pathAppend basePath link) = .ok false →
      ((opts.storeexternalsymlinks = none ∨ opts.storeexternalsymlinks = some "ignore") →
        shouldStore env H opts st group basePath filepath name src isDir
          = .ok ({ storeType := StoreType.DONT_STORE }, st)) ∧
      (opts.storeexternalsymlinks = some "file" →
        shouldStore env H opts st group basePath filepath name src isDir
          = .ok ({ storeType := StoreType.AS_INTERNAL }, st)) ∧
      (opts.storeexternalsymlinks = some "link" →
        shouldStore env H opts st group basePath filepath name src isDir
          = .ok ({ storeType := StoreType.AS_EXTERNAL_LINK, datasetPath := link }, st))) ∧
    (∀ e, is_subpath env basePath
        (if link.data.head? = some '/' then link else pathAppend basePath link) = .error e →
      shouldStore env H opts st group basePath filepath name src isDir = .error e) := by
  have hshould : shouldStore env H opts st group basePath filepath name src isDir
      = symlinkDecision env opts st basePath (getObjName group ++ "/" ++ name) link := by
    simp [shouldStore, hex, hpass, storeDecision, hlnk, hread, bind, Except.bind]
  rw [hshould]
  refine ⟨fun hsub => ?_, fun hsub => ⟨fun hopt => ?_, fun hopt => ?_, fun hopt => ?_⟩,
    fun e hsub => ?_⟩
  · simp [symlinkDecision, hsub, bind, Except.bind, pure, Except.pure]
  · rcases hopt with h | h <;>
      simp [symlinkDecision, externalDecision, hsub, h, bind, Except.bind, pure, Except.pure]
  · simp [symlinkDecision, externalDecision, hsub, hopt, bind, Except.bind, pure, Except.pure]
  · simp [symlinkDecision, externalDecision, hsub, hopt, bind, Except.bind, pure, Except.pure]
  · simp [symlinkDecision, hsub, bind, Except.bind]

/-- Scenario S4 of the specification at `shouldStore`: an outside link is
skipped by default, kept as an external link with `link`, and a link to a
path below the base becomes a soft link to the resolved path. -/
theorem scenario_S4_decisions :
    shouldStore lexEnv md5Hasher noOpts { file := emptyFile } [] "/base" "/base/out" "out"
        (symlinkTo "out" "/etc/passwd" 20 [114]) false
      = .ok ({ storeType := StoreType.DONT_STORE }, { file := emptyFile }) ∧
    shouldStore lexEnv md5Hasher { noOpts with storeexternalsymlinks := some "link" }
        { file := emptyFile } [] "/base" "/base/out" "out"
        (symlinkTo "out" "/etc/passwd" 20 [114]) false
      = .ok ({ storeType := StoreType.AS_EXTERNAL_LINK, datasetPath := "/etc/passwd" },
             { file := emptyFile }) ∧
    shouldStore lexEnv md5Hasher noOpts { file := emptyFile } [] "/base" "/base/link" "link"
        (symlinkTo "link" "target" 20 [114]) false
      = .ok ({ storeType := StoreType.AS_SOFT_LINK, datasetPath := "/base/target" },
             { file := emptyFile }) := by
  refine ⟨?_, ?_, ?_⟩ <;> rfl
theorem hex_not_nul : ∀ ch ∈ "0123456789abcdef".data, ch ≠ Char.ofNat 0 := by
  decide

/-- Comparing a digest string with what the hash attribute reads as is
comparing it with the attribute. -/
theorem readC_S1_digest (d : List Byte) (h r : String)
    (hr : readC_S1 (PICOHASH_MD5_DIGEST_LENGTH * 2) (AttrVal.str h) = .ok r) :
    digestString d = r ↔ digestString d = h := by
  have hlenD := digestString_length d
  have hhexD := digestString_hex d
  simp only [readC_S1, pure, Except.pure, Except.ok.injEq] at hr
  constructor
  · intro hD
    have hrl : r.length = 32 := by rw [← hD]; exact hlenD
    by_cases hh : h.length = 32
    · have hh' : h.length = PICOHASH_MD5_DIGEST_LENGTH * 2 := hh
      rw [if_pos hh'] at hr
      have hpre := List.takeWhile_prefix (l := h.data) (fun c => decide (c ≠ Char.ofNat 0))
      have hlen : (h.data.takeWhile (fun c => decide (c ≠ Char.ofNat 0))).length
          = h.data.length := by
        have : r.data = h.data.takeWhile (fun c => decide (c ≠ Char.ofNat 0)) := by
          rw [← hr]
        rw [← this]
        exact hrl.trans hh.symm
      have heq := hpre.eq_of_length hlen
      rw [hD, ← hr]
      exact String.ext heq
    · exfalso
      have hh' : ¬ h.length = PICOHASH_MD5_DIGEST_LENGTH * 2 := hh
      rw [if_neg hh'] at hr
      have hpre := List.takeWhile_prefix (l := h.data.take (PICOHASH_MD5_DIGEST_LENGTH * 2 - 1))
        (fun c => decide (c ≠ Char.ofNat 0))
      have h1 := hpre.length_le
      have h2 : r.data.length = 32 := hrl
      rw [← hr] at h2
      simp only [List.length_take] at h1
      have h3 : (List.takeWhile (fun c => decide (c ≠ Char.ofNat 0))
          (List.take (PICOHASH_MD5_DIGEST_LENGTH * 2 - 1) h.data)).length = 32 := h2
      rw [h3] at h1
      have : min (PICOHASH_MD5_DIGEST_LENGTH * 2 - 1) h.data.length ≤ 31 :=
        Nat.min_le_left _ _
      omega
  · intro hD
    have hh : h.length = PICOHASH_MD5_DIGEST_LENGTH * 2 := by rw [← hD]; exact hlenD
    rw [if_pos hh] at hr
    have hall : ∀ x ∈ h.data, decide (x ≠ Char.ofNat 0) = true := by
      intro x hx
      have := hex_not_nul x (hhexD x (by rw [hD]; exact hx))
      simpa using this
    rw [List.takeWhile_eq_self_iff.mpr hall] at hr
    rw [hD, ← hr]

/-- The decision of `shouldStore` for a source that is not a symbolic link, passes
the filter and whose name is taken: that of the update policy block. -/
theorem shouldStore_existing (env : Env) (H : Hasher) (opts : Opts) (st : Packer) (group : Loc)
    (basePath filepath name : String) (src : Source) (isDir : Bool)
    (hpass : filteredOut env opts name isDir = false)
    (hex : st.file.nameExists group name = .ok true) :
    shouldStore env H opts st group basePath filepath name src isDir
      = (updatePolicyDecision H opts st.file group name src.lstat src.content isDir).map
          (fun t => ({ storeType := t }, st)) := by
  simp only [shouldStore, hex, hpass, storeDecision, bind, Except.bind, Bool.not_true,
    Bool.and_false, Bool.false_eq_true, if_false]
  cases updatePolicyDecision H opts st.file group name src.lstat src.content isDir <;> rfl

/-- C6. Update-policy decision table: for a regular-file source that is not a
symbolic link, passes the filter and whose name exists in the group as a
dataset, `shouldStore` returns `DONT_STORE` when `updatepolicy` is `never` or
not given and `AS_INTERNAL` when it is `always`; under `filesize` it returns
`DONT_STORE` if the source size equals the element count of the dataset and
`AS_INTERNAL` otherwise; under `filetime` `DONT_STORE` if the source mtime
equals the `Modified` attribute and `AS_INTERNAL` otherwise; under `hash`
(with a positive chunk option and a hash primitive that computes MD5)
`DONT_STORE` if the hexadecimal MD5 of the source, streamed chunk by chunk,
equals the `MD5Hash` attribute and `AS_INTERNAL` otherwise.  The state is left
as it is. -/
theorem C6_update_policy (env : Env) (H : Hasher) (opts : Opts) (st : Packer) (group : Loc)
    (basePath filepath name : String) (src : Source) (e : Nat) (dims : List Nat)
    (data : List Byte) (attrs : Attrs)
    (hpass : filteredOut env opts name false = false)
    (hex : st.file.nameExists group name = .ok true)
    (hds : st.file.find (resolve group name) = some (Node.dataset e dims data attrs)) :
    ((opts.updatepolicy = none ∨ opts.updatepolicy = some "never") →
      shouldStore env H opts st group basePath filepath name src false
        = .ok ({ storeType := StoreType.DONT_STORE }, st)) ∧
    (opts.updatepolicy = some "always" →
      shouldStore env H opts st group basePath filepath name src false
        = .ok ({ storeType := StoreType.AS_INTERNAL }, st)) ∧
    (opts.updatepolicy = some "filesize" → src.lstat.st_size < I64 → dims.prod < U64 →
      shouldStore env H opts st group basePath filepath name src false
        = .ok ({ storeType := if src.lstat.st_size = dims.prod then StoreType.DONT_STORE
                              else StoreType.AS_INTERNAL }, st)) ∧
    (opts.updatepolicy = some "filetime" →
      ∀ t : Int, assoc "Modified" attrs = some (AttrVal.int64 t) →
        -(I64 : Int) ≤ t → t < I64 → -(I64 : Int) ≤ src.lstat.st_mtime →
        src.lstat.st_mtime < I64 →
      shouldStore env H opts st group basePath filepath name src false
        = .ok ({ storeType := if src.lstat.st_mtime = t then StoreType.DONT_STORE
                              else StoreType.AS_INTERNAL }, st)) ∧
    (opts.updatepolicy = some "hash" →
      ∀ (h : String) (c : Nat), assoc "MD5Hash" attrs = some (AttrVal.str h) →
        opts.chunk = some (c : Int) → 0 < c → c < I64 →
        src.lstat.st_size = src.content.length → src.content.length < I64 → H.IsMD5 →
      shouldStore env H opts st group basePath filepath name src false
        = .ok ({ storeType := if digestString (md5 src.content) = h then StoreType.DONT_STORE
                              else StoreType.AS_INTERNAL }, st)) := by
  rw [shouldStore_existing env H opts st group basePath filepath name src false hpass hex]
  have hopen : st.file.openDataSet group name = .ok (e, dims, data, attrs) := by
    simp [H5File.openDataSet, hds]; rfl
  refine ⟨?_, ?_, ?_, ?_, ?_⟩
  · intro hopt
    rcases hopt with h | h <;> simp [updatePolicyDecision, h, Except.map, pure, Except.pure]
  · intro hopt
    simp [updatePolicyDecision, hopt, Except.map, pure, Except.pure]
  · intro hopt hsz hprod
    have h1 : src.lstat.st_size % U64 = src.lstat.st_size := by
      simp only [U64, I64] at *; omega
    have h2 : dims.prod % U64 = dims.prod := by
      simp only [U64] at *; omega
    simp only [updatePolicyDecision, hopt, Option.getD_some, hopen, bind, Except.bind, h1, h2]
    by_cases heq : src.lstat.st_size = dims.prod
    · simp [heq, Except.map, pure, Except.pure]
    · have heq' : ¬ dims.prod = src.lstat.st_size := fun h => heq h.symm
      simp [heq, heq', Except.map, pure, Except.pure]
  · intro hopt t hattr ht1 ht2 hm1 hm2
    have hmod : (t % (U64 : Int) = src.lstat.st_mtime % (U64 : Int)) ↔ src.lstat.st_mtime = t := by
      simp only [U64, I64] at *
      omega
    simp only [updatePolicyDecision, hopt, Option.getD_some, hopen, bind, Except.bind,
      openAttribute, hattr, readInt64, pure, Except.pure]
    by_cases heq : src.lstat.st_mtime = t
    · rw [if_pos (hmod.mpr heq), if_pos heq]
      simp [Except.map]
    · rw [if_neg (fun h => heq (hmod.mp h)), if_neg heq]
      simp [Except.map]
  · intro hopt h c hattr hchunk hc hc63 hsize hlen hmd5
    have hcs := chunkSize_of opts c hchunk hc63
    have hhs : src.lstat.st_size % U64 = src.content.length := by
      rw [hsize]; simp only [U64, I64] at *; omega
    obtain ⟨s, t, hloop, hflat, hctx⟩ := hashLoop_result H c src.content hc hc63 hlen
    have hfinal : H.final s.ctx = md5 src.content := by
      rw [hctx, hmd5 s.hashed, hflat]
    cases hr : readC_S1 (PICOHASH_MD5_DIGEST_LENGTH * 2) (AttrVal.str h) with
    | error err => simp [readC_S1, pure, Except.pure] at hr
    | ok r =>
      have hiff := readC_S1_digest (md5 src.content) h r hr
      simp only [updatePolicyDecision, hopt, Option.getD_some, hopen, bind, Except.bind,
        openAttribute, hattr, pure, Except.pure, hr, hcs, hhs, hloop, hfinal]
      by_cases heq : digestString (md5 src.content) = h
      · rw [if_pos (hiff.mpr heq), if_pos heq]
        simp [Except.map]
      · rw [if_neg (fun h' => heq (hiff.mp h')), if_neg heq]
        simp [Except.map]

/-- C6 under `hash`, at the source `a.txt` with content `abd` and the stored
dataset `a.txt` with content `abc`. -/
theorem C6_update_policy_witness :
    shouldStore lexEnv md5Hasher { noOpts with updatepolicy := some "hash", chunk := some 2 }
        { file := abcFile } [] "/" "/a.txt" "a.txt" (regFile "a.txt" 11 1 [97, 98, 100]) false
      = .ok ({ storeType :=
                if digestString (md5 (regFile "a.txt" 11 1 [97, 98, 100]).content)
                    = "900150983cd24fb0d6963f7d28e17f72"
                then StoreType.DONT_STORE else StoreType.AS_INTERNAL },
             { file := abcFile }) :=
  (C6_update_policy lexEnv md5Hasher { noOpts with updatepolicy := some "hash", chunk := some 2 }
    { file := abcFile } [] "/" "/a.txt" "a.txt" (regFile "a.txt" 11 1 [97, 98, 100]) 1 [3]
    [97, 98, 99] (datasetAttrs "900150983cd24fb0d6963f7d28e17f72" (regStat 11 1 3) false)
    rfl rfl rfl).2.2.2.2 rfl "900150983cd24fb0d6963f7d28e17f72" 2 rfl rfl (by decide)
    (by decide) rfl (by decide) md5Hasher_isMD5

/-- The decision table of C6 on examples: the stored `abc` against a source
`abd` (same length and times, other content) and a source `abcd`. -/
theorem update_policy_examples :
    (shouldStore lexEnv md5Hasher { noOpts with updatepolicy := some "hash" }
        { file := abcFile } [] "/" "/a.txt" "a.txt" (regFile "a.txt" 11 1 [97, 98, 100]) false
      ).map (fun r => r.1.storeType) = .ok StoreType.AS_INTERNAL ∧
    (shouldStore lexEnv md5Hasher { noOpts with updatepolicy := some "hash" }
        { file := abcFile } [] "/" "/a.txt" "a.txt" (regFile "a.txt" 11 1 [97, 98, 99]) false
      ).map (fun r => r.1.storeType) = .ok StoreType.DONT_STORE ∧
    (shouldStore lexEnv md5Hasher { noOpts with updatepolicy := some "filesize" }
        { file := abcFile } [] "/" "/a.txt" "a.txt" (regFile "a.txt" 11 1 [97, 98, 100]) false
      ).map (fun r => r.1.storeType) = .ok StoreType.DONT_STORE ∧
    (shouldStore lexEnv md5Hasher { noOpts with updatepolicy := some "filesize" }
        { file := abcFile } [] "/" "/a.txt" "a.txt" (regFile "a.txt" 11 1 [97, 98, 99, 100])
        false).map (fun r => r.1.storeType) = .ok StoreType.AS_INTERNAL ∧
    (shouldStore lexEnv md5Hasher { noOpts with updatepolicy := some "filetime" }
        { file := abcFile } [] "/" "/a.txt" "a.txt" (regFile "a.txt" 11 1 [97, 98, 100]) false
      ).map (fun r => r.1.storeType) = .ok StoreType.DONT_STORE ∧
    (shouldStore lexEnv md5Hasher noOpts
        { file := abcFile } [] "/" "/a.txt" "a.txt" (regFile "a.txt" 11 1 [97, 98, 100]) false
      ).map (fun r => r.1.storeType) = .ok StoreType.DONT_STORE := by
  refine ⟨?_, ?_, ?_, ?_, ?_, ?_⟩ <;> rfl

/-! ## Lemmas on path strings -/

theorem intercalate_go_data (s : String) : ∀ (l : List String) (acc : String),
    (String.intercalate.go acc s l).data = acc.data ++ l.flatMap (fun a => s.data ++ a.data)
  | [], acc => by simp [String.intercalate.go]
  | a :: l, acc => by
    simp [String.intercalate.go, intercalate_go_data s l, String.data_append]

theorem getObjName_data (g : Loc) :
    (getObjName g).data = if g = [] then ['/'] else g.flatMap (fun c => '/' :: c.data) := by
  cases g with
  | nil => rfl
  | cons a l =>
    simp [getObjName, String.intercalate, intercalate_go_data, String.data_append]

theorem splitSlash_append_word : ∀ (w : List Char), (∀ c ∈ w, c ≠ '/') → ∀ (first : List Char)
    (more : List (List Char)) (rest : List Char), splitSlash rest = first :: more →
    splitSlash (w ++ rest) = (w ++ first) :: more
  | [], _, first, more, rest, h => by simpa using h
  | c :: w, hw, first, more, rest, h => by
    have hc : c ≠ '/' := hw c (by simp)
    have ih := splitSlash_append_word w (fun d hd => hw d (by simp [hd])) first more rest h
    simp [splitSlash, hc, ih]

theorem splitSlash_names : ∀ (g : Loc), (∀ c ∈ g, ∀ ch ∈ c.data, ch ≠ '/') → ∀ (rest : List Char),
    splitSlash (g.flatMap (fun c => '/' :: c.data) ++ '/' :: rest)
      = [] :: (g.map String.data ++ splitSlash rest)
  | [], _, rest => by simp [splitSlash]
  | a :: g, hg, rest => by
    have ih := splitSlash_names g (fun c hc => hg c (by simp [hc])) rest
    have ha : ∀ ch ∈ a.data, ch ≠ '/' := hg a (by simp)
    have := splitSlash_append_word a.data ha [] _ _ ih
    simp only [List.flatMap_cons, List.cons_append, List.append_assoc, List.map_cons]
    simp only [List.append_nil] at this
    simp [splitSlash, this]

/-- The names of a path without a slash: the path itself, or nothing when it is
empty or `.`. -/
theorem parsePath_noSlash (n : String) (h : ∀ c ∈ n.data, c ≠ '/') :
    parsePath n = if n.data ≠ [] ∧ n.data ≠ ['.'] then [n] else [] := by
  rw [parsePath, splitSlash_noSlash n.data h]
  by_cases h1 : n.data = []
  · simp [h1]
  · by_cases h2 : n.data = ['.']
    · simp [h2]
    · simp [h1, h2]

theorem filter_plain (g : Loc) (hg : PlainLoc g) :
    ((g.map String.data).filter (fun w => decide (w ≠ []) && decide (w ≠ ['.']))).map String.mk
      = g := by
  induction g with
  | nil => rfl
  | cons a g ih =>
    have ha := hg a (by simp)
    have := ih (fun c hc => hg c (by simp [hc]))
    simp only [ne_eq, decide_not] at this
    simp [List.filter, ha.1, ha.2.2, this]

/-- The full name `getObjName(group) + "/" + name` leads to the name in the group. -/
theorem parsePath_fullname (g : Loc) (n : String) (hg : PlainLoc g) :
    parsePath (getObjName g ++ "/" ++ n) = g ++ parsePath n := by
  have hdata : (getObjName g ++ "/" ++ n).data = (getObjName g).data ++ '/' :: n.data := by
    simp [String.data_append]
  unfold parsePath
  rw [hdata, getObjName_data]
  by_cases h0 : g = []
  · subst h0
    simp [splitSlash]
  · simp only [h0, if_false]
    rw [splitSlash_names g (fun c hc => (hg c hc).2.1)]
    have hf := filter_plain g hg
    simp only [ne_eq, decide_not] at hf
    simp [List.filter_append, hf]

theorem resolve_fullname (loc g : Loc) (n : String) (hg : PlainLoc g) :
    resolve loc (getObjName g ++ "/" ++ n) = g ++ parsePath n := by
  have hhead : (getObjName g ++ "/" ++ n).data.head? = some '/' := by
    have hdata : (getObjName g ++ "/" ++ n).data = (getObjName g).data ++ '/' :: n.data := by
      simp [String.data_append]
    rw [hdata, getObjName_data]
    cases g with
    | nil => rfl
    | cons a l => simp
  unfold resolve
  rw [if_pos hhead, parsePath_fullname g n hg]

theorem resolve_noSlash (g : Loc) (n : String) (h : ∀ c ∈ n.data, c ≠ '/') :
    resolve g n = g ++ parsePath n := by
  have hhead : n.data.head? ≠ some '/' := by
    intro hh
    cases hd : n.data with
    | nil => rw [hd] at hh; simp at hh
    | cons c cs =>
      rw [hd] at hh
      simp at hh
      exact h c (by rw [hd]; simp) hh
  simp [resolve, hhead]

theorem lastSlash_spec : ∀ (cs : List Char),
    (∀ i, lastSlash cs = some i → i < cs.length ∧ ∀ c ∈ cs.drop (i + 1), c ≠ '/') ∧
    (lastSlash cs = none → ∀ c ∈ cs, c ≠ '/')
  | [] => by simp [lastSlash]
  | c :: cs => by
    obtain ⟨ih1, ih2⟩ := lastSlash_spec cs
    cases h : lastSlash cs with
    | some j =>
      obtain ⟨hj, hd⟩ := ih1 j h
      simp only [lastSlash, h]
      refine ⟨?_, by simp⟩
      intro i hi
      have : i = j + 1 := by simpa using hi.symm
      subst this
      exact ⟨by simpa using hj, by simpa using hd⟩
    | none =>
      have hno := ih2 h
      simp only [lastSlash, h]
      by_cases hc : c = '/'
      · simp only [hc, if_true]
        refine ⟨?_, by simp⟩
        intro i hi
        have : i = 0 := by simpa using hi.symm
        subst this
        exact ⟨by simp, by simpa using hno⟩
      · simp only [hc, if_false]
        refine ⟨by simp, ?_⟩
        intro _ d hd
        rcases List.mem_cons.mp hd with rfl | hd
        · exact hc
        · exact hno d hd

/-- The last chunk of a path holds no slash. -/
theorem getLastPathChunk_noSlash (path : String) :
    ∀ c ∈ (getLastPathChunk path).data, c ≠ '/' := by
  unfold getLastPathChunk
  cases h : lastSlash path.data with
  | none => simpa using (lastSlash_spec path.data).2 h
  | some i =>
    obtain ⟨hi, hd⟩ := (lastSlash_spec path.data).1 i h
    dsimp only
    by_cases hlast : i ≠ path.data.length - 1
    · rw [if_pos hlast]
      simpa using hd
    · rw [if_neg hlast]
      by_cases h0 : i = 0
      · subst h0
        simp
      · simp only [h0, if_false]
        cases hp : lastSlash (path.data.take i) with
        | none => simp
        | some pen =>
          obtain ⟨_, hd2⟩ := (lastSlash_spec (path.data.take i)).1 pen hp
          intro c hc
          have hsub : i - pen - 1 = i - (pen + 1) := by omega
          dsimp only at hc
          rw [hsub, ← List.drop_take] at hc
          exact hd2 c hc

/-! ## What a call of the container leaves in place -/

theorem bind_ok {ε α β : Type} (x : Except ε α) (f : α → Except ε β) (b : β)
    (h : (x >>= f) = .ok b) : ∃ a, x = .ok a ∧ f a = .ok b := by
  cases x with
  | error e => simp [bind, Except.bind] at h
  | ok a => exact ⟨a, rfl, h⟩

theorem outside_refl (q : Loc) (f : H5File) : Outside q f f := fun _ _ => rfl

theorem outside_trans {q : Loc} {f1 f2 f3 : H5File} (h12 : Outside q f1 f2)
    (h23 : Outside q f2 f3) : Outside q f1 f3 :=
  fun p hp => (h23 p hp).trans (h12 p hp)

theorem above_refl (g : Loc) (f : H5File) : Above g f f := fun _ _ => rfl

theorem above_trans {g : Loc} {f1 f2 f3 : H5File} (h12 : Above g f1 f2)
    (h23 : Above g f2 f3) : Above g f1 f3 :=
  fun p hp => (h23 p hp).trans (h12 p hp)

theorem outside_above {g : Loc} {n : String} {f f' : H5File} (h : Outside (g ++ [n]) f f') :
    Above g f f' := by
  intro p hp
  apply h p
  intro hq
  have h1 := hq.length_le
  have h2 := hp.length_le
  simp at h1
  omega

theorem above_of_snoc {g : Loc} {n : String} {f f' : H5File} (h : Above (g ++ [n]) f f') :
    Above g f f' :=
  fun p hp => h p (hp.trans (List.prefix_append g [n]))

theorem ne_of_outside {q p : Loc} (h : ¬ q <+: p) : p ≠ q := by
  intro hpq; subst hpq; exact h (List.prefix_refl _)

theorem find_links_ne (f : H5File) (L : List (Loc × Node)) (p : Loc)
    (h : p ≠ [] → assoc p L = assoc p f.links) :
    H5File.find { f with links := L } p = f.find p := by
  by_cases hp : p = []
  · simp [H5File.find, hp]
  · simp [H5File.find, hp, h hp]

theorem insert_inv (f : H5File) (q : Loc) (n : Node) (what : String) (f' : H5File)
    (h : f.insert q n what = .ok f') :
    q ≠ [] ∧ f.isGroup q.dropLast = true ∧ f.find q = none ∧
      f' = { f with links := f.links ++ [(q, n)] } := by
  unfold H5File.insert at h
  by_cases hq : q = []
  · simp [hq] at h
  · by_cases hg : f.isGroup q.dropLast = true
    · cases hf : f.find q with
      | some v => simp [hq, hg, hf] at h
      | none =>
        simp only [hq, hg, hf, if_false, Bool.not_true] at h
        refine ⟨hq, hg, rfl, ?_⟩
        cases h; rfl
    · simp [hq, hg] at h

theorem insert_outside (f : H5File) (q : Loc) (n : Node) (what : String) (f' : H5File)
    (h : f.insert q n what = .ok f') : Outside q f f' := by
  obtain ⟨_, _, _, rfl⟩ := insert_inv f q n what f' h
  intro p hp
  exact find_links_ne f _ p (fun _ => assoc_snoc_ne q p n (ne_of_outside hp) f.links)

theorem insert_find (f : H5File) (q : Loc) (n : Node) (what : String) (f' : H5File)
    (h : f.insert q n what = .ok f') : f'.find q = some n := by
  obtain ⟨hq, _, hfree, rfl⟩ := insert_inv f q n what f' h
  have hfree' : assoc q f.links = none := by simpa [H5File.find, hq] using hfree
  simp only [H5File.find, hq, if_false]
  rw [assoc_append_none q f.links _ hfree']
  simp [assoc]

theorem createAttribute_outside (f : H5File) (q : Loc) (name : String) (v : AttrVal)
    (f' : H5File) (h : f.createAttribute q name v = .ok f') : Outside q f f' := by
  intro p hp
  have hne := ne_of_outside hp
  have hq : q ≠ [] := by
    intro h0; subst h0; exact hp (List.nil_prefix)
  unfold H5File.createAttribute at h
  cases hf : f.find q with
  | none => simp [hf] at h
  | some n =>
    cases ha : H5File.attrsOf n with
    | none => simp [hf, ha] at h
    | some a =>
      by_cases hn : (assoc name a).isSome = true
      · simp [hf, ha, hn] at h
      · simp only [hf, ha, hn, hq, if_false] at h
        cases h
        exact find_links_ne f _ p (fun _ => assoc_assocSet_ne q p _ hne f.links)

theorem createAttribute_isSome (f : H5File) (q : Loc) (name : String) (v : AttrVal)
    (f' : H5File) (h : f.createAttribute q name v = .ok f') (p : Loc)
    (hp : (f.find p).isSome = true) : (f'.find p).isSome = true := by
  by_cases hpq : p = q
  · subst hpq
    by_cases hq : p = []
    · simp [H5File.find, hq]
    · unfold H5File.createAttribute at h
      cases hf : f.find p with
      | none => simp [hf] at h
      | some n =>
        cases ha : H5File.attrsOf n with
        | none => simp [hf, ha] at h
        | some a =>
          by_cases hn : (assoc name a).isSome = true
          · simp [hf, ha, hn] at h
          · simp only [hf, ha, hn, hq, if_false] at h
            cases h
            have hs : (assoc p f.links).isSome = true := by
              simpa [H5File.find, hq] using hp
            simp [H5File.find, hq, assoc_assocSet_same p _ f.links hs]
  · by_cases hq : q = []
    · subst hq
      have hp0 : p ≠ [] := hpq
      unfold H5File.createAttribute at h
      cases hf : f.find [] with
      | none => simp [hf] at h
      | some n =>
        cases ha : H5File.attrsOf n with
        | none => simp [hf, ha] at h
        | some a =>
          by_cases hn : (assoc name a).isSome = true
          · simp [hf, ha, hn] at h
          · simp only [hf, ha, hn, if_true, if_false] at h
            cases h
            simpa [H5File.find, hp0] using hp
    · have hout := createAttribute_outside f q name v f' h
      by_cases hpre : q <+: p
      · -- below `q`: the links keep their keys
        unfold H5File.createAttribute at h
        cases hf : f.find q with
        | none => simp [hf] at h
        | some n =>
          cases ha : H5File.attrsOf n with
          | none => simp [hf, ha] at h
          | some a =>
            by_cases hn : (assoc name a).isSome = true
            · simp [hf, ha, hn] at h
            · simp only [hf, ha, hn, hq, if_false] at h
              cases h
              have hp0 : p ≠ [] := by
                intro h0; subst h0
                exact hq (List.prefix_nil.mp hpre)
              have : assoc p (assocSet q (H5File.withAttrs n (a ++ [(name, v)])) f.links)
                  = assoc p f.links := assoc_assocSet_ne q p _ hpq f.links
              simpa [H5File.find, hp0, this] using hp
      · rw [hout p hpre]; exact hp

theorem writeData_outside (f : H5File) (q : Loc) (data : List Byte) (f' : H5File)
    (h : f.writeData q data = .ok f') : Outside q f f' := by
  intro p hp
  have hne := ne_of_outside hp
  unfold H5File.writeData at h
  split at h
  · cases h
    exact find_links_ne f _ p (fun _ => assoc_assocSet_ne q p _ hne f.links)
  · cases h

theorem writeData_isSome (f : H5File) (q : Loc) (data : List Byte) (f' : H5File)
    (h : f.writeData q data = .ok f') (hq : q ≠ []) (hp : (f.find q).isSome = true) :
    (f'.find q).isSome = true := by
  unfold H5File.writeData at h
  split at h
  · cases h
    have hs : (assoc q f.links).isSome = true := by simpa [H5File.find, hq] using hp
    simp [H5File.find, hq, assoc_assocSet_same q _ f.links hs]
  · cases h

theorem unlink_outside (f : H5File) (loc : Loc) (name : String) (f' : H5File)
    (h : f.unlink loc name = .ok f') : Outside (resolve loc name) f f' := by
  intro p hp
  unfold H5File.unlink at h
  by_cases hq : resolve loc name = []
  · simp [hq] at h
  · cases hf : f.find (resolve loc name) with
    | none => simp [hq, hf] at h
    | some v =>
      simp only [hq, hf, if_false] at h
      cases h
      refine find_links_ne f _ p (fun _ => assoc_filter_keep p _ (fun v => ?_) f.links)
      have : (resolve loc name).isPrefixOf p = false := by
        cases hb : (resolve loc name).isPrefixOf p with
        | false => rfl
        | true => exact absurd (List.isPrefixOf_iff_prefix.mp hb) hp
      simp [this]

theorem assoc_append_notin {α β : Type} [DecidableEq α] (k : α) (l m : List (α × β))
    (h : ∀ e ∈ m, e.1 ≠ k) : assoc k (l ++ m) = assoc k l := by
  induction m generalizing l with
  | nil => simp
  | cons e m ih =>
    have h1 : assoc k (l ++ [(e.1, e.2)]) = assoc k l :=
      assoc_snoc_ne e.1 k e.2 (fun hk => h e (by simp) hk.symm) l
    have h2 := ih (l ++ [e]) (fun e' he' => h e' (by simp [he']))
    rw [show l ++ e :: m = (l ++ [e]) ++ m by simp, h2]
    exact h1

theorem linkHard_inv (f : H5File) (loc : Loc) (source name : String) (f' : H5File)
    (h : f.linkHard loc source name = .ok f') :
    ∃ (n : Node) (g : H5File) (copies : List (Loc × Node)),
      f.insert (resolve loc name) n "link" = .ok g ∧
      (∀ e ∈ copies, resolve loc name <+: e.1) ∧
      f' = { g with links := g.links ++ copies } := by
  unfold H5File.linkHard at h
  cases hf : f.find (resolve loc source) with
  | none => simp [hf] at h
  | some n =>
    simp only [hf] at h
    by_cases hs : resolve loc source = []
    · rw [if_pos hs] at h; cases h
    · rw [if_neg hs] at h
      obtain ⟨g, hg, h⟩ := bind_ok _ _ _ h
      cases h
      refine ⟨n, g, _, hg, ?_, rfl⟩
      intro e he
      obtain ⟨e0, _, rfl⟩ := List.mem_map.mp he
      exact List.prefix_append _ _

theorem linkHard_outside (f : H5File) (loc : Loc) (source name : String) (f' : H5File)
    (h : f.linkHard loc source name = .ok f') : Outside (resolve loc name) f f' := by
  obtain ⟨n, g, copies, hg, hc, rfl⟩ := linkHard_inv f loc source name f' h
  intro p hp
  have h1 := insert_outside f _ n "link" g hg p hp
  rw [← h1]
  refine find_links_ne g _ p (fun _ => assoc_append_notin p g.links copies (fun e he hk => ?_))
  exact hp (hk ▸ hc e he)

theorem find_append_isSome (f : H5File) (m : List (Loc × Node)) (p : Loc)
    (hp : (f.find p).isSome = true) :
    (H5File.find { f with links := f.links ++ m } p).isSome = true := by
  by_cases h0 : p = []
  · simp [H5File.find, h0]
  · simp only [H5File.find, h0, if_false] at hp ⊢
    cases ha : assoc p f.links with
    | none => simp [ha] at hp
    | some v => simp [assoc_append_some p v f.links m ha]

theorem linkHard_isSome (f : H5File) (loc : Loc) (source name : String) (f' : H5File)
    (h : f.linkHard loc source name = .ok f') (p : Loc) (hp : (f.find p).isSome = true) :
    (f'.find p).isSome = true := by
  obtain ⟨n, g, copies, hg, _, rfl⟩ := linkHard_inv f loc source name f' h
  obtain ⟨_, _, _, rfl⟩ := insert_inv f _ n "link" g hg
  have := find_append_isSome f ([(resolve loc name, n)] ++ copies) p hp
  simpa using this

/-! ## The decisions under the policy `never` -/

theorem neverPolicy_getD {opts : Opts} (h : neverPolicy opts) :
    opts.updatepolicy.getD "never" = "never" := by
  rcases h with h | h <;> simp [h]

theorem nameExists_false_inv (f : H5File) (g : Loc) (name : String)
    (h : f.nameExists g name = .ok false) :
    name ≠ "" ∧ resolve g name ≠ [] ∧ f.isGroup (resolve g name).dropLast = true ∧
      f.find (resolve g name) = none := by
  unfold H5File.nameExists at h
  by_cases hn : name = ""
  · rw [if_pos hn] at h; cases h
  · rw [if_neg hn] at h
    dsimp only at h
    by_cases hq : resolve g name = []
    · rw [if_pos hq] at h; cases h
    · rw [if_neg hq] at h
      by_cases hg : f.isGroup (resolve g name).dropLast = true
      · rw [if_pos hg] at h
        refine ⟨hn, hq, hg, ?_⟩
        cases hf : f.find (resolve g name) with
        | none => rfl
        | some v => rw [hf] at h; cases h
      · rw [if_neg hg] at h; cases h

/-- A name without a slash that a live group does not hold is a plain name, and
it leads to the place right below the group. -/
theorem fresh_name (f : H5File) (g : Loc) (name : String) (hs : ∀ c ∈ name.data, c ≠ '/')
    (hlive : (f.find g).isSome = true) (h : f.nameExists g name = .ok false) :
    parsePath name = [name] ∧ resolve g name = g ++ [name] ∧ f.find (g ++ [name]) = none ∧
      f.isGroup g = true := by
  obtain ⟨_, _, hgrp, hfree⟩ := nameExists_false_inv f g name h
  have hres := resolve_noSlash g name hs
  have hpar := parsePath_noSlash name hs
  by_cases hplain : name.data ≠ [] ∧ name.data ≠ ['.']
  · rw [if_pos hplain] at hpar
    rw [hpar] at hres
    rw [hres] at hgrp hfree
    exact ⟨hpar, hres, hfree, by simpa using hgrp⟩
  · rw [if_neg hplain] at hpar
    rw [hpar, List.append_nil] at hres
    rw [hres] at hfree
    rw [hfree] at hlive
    simp at hlive

theorem fullname_ne_empty (g : Loc) (n : String) : getObjName g ++ "/" ++ n ≠ "" := by
  intro h
  have := congrArg String.data h
  simp [String.data_append] at this

/-- The full name of a fresh name is as fresh as the name. -/
theorem nameExists_fullname (f : H5File) (loc g : Loc) (n : String) (hg : PlainLoc g)
    (hpar : parsePath n = [n]) (hfree : f.find (g ++ [n]) = none) (hgrp : f.isGroup g = true) :
    f.nameExists loc (getObjName g ++ "/" ++ n) = .ok false := by
  unfold H5File.nameExists
  rw [if_neg (fullname_ne_empty g n)]
  dsimp only
  rw [resolve_fullname loc g n hg, hpar]
  have hq : g ++ [n] ≠ [] := by simp
  rw [if_neg hq]
  simp [hgrp, hfree]
  rfl

theorem symlinkDecision_state (env : Env) (opts : Opts) (st : Packer)
    (basePath datasetPath link : String) (r : StoreResult) (st' : Packer)
    (h : symlinkDecision env opts st basePath datasetPath link = .ok (r, st')) :
    st'.file = st.file ∧ st'.calls = st.calls ∧ st'.deferredLinks = st.deferredLinks ∧
      r.storeType ≠ StoreType.AS_HARD_LINK := by
  unfold symlinkDecision at h
  dsimp only at h
  generalize (if link.data.head? = some '/' then link else pathAppend basePath link) = lp at h
  obtain ⟨below, _, h⟩ := bind_ok _ _ _ h
  unfold externalDecision at h
  dsimp only at h
  repeat' split at h
  all_goals (cases h; exact ⟨rfl, rfl, rfl, by simp⟩)

/-- Under the policy `never`, `shouldStore` leaves the container, the record of
calls and the deferred links alone, and stores only under a fresh name. -/
theorem shouldStore_never (env : Env) (H : Hasher) (opts : Opts) (st : Packer) (g : Loc)
    (basePath filepath name : String) (src : Source) (isDir : Bool) (r : StoreResult)
    (st' : Packer) (hpol : neverPolicy opts)
    (h : shouldStore env H opts st g basePath filepath name src isDir = .ok (r, st')) :
    st'.file = st.file ∧ st'.calls = st.calls ∧ st'.deferredLinks = st.deferredLinks ∧
      (r.storeType ≠ StoreType.DONT_STORE → st.file.nameExists g name = .ok false) ∧
      (r.storeType = StoreType.AS_HARD_LINK →
        (assoc src.lstat.st_ino st.inoMap).isSome = true) := by
  unfold shouldStore at h
  obtain ⟨existing, hex, h⟩ := bind_ok _ _ _ h
  by_cases hf : filteredOut env opts name isDir = true
  · rw [if_pos hf] at h
    cases h
    exact ⟨rfl, rfl, rfl, fun hne => absurd rfl hne, fun hh => by cases hh⟩
  · rw [if_neg hf] at h
    unfold storeDecision at h
    dsimp only at h
    cases existing with
    | true =>
      simp only [Bool.not_true, Bool.and_false, Bool.false_eq_true, if_false] at h
      obtain ⟨t, ht, h⟩ := bind_ok _ _ _ h
      unfold updatePolicyDecision at ht
      simp only [neverPolicy_getD hpol, if_true] at ht
      cases ht
      cases h
      exact ⟨rfl, rfl, rfl, fun hne => absurd rfl hne, fun hh => by cases hh⟩
    | false =>
      by_cases hl : S_ISLNK src.lstat.st_mode = true
      · simp only [hl, Bool.not_true, Bool.false_and, Bool.false_eq_true, if_false,
          Bool.not_false, Bool.and_self, if_true] at h
        cases hr : src.readlink with
        | none =>
          rw [hr] at h
          cases h
          exact ⟨rfl, rfl, rfl, fun hne => absurd rfl hne, fun hh => by cases hh⟩
        | some link =>
          rw [hr] at h
          have hh : symlinkDecision env opts st basePath (getObjName g ++ "/" ++ name) link
              = .ok (r, st') := h
          have hs := symlinkDecision_state env opts st basePath
            (getObjName g ++ "/" ++ name) link r st' hh
          exact ⟨hs.1, hs.2.1, hs.2.2.1, fun _ => hex, fun hhard => absurd hhard hs.2.2.2⟩
      · simp only [hl, Bool.not_false, Bool.and_self, if_true] at h
        by_cases hn : src.lstat.st_nlink = 1
        · rw [if_pos hn] at h
          cases h
          exact ⟨rfl, rfl, rfl, fun _ => hex, fun hh => by cases hh⟩
        · rw [if_neg hn] at h
          cases hi : assoc src.lstat.st_ino st.inoMap with
          | none =>
            rw [hi] at h
            cases h
            exact ⟨rfl, rfl, rfl, fun _ => hex, fun hh => by cases hh⟩
          | some first =>
            rw [hi] at h
            cases h
            exact ⟨rfl, rfl, rfl, fun _ => hex, fun _ => rfl⟩

/-! ## What the storing functions leave in place -/

theorem attr_step (q : Loc) (f f1 f2 : H5File) (name : String) (v : AttrVal)
    (h1 : Outside q f f1 ∧ (f1.find q).isSome = true)
    (h : f1.createAttribute q name v = .ok f2) :
    Outside q f f2 ∧ (f2.find q).isSome = true :=
  ⟨outside_trans h1.1 (createAttribute_outside f1 q name v f2 h),
    createAttribute_isSome f1 q name v f2 h q h1.2⟩

theorem insert_step (q : Loc) (f f1 : H5File) (n : Node) (what : String)
    (h : f.insert q n what = .ok f1) : Outside q f f1 ∧ (f1.find q).isSome = true :=
  ⟨insert_outside f q n what f1 h, by rw [insert_find f q n what f1 h]; rfl⟩

/-- What `createAndFill` changes is at the name it is given, and the name is
there afterwards. -/
theorem createAndFill_outside (H : Hasher) (opts : Opts) (f : H5File) (g : Loc) (name : String)
    (src : Source) (f' : H5File) (h : createAndFill H opts f g name src = .ok f') :
    Outside (resolve g name) f f' ∧ (f'.find (resolve g name)).isSome = true := by
  unfold createAndFill at h
  dsimp only at h
  split at h
  · obtain ⟨f1, h1, h⟩ := bind_ok _ _ _ h
    obtain ⟨f2, h2, h⟩ := bind_ok _ _ _ h
    obtain ⟨f3, h3, h⟩ := bind_ok _ _ _ h
    obtain ⟨f4, h4, h⟩ := bind_ok _ _ _ h
    have s1 := insert_step _ f f1 _ _ h1
    exact attr_step _ f f4 f' _ _ (attr_step _ f f3 f4 _ _ (attr_step _ f f2 f3 _ _
      (attr_step _ f f1 f2 _ _ s1 h2) h3) h4) h
  · obtain ⟨f1, h1, h⟩ := bind_ok _ _ _ h
    have s1 := insert_step _ f f1 _ _ h1
    obtain ⟨hq, _, _, _⟩ := insert_inv f _ _ _ f1 h1
    split at h
    · cases h
    · obtain ⟨f2, h2, h⟩ := bind_ok _ _ _ h
      obtain ⟨f3, h3, h⟩ := bind_ok _ _ _ h
      obtain ⟨f4, h4, h⟩ := bind_ok _ _ _ h
      obtain ⟨f5, h5, h⟩ := bind_ok _ _ _ h
      have s2 : Outside (resolve g name) f f2 ∧ (f2.find (resolve g name)).isSome = true :=
        ⟨outside_trans s1.1 (writeData_outside f1 _ _ f2 h2), writeData_isSome f1 _ _ f2 h2 hq s1.2⟩
      exact attr_step _ f f5 f' _ _ (attr_step _ f f4 f5 _ _ (attr_step _ f f3 f4 _ _
        (attr_step _ f f2 f3 _ _ s2 h3) h4) h5) h

theorem clear_bind {β : Type} (f : H5File) (g : Loc) (name : String) (b : Bool)
    (k : H5File → Except Err β) (r : β)
    (h : (if b = true then f.unlink g name >>= k else pure f >>= k) = .ok r) :
    ∃ f1, Outside (resolve g name) f f1 ∧ k f1 = .ok r ∧ (b = false → f1 = f) := by
  cases b with
  | true =>
    obtain ⟨f1, h1, h⟩ := bind_ok _ _ _ h
    exact ⟨f1, unlink_outside f g name f1 h1, h, fun hb => by cases hb⟩
  | false => exact ⟨f, outside_refl _ _, h, fun _ => rfl⟩

theorem storeFile_outside (H : Hasher) (opts : Opts) (st : Packer) (g : Loc)
    (filePath name : String) (src : Source) (st' : Packer)
    (h : storeFile H opts st g filePath name src = .ok st') :
    Outside (resolve g name) st.file st'.file ∧
      (st'.file.find (resolve g name)).isSome = true := by
  unfold storeFile at h
  dsimp only at h
  obtain ⟨e, _, h⟩ := bind_ok _ _ _ h
  obtain ⟨f1, h1, h, _⟩ := clear_bind _ _ _ _ _ _ h
  obtain ⟨f2, h2, h⟩ := bind_ok _ _ _ h
  have hst : _ = st' := Except.ok.inj h
  subst hst
  have hc := createAndFill_outside H opts f1 g name src f2 h2
  exact ⟨outside_trans h1 hc.1, hc.2⟩

theorem softLink_outside (st : Packer) (g : Loc) (source dest : String) (st' : Packer)
    (h : softLink st g source dest = .ok st') :
    Outside (resolve g dest) st.file st'.file ∧
      (st'.file.find (resolve g dest)).isSome = true := by
  unfold softLink at h
  dsimp only at h
  obtain ⟨e, _, h⟩ := bind_ok _ _ _ h
  obtain ⟨f1, h1, h, _⟩ := clear_bind _ _ _ _ _ _ h
  obtain ⟨f2, h2, h⟩ := bind_ok _ _ _ h
  have hst : _ = st' := Except.ok.inj h
  subst hst
  have hc := insert_step _ f1 f2 _ _ h2
  exact ⟨outside_trans h1 hc.1, hc.2⟩

theorem externalLink_outside (st : Packer) (g : Loc) (source dest : String) (st' : Packer)
    (h : externalLink st g source dest = .ok st') :
    Outside (resolve g dest) st.file st'.file ∧
      (st'.file.find (resolve g dest)).isSome = true := by
  unfold externalLink at h
  dsimp only at h
  obtain ⟨e, _, h⟩ := bind_ok _ _ _ h
  obtain ⟨f1, h1, h, _⟩ := clear_bind _ _ _ _ _ _ h
  obtain ⟨f2, h2, h⟩ := bind_ok _ _ _ h
  obtain ⟨f3, h3, h⟩ := bind_ok _ _ _ h
  have hst : _ = st' := Except.ok.inj h
  subst hst
  have hc := attr_step _ f1 f2 f3 _ _ (insert_step _ f1 f2 _ _ h2) h3
  exact ⟨outside_trans h1 hc.1, hc.2⟩

theorem hardLink_outside (st : Packer) (g : Loc) (source dest : String) (st' : Packer)
    (h : hardLink st g source dest = .ok st') :
    Outside (resolve g dest) st.file st'.file := by
  unfold hardLink at h
  dsimp only at h
  obtain ⟨e, _, h⟩ := bind_ok _ _ _ h
  obtain ⟨f1, h1, h, _⟩ := clear_bind _ _ _ _ _ _ h
  obtain ⟨se, _, h⟩ := bind_ok _ _ _ h
  have hc := h1
  cases se with
  | false =>
    have hst : _ = st' := Except.ok.inj h
    subst hst
    exact hc
  | true =>
    obtain ⟨f2, h2, h⟩ := bind_ok _ _ _ h
    have hst : _ = st' := Except.ok.inj h
    subst hst
    exact outside_trans hc (linkHard_outside f1 g source dest f2 h2)

/-! ## The walk under the policy `never` -/

theorem kept_refl (st : Packer) : Kept st st := ⟨rfl, rfl, rfl⟩

theorem nodeInv_walkInv {opts : Opts} {g : Loc} {path : String} {src : Source} {st : Packer}
    {n : Nat} {st' : Packer} (h : NodeInv opts g path src st n st') : WalkInv opts g st n st' := by
  refine ⟨h.1, fun hn ha hc => ?_⟩
  rcases h.2 hc with h1 | h2
  · exact h1.2
  · rcases h2.1 with h3 | h3
    · exact absurd hn h3
    · rw [ha] at h3; cases h3

theorem handleFile_inv (env : Env) (H : Hasher) (opts : Opts) (st : Packer) (g : Loc)
    (basePath path : String) (src : Source) (n : Nat) (st' : Packer) (hpol : neverPolicy opts)
    (hg : PlainLoc g) (hlive : (st.file.find g).isSome = true)
    (h : handleFile env H opts st g basePath path src = .ok (n, st')) :
    NodeInv opts g path src st n st' := by
  unfold handleFile at h
  dsimp only at h
  obtain ⟨_, _, h⟩ := bind_ok _ _ _ h
  obtain ⟨p, hp, h⟩ := bind_ok _ _ _ h
  obtain ⟨store, st1⟩ := p
  dsimp only at h
  obtain ⟨hfile, hcalls, hdef, hfresh, hhard⟩ :=
    shouldStore_never env H opts st g basePath path (getLastPathChunk path) src false store st1
      hpol hp
  have hslash := getLastPathChunk_noSlash path
  cases hty : store.storeType with
  | DONT_STORE =>
    rw [hty] at h
    cases h
    exact ⟨hfile ▸ above_refl g _, fun _ => Or.inl ⟨rfl, hfile, hcalls, hdef⟩⟩
  | AS_INTERNAL =>
    rw [hty] at h
    obtain ⟨hpar, hres, hfree, hgrp⟩ := fresh_name st.file g _ hslash hlive
      (hfresh (by rw [hty]; simp))
    obtain ⟨st2, h2, h⟩ := bind_ok _ _ _ h
    cases h
    have ho := storeFile_outside H opts st1 g path _ src _ h2
    rw [hres, hfile] at ho
    exact ⟨outside_above ho.1, fun _ => Or.inr ⟨Or.inl (by simp), hpar, Or.inl ho.2⟩⟩
  | AS_HARD_LINK =>
    rw [hty] at h
    obtain ⟨hpar, hres, hfree, hgrp⟩ := fresh_name st.file g _ hslash hlive
      (hfresh (by rw [hty]; simp))
    obtain ⟨st2, h2, h⟩ := bind_ok _ _ _ h
    cases h
    have ho := hardLink_outside st1 g _ _ _ h2
    rw [resolve_fullname g g _ hg, hpar, hfile] at ho
    exact ⟨outside_above ho, fun _ => Or.inr ⟨Or.inl (by simp), hpar, Or.inr (hhard hty)⟩⟩
  | AS_SOFT_LINK =>
    rw [hty] at h
    obtain ⟨hpar, hres, hfree, hgrp⟩ := fresh_name st.file g _ hslash hlive
      (hfresh (by rw [hty]; simp))
    obtain ⟨st2, h2, h⟩ := bind_ok _ _ _ h
    cases h
    have ho := softLink_outside st1 g _ _ _ h2
    rw [resolve_fullname g g _ hg, hpar, hfile] at ho
    exact ⟨outside_above ho.1, fun _ => Or.inr ⟨Or.inl (by simp), hpar, Or.inl ho.2⟩⟩
  | AS_EXTERNAL_LINK =>
    rw [hty] at h
    obtain ⟨hpar, hres, hfree, hgrp⟩ := fresh_name st.file g _ hslash hlive
      (hfresh (by rw [hty]; simp))
    obtain ⟨st2, h2, h⟩ := bind_ok _ _ _ h
    cases h
    have ho := externalLink_outside st1 g _ _ _ h2
    rw [resolve_fullname g g _ hg, hpar, hfile] at ho
    exact ⟨outside_above ho.1, fun _ => Or.inr ⟨Or.inl (by simp), hpar, Or.inl ho.2⟩⟩

theorem createAttribute_tip_inv (q : Loc) (f f1 f2 : H5File) (name : String) (v : AttrVal)
    (hq : q ≠ []) (hfree : f.find q = none) (h1 : Tip q f f1)
    (h : f1.createAttribute q name v = .ok f2) : Tip q f f2 := by
  obtain ⟨node, rfl⟩ := h1
  have hfree' : assoc q f.links = none := by simpa [H5File.find, hq] using hfree
  have hfind : H5File.find { f with links := f.links ++ [(q, node)] } q = some node :=
    find_tip f.rootAttrs f.links q node hq hfree'
  unfold H5File.createAttribute at h
  rw [hfind] at h
  dsimp only at h
  cases ha : H5File.attrsOf node with
  | none => rw [ha] at h; cases h
  | some a =>
    rw [ha] at h
    dsimp only at h
    split at h
    · cases h
    · cases h
      refine ⟨H5File.withAttrs node (a ++ [(name, v)]), ?_⟩
      rw [assocSet_append_none q _ f.links _ hfree']
      simp [assocSet]

theorem tip_find {q : Loc} {f f' : H5File} (hq : q ≠ []) (hfree : f.find q = none)
    (h : Tip q f f') : (f'.find q).isSome = true := by
  obtain ⟨node, rfl⟩ := h
  have hfree' : assoc q f.links = none := by simpa [H5File.find, hq] using hfree
  rw [find_tip f.rootAttrs f.links q node hq hfree']
  rfl

theorem tip_outside {q : Loc} {f f' : H5File} (h : Tip q f f') : Outside q f f' := by
  obtain ⟨node, rfl⟩ := h
  intro p hp
  exact find_links_ne f _ p (fun _ => assoc_snoc_ne q p node (ne_of_outside hp) f.links)

theorem closedBelow_tip {g : Loc} {n : String} {f f' : H5File} (hc : ClosedBelow f g)
    (h : Tip (g ++ [n]) f f') : ClosedBelow f' (g ++ [n]) := by
  intro X hX hnone e he
  have hout := tip_outside h
  obtain ⟨node, rfl⟩ := h
  have hpre : ¬ (g ++ [n]) <+: (g ++ [n] ++ X) → False := fun hh => hh (List.prefix_append _ _)
  rcases List.mem_append.mp he with he | he
  · -- a link of `f`
    have hne : g ++ [n] ++ X ≠ g ++ [n] := by
      intro hh
      have := congrArg List.length hh
      simp at this
      exact hX this
    have hnone' : f.find (g ++ ([n] ++ X)) = none := by
      have hp0 : g ++ [n] ++ X ≠ [] := by simp
      have : assoc (g ++ [n] ++ X) (f.links ++ [(g ++ [n], node)])
          = assoc (g ++ [n] ++ X) f.links := assoc_snoc_ne _ _ node hne f.links
      simp only [H5File.find, hp0, if_false, this] at hnone
      simpa [H5File.find] using hnone
    have := hc ([n] ++ X) (by simp) hnone' e he
    simpa [List.append_assoc] using this
  · simp only [List.mem_singleton] at he
    subst he
    intro hh
    have := hh.length_le
    simp at this
    exact hX this

theorem unlink_tip {g : Loc} {n name : String} {f f1 f2 : H5File} (hc : ClosedBelow f g)
    (hfree : f.find (g ++ [n]) = none) (hres : resolve g name = g ++ [n])
    (h1 : Tip (g ++ [n]) f f1) (h : f1.unlink g name = .ok f2) : f2 = f := by
  obtain ⟨node, rfl⟩ := h1
  unfold H5File.unlink at h
  rw [hres] at h
  dsimp only at h
  have hq : g ++ [n] ≠ [] := by simp
  rw [if_neg hq] at h
  split at h
  · cases h
  · cases h
    have hkeep : f.links.filter (fun e => !((g ++ [n]).isPrefixOf e.1)) = f.links := by
      apply List.filter_eq_self.mpr
      intro e he
      have := hc [n] (by simp) hfree e he
      cases hb : (g ++ [n]).isPrefixOf e.1 with
      | false => rfl
      | true => exact absurd (List.isPrefixOf_iff_prefix.mp hb) this
    simp [List.filter_append, hkeep, isPrefixOf_self]

theorem handleDirectory_inv (env : Env) (H : Hasher) (opts : Opts) (st : Packer) (g : Loc)
    (basePath path : String) (src : Source) (walk : Loc → Packer → Except Err (Nat × Packer))
    (n : Nat) (st' : Packer) (hpol : neverPolicy opts)
    (hwalk : ∀ (g2 : Loc) (st2 : Packer) (n2 : Nat) (st2' : Packer), PlainLoc g2 →
      (st2.file.find g2).isSome = true → walk g2 st2 = .ok (n2, st2') →
      WalkInv opts g2 st2 n2 st2')
    (hg : PlainLoc g) (hlive : (st.file.find g).isSome = true)
    (h : handleDirectory env H opts st g basePath path src walk = .ok (n, st')) :
    NodeInv opts g path src st n st' := by
  unfold handleDirectory at h
  dsimp only at h
  obtain ⟨existingGroup, hex, h⟩ := bind_ok _ _ _ h
  obtain ⟨p, hp, h⟩ := bind_ok _ _ _ h
  obtain ⟨store, st1⟩ := p
  dsimp only at h
  obtain ⟨hfile, hcalls, hdef, hfresh, hhard⟩ :=
    shouldStore_never env H opts st g basePath path (getLastPathChunk path) src true store st1
      hpol hp
  have hslash := getLastPathChunk_noSlash path
  by_cases hdont : store.storeType = StoreType.DONT_STORE
  · rw [if_pos hdont] at h
    cases h
    exact ⟨hfile ▸ above_refl g _, fun _ => Or.inl ⟨rfl, hfile, hcalls, hdef⟩⟩
  · rw [if_neg hdont] at h
    have hfalse := hfresh hdont
    obtain ⟨hpar, hres, hfree, hgrp⟩ := fresh_name st.file g _ hslash hlive hfalse
    have hq : g ++ [getLastPathChunk path] ≠ [] := by simp
    have hexf : existingGroup = false := by
      rw [hfalse] at hex
      exact (Except.ok.inj hex).symm
    subst hexf
    by_cases hsoft : store.storeType = StoreType.AS_SOFT_LINK
    · rw [if_pos hsoft] at h
      obtain ⟨st2, h2, h⟩ := bind_ok _ _ _ h
      cases h
      have ho := softLink_outside st1 g _ _ _ h2
      rw [resolve_fullname g g _ hg, hpar, hfile] at ho
      exact ⟨outside_above ho.1, fun _ => Or.inr ⟨Or.inl (by simp), hpar, Or.inl ho.2⟩⟩
    · rw [if_neg hsoft] at h
      simp only [Bool.false_eq_true, if_false] at h
      obtain ⟨f1, h1, h⟩ := bind_ok _ _ _ h
      obtain ⟨f2, h2, h⟩ := bind_ok _ _ _ h
      obtain ⟨f3, h3, h⟩ := bind_ok _ _ _ h
      obtain ⟨f4, h4, h⟩ := bind_ok _ _ _ h
      obtain ⟨y, hy, h⟩ := bind_ok _ _ _ h
      cases hy
      obtain ⟨p2, hw, h⟩ := bind_ok _ _ _ h
      obtain ⟨n2, st2⟩ := p2
      dsimp only at h hw
      rw [hres] at h2 h3 h4 hw
      rw [hfile] at h1
      -- the new group is the last link of the container
      have hfree0 : st.file.find (g ++ [getLastPathChunk path]) = none := hfree
      have t1 : Tip (g ++ [getLastPathChunk path]) st.file f1 := by
        unfold H5File.createGroup at h1
        rw [hres] at h1
        obtain ⟨_, _, _, hf1⟩ := insert_inv _ _ _ _ _ h1
        exact ⟨_, hf1⟩
      have t2 := createAttribute_tip_inv _ st.file f1 f2 _ _ hq hfree t1 h2
      have t3 := createAttribute_tip_inv _ st.file f2 f3 _ _ hq hfree t2 h3
      have t4 := createAttribute_tip_inv _ st.file f3 f4 _ _ hq hfree t3 h4
      -- the walk below the new group
      have hplain : PlainLoc (g ++ [getLastPathChunk path]) := by
        intro c hc
        rcases List.mem_append.mp hc with hc | hc
        · exact hg c hc
        · simp only [List.mem_singleton] at hc
          subst hc
          have hp2 := parsePath_noSlash (getLastPathChunk path) hslash
          rw [hpar] at hp2
          by_cases hcond : (getLastPathChunk path).data ≠ [] ∧ (getLastPathChunk path).data ≠ ['.']
          · exact ⟨hcond.1, hslash, hcond.2⟩
          · rw [if_neg hcond] at hp2; cases hp2
      have hw2 := hwalk _ _ n2 st2 hplain (tip_find hq hfree t4) hw
      have habove : Above g st.file st2.file :=
        above_trans (outside_above (tip_outside t4)) (above_of_snoc hw2.1)
      have hpresent : (st2.file.find (g ++ [getLastPathChunk path])).isSome = true := by
        have := hw2.1 (g ++ [getLastPathChunk path]) (List.prefix_refl _)
        dsimp only at this
        rw [this]
        exact tip_find hq hfree t4
      by_cases hcond : (decide (n2 = 0) && !false && !asBool opts.allowemptydirs false) = true
      · rw [if_pos hcond] at h
        obtain ⟨f5, h5, h⟩ := bind_ok _ _ _ h
        have hboth : n2 = 0 ∧ asBool opts.allowemptydirs false = false := by
          simpa using hcond
        obtain ⟨hn2, hallow⟩ := hboth
        have hkept := fun hc0 => hw2.2 hn2 hallow (closedBelow_tip hc0 t4)
        cases h
        refine ⟨above_trans habove (unlink_outside _ _ _ _ h5 |> fun ho => by
          rw [hres] at ho; exact outside_above ho), fun hc => Or.inl ⟨hn2, ?_⟩⟩
        obtain ⟨hk1, hk2, hk3⟩ := hkept hc
        refine ⟨?_, hk2.trans hcalls, hk3.trans hdef⟩
        dsimp only
        rw [hk1] at h5
        exact unlink_tip hc hfree hres t4 h5
      · rw [if_neg hcond] at h
        cases h
        refine ⟨habove, fun _ => Or.inr ⟨?_, hpar, Or.inl hpresent⟩⟩
        by_cases hn : n = 0
        · right
          subst hn
          simpa using hcond
        · exact Or.inl hn

mutual
/-- Under the policy `never`, one call of `coalescetoHDF5` keeps the group it
works in, and either counts nothing and changes nothing, or leaves the name of
its entry present. -/
theorem coalesce_inv (env : Env) (H : Hasher) (opts : Opts) (basePath : String)
    (hpol : neverPolicy opts) :
    ∀ (src : Source) (path : String) (g : Loc) (st : Packer) (n : Nat) (st' : Packer),
      PlainLoc g → (st.file.find g).isSome = true →
      coalescetoHDF5 env H opts basePath src path g st = .ok (n, st') →
      NodeInv opts g path src st n st'
  | Source.mk nm l s r c es, path, g, st, n, st', hg, hlive, h => by
    rw [coalescetoHDF5] at h
    split at h
    · exact handleDirectory_inv env H opts st g basePath path _ _ n st' hpol
        (fun g2 st2 n2 st2' hg2 hl2 hw =>
          walk_inv env H opts basePath hpol es path g2 st2 n2 st2' hg2 hl2 hw) hg hlive h
    · split at h
      · exact handleFile_inv env H opts st g basePath path _ n st' hpol hg hlive h
      · split at h
        · exact handleFile_inv env H opts st g basePath path _ n st' hpol hg hlive h
        · cases h
          exact ⟨above_refl g _, fun _ => Or.inl ⟨rfl, kept_refl _⟩⟩
/-- Under the policy `never`, the loop over the entries of a directory keeps the
group it fills, and changes nothing when it counts nothing. -/
theorem walk_inv (env : Env) (H : Hasher) (opts : Opts) (basePath : String)
    (hpol : neverPolicy opts) :
    ∀ (es : List Source) (path : String) (g : Loc) (st : Packer) (n : Nat) (st' : Packer),
      PlainLoc g → (st.file.find g).isSome = true →
      walkEntries env H opts basePath es path g st = .ok (n, st') →
      WalkInv opts g st n st'
  | [], path, g, st, n, st', hg, hlive, h => by
    rw [walkEntries] at h
    cases h
    exact ⟨above_refl g _, fun _ _ _ => kept_refl _⟩
  | e :: rest, path, g, st, n, st', hg, hlive, h => by
    rw [walkEntries] at h
    obtain ⟨first, h1, h⟩ := bind_ok _ _ _ h
    obtain ⟨others, h2, h⟩ := bind_ok _ _ _ h
    obtain ⟨n1, st1⟩ := first
    obtain ⟨n2, st2⟩ := others
    dsimp only at h h2
    have i1 := nodeInv_walkInv (coalesce_inv env H opts basePath hpol e _ g st n1 st1 hg hlive h1)
    have hlive1 : (st1.file.find g).isSome = true := by
      rw [i1.1 g (List.prefix_refl _)]; exact hlive
    have i2 := walk_inv env H opts basePath hpol rest path g st1 n2 st2 hg hlive1 h2
    cases h
    refine ⟨above_trans i1.1 i2.1, fun hn ha hc => ?_⟩
    have hn1 : n1 = 0 := by omega
    have hn2 : n2 = 0 := by omega
    obtain ⟨a1, a2, a3⟩ := i1.2 hn1 ha hc
    obtain ⟨b1, b2, b3⟩ := i2.2 hn2 ha (a1 ▸ hc)
    exact ⟨b1.trans a1, b2.trans a2, b3.trans a3⟩
end

/-! ## Idempotence under `never` -/

theorem closed_below {f : H5File} (h : f.Closed) : ClosedBelow f [] := by
  intro X _ hnone e he hpre
  have := h e he X (by simpa using hpre)
  rw [show f.find X = none by simpa using hnone] at this
  cases this

theorem linkDeferred_isSome (g : Loc) (f f' : H5File) (link : String × String)
    (h : linkDeferred g f link = .ok f') (p : Loc) (hp : (f.find p).isSome = true) :
    (f'.find p).isSome = true := by
  unfold linkDeferred at h
  obtain ⟨e, _, h⟩ := bind_ok _ _ _ h
  cases e with
  | true => exact linkHard_isSome f g _ _ f' h p hp
  | false =>
    have : f = f' := Except.ok.inj h
    subst this
    exact hp

theorem foldlM_isSome (g : Loc) (p : Loc) : ∀ (links : List (String × String)) (f f' : H5File),
    links.foldlM (linkDeferred g) f = .ok f' → (f.find p).isSome = true →
    (f'.find p).isSome = true
  | [], f, f', h, hp => by
    have : f = f' := Except.ok.inj h
    subst this
    exact hp
  | l :: links, f, f', h, hp => by
    rw [List.foldlM_cons] at h
    obtain ⟨f1, h1, h⟩ := bind_ok _ _ _ h
    exact foldlM_isSome g p links f1 f' h (linkDeferred_isSome g f f1 l h1 p hp)

/-- The function `linkDeferredFiles` keeps what is present and the record of
calls, and leaves the container alone when no link is deferred. -/
theorem linkDeferredFiles_spec (st st' : Packer) (g : Loc)
    (h : linkDeferredFiles st g = .ok st') :
    st'.calls = st.calls ∧ (st.deferredLinks = [] → st'.file = st.file) ∧
      ∀ p, (st.file.find p).isSome = true → (st'.file.find p).isSome = true := by
  unfold linkDeferredFiles at h
  obtain ⟨f1, h1, h⟩ := bind_ok _ _ _ h
  have hst : _ = st' := Except.ok.inj h
  subst hst
  refine ⟨rfl, fun hd => ?_, fun p hp => foldlM_isSome g p _ _ _ h1 hp⟩
  rw [hd] at h1
  exact (Except.ok.inj h1).symm

/-- Under the policy `never`, a name that is present is not stored again. -/
theorem shouldStore_present (env : Env) (H : Hasher) (opts : Opts) (st : Packer) (g : Loc)
    (basePath filepath name : String) (src : Source) (isDir : Bool) (hpol : neverPolicy opts)
    (hex : st.file.nameExists g name = .ok true) :
    shouldStore env H opts st g basePath filepath name src isDir
      = .ok ({ storeType := StoreType.DONT_STORE }, st) := by
  unfold shouldStore
  rw [hex]
  show (if filteredOut env opts name isDir = true then _ else _) = _
  by_cases hf : filteredOut env opts name isDir = true
  · rw [if_pos hf]; rfl
  · rw [if_neg hf]
    unfold storeDecision
    simp only [Bool.not_true, Bool.and_false, Bool.false_eq_true, if_false]
    unfold updatePolicyDecision
    simp only [neverPolicy_getD hpol, if_true]
    rfl

theorem nameExists_present (f : H5File) (name : String) (hpar : parsePath name = [name])
    (hs : ∀ c ∈ name.data, c ≠ '/') (hp : (f.find ([] ++ [name])).isSome = true) :
    f.nameExists [] name = .ok true := by
  have hne : name ≠ "" := by
    intro h0
    subst h0
    simp [parsePath, splitSlash] at hpar
  have hres : resolve [] name = [name] := by
    rw [resolve_noSlash [] name hs, hpar]; rfl
  unfold H5File.nameExists
  rw [if_neg hne]
  dsimp only
  rw [hres]
  simp only [List.cons_ne_nil, if_false, List.dropLast_single, isGroup_root, if_true]
  rw [show f.find [name] = f.find ([] ++ [name]) from rfl]
  cases hf : f.find ([] ++ [name]) with
  | none => rw [hf] at hp; cases hp
  | some v => rfl

/-- Under the policy `never`, the walk of a root whose name is present in the
container does nothing. -/
theorem coalesce_present (env : Env) (H : Hasher) (opts : Opts) (basePath path : String)
    (src : Source) (st : Packer) (hpol : neverPolicy opts)
    (hex : st.file.nameExists [] (getLastPathChunk path) = .ok true) :
    coalescetoHDF5 env H opts basePath src path [] st = .ok (0, st) := by
  have hs := shouldStore_present env H opts st [] basePath path (getLastPathChunk path) src
  cases src with
  | mk nm l s r c es =>
    rw [coalescetoHDF5]
    split
    · unfold handleDirectory
      dsimp only
      rw [hex, hs true hpol hex]
      rfl
    · have hfile : handleFile env H opts st [] basePath path (Source.mk nm l s r c es)
          = .ok (0, st) := by
        unfold handleFile
        dsimp only
        rw [hex, hs false hpol hex]
        rfl
      split
      · exact hfile
      · split
        · exact hfile
        · rfl

/-- C9. Idempotence under never: for every source tree and option set with
`updatepolicy` `never` or not given, and every container that holds nothing
below a free name: when a first run of the walker over the tree returns, a
second run over the same tree, started on the container the first run left,
returns as well, calls none of `storeFile`, `hardLink`, `softLink` and
`externalLink`, and leaves the container, and so every dataset of it, as it
was. -/
theorem C9_idempotent_never (env : Env) (H : Hasher) (opts : Opts) (basePath : String)
    (src : Source) (f0 : H5File) (n1 : Nat) (st1 : Packer) (hpol : neverPolicy opts)
    (hclosed : f0.Closed)
    (hrun : packRoots env H opts [(basePath, src)] { file := f0 } = .ok (n1, st1)) :
    ∃ (n2 : Nat) (st2 : Packer),
      packRoots env H opts [(basePath, src)] { file := st1.file } = .ok (n2, st2) ∧
      st2.calls = [] ∧ st2.file = st1.file := by
  have hrun0 := hrun
  rw [packRoots] at hrun
  obtain ⟨walked, hw, h⟩ := bind_ok _ _ _ hrun
  obtain ⟨st, hl, h⟩ := bind_ok _ _ _ h
  obtain ⟨n, w⟩ := walked
  dsimp only at hl h
  have hst : (n, st) = (n1, st1) := Except.ok.inj h
  cases hst
  have hinv := coalesce_inv env H opts basePath hpol src basePath [] { file := f0 } n1 w
    (fun c hc => by cases hc) rfl hw
  obtain ⟨hcalls, hnodef, hkeep⟩ := linkDeferredFiles_spec w st1 [] hl
  rcases hinv.2 (closed_below hclosed) with ⟨hn, hfile, hc, hd⟩ | ⟨_, hpar, hpres⟩
  · -- nothing was counted: the first run left the container as it found it
    have hf : st1.file = f0 := (hnodef hd).trans hfile
    refine ⟨n1, st1, ?_, hcalls.trans hc, rfl⟩
    rw [hf]
    exact hrun0
  · -- the root is present after the first run: the second run skips it
    have hpresent : (st1.file.find ([] ++ [getLastPathChunk basePath])).isSome = true := by
      rcases hpres with hp | hp
      · exact hkeep _ hp
      · simp [assoc] at hp
    have hex := nameExists_present st1.file _ hpar (getLastPathChunk_noSlash basePath) hpresent
    refine ⟨0, { file := st1.file }, ?_, rfl, rfl⟩
    rw [packRoots, coalesce_present env H opts basePath basePath src { file := st1.file } hpol hex]
    rfl

/-- C9 at a concrete input: the tree `smallTree`, no options, a new container. -/
theorem C9_idempotent_never_witness :
    neverPolicy noOpts ∧ emptyFile.Closed ∧
    ∃ (n2 : Nat) (st2 : Packer),
      packRoots lexEnv md5Hasher noOpts [("/home/u/base", smallTree)]
        { file :=
            { rootAttrs := []
              links :=
                [(["base"], Node.group [("Created", AttrVal.int64 8),
                    ("Modified", AttrVal.int64 7), ("Permissions", AttrVal.uint32 16877)]),
                 (["base", "e.txt"], Node.dataset 1 [0] []
                    (datasetAttrs "d41d8cd98f00b204e9800998ecf8427e" (regStat 11 1 0) true))] } }
        = .ok (n2, st2) ∧
      st2.calls = [] ∧
      st2.file =
        { rootAttrs := []
          links :=
            [(["base"], Node.group [("Created", AttrVal.int64 8),
                ("Modified", AttrVal.int64 7), ("Permissions", AttrVal.uint32 16877)]),
             (["base", "e.txt"], Node.dataset 1 [0] []
                (datasetAttrs "d41d8cd98f00b204e9800998ecf8427e" (regStat 11 1 0) true))] } :=
  ⟨Or.inl rfl, (fun e he => by cases he),
    C9_idempotent_never lexEnv md5Hasher noOpts "/home/u/base" smallTree emptyFile 1
      { file :=
          { rootAttrs := []
            links :=
              [(["base"], Node.group [("Created", AttrVal.int64 8),
                  ("Modified", AttrVal.int64 7), ("Permissions", AttrVal.uint32 16877)]),
               (["base", "e.txt"], Node.dataset 1 [0] []
                  (datasetAttrs "d41d8cd98f00b204e9800998ecf8427e" (regStat 11 1 0) true))] }
        inoMap := [(10, "/home/u/base")]
        calls := [Call.storeFile ["base"] "/home/u/base/e.txt" "e.txt"] }
      (Or.inl rfl) (fun e he => by cases he) rfl⟩

/-! ## Hard links across two roots -/

/-- C4, the code at a failing input: the roots `/r1` and `/r2` are packed in one
run, and `/r1/x` and `/r2/y` are two names of one inode.  The first encounter
is stored as the dataset `/r1/x`.  When the walker reaches `/r2/y`,
`shouldStore` returns `AS_HARD_LINK` with the source path `/r1/x` it recorded
for the inode; `handleFile` makes the archive link path `/r2/../r1/x` of it,
which is not the container path `/r1/x` of the first encounter; `nameExists`
fails on that path, and the run ends with its exception. -/
theorem C4_cross_root_hard_link :
    (packRoots lexEnv md5Hasher noOpts [("/r1", rootOne)] { file := emptyFile }
      : Except Err (Nat × Packer)) = .ok (1, afterRootOne) ∧
    (afterRootOne.file.find ["r1", "x"]).isSome = true ∧
    getObjName ["r1"] ++ "/" ++ "x" = "/r1/x" ∧
    (shouldStore lexEnv md5Hasher noOpts atSecondRoot ["r2"] "/r2" "/r2/y" "y"
        (regFile "y" 7 2 [1, 2, 3]) false
      : Except Err (StoreResult × Packer))
      = .ok ({ storeType := StoreType.AS_HARD_LINK, datasetPath := "/r1/x" }, atSecondRoot) ∧
    linkPathOf lexEnv "/r2" "/r1/x" = "/r2/../r1/x" ∧
    (atSecondRoot.file.nameExists ["r2"] "/r2/../r1/x" : Except Err Bool)
      = .error (Err.h5 "nameExists") ∧
    (handleFile lexEnv md5Hasher noOpts atSecondRoot ["r2"] "/r2" "/r2/y"
        (regFile "y" 7 2 [1, 2, 3]) : Except Err (Nat × Packer))
      = .error (Err.h5 "nameExists") ∧
    (packRoots lexEnv md5Hasher noOpts [("/r1", rootOne), ("/r2", rootTwo)] { file := emptyFile }
      : Except Err (Nat × Packer)) = .error (Err.h5 "nameExists") := by
  refine ⟨by decide!, by decide!, by decide!, by decide!, by decide!, by decide!, by decide!,
    by decide!⟩

/-! ## Update of a root that is present -/

/-- C8, the code at a failing input: a first run packs `/home/u/base` with
`abc` in `a.txt`.  A run with `updatepolicy=hash` after `a.txt` changed to
`abd` stores nothing and leaves the container as it was: the root directory
is present, `shouldStore` is asked about it as a directory, the hash branch is
for files only, and the directory is not entered.  A run with
`updatepolicy=filesize` after `a.txt` grew to four bytes ends with the
exception of `openDataSet` on the group of the root. -/
theorem C8_existing_root_not_updated :
    (packRoots lexEnv md5Hasher noOpts [("/home/u/base", baseTree [97, 98, 99])]
        { file := emptyFile } : Except Err (Nat × Packer))
      = .ok (2, { file := baseArchive, inoMap := [(10, "/home/u/base")]
                  calls := [Call.storeFile ["base"] "/home/u/base/a.txt" "a.txt",
                            Call.storeFile ["base"] "/home/u/base/b.txt" "b.txt"] }) ∧
    (packRoots lexEnv md5Hasher (policyOpts "hash") [("/home/u/base", baseTree [97, 98, 100])]
        { file := baseArchive } : Except Err (Nat × Packer))
      = .ok (0, { file := baseArchive }) ∧
    (packRoots lexEnv md5Hasher (policyOpts "filesize")
        [("/home/u/base", baseTree [97, 98, 99, 100])] { file := baseArchive }
      : Except Err (Nat × Packer)) = .error (Err.h5 "openDataSet") := by
  refine ⟨by decide!, by decide!, by decide!⟩

/-! ## The empty file -/

/-- The container `createAndFill` returns for a source of size 0 and a free name
in a group, whatever the chunk option is. -/
theorem createAndFill_empty (H : Hasher) (opts : Opts) (r : Attrs) (L : List (Loc × Node))
    (group : Loc) (name : String) (src : Source) (hsize : src.stat.st_size = 0)
    (hname : simpleName name = true) (hfree : assoc (group ++ [name]) L = none)
    (hgroup : H5File.isGroup { rootAttrs := r, links := L } group = true) :
    createAndFill H opts { rootAttrs := r, links := L } group name src = .ok
      { rootAttrs := r
        links := L ++ [(group ++ [name], Node.dataset 1 [0] []
          (datasetAttrs "d41d8cd98f00b204e9800998ecf8427e" src.stat true))] } := by
  have hq : group ++ [name] ≠ [] := by simp
  have hres := resolve_simple group name hname
  have hhs : src.stat.st_size % U64 = 0 := by rw [hsize]; rfl
  have hmin : min opts.chunkSize 0 = 0 := Nat.min_zero _
  unfold createAndFill
  simp only [hhs, hmin, if_true, hres]
  rw [createDataSet_free r L group name _ hname hfree hgroup]
  simp only [bind, Except.bind]
  rw [createAttribute_dataset r L _ "Created" _ hq hfree (by simp [assoc])]
  simp only [List.nil_append]
  rw [createAttribute_dataset r L _ "Modified" _ hq hfree (by simp [assoc])]
  simp only [List.cons_append, List.nil_append]
  rw [createAttribute_dataset r L _ "MD5Hash" _ hq hfree (by simp [assoc])]
  simp only [List.cons_append, List.nil_append]
  rw [createAttribute_dataset r L _ "Permissions" _ hq hfree (by simp [assoc])]
  simp [datasetAttrs]

/-- The state `storeFile` returns for a source of size 0. -/
theorem storeFile_empty (H : Hasher) (opts : Opts) (st : Packer) (group : Loc)
    (filePath name : String) (src : Source) (hsize : src.stat.st_size = 0)
    (hname : simpleName name = true) (hgroup : st.file.isGroup group = true) :
    storeFile H opts st group filePath name src = .ok
      { st with
        calls := st.calls ++ [Call.storeFile group filePath name]
        file := { rootAttrs := st.file.rootAttrs
                  links := st.file.cleared (group ++ [name]) ++
                    [(group ++ [name], Node.dataset 1 [0] []
                      (datasetAttrs "d41d8cd98f00b204e9800998ecf8427e" src.stat true))] } } := by
  obtain ⟨hfree, hgrp⟩ := cleared_spec st.file group name hgroup
  have hfill := createAndFill_empty H opts st.file.rootAttrs
    (st.file.cleared (group ++ [name])) group name src hsize hname hfree hgrp
  unfold storeFile
  simp only []
  rw [nameExists_simple st.file group name hname hgroup]
  by_cases hex : (st.file.find (group ++ [name])).isSome = true
  · simp only [hex, bind, Except.bind, if_true]
    rw [unlink_simple st.file group name hname hex]
    simp only []
    rw [hfill]
    rfl
  · have hex' : (st.file.find (group ++ [name])).isSome = false := by simpa using hex
    have hcl : st.file.cleared (group ++ [name]) = st.file.links := by
      simp [H5File.cleared, hex']
    rw [hcl] at hfill ⊢
    have hfill' : createAndFill H opts st.file group name src = _ := hfill
    simp only [hex', bind, Except.bind, pure, Except.pure]
    rw [hfill']
    rfl

/-- C11. Empty file: for every source whose `stat` reports the size 0, every
chunk option, and every plain file name in a group of the container,
`storeFile` returns and leaves under the name a dataset of one dimension of
length 0 without bytes, whose attribute `MD5Hash` is the string
`d41d8cd98f00b204e9800998ecf8427e` and whose attributes `Created`, `Modified`
and `Permissions` hold `st_ctime`, `st_mtime` and `st_mode` of the source; the
names of its attributes are those of the attributes `storeFile` gives the
dataset of a source with content. -/
theorem C11_empty_file (H : Hasher) (opts : Opts) (st : Packer) (group : Loc)
    (filePath name : String) (src : Source) (hsize : src.stat.st_size = 0)
    (hname : simpleName name = true) (hgroup : st.file.isGroup group = true) :
    ∃ (st' : Packer) (attrs : Attrs),
      storeFile H opts st group filePath name src = .ok st' ∧
      st'.file.find (group ++ [name]) = some (Node.dataset 1 [0] [] attrs) ∧
      assoc "MD5Hash" attrs = some (AttrVal.str "d41d8cd98f00b204e9800998ecf8427e") ∧
      assoc "Created" attrs = some (AttrVal.int64 src.stat.st_ctime) ∧
      assoc "Modified" attrs = some (AttrVal.int64 src.stat.st_mtime) ∧
      assoc "Permissions" attrs = some (AttrVal.uint32 (src.stat.st_mode % 4294967296)) ∧
      attrs.length = 4 ∧
      ∀ (src2 : Source) (c : Nat), opts.chunk = some (c : Int) → 0 < c → c < I64 →
        src2.stat.st_size = src2.content.length → src2.content.length < I64 →
        src2.content ≠ [] →
        ∃ (st2 : Packer) (attrs2 : Attrs),
          storeFile H opts st group filePath name src2 = .ok st2 ∧
          st2.file.find (group ++ [name])
            = some (Node.dataset 1 [src2.content.length] src2.content attrs2) ∧
          List.Perm (attrs.map Prod.fst) (attrs2.map Prod.fst) := by
  have hq : group ++ [name] ≠ [] := by simp
  obtain ⟨hfree, _⟩ := cleared_spec st.file group name hgroup
  refine ⟨_, _, storeFile_empty H opts st group filePath name src hsize hname hgroup,
    find_tip _ _ _ _ hq hfree, by simp [datasetAttrs, assoc], by simp [datasetAttrs, assoc],
    by simp [datasetAttrs, assoc], by simp [datasetAttrs, assoc], by simp [datasetAttrs], ?_⟩
  intro src2 c hchunk hc hc63 hsize2 hlen2 hne
  obtain ⟨h, hstore, _, _⟩ := storeFile_ok H opts st group filePath name src2 c hchunk hc hc63
    hsize2 hlen2 hname hgroup
  refine ⟨_, _, hstore, find_tip _ _ _ _ hq hfree, ?_⟩
  simp only [datasetAttrs, hne, decide_False, if_true, Bool.false_eq_true, if_false, List.map]
  decide

/-- C11 at a concrete input: the empty file `e.txt` stored in the root group of
a new container, with chunks of 2 bytes. -/
theorem C11_empty_file_witness :
    ∃ (st' : Packer) (attrs : Attrs),
      storeFile md5Hasher { noOpts with chunk := some 2 } { file := emptyFile } [] "/base/e.txt" "e.txt"
        (regFile "e.txt" 11 1 []) = .ok st' ∧
      st'.file.find ([] ++ ["e.txt"]) = some (Node.dataset 1 [0] [] attrs) ∧
      assoc "MD5Hash" attrs = some (AttrVal.str "d41d8cd98f00b204e9800998ecf8427e") ∧
      assoc "Created" attrs = some (AttrVal.int64 (regFile "e.txt" 11 1 []).stat.st_ctime) ∧
      assoc "Modified" attrs = some (AttrVal.int64 (regFile "e.txt" 11 1 []).stat.st_mtime) ∧
      assoc "Permissions" attrs
        = some (AttrVal.uint32 ((regFile "e.txt" 11 1 []).stat.st_mode % 4294967296)) ∧
      attrs.length = 4 ∧
      ∀ (src2 : Source) (c : Nat), ({ noOpts with chunk := some 2 } : Opts).chunk = some (c : Int) → 0 < c → c < I64 →
        src2.stat.st_size = src2.content.length → src2.content.length < I64 →
        src2.content ≠ [] →
        ∃ (st2 : Packer) (attrs2 : Attrs),
          storeFile md5Hasher { noOpts with chunk := some 2 } { file := emptyFile } [] "/base/e.txt" "e.txt" src2
            = .ok st2 ∧
          st2.file.find ([] ++ ["e.txt"])
            = some (Node.dataset 1 [src2.content.length] src2.content attrs2) ∧
          List.Perm (attrs.map Prod.fst) (attrs2.map Prod.fst) :=
  C11_empty_file md5Hasher { noOpts with chunk := some 2 } { file := emptyFile } [] "/base/e.txt" "e.txt"
    (regFile "e.txt" 11 1 []) rfl (by decide) rfl

/-! ## The walk keeps the group it works in -/

theorem lastSlash_noSlash : ∀ (cs : List Char), (∀ c ∈ cs, c ≠ '/') → lastSlash cs = none
  | [], _ => rfl
  | c :: cs, h => by
    have hc : c ≠ '/' := h c (by simp)
    simp [lastSlash, lastSlash_noSlash cs (fun d hd => h d (by simp [hd])), hc]

theorem lastSlash_append (n : List Char) (hn : ∀ c ∈ n, c ≠ '/') :
    ∀ (X : List Char), lastSlash (X ++ '/' :: n) = some X.length
  | [] => by simp [lastSlash, lastSlash_noSlash n hn]
  | c :: X => by simp [lastSlash, lastSlash_append n hn X]

theorem getLastPathChunk_append (X n : List Char) (hn : ∀ c ∈ n, c ≠ '/') (hne : n ≠ []) :
    getLastPathChunk (String.mk (X ++ '/' :: n)) = String.mk n := by
  unfold getLastPathChunk
  simp only [lastSlash_append n hn X]
  have hlen : X.length ≠ (X ++ '/' :: n).length - 1 := by
    have : 0 < n.length := List.length_pos.mpr hne
    rw [List.length_append, List.length_cons]
    omega
  rw [if_pos hlen]
  simp

/-- The last chunk of the path of a directory entry is the name of the entry. -/
theorem getLastPathChunk_entryPath (d n : String) (hn : simpleName n = true) :
    getLastPathChunk (entryPath d n) = n := by
  obtain ⟨h1, h2, _, _⟩ := (simpleName_iff n).mp hn
  unfold entryPath pathAppend
  by_cases hd : d = ""
  · rw [if_pos hd]
    unfold getLastPathChunk
    rw [lastSlash_noSlash n.data h2]
  · rw [if_neg hd]
    by_cases hl : d.data.getLast? = some '/'
    · rw [if_pos hl]
      obtain ⟨X, hX⟩ : ∃ X, d.data = X ++ ['/'] := by
        have hne : d.data ≠ [] := by
          intro h0; rw [h0] at hl; simp at hl
        refine ⟨d.data.dropLast, ?_⟩
        have := List.dropLast_append_getLast hne
        have hg : d.data.getLast hne = '/' := by
          rw [List.getLast?_eq_getLast _ hne] at hl
          exact Option.some.inj hl
        rw [hg] at this
        exact this.symm
      have : d ++ n = String.mk (X ++ '/' :: n.data) := by
        apply String.ext
        simp [String.data_append, hX]
      rw [this]
      exact getLastPathChunk_append X n.data h2 h1
    · rw [if_neg hl]
      have : d ++ "/" ++ n = String.mk (d.data ++ '/' :: n.data) := by
        apply String.ext
        simp [String.data_append]
      rw [this]
      exact getLastPathChunk_append d.data n.data h2 h1

theorem plainLoc_snoc (g : Loc) (n : String) (hg : PlainLoc g) (hn : simpleName n = true) :
    PlainLoc (g ++ [n]) := by
  obtain ⟨h1, h2, h3, _⟩ := (simpleName_iff n).mp hn
  intro c hc
  rcases List.mem_append.mp hc with hc | hc
  · exact hg c hc
  · simp only [List.mem_singleton] at hc
    subst hc
    exact ⟨h1, h2, h3⟩

/-- Whatever the policy, `shouldStore` leaves the container, the record of calls
and the deferred links alone. -/
theorem shouldStore_file (env : Env) (H : Hasher) (opts : Opts) (st : Packer) (g : Loc)
    (basePath filepath name : String) (src : Source) (isDir : Bool) (r : StoreResult)
    (st' : Packer)
    (h : shouldStore env H opts st g basePath filepath name src isDir = .ok (r, st')) :
    st'.file = st.file ∧ st'.calls = st.calls ∧ st'.deferredLinks = st.deferredLinks := by
  unfold shouldStore at h
  obtain ⟨existing, hex, h⟩ := bind_ok _ _ _ h
  by_cases hf : filteredOut env opts name isDir = true
  · rw [if_pos hf] at h
    cases h
    exact ⟨rfl, rfl, rfl⟩
  · rw [if_neg hf] at h
    unfold storeDecision at h
    dsimp only at h
    split at h
    · split at h
      · cases h; exact ⟨rfl, rfl, rfl⟩
      · split at h <;> (cases h; exact ⟨rfl, rfl, rfl⟩)
    · split at h
      · split at h
        · rename_i link _
          have hh : symlinkDecision env opts st basePath (getObjName g ++ "/" ++ name) link
              = .ok (r, st') := h
          have hs := symlinkDecision_state env opts st basePath _ link r st' hh
          exact ⟨hs.1, hs.2.1, hs.2.2.1⟩
        · cases h; exact ⟨rfl, rfl, rfl⟩
      · obtain ⟨t, _, h⟩ := bind_ok _ _ _ h
        cases h
        exact ⟨rfl, rfl, rfl⟩

/-- Whatever the policy, `handleFile` on a plain name changes nothing at the
group it works in or above it. -/
theorem handleFile_above (env : Env) (H : Hasher) (opts : Opts) (st : Packer) (g : Loc)
    (basePath path : String) (src : Source) (n : Nat) (st' : Packer)
    (hname : simpleName (getLastPathChunk path) = true) (hg : PlainLoc g)
    (h : handleFile env H opts st g basePath path src = .ok (n, st')) :
    Above g st.file st'.file := by
  have hres := resolve_simple g _ hname
  have hpar := parsePath_simple _ hname
  unfold handleFile at h
  dsimp only at h
  obtain ⟨_, _, h⟩ := bind_ok _ _ _ h
  obtain ⟨p, hp, h⟩ := bind_ok _ _ _ h
  obtain ⟨store, st1⟩ := p
  dsimp only at h
  obtain ⟨hfile, _, _⟩ := shouldStore_file env H opts st g basePath path _ src false store st1 hp
  cases hty : store.storeType with
  | DONT_STORE =>
    rw [hty] at h
    cases h
    exact hfile ▸ above_refl g _
  | AS_INTERNAL =>
    rw [hty] at h
    obtain ⟨st2, h2, h⟩ := bind_ok _ _ _ h
    cases h
    have ho := storeFile_outside H opts st1 g path _ src _ h2
    rw [hres, hfile] at ho
    exact outside_above ho.1
  | AS_HARD_LINK =>
    rw [hty] at h
    obtain ⟨st2, h2, h⟩ := bind_ok _ _ _ h
    cases h
    have ho := hardLink_outside st1 g _ _ _ h2
    rw [resolve_fullname g g _ hg, hpar, hfile] at ho
    exact outside_above ho
  | AS_SOFT_LINK =>
    rw [hty] at h
    obtain ⟨st2, h2, h⟩ := bind_ok _ _ _ h
    cases h
    have ho := softLink_outside st1 g _ _ _ h2
    rw [resolve_fullname g g _ hg, hpar, hfile] at ho
    exact outside_above ho.1
  | AS_EXTERNAL_LINK =>
    rw [hty] at h
    obtain ⟨st2, h2, h⟩ := bind_ok _ _ _ h
    cases h
    have ho := externalLink_outside st1 g _ _ _ h2
    rw [resolve_fullname g g _ hg, hpar, hfile] at ho
    exact outside_above ho.1

theorem openGroup_inv (f : H5File) (loc : Loc) (name : String) (group : Loc)
    (h : f.openGroup loc name = .ok group) :
    group = resolve loc name ∧ f.isGroup (resolve loc name) = true := by
  unfold H5File.openGroup at h
  split at h
  · rename_i hg
    exact ⟨(Except.ok.inj h).symm, hg⟩
  · cases h

/-- Whatever the policy, `handleDirectory` on a plain name changes nothing at
the group it works in or above it, when the loop over the entries changes
nothing at the group it fills or above that. -/
theorem handleDirectory_above (env : Env) (H : Hasher) (opts : Opts) (st : Packer) (g : Loc)
    (basePath path : String) (src : Source) (walk : Loc → Packer → Except Err (Nat × Packer))
    (n : Nat) (st' : Packer)
    (hwalk : ∀ (g2 : Loc) (st2 : Packer) (n2 : Nat) (st2' : Packer), PlainLoc g2 →
      walk g2 st2 = .ok (n2, st2') → Above g2 st2.file st2'.file)
    (hname : simpleName (getLastPathChunk path) = true) (hg : PlainLoc g)
    (h : handleDirectory env H opts st g basePath path src walk = .ok (n, st')) :
    Above g st.file st'.file := by
  have hres := resolve_simple g _ hname
  have hpar := parsePath_simple _ hname
  have hplain := plainLoc_snoc g _ hg hname
  unfold handleDirectory at h
  dsimp only at h
  obtain ⟨existingGroup, hex, h⟩ := bind_ok _ _ _ h
  obtain ⟨p, hp, h⟩ := bind_ok _ _ _ h
  obtain ⟨store, st1⟩ := p
  dsimp only at h
  obtain ⟨hfile, _, _⟩ := shouldStore_file env H opts st g basePath path _ src true store st1 hp
  by_cases hdont : store.storeType = StoreType.DONT_STORE
  · rw [if_pos hdont] at h
    cases h
    exact hfile ▸ above_refl g _
  · rw [if_neg hdont] at h
    by_cases hsoft : store.storeType = StoreType.AS_SOFT_LINK
    · rw [if_pos hsoft] at h
      obtain ⟨st2, h2, h⟩ := bind_ok _ _ _ h
      cases h
      have ho := softLink_outside st1 g _ _ _ h2
      rw [resolve_fullname g g _ hg, hpar, hfile] at ho
      exact outside_above ho.1
    · rw [if_neg hsoft] at h
      cases existingGroup with
      | true =>
        simp only [if_true] at h
        obtain ⟨group, hopen, h⟩ := bind_ok _ _ _ h
        obtain ⟨y, hy, h⟩ := bind_ok _ _ _ h
        cases hy
        obtain ⟨p2, hw, h⟩ := bind_ok _ _ _ h
        obtain ⟨n2, st2⟩ := p2
        dsimp only at h hw
        obtain ⟨hgroup, _⟩ := openGroup_inv _ _ _ _ hopen
        rw [hgroup, hres] at hw
        have hw2 := hwalk _ _ n2 st2 hplain hw
        simp only [Bool.not_true, Bool.and_false, Bool.false_and, Bool.false_eq_true,
          if_false] at h
        cases h
        exact hfile ▸ above_of_snoc hw2
      | false =>
        simp only [Bool.false_eq_true, if_false] at h
        obtain ⟨f1, h1, h⟩ := bind_ok _ _ _ h
        obtain ⟨f2, h2, h⟩ := bind_ok _ _ _ h
        obtain ⟨f3, h3, h⟩ := bind_ok _ _ _ h
        obtain ⟨f4, h4, h⟩ := bind_ok _ _ _ h
        obtain ⟨y, hy, h⟩ := bind_ok _ _ _ h
        cases hy
        obtain ⟨p2, hw, h⟩ := bind_ok _ _ _ h
        obtain ⟨n2, st2⟩ := p2
        dsimp only at h hw
        rw [hres] at h2 h3 h4 hw
        rw [hfile] at h1
        have o1 : Outside (g ++ [getLastPathChunk path]) st.file f1 := by
          unfold H5File.createGroup at h1
          rw [hres] at h1
          exact insert_outside _ _ _ _ _ h1
        have o4 := outside_trans (outside_trans (outside_trans o1
          (createAttribute_outside _ _ _ _ _ h2)) (createAttribute_outside _ _ _ _ _ h3))
          (createAttribute_outside _ _ _ _ _ h4)
        have hw2 := hwalk _ _ n2 st2 hplain hw
        have habove : Above g st.file st2.file :=
          above_trans (outside_above o4) (above_of_snoc hw2)
        split at h
        · obtain ⟨f5, h5, h⟩ := bind_ok _ _ _ h
          cases h
          have ho := unlink_outside _ _ _ _ h5
          rw [hres] at ho
          exact above_trans habove (outside_above ho)
        · cases h
          exact habove

mutual
/-- Whatever the policy, one call of `coalescetoHDF5` for a source with proper
names, under a plain name, changes nothing at the group it works in or above
it. -/
theorem coalesce_above (env : Env) (H : Hasher) (opts : Opts) (basePath : String) :
    ∀ (src : Source) (path : String) (g : Loc) (st : Packer) (n : Nat) (st' : Packer),
      src.proper = true → simpleName (getLastPathChunk path) = true → PlainLoc g →
      coalescetoHDF5 env H opts basePath src path g st = .ok (n, st') →
      Above g st.file st'.file
  | Source.mk nm l s r c es, path, g, st, n, st', hp, hname, hg, h => by
    rw [coalescetoHDF5] at h
    rw [Source.proper] at hp
    split at h
    · exact handleDirectory_above env H opts st g basePath path _ _ n st'
        (fun g2 st2 n2 st2' hg2 hw =>
          walk_above env H opts basePath es path g2 st2 n2 st2' hp hg2 hw) hname hg h
    · split at h
      · exact handleFile_above env H opts st g basePath path _ n st' hname hg h
      · split at h
        · exact handleFile_above env H opts st g basePath path _ n st' hname hg h
        · cases h
          exact above_refl g _
/-- Whatever the policy, the loop over entries with proper names changes nothing
at the group it fills or above it. -/
theorem walk_above (env : Env) (H : Hasher) (opts : Opts) (basePath : String) :
    ∀ (es : List Source) (path : String) (g : Loc) (st : Packer) (n : Nat) (st' : Packer),
      properList es = true → PlainLoc g →
      walkEntries env H opts basePath es path g st = .ok (n, st') →
      Above g st.file st'.file
  | [], path, g, st, n, st', _, hg, h => by
    rw [walkEntries] at h
    cases h
    exact above_refl g _
  | e :: rest, path, g, st, n, st', hp, hg, h => by
    rw [walkEntries] at h
    rw [properList] at hp
    simp only [Bool.and_eq_true] at hp
    obtain ⟨⟨hn, he⟩, hrest⟩ := hp
    obtain ⟨first, h1, h⟩ := bind_ok _ _ _ h
    obtain ⟨others, h2, h⟩ := bind_ok _ _ _ h
    obtain ⟨n1, st1⟩ := first
    obtain ⟨n2, st2⟩ := others
    dsimp only at h h2
    have i1 := coalesce_above env H opts basePath e _ g st n1 st1 he
      (by rw [getLastPathChunk_entryPath path e.name hn]; exact hn) hg h1
    have i2 := walk_above env H opts basePath rest path g st1 n2 st2 hrest hg h2
    cases h
    exact above_trans i1 i2
end

/-- The loop over the entries returns the sum of the counts of the entries. -/
theorem walkEntries_counts (env : Env) (H : Hasher) (opts : Opts) (basePath : String) :
    ∀ (es : List Source) (path : String) (g : Loc) (st : Packer),
      walkEntries env H opts basePath es path g st
        = (walkCounts env H opts basePath es path g st).map (fun r => (r.1.sum, r.2))
  | [], path, g, st => by
    rw [walkEntries, walkCounts]
    rfl
  | e :: rest, path, g, st => by
    rw [walkEntries, walkCounts]
    cases h1 : coalescetoHDF5 env H opts basePath e (entryPath path e.name) g st with
    | error err => rfl
    | ok first =>
      simp only [bind, Except.bind]
      rw [walkEntries_counts env H opts basePath rest path g first.2]
      cases walkCounts env H opts basePath rest path g first.2 with
      | error err => rfl
      | ok others => simp [Except.map, pure, Except.pure]

theorem createAttribute_group (r : Attrs) (L : List (Loc × Node)) (q : Loc) {a : Attrs}
    (name : String) (v : AttrVal) (hq : q ≠ []) (hfree : assoc q L = none)
    (hnew : assoc name a = none) :
    H5File.createAttribute { rootAttrs := r, links := L ++ [(q, Node.group a)] } q name v
      = .ok { rootAttrs := r, links := L ++ [(q, Node.group (a ++ [(name, v)]))] } :=
  createAttribute_tip r L q _ a name v hq hfree rfl hnew

/-- The steps of `handleDirectory` that make a new group (lines 804-810) return
with the group as the last link of the container. -/
theorem createGroup_entered (f : H5File) (g : Loc) (name : String)
    (result : Stat) (hname : simpleName name = true) (hfree : assoc (g ++ [name]) f.links = none)
    (hg : f.isGroup g = true) :
    (do
      let file ← f.createGroup g name
      let file ← file.createAttribute (g ++ [name]) "Created" (AttrVal.int64 result.st_ctime)
      let file ← file.createAttribute (g ++ [name]) "Modified" (AttrVal.int64 result.st_mtime)
      file.createAttribute (g ++ [name]) "Permissions"
        (AttrVal.uint32 (result.st_mode % 4294967296)) : Except Err H5File)
      = .ok { rootAttrs := f.rootAttrs
              links := f.links ++ [(g ++ [name], Node.group (groupAttrs result))] } := by
  obtain ⟨r0, L0⟩ := f
  have hq : g ++ [name] ≠ [] := by simp
  unfold H5File.createGroup
  rw [resolve_simple g name hname, insert_free r0 L0 g name _ _ hfree hg]
  simp only [bind, Except.bind]
  rw [createAttribute_group r0 L0 _ "Created" _ hq hfree (by simp [assoc])]
  simp only [List.nil_append]
  rw [createAttribute_group r0 L0 _ "Modified" _ hq hfree (by simp [assoc])]
  simp only [List.cons_append, List.nil_append]
  rw [createAttribute_group r0 L0 _ "Permissions" _ hq hfree (by simp [assoc])]
  simp [groupAttrs]

/-- After the links at and below a place are taken out, nothing is found at
the place. -/
theorem pruned_find (st2 : Packer) (q : Loc) (hq : q ≠ []) :
    (pruned st2 true q).file.find q = none := by
  simp only [pruned, if_true, H5File.find, hq, if_false]
  exact assoc_filter_drop q _ (fun v => by simp [isPrefixOf_self]) _

/-- The pruning of `handleDirectory`, given what the loop returns:
`handleDirectory` is called for a directory
with a plain name whose entries bear proper names; `shouldStore` does not
answer `DONT_STORE` or `AS_SOFT_LINK`; `e` tells whether the name was present
before the call (then as a group); the loop over the entries, started in the
group, returns the counts `counts` for the entries and the state `st2`.  Then
`handleDirectory` returns the sum of the counts; the group is still there
after the loop; and in the state returned the group is gone from its parent if
and only if the sum is zero, the name was not present before the call and
`allowemptydirs` is false: in that case the links at and below the group are
removed from the state after the loop, otherwise that state is returned as it
is. -/
theorem handleDirectory_pruning (env : Env) (H : Hasher) (opts : Opts) (st : Packer)
    (pg : Loc) (basePath dirPath nm : String) (l s : Stat) (r : Option String) (c : List Byte)
    (es : List Source) (e : Bool) (store : StoreResult) (st1 : Packer) (counts : List Nat)
    (st2 : Packer)
    (hes : properList es = true) (hname : simpleName (getLastPathChunk dirPath) = true)
    (hpg : PlainLoc pg)
    (hex : st.file.nameExists pg (getLastPathChunk dirPath) = .ok e)
    (hgrp : e = true → st.file.isGroup (pg ++ [getLastPathChunk dirPath]) = true)
    (hstore : shouldStore env H opts st pg basePath dirPath (getLastPathChunk dirPath)
      (Source.mk nm l s r c es) true = .ok (store, st1))
    (hnd : store.storeType ≠ StoreType.DONT_STORE)
    (hns : store.storeType ≠ StoreType.AS_SOFT_LINK)
    (hwalk : walkCounts env H opts basePath es dirPath (pg ++ [getLastPathChunk dirPath])
      (entered st1 e (pg ++ [getLastPathChunk dirPath]) s) = .ok (counts, st2)) :
    ∃ st' : Packer,
      handleDirectory env H opts st pg basePath dirPath (Source.mk nm l s r c es)
        (fun group st => walkEntries env H opts basePath es dirPath group st)
        = .ok (counts.sum, st') ∧
      (st2.file.find (pg ++ [getLastPathChunk dirPath])).isSome = true ∧
      (st'.file.find (pg ++ [getLastPathChunk dirPath]) = none ↔
        (counts.sum = 0 ∧ e = false ∧ asBool opts.allowemptydirs false = false)) ∧
      st' = pruned st2 (decide (counts.sum = 0) && !e && !asBool opts.allowemptydirs false)
        (pg ++ [getLastPathChunk dirPath]) := by
  have hres := resolve_simple pg _ hname
  have hq : pg ++ [getLastPathChunk dirPath] ≠ [] := by simp
  have hplain := plainLoc_snoc pg _ hpg hname
  obtain ⟨hfile, _, _⟩ := shouldStore_file env H opts st pg basePath dirPath _ _ true store st1
    hstore
  -- the loop, seen through `walkEntries`
  have hloop : walkEntries env H opts basePath es dirPath (pg ++ [getLastPathChunk dirPath])
      (entered st1 e (pg ++ [getLastPathChunk dirPath]) s) = .ok (counts.sum, st2) := by
    rw [walkEntries_counts, hwalk]; rfl
  have habove := walk_above env H opts basePath es dirPath _ _ _ _ hes hplain hloop
  have hthere : (st2.file.find (pg ++ [getLastPathChunk dirPath])).isSome = true := by
    rw [habove _ (List.prefix_refl _)]
    cases e with
    | true =>
      obtain ⟨a, ha⟩ := isGroup_find _ _ (hgrp rfl)
      simp only [entered, if_true, hfile, ha]
      rfl
    | false =>
      obtain ⟨_, _, _, hfree⟩ := nameExists_false_inv _ _ _ hex
      rw [hres, ← hfile] at hfree
      have hfree' : assoc (pg ++ [getLastPathChunk dirPath]) st1.file.links = none := by
        simpa [H5File.find, hq] using hfree
      simp only [entered, Bool.false_eq_true, if_false]
      rw [find_tip _ _ _ _ hq hfree']
      rfl
  refine ⟨pruned st2 (decide (counts.sum = 0) && !e && !asBool opts.allowemptydirs false)
    (pg ++ [getLastPathChunk dirPath]), ?_, hthere, ?_, rfl⟩
  · unfold handleDirectory
    simp only [hex, hstore, bind, Except.bind, pure, Except.pure, hnd, hns, if_false]
    cases e with
    | true =>
      have hopen : st1.file.openGroup pg (getLastPathChunk dirPath)
          = .ok (pg ++ [getLastPathChunk dirPath]) := by
        unfold H5File.openGroup
        rw [hres, hfile, if_pos (hgrp rfl)]
        rfl
      simp only [if_true, hopen]
      have hl : walkEntries env H opts basePath es dirPath (pg ++ [getLastPathChunk dirPath])
          st1 = .ok (counts.sum, st2) := by
        simpa [entered] using hloop
      rw [hl]
      simp [pruned]
    | false =>
      obtain ⟨_, _, hg, hfree⟩ := nameExists_false_inv _ _ _ hex
      rw [hres] at hg hfree
      rw [← hfile] at hg hfree
      have hg' : st1.file.isGroup pg = true := by simpa using hg
      have hfree' : assoc (pg ++ [getLastPathChunk dirPath]) st1.file.links = none := by
        simpa [H5File.find, hq] using hfree
      have hmake := createGroup_entered st1.file pg
        (getLastPathChunk dirPath) s hname hfree' hg'
      simp only [bind, Except.bind] at hmake
      simp only [hres, Source.stat, Bool.false_eq_true, if_false]
      cases h1 : st1.file.createGroup pg (getLastPathChunk dirPath) with
      | error err => simp only [h1] at hmake; cases hmake
      | ok f1 =>
        simp only [h1] at hmake ⊢
        cases h2 : f1.createAttribute (pg ++ [getLastPathChunk dirPath]) "Created"
            (AttrVal.int64 s.st_ctime) with
        | error err => simp only [h2] at hmake; cases hmake
        | ok f2 =>
          simp only [h2] at hmake ⊢
          cases h3 : f2.createAttribute (pg ++ [getLastPathChunk dirPath]) "Modified"
              (AttrVal.int64 s.st_mtime) with
          | error err => simp only [h3] at hmake; cases hmake
          | ok f3 =>
            simp only [h3] at hmake ⊢
            rw [hmake]
            simp only []
            have hl := hloop
            simp only [entered, Bool.false_eq_true, if_false] at hl
            rw [hl]
            simp only []
            by_cases hcond : (decide (counts.sum = 0) && !false
                && !asBool opts.allowemptydirs false) = true
            · rw [if_pos hcond, hcond]
              rw [unlink_simple st2.file pg _ hname hthere]
              simp only [pruned, if_true, H5File.cleared, hthere]
            · rw [if_neg hcond]
              have : (decide (counts.sum = 0) && !false
                  && !asBool opts.allowemptydirs false) = false := by simpa using hcond
              rw [this]
              rfl
  · by_cases hcond : (decide (counts.sum = 0) && !e && !asBool opts.allowemptydirs false) = true
    · rw [hcond]
      constructor
      · intro _
        simpa [and_assoc] using hcond
      · intro _
        exact pruned_find st2 _ hq
    · have hb : (decide (counts.sum = 0) && !e && !asBool opts.allowemptydirs false) = false := by
        simpa using hcond
      rw [hb]
      constructor
      · intro hnone
        simp only [pruned, Bool.false_eq_true, if_false] at hnone
        rw [hnone] at hthere
        cases hthere
      · intro hall
        exfalso
        apply hcond
        simpa [and_assoc] using hall

/-- A directory that holds only a rejected file: the run returns 0 and the
group is removed; with `allowemptydirs` the group stays. -/
theorem pruning_examples :
    (packRoots lexEnv md5Hasher rejectTmp
        [("/home/u/base", directory "base" 10 [regFile "x.tmp" 11 1 []])] { file := emptyFile }
      : Except Err (Nat × Packer))
      = .ok (0, { file := emptyFile, inoMap := [(10, "/home/u/base")] }) ∧
    (packRoots lexEnv md5Hasher { rejectTmp with allowemptydirs := some "true" }
        [("/home/u/base", directory "base" 10 [regFile "x.tmp" 11 1 []])] { file := emptyFile }
      : Except Err (Nat × Packer))
      = .ok (0, { file := { rootAttrs := []
                            links := [(["base"], Node.group (groupAttrs (dirStat 10)))] }
                  inoMap := [(10, "/home/u/base")] }) := by
  refine ⟨by decide!, by decide!⟩

/-! ## The paths of links -/

theorem plainLoc_of_simple (g : Loc) (h : ∀ x ∈ g, simpleName x = true) : PlainLoc g := by
  intro c hc
  obtain ⟨h1, h2, h3, _⟩ := (simpleName_iff c).mp (h c hc)
  exact ⟨h1, h2, h3⟩

/-- The example of the specification: for the base path `/base` and the target
`/base/target` the archive path of a link is `/base/target`, the path under
which the walker stores the entry `target` of the base directory. -/
theorem link_path_example :
    linkPathOf lexEnv "/base" "/base/target" = "/base/target" ∧
    walkedFrom "/base" [] ["target"] = ("/base/target", ["base"]) ∧
    getObjName ["base"] ++ "/" ++ getLastPathChunk "/base/target" = "/base/target" := by
  refine ⟨by decide!, by decide!, by decide!⟩

/-- The archive path that `handleFile` gives a soft link. -/
theorem handleFile_soft_link (env : Env) (H : Hasher) (opts : Opts) (st : Packer) (g : Loc)
    (basePath path : String) (src : Source) (e : Bool) (store : StoreResult) (st1 : Packer)
    (hex : st.file.nameExists g (getLastPathChunk path) = .ok e)
    (hstore : shouldStore env H opts st g basePath path (getLastPathChunk path) src false
      = .ok (store, st1))
    (hty : store.storeType = StoreType.AS_SOFT_LINK) :
    handleFile env H opts st g basePath path src
      = (softLink st1 g (linkPathOf env basePath store.datasetPath)
          (getObjName g ++ "/" ++ getLastPathChunk path)).map (fun st2 => (1, st2)) := by
  unfold handleFile
  simp only [hex, hstore, hty, bind, Except.bind]
  cases softLink st1 g (linkPathOf env basePath store.datasetPath)
    (getObjName g ++ "/" ++ getLastPathChunk path) <;> rfl

/-- The archive path that `handleFile` gives a hard link. -/
theorem handleFile_hard_link (env : Env) (H : Hasher) (opts : Opts) (st : Packer) (g : Loc)
    (basePath path : String) (src : Source) (e : Bool) (store : StoreResult) (st1 : Packer)
    (hex : st.file.nameExists g (getLastPathChunk path) = .ok e)
    (hstore : shouldStore env H opts st g basePath path (getLastPathChunk path) src false
      = .ok (store, st1))
    (hty : store.storeType = StoreType.AS_HARD_LINK) :
    handleFile env H opts st g basePath path src
      = (hardLink st1 g (linkPathOf env basePath store.datasetPath)
          (getObjName g ++ "/" ++ getLastPathChunk path)).map (fun st2 => (1, st2)) := by
  unfold handleFile
  simp only [hex, hstore, hty, bind, Except.bind]
  cases hardLink st1 g (linkPathOf env basePath store.datasetPath)
    (getObjName g ++ "/" ++ getLastPathChunk path) <;> rfl

/-! ## Symbolic links that leave the base path -/

/-- C14, the code at a failing input: `/home/u/base` holds the symbolic links
`a` and `b` with the link text `/etc/passwd`, and `storeexternalsymlinks` is
`singlefile`.  The first is stored inline as the dataset `/base/a`, and the map
records the container path `/base/a` for the link text.  For the second,
`shouldStore` returns `AS_SOFT_LINK` with that container path; `handleFile`
takes it for a source path and makes it relative to the base path, so the
soft link `/base/b` gets the target `/base/../../../base/a`, which is not the
container path `/base/a` and leads nowhere in the container.  From the base
path `/base` the two strings coincide. -/
theorem C14_singlefile_soft_link_target :
    (packRoots lexEnv md5Hasher singlefileOpts [("/home/u/base", twoLinksTree)]
        { file := emptyFile } : Except Err (Nat × Packer)) = .ok (2, afterTwoLinks) ∧
    getObjName ["base"] ++ "/" ++ "a" = "/base/a" ∧
    (afterTwoLinks.file.find ["base", "a"]).isSome = true ∧
    afterTwoLinks.file.find ["base", "b"] = some (Node.soft "/base/../../../base/a") ∧
    linkPathOf lexEnv "/home/u/base" "/base/a" = "/base/../../../base/a" ∧
    (mountOf afterTwoLinks.file).object "/base/../../../base/a" = none ∧
    (mountOf afterTwoLinks.file).object "/base/b" = none ∧
    ((mountOf afterTwoLinks.file).object "/base/a").isSome = true ∧
    linkPathOf lexEnv "/base" "/base/a" = "/base/a" := by
  refine ⟨by decide!, by decide!, by decide!, by decide!, by decide!, by decide!, by decide!,
    by decide!, by decide!⟩

/-- C15, the code at a failing input: `/home/u/base` holds the symbolic link
`d` to the directory `/ext` outside the base path and the symbolic link `p` to
the regular file `/etc/passwd`, and `storeexternalsymlinks` is `link`.  For
`p` the Packer calls `externalLink` and stores a group with the attribute
`ExternalLink`.  For `d`, `shouldStore` returns `AS_EXTERNAL_LINK` as well, but
`handleDirectory` has no case for it: it creates `/base/d` as a group with the
attributes of a directory and without `ExternalLink`, enters the target and
stores its file `f` below the group. -/
theorem C15_external_directory_entered :
    (packRoots lexEnv md5Hasher linkOpts [("/home/u/base", outsideDirTree)]
        { file := emptyFile } : Except Err (Nat × Packer)) = .ok (2, afterOutsideDir) ∧
    (shouldStore lexEnv md5Hasher linkOpts
        { file := { rootAttrs := [], links := [(["base"], Node.group [])] } }
        ["base"] "/home/u/base" "/home/u/base/d" "d"
        (Source.mk "d" (lnkStat 40 4) (dirStat 41) (some "/ext") [] [regFile "f" 42 1 []]) true
      : Except Err (StoreResult × Packer))
      = .ok ({ storeType := StoreType.AS_EXTERNAL_LINK, datasetPath := "/ext" },
             { file := { rootAttrs := [], links := [(["base"], Node.group [])] } }) ∧
    afterOutsideDir.file.find ["base", "p"]
      = some (Node.group [("ExternalLink", AttrVal.str "/etc/passwd")]) ∧
    afterOutsideDir.file.find ["base", "d"]
      = some (Node.group [("Created", AttrVal.int64 8), ("Modified", AttrVal.int64 7),
          ("Permissions", AttrVal.uint32 16877)]) ∧
    (afterOutsideDir.file.find ["base", "d", "f"]).isSome = true ∧
    afterOutsideDir.calls = [Call.storeFile ["base", "d"] "/home/u/base/d/f" "f",
      Call.externalLink "/etc/passwd" "/base/p"] := by
  refine ⟨by decide!, by decide!, by decide!, by decide!, by decide!, by decide!⟩

/-! ## The length check of `h5vfs_readlink` -/

/-- The rule `h5vfs_readlink` follows for a soft link: the string it measures
and copies is the mount point, the target and the NUL that the library counts
in the size of the value, so the check compares one character more than the
path with the size of the buffer, and the copy ends in two NULs. -/
theorem readlink_soft_rule (m : Mount) (path target : String) (size : Nat) (c : ObjType)
    (hc : m.childObjType path = .ok c)
    (hext : externalLinkOf m path c = none)
    (hsoft : m.softTarget path = some target) (hlen : target.length + 1 < U64) :
    h5vfs_readlink m path size =
      .ok (if m.mountPoint.length + target.length + 1 ≥ size then (-ENAMETOOLONG, none)
           else (0, some (m.mountPoint.data ++ target.data ++ [NUL, NUL]))) := by
  have hmod : (target.length + 1) % U64 = target.length + 1 := Nat.mod_eq_of_lt hlen
  have htake : (target.data ++ [NUL]).take (target.length + 1) = target.data ++ [NUL] := by
    apply List.take_of_length_le
    show _ ≤ target.data.length + 1
    simp only [List.length_append, List.length_singleton]
    exact Nat.le_refl _
  have hne : ¬ target.length + 1 = 0 := by omega
  have hl : (m.mountPoint.data ++ (target.data ++ [NUL])).length
      = m.mountPoint.length + target.length + 1 := by
    show _ = m.mountPoint.data.length + target.data.length + 1
    simp only [List.length_append, List.length_singleton]
    omega
  unfold h5vfs_readlink
  rw [hc]
  simp only [bind, Except.bind]
  rw [hext]
  simp only [hsoft]
  rw [hmod, if_neg hne, htake, hl]
  by_cases hs : m.mountPoint.length + target.length + 1 ≥ size
  · rw [if_pos hs, if_pos hs]; rfl
  · rw [if_neg hs, if_neg hs]
    simp [pure, Except.pure]

/-- C16, the code at a failing input: the Packer makes the soft link `/base/l`
with the target `/base/target`, and the container is mounted at `/mnt`, so the
path to return is `/mnt/base/target`, of 16 characters.  With a buffer of 17
bytes, which holds the path and its NUL, `h5vfs_readlink` returns
`-ENAMETOOLONG`: the size the library reports for the value of the link counts
its NUL, and the check is made on the string with that NUL in it.  With 18
bytes it returns 0 and copies the path and two NULs.  For the group `/base/p`
with `ExternalLink` = `/etc/passwd`, of 11 characters, the check is the one of
the specification: 12 bytes are enough, 11 are not. -/
theorem C16_readlink_length_check :
    (packRoots lexEnv md5Hasher linkOpts [("/home/u/base", linksTree)] { file := emptyFile }
      : Except Err (Nat × Packer)).toOption.map (fun r : Nat × Packer => r.2.file) = some linksArchive ∧
    (mountOf linksArchive).softTarget "/base/l" = some "/base/target" ∧
    ((mountOf linksArchive).mountPoint ++ "/base/target").length = 16 ∧
    (h5vfs_readlink (mountOf linksArchive) "/base/l" 17 : Except Err (Int × Option (List Char)))
      = .ok (-ENAMETOOLONG, none) ∧
    (h5vfs_readlink (mountOf linksArchive) "/base/l" 18 : Except Err (Int × Option (List Char)))
      = .ok (0, some ("/mnt/base/target".data ++ [NUL, NUL])) ∧
    (h5vfs_readlink (mountOf linksArchive) "/base/p" 12 : Except Err (Int × Option (List Char)))
      = .ok (0, some ("/etc/passwd".data ++ [NUL])) ∧
    (h5vfs_readlink (mountOf linksArchive) "/base/p" 11 : Except Err (Int × Option (List Char)))
      = .ok (-ENAMETOOLONG, none) := by
  refine ⟨by decide!, by decide!, by decide!, by decide!, by decide!, by decide!, by decide!⟩

/-! ## Attributes as files under the attribute `H5VFS` -/

/-- C20, the code at a failing input: the root group of the container has the
attribute `H5VFS`, so the mount has `showAttributesAsFiles` false and
`h5vfs_readdir` lists no attribute.  The path `/base/.e.txt.attr.MD5Hash` does
not exist in the container, yet `isNameAttribute` classifies it as the
attribute `MD5Hash` of `e.txt`, for it never looks at `showAttributesAsFiles`:
`h5vfs_getattr` returns 0 with a regular file of 32 bytes, `h5vfs_open`
returns 0, and `h5vfs_read` returns 32 with the bytes of the hash, none of them
`-ENOENT`.  A path that names nothing gets `-ENOENT`. -/
theorem C20_attribute_files_with_H5VFS :
    (assoc "H5VFS" packedArchive.rootAttrs).isSome = true ∧
    (mountOf packedArchive).showAttributesAsFiles = false ∧
    (h5vfs_readdir (mountOf packedArchive) "/base" : Except Err (Int × List String))
      = .ok (0, [".", "..", "e.txt"]) ∧
    ((mountOf packedArchive).nameExists "/base/.e.txt.attr.MD5Hash" : Except Err Bool)
      = .ok false ∧
    (isNameAttribute (mountOf packedArchive) "/base/.e.txt.attr.MD5Hash"
      : Except Err (Option AttrVal)) = .ok (some (AttrVal.str "d41d8cd98f00b204e9800998ecf8427e")) ∧
    (h5vfs_getattr (mountOf packedArchive) "/base/.e.txt.attr.MD5Hash"
      : Except Err (Int × StatBuf))
      = .ok (0, { st_mode := S_IFREG ||| 0o444, st_nlink := 1, st_size := 32, st_uid := 1000,
                  st_gid := 1000, st_ctime := 0, st_mtime := 0 }) ∧
    ((h5vfs_open (mountOf packedArchive) [] "/base/.e.txt.attr.MD5Hash"
      : Except Err (Int × OpenFiles)).toOption.map (fun r : Int × OpenFiles => r.1)) = some 0 ∧
    ((h5vfs_read { mountOf packedArchive with uninit := 1 } [] "/base/.e.txt.attr.MD5Hash" 100 0
      : Except Err ReadOutcome).toOption.map (fun r : ReadOutcome => (r.ret, r.buf)))
      = some (32, some (AttrVal.str "d41d8cd98f00b204e9800998ecf8427e").bytes) ∧
    ((h5vfs_getattr (mountOf packedArchive) "/base/nothing"
      : Except Err (Int × StatBuf)).toOption.map (fun r : Int × StatBuf => r.1)) = some (-ENOENT) := by
  refine ⟨by decide!, by decide!, by decide!, by decide!, by decide!, by decide!, by decide!,
    by decide!, by decide!⟩

/-! ## External links, from the Packer to the adapter -/

theorem nameExists_full (f : H5File) (loc g : Loc) (n : String) (hg : PlainLoc g)
    (hn : simpleName n = true) (hgrp : f.isGroup g = true) :
    f.nameExists loc (getObjName g ++ "/" ++ n) = .ok (f.find (g ++ [n])).isSome := by
  unfold H5File.nameExists
  rw [if_neg (fullname_ne_empty g n)]
  dsimp only
  rw [resolve_fullname loc g n hg, parsePath_simple n hn]
  have hq : g ++ [n] ≠ [] := by simp
  rw [if_neg hq]
  simp [hgrp]
  rfl

theorem unlink_full (f : H5File) (loc g : Loc) (n : String) (hg : PlainLoc g)
    (hn : simpleName n = true) (hex : (f.find (g ++ [n])).isSome = true) :
    f.unlink loc (getObjName g ++ "/" ++ n) = .ok { f with links := f.cleared (g ++ [n]) } := by
  have hq : g ++ [n] ≠ [] := by simp
  cases h : f.find (g ++ [n]) with
  | none => simp [h] at hex
  | some v =>
    simp [H5File.unlink, resolve_fullname loc g n hg, parsePath_simple n hn, hq, h,
      H5File.cleared]
    rfl

/-- The state `externalLink` returns for the full name of a plain name in a
group of the container. -/
theorem externalLink_ok (st : Packer) (loc g : Loc) (n L : String) (hg : PlainLoc g)
    (hn : simpleName n = true) (hgrp : st.file.isGroup g = true) :
    externalLink st loc L (getObjName g ++ "/" ++ n) = .ok
      { st with
        calls := st.calls ++ [Call.externalLink L (getObjName g ++ "/" ++ n)]
        file := { rootAttrs := st.file.rootAttrs
                  links := st.file.cleared (g ++ [n]) ++
                    [(g ++ [n], Node.group [("ExternalLink", AttrVal.str L)])] } } := by
  obtain ⟨hfree, hgc⟩ := cleared_spec st.file g n hgrp
  have hq : g ++ [n] ≠ [] := by simp
  have hres : resolve loc (getObjName g ++ "/" ++ n) = g ++ [n] := by
    rw [resolve_fullname loc g n hg, parsePath_simple n hn]
  have hcreate : H5File.createGroup
      { rootAttrs := st.file.rootAttrs, links := st.file.cleared (g ++ [n]) } loc
      (getObjName g ++ "/" ++ n)
      = .ok { rootAttrs := st.file.rootAttrs
              links := st.file.cleared (g ++ [n]) ++ [(g ++ [n], Node.group [])] } := by
    unfold H5File.createGroup
    rw [hres]
    exact insert_free _ _ g n _ _ hfree hgc
  have hattr : H5File.createAttribute
      { rootAttrs := st.file.rootAttrs
        links := st.file.cleared (g ++ [n]) ++ [(g ++ [n], Node.group [])] }
      (g ++ [n]) "ExternalLink" (AttrVal.str L)
      = .ok { rootAttrs := st.file.rootAttrs
              links := st.file.cleared (g ++ [n]) ++
                [(g ++ [n], Node.group ([] ++ [("ExternalLink", AttrVal.str L)]))] } :=
    createAttribute_group _ _ _ "ExternalLink" (AttrVal.str L) hq hfree rfl
  unfold externalLink
  simp only []
  rw [nameExists_full st.file loc g n hg hn hgrp, hres]
  by_cases hex : (st.file.find (g ++ [n])).isSome = true
  · simp only [hex, bind, Except.bind, if_true]
    rw [unlink_full st.file loc g n hg hn hex]
    simp only []
    have hcreate' : H5File.createGroup { st.file with links := st.file.cleared (g ++ [n]) } loc
        (getObjName g ++ "/" ++ n) = _ := hcreate
    rw [hcreate']
    simp only []
    rw [hattr]
    rfl
  · have hex' : (st.file.find (g ++ [n])).isSome = false := by simpa using hex
    have hcl : st.file.cleared (g ++ [n]) = st.file.links := by
      simp [H5File.cleared, hex']
    rw [hcl] at hcreate hattr ⊢
    have hcreate' : H5File.createGroup st.file loc (getObjName g ++ "/" ++ n) = _ := hcreate
    simp only [hex', bind, Except.bind, pure, Except.pure]
    rw [hcreate']
    simp only []
    rw [hattr]
    rfl

/-- What the adapter finds at a path that names a group reached through groups. -/
theorem mount_group (m : Mount) (path : String) (q : Loc) (attrs : Attrs)
    (hparse : parsePath path = q) (hne : path ≠ "") (hreach : m.mainfile.Reachable q)
    (hfind : m.mainfile.find q = some (Node.group attrs)) (hfuel : q.length < m.nlinks) :
    m.nameExists path = .ok true ∧ m.softTarget path = none ∧
    m.lookup path true = some q ∧
    m.object path = some (Node.group attrs) ∧
    m.childObjType path = .ok ObjType.GROUP := by
  have hlook : ∀ follow, m.lookup path follow = some q := by
    intro follow
    unfold Mount.lookup
    rw [hparse]
    exact walk_reachable m.mainfile q m.nlinks follow hreach hfuel
  have hobj : m.object path = some (Node.group attrs) := by
    simp [Mount.object, hlook true, hfind]
  refine ⟨?_, ?_, hlook true, hobj, ?_⟩
  · unfold Mount.nameExists
    rw [if_neg hne, hparse]
    dsimp only
    rcases List.eq_nil_or_concat q with h0 | ⟨g, last, hq⟩
    · subst h0; rfl
    · rw [List.concat_eq_append] at hq
      subst hq
      have hrg : m.mainfile.Reachable g := fun p hp =>
        hreach p (hp.trans (List.prefix_append g [last]))
      have hw := walk_reachable m.mainfile g m.nlinks true hrg (by
        rw [List.length_append, List.length_singleton] at hfuel; omega)
      have hg : m.mainfile.isGroup g = true := hrg g (List.prefix_refl g)
      simp [hw, hg, hfind]
      rfl
  · simp [Mount.softTarget, hlook false, hfind]
  · simp [Mount.childObjType, hobj]
    rfl

/-- C17: `externalLink`, called as `handleFile` calls it with the full name of
a plain name `name` in a group `g` reached through groups, returns, and leaves
at that name a group whose only attribute is `ExternalLink` with the link text
`L`.  On a mount of the result, for a path that names the place,
`h5vfs_getattr` returns 0 with the mode `S_IFLNK | 0777` and one link, and
`h5vfs_readlink` with a buffer of more than `|L|` bytes returns 0 and writes
the characters of `L` and one NUL, the mount point not among them. -/
theorem C17_external_link_round_trip (st : Packer) (loc g : Loc) (name L : String)
    (_hL : L ≠ "") (hg : PlainLoc g) (hname : simpleName name = true)
    (hreach : st.file.Reachable g) :
    ∃ st' : Packer,
      externalLink st loc L (getObjName g ++ "/" ++ name) = .ok st' ∧
      st'.file.find (g ++ [name]) = some (Node.group [("ExternalLink", AttrVal.str L)]) ∧
      ∀ (m : Mount) (path : String) (size : Nat), m.mainfile = st'.file →
        parsePath path = g ++ [name] → g.length + 1 < m.nlinks → L.length < size →
        (∃ sb, h5vfs_getattr m path = .ok (0, sb) ∧ sb.st_mode = S_IFLNK ||| 0o777 ∧
          sb.st_nlink = 1) ∧
        h5vfs_readlink m path size = .ok (0, some (L.data ++ [NUL])) := by
  have hgrp : st.file.isGroup g = true := hreach g (List.prefix_refl g)
  obtain ⟨hfree, _⟩ := cleared_spec st.file g name hgrp
  have hq : g ++ [name] ≠ [] := by simp
  have hfind : H5File.find
      { rootAttrs := st.file.rootAttrs
        links := st.file.cleared (g ++ [name]) ++
          [(g ++ [name], Node.group [("ExternalLink", AttrVal.str L)])] } (g ++ [name])
      = some (Node.group [("ExternalLink", AttrVal.str L)]) :=
    find_tip _ _ _ _ hq hfree
  refine ⟨_, externalLink_ok st loc g name L hg hname hgrp, hfind, ?_⟩
  intro m path size hm hparse hfuel hsize
  have hrg := reachable_stored st.file g name (Node.group [("ExternalLink", AttrVal.str L)])
    hreach
  have hrq : m.mainfile.Reachable (g ++ [name]) := by
    rw [hm]
    intro p hp
    rcases List.prefix_concat_iff.mp hp with h | h
    · subst h
      simp only [H5File.isGroup]
      rw [hfind]
    · exact hrg p h
  have hne : path ≠ "" := parsePath_ne_empty path (by rw [hparse]; simp)
  obtain ⟨hex, hsoft, _, hobj, hct⟩ := mount_group m path (g ++ [name])
    [("ExternalLink", AttrVal.str L)] hparse hne hrq (by rw [hm]; exact hfind)
    (by rw [List.length_append, List.length_singleton]; omega)
  obtain ⟨hd1, hd2⟩ := not_dot_paths path g name hname hparse
  constructor
  · refine ⟨{ st_uid := m.uid, st_gid := m.gid, st_ctime := m.lastModified,
                st_mtime := m.lastModified, st_mode := S_IFLNK ||| 0o777, st_nlink := 1,
                st_size := m.hostSize L }, ?_, rfl, rfl⟩
    unfold h5vfs_getattr
    simp only [hd1, hd2, decide_False, Bool.or_self, Bool.false_eq_true, if_false, hex, hsoft,
      hct, hobj, bind, Except.bind, Bool.not_true, assoc, if_true]
    rfl
  · unfold h5vfs_readlink
    have hnot : ¬ L.data.length ≥ size := by
      have : L.data.length = L.length := rfl
      omega
    simp only [hct, bind, Except.bind, externalLinkOf, hobj, assoc, if_true, AttrVal.chars,
      pure, Except.pure, hnot, if_false]

/-- C17 at an input: the link text `/etc/passwd` is stored as `/base/p` in a
container that holds the group `base`. -/
theorem C17_external_link_round_trip_witness :
    ∃ st' : Packer,
      externalLink { file := { rootAttrs := [], links := [(["base"], Node.group [])] } } ["base"]
        "/etc/passwd" (getObjName ["base"] ++ "/" ++ "p") = .ok st' ∧
      st'.file.find (["base"] ++ ["p"])
        = some (Node.group [("ExternalLink", AttrVal.str "/etc/passwd")]) ∧
      ∀ (m : Mount) (path : String) (size : Nat), m.mainfile = st'.file →
        parsePath path = ["base"] ++ ["p"] → ["base"].length + 1 < m.nlinks →
        "/etc/passwd".length < size →
        (∃ sb, h5vfs_getattr m path = .ok (0, sb) ∧ sb.st_mode = S_IFLNK ||| 0o777 ∧
          sb.st_nlink = 1) ∧
        h5vfs_readlink m path size = .ok (0, some ("/etc/passwd".data ++ [NUL])) :=
  C17_external_link_round_trip
    { file := { rootAttrs := [], links := [(["base"], Node.group [])] } } ["base"] ["base"]
    "p" "/etc/passwd" (by decide) (plainLoc_of_simple _ (by decide)) (by decide)
    (fun p hp => by
      rcases List.prefix_concat_iff.mp (show p <+: [] ++ ["base"] from hp) with h | h
      · subst h; rfl
      · rw [List.prefix_nil.mp h]; rfl)

/-! ## The mode of a directory -/

/-- A mode whose bits above the low twelve are none or those of `S_IFDIR` adds
to `S_IFDIR` what its low twelve bits add. -/
theorem or_low_bits (p : Nat) (h : p - p % 4096 = 0 ∨ p - p % 4096 = S_IFDIR) :
    S_IFDIR ||| p = S_IFDIR ||| (p &&& 0o7777) := by
  have hand : p &&& 0o7777 = p % 4096 := Nat.and_pow_two_sub_one_eq_mod p 12
  rw [hand]
  have hlo : p % 4096 < 2 ^ 14 := by omega
  rcases h with h | h
  · have : p % 4096 = p := by omega
    rw [this]
  · have hp : p = 2 ^ 14 * 1 + p % 4096 := by
      simp only [S_IFDIR] at h
      omega
    have hor := Nat.mul_add_lt_is_or hlo 1
    rw [hor] at hp
    have h14 : (2 ^ 14 * 1 : Nat) = S_IFDIR := by decide
    rw [h14] at hp
    calc S_IFDIR ||| p = S_IFDIR ||| (S_IFDIR ||| p % 4096) := by rw [← hp]
      _ = S_IFDIR ||| p % 4096 := by rw [← Nat.or_assoc, Nat.or_self]

theorem or_lt_u32 (p : Nat) (h : p < 4294967296) : (S_IFDIR ||| p) % 4294967296 = S_IFDIR ||| p := by
  apply Nat.mod_eq_of_lt
  have h1 : S_IFDIR < 2 ^ 32 := by decide
  have h2 : p < 2 ^ 32 := by omega
  have := Nat.or_lt_two_pow h1 h2
  omega

/-- C18, a counterexample to the claim as stated: a group whose attribute
`Permissions` holds 0100644 gets the mode 0140644 from `h5vfs_getattr`, the
bits of the value above the low twelve included, where the claim has
`S_IFDIR | 0644` = 040644. -/
theorem C18_counterexample :
    (h5vfs_getattr (mountOf fileModeGroup) "/g" : Except Err (Int × StatBuf))
      = .ok (0, { st_mode := 0o140644, st_nlink := 2, st_size := 0, st_uid := 1000,
                  st_gid := 1000, st_ctime := 0, st_mtime := 0 }) ∧
    (mountOf fileModeGroup).object "/g"
      = some (Node.group [("Permissions", AttrVal.uint32 0o100644)]) ∧
    S_IFDIR ||| (0o100644 &&& 0o7777) = 0o040644 ∧ (0o140644 : Nat) ≠ 0o040644 := by
  refine ⟨by decide!, by decide!, by decide!, by decide!⟩

/-- C18, amended: for a path that exists, is no soft link and leads to a group
without the attribute `ExternalLink`, whose attributes `Modified` and `Created`
can be read as integers where present, `h5vfs_getattr` returns 0 with two
links.  With an attribute `Permissions` of the 32-bit value `p` the mode is
`S_IFDIR | p`, all bits of `p` taken; this is `S_IFDIR | (p & 07777)` when the
bits of `p` above the low twelve are none or those of `S_IFDIR`, as they are
in what the Packer writes for a directory.  Without the attribute the mode is
`S_IFDIR | 0755`. -/
theorem C18_directory_mode (m : Mount) (path : String) (attrs : Attrs)
    (hdot : path ≠ "." ∧ path ≠ "..")
    (hex : m.nameExists path = .ok true) (hsoft : m.softTarget path = none)
    (hobj : m.object path = some (Node.group attrs))
    (hext : assoc "ExternalLink" attrs = none)
    (hmod : ∃ o, attrInt64 attrs "Modified" = .ok o)
    (hcre : ∃ o, attrInt64 attrs "Created" = .ok o) :
    (∀ p : Nat, assoc "Permissions" attrs = some (AttrVal.uint32 p) → p < 4294967296 →
      ∃ sb, h5vfs_getattr m path = .ok (0, sb) ∧ sb.st_mode = S_IFDIR ||| p ∧
        sb.st_nlink = 2 ∧
        ((p - p % 4096 = 0 ∨ p - p % 4096 = S_IFDIR) →
          sb.st_mode = S_IFDIR ||| (p &&& 0o7777))) ∧
    (assoc "Permissions" attrs = none →
      ∃ sb, h5vfs_getattr m path = .ok (0, sb) ∧ sb.st_mode = S_IFDIR ||| 0o755 ∧
        sb.st_nlink = 2) := by
  obtain ⟨om, hom⟩ := hmod
  obtain ⟨oc, hoc⟩ := hcre
  have hct : m.childObjType path = .ok ObjType.GROUP := by
    simp [Mount.childObjType, hobj]
    rfl
  have hget : ∀ perm : Option Int, attrInt64 attrs "Permissions" = .ok perm →
      ∃ sb, h5vfs_getattr m path = .ok (0, sb) ∧ sb.st_nlink = 2 ∧
        sb.st_mode = (match perm with
          | some p => (S_IFDIR ||| (p % (U64 : Int)).toNat) % 4294967296
          | none => S_IFDIR ||| 0o755) := by
    intro perm hperm
    unfold h5vfs_getattr
    simp only [hdot.1, hdot.2, decide_False, Bool.or_self, Bool.false_eq_true, if_false, hex,
      hsoft, hct, hobj, hext, bind, Except.bind, Bool.not_true, overrideFromAttrs, hom, hoc,
      hperm, pure, Except.pure]
    cases om <;> cases oc <;> cases perm <;> exact ⟨_, rfl, rfl, rfl⟩
  constructor
  · intro p hp hp32
    have hperm : attrInt64 attrs "Permissions" = .ok (some (Int.ofNat p)) := by
      simp [attrInt64, hp, readInt64, bind, Except.bind, pure, Except.pure]
    obtain ⟨sb, h1, h2, h3⟩ := hget _ hperm
    have hval : ((Int.ofNat p) % (U64 : Int)).toNat = p := by
      have : (Int.ofNat p) % (U64 : Int) = Int.ofNat p := by
        apply Int.emod_eq_of_lt
        · exact Int.ofNat_nonneg p
        · simp only [U64]
          have : (p : Int) < 4294967296 := by exact_mod_cast hp32
          simp only [Int.ofNat_eq_coe]
          omega
      rw [this]
      rfl
    have hmode : sb.st_mode = S_IFDIR ||| p := by
      rw [h3]
      simp only []
      rw [hval, or_lt_u32 p hp32]
    exact ⟨sb, h1, hmode, h2, fun hc => by rw [hmode]; exact or_low_bits p hc⟩
  · intro hp
    have hperm : attrInt64 attrs "Permissions" = .ok none := by
      simp [attrInt64, hp, pure, Except.pure]
    obtain ⟨sb, h1, h2, h3⟩ := hget _ hperm
    exact ⟨sb, h1, h3, h2⟩

/-- C18 at an input: the group `/base` of a container the Packer made, with
the attribute `Permissions` = 040755. -/
theorem C18_directory_mode_witness :
    (∀ p : Nat, assoc "Permissions" [("Created", AttrVal.int64 8), ("Modified", AttrVal.int64 7),
        ("Permissions", AttrVal.uint32 16877)] = some (AttrVal.uint32 p) → p < 4294967296 →
      ∃ sb, h5vfs_getattr (mountOf linksArchive) "/base" = .ok (0, sb) ∧
        sb.st_mode = S_IFDIR ||| p ∧ sb.st_nlink = 2 ∧
        ((p - p % 4096 = 0 ∨ p - p % 4096 = S_IFDIR) →
          sb.st_mode = S_IFDIR ||| (p &&& 0o7777))) ∧
    (assoc "Permissions" [("Created", AttrVal.int64 8), ("Modified", AttrVal.int64 7),
        ("Permissions", AttrVal.uint32 16877)] = none →
      ∃ sb, h5vfs_getattr (mountOf linksArchive) "/base" = .ok (0, sb) ∧
        sb.st_mode = S_IFDIR ||| 0o755 ∧ sb.st_nlink = 2) :=
  C18_directory_mode (mountOf linksArchive) "/base"
    [("Created", AttrVal.int64 8), ("Modified", AttrVal.int64 7),
     ("Permissions", AttrVal.uint32 16877)]
    (by decide) (by decide) (by decide) (by decide) (by decide) ⟨some 7, rfl⟩ ⟨some 8, rfl⟩

/-! ## Names of attributes as files -/

theorem findSub_length (pat : List Char) : ∀ (S : List Char) (i : Nat),
    findSub pat S = some i → i + pat.length ≤ S.length
  | [], i, h => by
    unfold findSub at h
    split at h
    · rename_i hp
      cases h
      simp [hp]
    · cases h
  | c :: cs, i, h => by
    unfold findSub at h
    split at h
    · rename_i hp
      cases h
      have := (List.isPrefixOf_iff_prefix.mp hp).length_le
      simpa using this
    · cases hj : findSub pat cs with
      | none => simp [hj] at h
      | some j =>
        simp only [hj, Option.map_some', Option.some.injEq] at h
        have := findSub_length pat cs j hj
        subst h
        simp only [List.length_cons]
        omega

/-- The first occurrence of a pattern in a string stays the first when the
string goes on. -/
theorem findSub_append (pat rest : List Char) : ∀ (S : List Char) (i : Nat),
    findSub pat S = some i → findSub pat (S ++ rest) = some i
  | [], i, h => by
    unfold findSub at h
    split at h
    · rename_i hp
      cases h
      subst hp
      cases rest with
      | nil => rfl
      | cons c cs => simp [findSub]
    · cases h
  | c :: cs, i, h => by
    have hlen := findSub_length pat (c :: cs) i h
    unfold findSub at h
    rw [List.cons_append]
    unfold findSub
    split at h
    · rename_i hp
      cases h
      have hp2 : pat.isPrefixOf (c :: (cs ++ rest)) = true := by
        rw [List.isPrefixOf_iff_prefix] at hp ⊢
        exact hp.trans (List.prefix_append (c :: cs) rest)
      rw [if_pos hp2]
    · rename_i hp
      have hp2 : ¬ pat.isPrefixOf (c :: (cs ++ rest)) = true := by
        intro hc
        apply hp
        rw [List.isPrefixOf_iff_prefix] at hc ⊢
        exact List.prefix_of_prefix_length_le hc (List.prefix_append (c :: cs) rest) (by omega)
      rw [if_neg hp2]
      cases hj : findSub pat cs with
      | none => simp [hj] at h
      | some j =>
        rw [findSub_append pat rest cs j hj]
        simpa [hj] using h

theorem findSub_within (pat post : List Char) : ∀ pre : List Char,
    (findSub pat (pre ++ pat ++ post)).isSome = true
  | [] => by
    show (findSub pat (pat ++ post)).isSome = true
    generalize hl : pat ++ post = L
    cases L with
    | nil =>
      have hp : pat = [] := (List.append_eq_nil.mp hl).1
      simp [findSub, hp]
    | cons c cs =>
      have hp : pat.isPrefixOf (c :: cs) = true := by
        rw [List.isPrefixOf_iff_prefix, ← hl]
        exact List.prefix_append pat post
      simp [findSub, hp]
  | c :: pre => by
    have ih := findSub_within pat post pre
    show (findSub pat (c :: (pre ++ pat ++ post))).isSome = true
    unfold findSub
    split
    · rfl
    · cases hj : findSub pat (pre ++ pat ++ post) with
      | none => rw [hj] at ih; exact absurd ih (by simp)
      | some j => rfl

theorem drop_names (c : Char) (n : List Char) : ∀ Q : List Char,
    (Q ++ c :: n).drop (Q.length + 1) = n
  | [] => rfl
  | a :: Q => by simp

theorem take_names (c : Char) (n : List Char) : ∀ Q : List Char,
    (Q ++ c :: n).take Q.length = Q
  | [] => rfl
  | a :: Q => by simp

/-- The characters of the path of a name in a group. -/
theorem getObjName_snoc_data (q : Loc) (n : String) :
    (getObjName (q ++ [n])).data = q.flatMap (fun c => '/' :: c.data) ++ '/' :: n.data := by
  rw [getObjName_data, if_neg (by simp)]
  simp [List.flatMap_append]

theorem flatMap_names_length (q : Loc) (h : q ≠ []) :
    (q.flatMap (fun c => '/' :: c.data)).length ≠ 0 := by
  cases q with
  | nil => exact absurd rfl h
  | cons a l => simp

theorem getLast_append_cons (Q n : List Char) (c : Char) (hn : n ≠ []) :
    (Q ++ c :: n).getLast? = n.getLast? := by
  rw [show Q ++ c :: n = (Q ++ [c]) ++ n by simp]
  rw [List.getLast?_append_of_ne_nil _ hn]

/-- The last character of a string without a slash is not a slash. -/
theorem getLast_noSlash (n : List Char) (hs : ∀ c ∈ n, c ≠ '/') : n.getLast? ≠ some '/' := by
  intro h
  exact hs '/' (List.mem_of_getLast?_eq_some h) rfl

theorem path_ne_root (q : Loc) (n : String) (hn : n.data ≠ []) :
    getObjName (q ++ [n]) ≠ "/" := by
  intro h
  have := congrArg String.data h
  rw [getObjName_snoc_data] at this
  have hl := congrArg List.length this
  cases hd : n.data with
  | nil => exact hn hd
  | cons a l =>
    rw [hd] at hl
    have h1 : "/".data.length = 1 := rfl
    simp only [List.length_append, List.length_cons, h1] at hl
    omega

/-- The function `getLastPart` on the path of a name in a group gives the name. -/
theorem getLastPart_snoc (q : Loc) (n : String) (hn : n.data ≠ [])
    (hs : ∀ c ∈ n.data, c ≠ '/') : getLastPart (getObjName (q ++ [n])) = n := by
  unfold getLastPart
  rw [if_neg (path_ne_root q n hn)]
  simp only [getObjName_snoc_data, stripSlash]
  rw [getLast_append_cons _ _ _ hn, if_neg (getLast_noSlash _ hs), lastSlash_append _ hs]
  simp only []
  rw [drop_names]

/-- The function `getPrefix` on the path of a name in a group gives the path
of the group. -/
theorem getPrefix_snoc (q : Loc) (n : String) (hn : n.data ≠ [])
    (hs : ∀ c ∈ n.data, c ≠ '/') : getPrefix (getObjName (q ++ [n])) = getObjName q := by
  unfold getPrefix
  rw [if_neg (path_ne_root q n hn)]
  simp only [getObjName_snoc_data, stripSlash]
  rw [getLast_append_cons _ _ _ hn, if_neg (getLast_noSlash _ hs), lastSlash_append _ hs]
  simp only []
  by_cases hq : q = []
  · subst hq
    rfl
  · rw [if_neg (flatMap_names_length q hq), take_names]
    apply String.ext
    rw [getObjName_data, if_neg hq]

/-- The path of a name in a group leads to the name in the group. -/
theorem parsePath_snoc (q : Loc) (n : String) (hq : PlainLoc q) (hn : simpleName n = true) :
    parsePath (getObjName (q ++ [n])) = q ++ [n] := by
  obtain ⟨h1, h2, h3, _⟩ := (simpleName_iff n).mp hn
  unfold parsePath
  rw [getObjName_snoc_data, splitSlash_names q (fun c hc => (hq c hc).2.1) n.data,
    splitSlash_noSlash n.data h2]
  have hf := filter_plain q hq
  simp only [ne_eq, decide_not] at hf
  simp [List.filter, h1, h3, hf]

theorem parsePath_getObjName (q : Loc) (hq : PlainLoc q) : parsePath (getObjName q) = q := by
  rcases List.eq_nil_or_concat q with h0 | ⟨g, last, h⟩
  · subst h0
    decide
  · rw [List.concat_eq_append] at h
    subst h
    have hl := hq last (by simp)
    have hsimple : parsePath last = [last] := by
      rw [parsePath_noSlash last hl.2.1, if_pos ⟨hl.1, hl.2.2⟩]
    have hg : PlainLoc g := fun c hc => hq c (by simp [hc])
    unfold parsePath
    rw [getObjName_snoc_data, splitSlash_names g (fun c hc => (hg c hc).2.1) last.data,
      splitSlash_noSlash last.data hl.2.1]
    have hf := filter_plain g hg
    simp only [ne_eq, decide_not] at hf
    simp [List.filter, hl.1, hl.2.2, hf]

theorem getObjName_ne_empty (q : Loc) : getObjName q ≠ "" := by
  intro h
  have := congrArg String.data h
  rw [getObjName_data] at this
  split at this
  · cases this
  · rename_i hq
    cases q with
    | nil => exact hq rfl
    | cons a l => simp at this

/-- The path `pfx / name` that `isNameAttribute` gives the library is the path
of the name in the group. -/
theorem pathAppend_getObjName (q : Loc) (n : String) (hq : PlainLoc q) :
    pathAppend (getObjName q) n = getObjName (q ++ [n]) := by
  unfold pathAppend
  rw [if_neg (getObjName_ne_empty q)]
  apply String.ext
  rw [getObjName_snoc_data]
  rcases List.eq_nil_or_concat q with h0 | ⟨g, last, h⟩
  · subst h0
    rw [if_pos (by decide)]
    simp [String.data_append]
    rfl
  · rw [List.concat_eq_append] at h
    subst h
    have hl := hq last (by simp)
    have hlast : (getObjName (g ++ [last])).data.getLast? ≠ some '/' := by
      rw [getObjName_snoc_data, getLast_append_cons _ _ _ hl.1]
      exact getLast_noSlash _ hl.2.1
    rw [if_neg hlast]
    simp [String.data_append, getObjName_snoc_data]


theorem assoc_mem {α β : Type} [DecidableEq α] (k : α) (v : β) :
    ∀ l : List (α × β), assoc k l = some v → (k, v) ∈ l
  | [], h => by cases h
  | (a, b) :: rest, h => by
    unfold assoc at h
    split at h
    · rename_i hk
      cases h
      subst hk
      simp
    · exact List.mem_cons_of_mem _ (assoc_mem k v rest h)

/-- A name that leads to an object of the group is among the names of the
children of the group. -/
theorem mem_childNames (f : H5File) (q : Loc) (X : String) (node : Node)
    (h : f.find (q ++ [X]) = some node) : X ∈ f.childNames q := by
  have hq : q ++ [X] ≠ [] := by simp
  have ha : assoc (q ++ [X]) f.links = some node := by
    simpa [H5File.find, hq] using h
  have hm := assoc_mem _ _ _ ha
  unfold H5File.childNames
  rw [(List.perm_insertionSort _ _).mem_iff, List.mem_dedup, List.mem_filterMap]
  exact ⟨(q ++ [X], node), hm, by simp⟩

/-- The loop of `h5vfs_readdir` returns when every round does, and what it
returns holds what every round gives. -/
theorem readdirLoop_ok (m : Mount) (q : Loc) : ∀ names : List String,
    (∀ n ∈ names, ∃ l, readdirEntry m q n = .ok l) →
    ∃ out, readdirLoop m q names = .ok out ∧
      ∀ n ∈ names, ∀ l, readdirEntry m q n = .ok l → ∀ x ∈ l, x ∈ out
  | [], _ => ⟨[], rfl, fun n hn => by cases hn⟩
  | a :: rest, h => by
    obtain ⟨la, hla⟩ := h a (by simp)
    obtain ⟨out, hout, hmem⟩ := readdirLoop_ok m q rest (fun n hn => h n (by simp [hn]))
    refine ⟨la ++ out, ?_, ?_⟩
    · simp [readdirLoop, hla, hout, bind, Except.bind, pure, Except.pure]
    · intro n hn l hl x hx
      rcases List.mem_cons.mp hn with h1 | h1
      · subst h1
        rw [hla] at hl
        cases hl
        exact List.mem_append_left _ hx
      · exact List.mem_append_right _ (hmem n h1 l hl x hx)

/-- A round of the loop of `h5vfs_readdir` returns for a child that leads to a
group or a dataset. -/
theorem readdirEntry_ok (m : Mount) (q : Loc) (n : String)
    (h : ((m.childOf q n).bind H5File.attrsOf).isSome = true) :
    ∃ l, readdirEntry m q n = .ok l := by
  unfold readdirEntry
  cases hc : m.childOf q n with
  | none => simp [hc] at h
  | some node =>
    cases node with
    | group a => exact ⟨_, rfl⟩
    | dataset e d b a => exact ⟨_, rfl⟩
    | soft t => simp [hc, H5File.attrsOf] at h

/-- The child a plain name leads to is the object at the name. -/
theorem childOf_plain (m : Mount) (q : Loc) (X : String) (node : Node) (attrs : Attrs)
    (hnode : m.mainfile.find (q ++ [X]) = some node) (hattrs : H5File.attrsOf node = some attrs)
    (hfuel : 1 < m.nlinks) : m.childOf q X = some node := by
  have hw := walk_plain m.mainfile true [X] q m.nlinks (by simpa using hfuel) (by
    intro p hp hne
    have hpX : p = [X] := by
      rcases List.prefix_concat_iff.mp (show p <+: [] ++ [X] from hp) with h | h
      · simpa using h
      · exact absurd (List.prefix_nil.mp h) hne
    subst hpX
    refine ⟨node, hnode, fun t ht => ?_⟩
    subst ht
    cases hattrs)
  simp [Mount.childOf, hw, hnode]

/-- What the adapter finds at the path of a name that leads to a group or a
dataset in a group reached through groups. -/
theorem mount_child (m : Mount) (q : Loc) (X : String) (node : Node) (attrs : Attrs)
    (path : String) (hparse : parsePath path = q ++ [X])
    (hreach : m.mainfile.Reachable q) (hfuel : q.length + 1 < m.nlinks)
    (hnode : m.mainfile.find (q ++ [X]) = some node) (hattrs : H5File.attrsOf node = some attrs) :
    m.nameExists path = .ok true ∧ m.object path = some node ∧
      ∃ c, m.childObjType path = .ok c := by
  cases node with
  | group a =>
    have hrq : m.mainfile.Reachable (q ++ [X]) := by
      intro p hp
      rcases List.prefix_concat_iff.mp hp with h | h
      · subst h
        simp only [H5File.isGroup]
        rw [hnode]
      · exact hreach p h
    have hne : path ≠ "" := parsePath_ne_empty path (by rw [hparse]; simp)
    obtain ⟨h1, _, _, h4, h5⟩ := mount_group m path (q ++ [X]) a hparse hne hrq hnode
      (by rw [List.length_append, List.length_singleton]; omega)
    exact ⟨h1, h4, _, h5⟩
  | dataset e d b a =>
    obtain ⟨h1, _, _, h4, h5⟩ := mount_dataset m path q X hparse hreach hnode hfuel
    exact ⟨h1, h4, _, h5⟩
  | soft t => cases hattrs

theorem attr_name_data (X A : String) :
    ("." ++ X ++ ATTR_FLAG ++ A).data = ('.' :: X.data ++ ATTR_FLAG.data) ++ A.data := by
  simp [String.data_append]

/-- C19, a counterexample to the claim as stated: in a container with the
dataset `a` that has the attribute `b.attr.c` and the dataset `a.attr.b` that
has the attribute `c`, `h5vfs_readdir` emits the name `.a.attr.b.attr.c` twice,
once for each; `isNameAttribute` cuts the name at the first `.attr.` and
resolves it to the attribute `b.attr.c` of `a`, so the name emitted for the
attribute `c` of the child `a.attr.b` resolves to another child and another
attribute. -/
theorem C19_counterexample :
    (h5vfs_readdir (mountOf twoReadings) "/" : Except Err (Int × List String))
      = .ok (0, [".", "..", "a", ".a.attr.b.attr.c", "a.attr.b", ".a.attr.b.attr.c"]) ∧
    "." ++ "a.attr.b" ++ ATTR_FLAG ++ "c" = ".a.attr.b.attr.c" ∧
    twoReadings.find ["a.attr.b"] = some (Node.dataset 1 [0] [] [("c", AttrVal.int64 2)]) ∧
    twoReadings.find ["a"] = some (Node.dataset 1 [0] [] [("b.attr.c", AttrVal.int64 1)]) ∧
    (isNameAttribute (mountOf twoReadings) "/.a.attr.b.attr.c" : Except Err (Option AttrVal))
      = .ok (some (AttrVal.int64 1)) ∧
    findSub ATTR_FLAG.data ('.' :: "a.attr.b".data ++ ATTR_FLAG.data) = some 2 := by
  refine ⟨by decide!, by decide!, by decide!, by decide!, by decide!, by decide!⟩

/-- C19, amended: let `q` be a group reached through groups, `X` a child of it
that is a group or a dataset, such that the first `.attr.` in `.X.attr.` is
the one at its end, and `A` an attribute of `X` with the value `v` whose name
is not empty and has no slash.  With `showAttributesAsFiles` set, and every
child of the group leading to a group or a dataset, `h5vfs_readdir` on the
path of the group returns 0 and emits the name `.X.attr.A`.  `isNameAttribute`
on the path of that name in the group returns the value `v`: it takes the
path of the group for the prefix, cuts the name at `|X| + 1`, and so looks for
the attribute `A` of the child `X`. -/
theorem C19_attribute_name_round_trip (m : Mount) (q : Loc) (X A : String) (node : Node)
    (attrs : Attrs) (v : AttrVal)
    (hq : PlainLoc q) (hreach : m.mainfile.Reachable q) (hfuel : q.length + 1 < m.nlinks)
    (hshow : m.showAttributesAsFiles = true) (hX : simpleName X = true)
    (hnode : m.mainfile.find (q ++ [X]) = some node) (hattrs : H5File.attrsOf node = some attrs)
    (hA : assoc A attrs = some v) (hAne : A ≠ "") (hAs : ∀ c ∈ A.data, c ≠ '/')
    (hsep : findSub ATTR_FLAG.data ('.' :: X.data ++ ATTR_FLAG.data) = some (X.length + 1))
    (hall : ∀ n ∈ m.mainfile.childNames q,
      ((m.childOf q n).bind H5File.attrsOf).isSome = true) :
    (∃ names, h5vfs_readdir m (getObjName q) = .ok (0, names) ∧
      "." ++ X ++ ATTR_FLAG ++ A ∈ names) ∧
    isNameAttribute m (getObjName (q ++ ["." ++ X ++ ATTR_FLAG ++ A])) = .ok (some v) ∧
    getPrefix (getObjName (q ++ ["." ++ X ++ ATTR_FLAG ++ A])) = getObjName q ∧
    getLastPart (getObjName (q ++ ["." ++ X ++ ATTR_FLAG ++ A])) = "." ++ X ++ ATTR_FLAG ++ A ∧
    findSub ATTR_FLAG.data ("." ++ X ++ ATTR_FLAG ++ A).data = some (X.length + 1) ∧
    ((("." ++ X ++ ATTR_FLAG ++ A).data.drop 1).take (X.length + 1 - 1)) = X.data ∧
    ("." ++ X ++ ATTR_FLAG ++ A).data.drop (X.length + 1 + ATTR_FLAG.length) = A.data := by
  obtain ⟨hX1, hX2, _, _⟩ := (simpleName_iff X).mp hX
  have hAd : A.data ≠ [] := fun h => hAne (String.ext h)
  -- the name and its parts
  have hdata := attr_name_data X A
  have hnameNe : ("." ++ X ++ ATTR_FLAG ++ A).data ≠ [] := by rw [hdata]; simp
  have hnameS : ∀ c ∈ ("." ++ X ++ ATTR_FLAG ++ A).data, c ≠ '/' := by
    intro c hc
    rw [hdata] at hc
    simp only [List.mem_append, List.mem_cons] at hc
    rcases hc with ((h | h) | h) | h
    · subst h; decide
    · exact hX2 c h
    · intro hc'
      subst hc'
      revert h
      decide
    · exact hAs c h
  have hpos : findSub ATTR_FLAG.data ("." ++ X ++ ATTR_FLAG ++ A).data = some (X.length + 1) := by
    rw [hdata]
    exact findSub_append _ _ _ _ hsep
  have hdrop1 : (("." ++ X ++ ATTR_FLAG ++ A).data.drop 1).take (X.length + 1 - 1) = X.data := by
    rw [hdata]
    show ((X.data ++ ATTR_FLAG.data ++ A.data).take X.data.length) = X.data
    rw [List.append_assoc, List.take_left]
  have hdrop2 : ("." ++ X ++ ATTR_FLAG ++ A).data.drop (X.length + 1 + ATTR_FLAG.length)
      = A.data := by
    rw [hdata]
    have hl : ('.' :: X.data ++ ATTR_FLAG.data).length = X.length + 1 + ATTR_FLAG.length := by
      show ('.' :: X.data ++ ATTR_FLAG.data).length = X.data.length + 1 + ATTR_FLAG.data.length
      simp only [List.length_append, List.length_cons]
    rw [← hl, List.drop_left]
  have hpfx := getPrefix_snoc q ("." ++ X ++ ATTR_FLAG ++ A) hnameNe hnameS
  have hlast := getLastPart_snoc q ("." ++ X ++ ATTR_FLAG ++ A) hnameNe hnameS
  -- the group
  obtain ⟨ga, hga⟩ := isGroup_find m.mainfile q (hreach q (List.prefix_refl q))
  obtain ⟨hgex, _, hglook, hgobj, _⟩ := mount_group m (getObjName q) q ga
    (parsePath_getObjName q hq) (getObjName_ne_empty q) hreach hga (by omega)
  -- the child
  have hchild := mount_child m q X node attrs (getObjName (q ++ [X])) (parsePath_snoc q X hq hX)
    hreach hfuel hnode hattrs
  obtain ⟨hcex, hcobj, c, hct⟩ := hchild
  refine ⟨?_, ?_, hpfx, hlast, hpos, hdrop1, hdrop2⟩
  · -- the listing
    obtain ⟨out, hout, hmem⟩ := readdirLoop_ok m q (m.mainfile.childNames q)
      (fun n hn => readdirEntry_ok m q n (hall n hn))
    refine ⟨"." :: ".." :: out, ?_, ?_⟩
    · unfold h5vfs_readdir
      simp [hgex, hglook, hreach q (List.prefix_refl q), hout, bind, Except.bind, pure,
        Except.pure]
    · have hXmem := mem_childNames m.mainfile q X node hnode
      have hco := childOf_plain m q X node attrs hnode hattrs (by omega)
      have hentry : readdirEntry m q X = .ok (X :: attrEntries m X attrs) := by
        unfold readdirEntry
        rw [hco]
        cases node with
        | group a => cases hattrs; rfl
        | dataset e d b a => cases hattrs; rfl
        | soft t => cases hattrs
      have hin : "." ++ X ++ ATTR_FLAG ++ A ∈ X :: attrEntries m X attrs := by
        apply List.mem_cons_of_mem
        unfold attrEntries
        rw [if_pos hshow, List.mem_map]
        exact ⟨(A, v), assoc_mem _ _ _ hA, rfl⟩
      exact List.mem_cons_of_mem _ (List.mem_cons_of_mem _ (hmem X hXmem _ hentry _ hin))
  · -- the resolver
    have hsome : (findSub ATTR_FLAG.data
        (getObjName (q ++ ["." ++ X ++ ATTR_FLAG ++ A])).data).isSome = true := by
      rw [getObjName_snoc_data, hdata]
      have := findSub_within ATTR_FLAG.data A.data
        (q.flatMap (fun c => '/' :: c.data) ++ '/' :: '.' :: X.data)
      simpa [List.append_assoc] using this
    obtain ⟨i, hi⟩ := Option.isSome_iff_exists.mp hsome
    have hXs : String.mk X.data = X := rfl
    have hAs' : String.mk A.data = A := rfl
    have hXne : X ≠ "" := simple_ne_empty X hX
    unfold isNameAttribute
    simp only [hi, hpfx, hlast, hpos, hgex, hgobj, bind, Except.bind, Bool.not_true,
      Bool.false_eq_true, if_false]
    have hzero : ¬ X.length + 1 = 0 := by omega
    simp only [hzero, if_false, hdrop1, hdrop2, hXs, hAs', hXne, hAne, decide_False,
      Bool.or_self, Bool.false_eq_true, pathAppend_getObjName q X hq, hcex, hct, hcobj,
      Bool.not_true]
    cases node with
    | group a => cases hattrs; simp only [hA]; rfl
    | dataset e d b a => cases hattrs; simp only [hA]; rfl
    | soft t => cases hattrs

/-- C19 at an input: the attribute `MD5Hash` of the dataset `target` in the
group `/base` of a container without the attribute `H5VFS`. -/
theorem C19_attribute_name_round_trip_witness :
    (∃ names, h5vfs_readdir (mountOf linksArchive) (getObjName ["base"]) = .ok (0, names) ∧
      "." ++ "target" ++ ATTR_FLAG ++ "MD5Hash" ∈ names) ∧
    isNameAttribute (mountOf linksArchive)
        (getObjName (["base"] ++ ["." ++ "target" ++ ATTR_FLAG ++ "MD5Hash"]))
      = .ok (some (AttrVal.str "d41d8cd98f00b204e9800998ecf8427e")) ∧
    getPrefix (getObjName (["base"] ++ ["." ++ "target" ++ ATTR_FLAG ++ "MD5Hash"]))
      = getObjName ["base"] ∧
    getLastPart (getObjName (["base"] ++ ["." ++ "target" ++ ATTR_FLAG ++ "MD5Hash"]))
      = "." ++ "target" ++ ATTR_FLAG ++ "MD5Hash" ∧
    findSub ATTR_FLAG.data ("." ++ "target" ++ ATTR_FLAG ++ "MD5Hash").data
      = some ("target".length + 1) ∧
    ((("." ++ "target" ++ ATTR_FLAG ++ "MD5Hash").data.drop 1).take ("target".length + 1 - 1))
      = "target".data ∧
    ("." ++ "target" ++ ATTR_FLAG ++ "MD5Hash").data.drop ("target".length + 1 + ATTR_FLAG.length)
      = "MD5Hash".data :=
  C19_attribute_name_round_trip (mountOf linksArchive) ["base"] "target" "MD5Hash"
    (Node.dataset 1 [0] [] (datasetAttrs "d41d8cd98f00b204e9800998ecf8427e" (regStat 11 1 0) true))
    (datasetAttrs "d41d8cd98f00b204e9800998ecf8427e" (regStat 11 1 0) true)
    (AttrVal.str "d41d8cd98f00b204e9800998ecf8427e")
    (plainLoc_of_simple _ (by decide))
    (fun p hp => by
      rcases List.prefix_concat_iff.mp (show p <+: [] ++ ["base"] from hp) with h | h
      · subst h; rfl
      · rw [List.prefix_nil.mp h]; rfl)
    (by decide) rfl (by decide) rfl rfl rfl (by decide) (by decide) (by decide) (by decide)

/-! ## The listing of a group with a soft link that leads nowhere -/

/-- C21, the code at a failing input: the Packer stores the symbolic link `l`
as the soft link `/base/l` and rejects its target `x.tmp`, so the group
`/base` has one child, a soft link that leads nowhere.  `h5vfs_readdir` on
`/base` ends with the exception of `childObjType`, which throws where it
cannot reach an object; the branch for `H5O_TYPE_UNKNOWN`, written to list a
link, is never reached, and the name `l` is not listed.  The listing of the
root group, whose only child is a group, is as the claim says. -/
theorem C21_listing_with_dangling_link :
    (packRoots lexEnv md5Hasher rejectTmpOpts [("/home/u/base", danglingTree)]
        { file := emptyFile } : Except Err (Nat × Packer)).toOption.map
      (fun r : Nat × Packer => r.2.file) = some danglingArchive ∧
    ((mountOf danglingArchive).nameExists "/base" : Except Err Bool) = .ok true ∧
    danglingArchive.childNames ["base"] = ["l"] ∧
    (mountOf danglingArchive).childOf ["base"] "l" = none ∧
    (h5vfs_readdir (mountOf danglingArchive) "/base" : Except Err (Int × List String))
      = .error (Err.h5 "childObjType") ∧
    (h5vfs_readdir (mountOf danglingArchive) "/" : Except Err (Int × List String))
      = .ok (0, [".", "..", "base", ".base.attr.Created", ".base.attr.Modified",
                 ".base.attr.Permissions"]) := by
  refine ⟨by decide!, by decide!, by decide!, by decide!, by decide!, by decide!⟩

/-! ## The size of an attribute as a file -/

/-- C22, the code at a failing input: for the scalar attribute `s` of four
bytes `h5vfs_getattr` reports the size 4, and `h5vfs_read` multiplies the size
of the type by `dims[0]` of an array that `getSimpleExtentDims` does not write
for a scalar: it returns 0 bytes where the cell holds 0, the four bytes only
where it holds 1, and 12 with a copy beyond the value where it holds 3.  For
the attribute `m` of two by three bytes `h5vfs_getattr` reports 6, and in
`h5vfs_read` the call `getSimpleExtentDims` writes two cells into the array
`dims` of one: the behaviour of the call is undefined.  For the attribute `v`
of one dimension the two agree. -/
theorem C22_attribute_size_and_read :
    ((h5vfs_getattr (mountOf attrsFile) "/.d.attr.s" : Except Err (Int × StatBuf)).toOption.map
      (fun r : Int × StatBuf => (r.1, r.2.st_size))) = some (0, 4) ∧
    ((h5vfs_read { mountOf attrsFile with uninit := 0 } [] "/.d.attr.s" 100 0
      : Except Err ReadOutcome).toOption.map (fun r : ReadOutcome => (r.ret, r.buf)))
      = some (0, some []) ∧
    ((h5vfs_read { mountOf attrsFile with uninit := 1 } [] "/.d.attr.s" 100 0
      : Except Err ReadOutcome).toOption.map (fun r : ReadOutcome => (r.ret, r.buf)))
      = some (4, some [97, 98, 99, 100]) ∧
    ((h5vfs_read { mountOf attrsFile with uninit := 3 } [] "/.d.attr.s" 100 0
      : Except Err ReadOutcome).toOption.map (fun r : ReadOutcome => (r.ret, r.buf)))
      = some (12, none) ∧
    ((h5vfs_getattr (mountOf attrsFile) "/.d.attr.m" : Except Err (Int × StatBuf)).toOption.map
      (fun r : Int × StatBuf => (r.1, r.2.st_size))) = some (0, 6) ∧
    ((h5vfs_read (mountOf attrsFile) [] "/.d.attr.m" 100 0
      : Except Err ReadOutcome).map (fun r : ReadOutcome => (r.ret, r.buf)))
      = .error (Err.undefined "getSimpleExtentDims") ∧
    ((h5vfs_getattr (mountOf attrsFile) "/.d.attr.v" : Except Err (Int × StatBuf)).toOption.map
      (fun r : Int × StatBuf => (r.1, r.2.st_size))) = some (0, 6) ∧
    ((h5vfs_read (mountOf attrsFile) [] "/.d.attr.v" 100 0
      : Except Err ReadOutcome).toOption.map (fun r : ReadOutcome => (r.ret, r.buf)))
      = some (6, some [1, 2, 3, 4, 5, 6]) := by
  refine ⟨by decide!, by decide!, by decide!, by decide!, by decide!, by decide!, by decide!,
    by decide!⟩

/-! ## The call `open` on a path that is no file -/

/-- C24, the code at a failing input: `h5vfs_open` tests only that the name
exists.  For the group `/base` and for the group `/base/p` with the attribute
`ExternalLink` it goes on to `h5vfsFile::open`, and `openDataSet` on a group
throws: the call ends with that exception, not with `-ENOENT`.  For a name
that is absent it returns `-ENOENT`, for an attribute as a file 0, the table
unchanged in both cases; for the dataset `/base/target` it returns 0 with a
new entry. -/
theorem C24_open_on_group :
    (h5vfs_open (mountOf linksArchive) [] "/base" : Except Err (Int × OpenFiles))
      = .error (Err.h5 "openDataSet") ∧
    (h5vfs_open (mountOf linksArchive) [] "/base/p" : Except Err (Int × OpenFiles))
      = .error (Err.h5 "openDataSet") ∧
    (h5vfs_open (mountOf linksArchive) [] "/base/none" : Except Err (Int × OpenFiles))
      = .ok (-ENOENT, []) ∧
    (h5vfs_open (mountOf linksArchive) [] "/base/.target.attr.MD5Hash"
      : Except Err (Int × OpenFiles)) = .ok (0, []) ∧
    (h5vfs_open (mountOf linksArchive) [] "/base/target" : Except Err (Int × OpenFiles))
      = .ok (0, [("/base/target", { dataset := ["base", "target"], dim := 0, isOpen := true,
                                    refcount := 1, buffer := none })]) := by
  refine ⟨by decide!, by decide!, by decide!, by decide!, by decide!⟩

/-! ## The last chunk of a path -/

/-- C29, a counterexample to the claim as stated: the path `base/` has the form
prefix + name + `/` with an empty prefix and the name `base`, and
`getLastPathChunk` returns the empty string for it: it finds no slash before
the last one. -/
theorem C29_counterexample :
    "base/" = "" ++ "base" ++ "/" ∧ getLastPathChunk "base/" = "" ∧
    getLastPathChunk "base/" ≠ "base" := by
  refine ⟨by decide, by decide, by decide⟩

/-- C29, amended: for a string `n` without a slash and any string `pre`,
`getLastPathChunk` returns `n` for the path `n`, returns `n` for the path
`pre/n` when `n` is not empty, returns `n` for the path `pre/n/`, and returns
the empty string for the path `n/`, which has no slash before its last one. -/
theorem C29_last_path_chunk (pre n : List Char) (hn : ∀ c ∈ n, c ≠ '/') :
    getLastPathChunk (String.mk n) = String.mk n ∧
    (n ≠ [] → getLastPathChunk (String.mk (pre ++ '/' :: n)) = String.mk n) ∧
    getLastPathChunk (String.mk (pre ++ '/' :: n ++ ['/'])) = String.mk n ∧
    getLastPathChunk (String.mk (n ++ ['/'])) = "" := by
  refine ⟨?_, fun hne => getLastPathChunk_append pre n hn hne, ?_, ?_⟩
  · unfold getLastPathChunk
    simp only [lastSlash_noSlash n hn]
  · have hlast : lastSlash (pre ++ '/' :: n ++ ['/']) = some (pre ++ '/' :: n).length := by
      have := lastSlash_append [] (by simp) (pre ++ '/' :: n)
      simpa using this
    have hlen : (pre ++ '/' :: n).length = (pre ++ '/' :: n ++ ['/']).length - 1 := by
      simp only [List.length_append, List.length_cons, List.length_nil]
      omega
    have hpos : (pre ++ '/' :: n).length ≠ 0 := by simp
    have htake : (pre ++ '/' :: n ++ ['/']).take (pre ++ '/' :: n).length = pre ++ '/' :: n := by
      rw [show pre ++ '/' :: n ++ ['/'] = (pre ++ '/' :: n) ++ ['/'] by simp]
      exact List.take_left _ _
    have hdrop : ((pre ++ '/' :: n ++ ['/']).drop (pre.length + 1)).take
        ((pre ++ '/' :: n).length - pre.length - 1) = n := by
      have h1 : (pre ++ '/' :: n ++ ['/']).drop (pre.length + 1) = n ++ ['/'] := by
        rw [show pre ++ '/' :: n ++ ['/'] = (pre ++ ['/']) ++ (n ++ ['/']) by simp]
        rw [show pre.length + 1 = (pre ++ ['/']).length by simp]
        exact List.drop_left _ _
      have h2 : (pre ++ '/' :: n).length - pre.length - 1 = n.length := by
        simp only [List.length_append, List.length_cons]
        omega
      rw [h1, h2]
      exact List.take_left _ _
    unfold getLastPathChunk
    simp only [hlast]
    rw [if_neg (by rw [← hlen]; exact fun h => h rfl), if_neg hpos, htake,
      lastSlash_append n hn pre]
    simp only [hdrop]
  · have hlast : lastSlash (n ++ ['/']) = some n.length := lastSlash_append [] (by simp) n
    have hlen : n.length = (n ++ ['/']).length - 1 := by simp
    unfold getLastPathChunk
    simp only [hlast]
    rw [if_neg (by rw [← hlen]; exact fun h => h rfl)]
    by_cases h0 : n.length = 0
    · have hnil : n = [] := List.length_eq_zero.mp h0
      subst hnil
      decide
    · rw [if_neg h0, List.take_left, lastSlash_noSlash n hn]

/-- C29 at an input: the path `/home/u/base`, with and without a slash at its
end, and the paths `base` and `base/`. -/
theorem C29_last_path_chunk_witness :
    getLastPathChunk (String.mk "base".data) = String.mk "base".data ∧
    ("base".data ≠ [] →
      getLastPathChunk (String.mk ("/home/u".data ++ '/' :: "base".data))
        = String.mk "base".data) ∧
    getLastPathChunk (String.mk ("/home/u".data ++ '/' :: "base".data ++ ['/']))
      = String.mk "base".data ∧
    getLastPathChunk (String.mk ("base".data ++ ['/'])) = "" :=
  C29_last_path_chunk "/home/u".data "base".data (by decide)

/-! ## The branch of `storeFile` for an empty file -/

/-- What the write loop of `storeFile` leaves for a file of `B.length` bytes
and any chunk size but 0. -/
theorem storeLoop_any (H : Hasher) (c : Nat) (B : List Byte) (hc : 0 < c)
    (hB : B.length < I64) (hne : B ≠ []) :
    ∃ s t, storeLoop H (B.length + 1) c B.length B = some (s, t) ∧ s.data = B ∧
      s.hashed.flatten = B ∧ s.written.flatten = B ∧ s.ctx = s.hashed.foldl H.update H.init := by
  have hlen : 0 < B.length := List.length_pos.mpr hne
  have hk : 0 < min c B.length := by omega
  have hk63 : min c B.length < I64 := by simp only [I64] at *; omega
  obtain ⟨t, ht, hsched⟩ := chunkLoop_sched (storeBody H) B.length (min c B.length) hk hk63 hB
    (B.length + 1) 0 (storeEntry H c B.length B) [] (Nat.zero_le _) (by omega)
  obtain ⟨hd, chunks, hjoin, hh, hw, hctx⟩ := storeBody_fold H B (min c B.length) B.length rfl t 0
    (storeEntry H c B.length B) hsched (Nat.zero_le _) (by simp [storeEntry])
    (by simp [storeEntry])
  refine ⟨_, t, by simpa [storeLoop] using ht, hd, ?_, ?_, ?_⟩
  · rw [hh]; simpa [storeEntry] using hjoin
  · rw [hw]; simpa [storeEntry] using hjoin
  · rw [hctx, hh]; simp [storeEntry]

/-- With a chunk size other than 0, absent, positive or negative on the command
line, `storeFile` takes the branch for an empty file exactly for a file
without content, and for a file with content it writes and hashes all of it. -/
theorem storeFile_any (H : Hasher) (opts : Opts) (st : Packer) (group : Loc)
    (filePath name : String) (src : Source) (hcs : 0 < opts.chunkSize)
    (hsize : src.stat.st_size = src.content.length) (hlen : src.content.length < I64)
    (hname : simpleName name = true) (hgroup : st.file.isGroup group = true) :
    (min opts.chunkSize (src.stat.st_size % U64) = 0 ↔ src.content = []) ∧
    ∃ h : String,
      storeFile H opts st group filePath name src = .ok
        { st with
          calls := st.calls ++ [Call.storeFile group filePath name]
          file := { rootAttrs := st.file.rootAttrs
                    links := st.file.cleared (group ++ [name]) ++
                      [(group ++ [name], Node.dataset 1 [src.content.length] src.content
                        (datasetAttrs h src.stat (decide (src.content = []))))] } } ∧
      (src.content = [] → h = "d41d8cd98f00b204e9800998ecf8427e") ∧
      (src.content ≠ [] → ∃ s t,
        storeLoop H (src.content.length + 1) opts.chunkSize src.content.length src.content
          = some (s, t) ∧
        s.hashed.flatten = src.content ∧ s.written.flatten = src.content ∧
        h = digestString (H.final (s.hashed.foldl H.update H.init))) := by
  obtain ⟨hfree, hgrp⟩ := cleared_spec st.file group name hgroup
  have hq : group ++ [name] ≠ [] := by simp
  have hhs : src.stat.st_size % U64 = src.content.length := by
    rw [hsize]; simp only [U64]; simp only [I64] at hlen; omega
  have hres := resolve_simple group name hname
  have hbranch : min opts.chunkSize (src.stat.st_size % U64) = 0 ↔ src.content = [] := by
    rw [hhs]
    constructor
    · intro h
      exact List.length_eq_zero.mp (by omega)
    · intro h
      simp [h]
  refine ⟨hbranch, ?_⟩
  -- the body, on the container without the old link
  have hfill : ∃ h : String,
      createAndFill H opts { rootAttrs := st.file.rootAttrs,
                             links := st.file.cleared (group ++ [name]) } group name src = .ok
        { rootAttrs := st.file.rootAttrs
          links := st.file.cleared (group ++ [name]) ++
            [(group ++ [name], Node.dataset 1 [src.content.length] src.content
              (datasetAttrs h src.stat (decide (src.content = []))))] } ∧
      (src.content = [] → h = "d41d8cd98f00b204e9800998ecf8427e") ∧
      (src.content ≠ [] → ∃ s t,
        storeLoop H (src.content.length + 1) opts.chunkSize src.content.length src.content
          = some (s, t) ∧
        s.hashed.flatten = src.content ∧ s.written.flatten = src.content ∧
        h = digestString (H.final (s.hashed.foldl H.update H.init))) := by
    by_cases hB : src.content = []
    · refine ⟨"d41d8cd98f00b204e9800998ecf8427e", ?_, fun _ => rfl, fun h => absurd hB h⟩
      have hmin : min opts.chunkSize src.content.length = 0 := by
        rw [← hhs]; exact hbranch.mpr hB
      unfold createAndFill
      simp only [hhs, hmin, if_true, hres]
      rw [createDataSet_free _ _ group name _ hname hfree hgrp]
      simp only [bind, Except.bind]
      rw [createAttribute_dataset _ _ _ "Created" _ hq hfree (by simp [assoc])]
      simp only [List.nil_append]
      rw [createAttribute_dataset _ _ _ "Modified" _ hq hfree (by simp [assoc])]
      simp only [List.cons_append, List.nil_append]
      rw [createAttribute_dataset _ _ _ "MD5Hash" _ hq hfree (by simp [assoc])]
      simp only [List.cons_append, List.nil_append]
      rw [createAttribute_dataset _ _ _ "Permissions" _ hq hfree (by simp [assoc])]
      simp [datasetAttrs, hB]
    · obtain ⟨s, t, hloop, hdata, hh, hw, hctx⟩ :=
        storeLoop_any H opts.chunkSize src.content hcs hlen hB
      refine ⟨digestString (H.final (s.hashed.foldl H.update H.init)), ?_, fun h => absurd h hB,
        fun _ => ⟨s, t, hloop, hh, hw, rfl⟩⟩
      have hmin : ¬ (min opts.chunkSize src.content.length = 0) := by
        rw [← hhs]; exact fun h => hB (hbranch.mp h)
      unfold createAndFill
      simp only [hhs, hmin, if_false, hres]
      rw [createDataSet_free _ _ group name _ hname hfree hgrp]
      simp only [bind, Except.bind, hloop]
      rw [writeData_tip _ _ _ _ _ _ s.data _ hq hfree]
      simp only []
      rw [createAttribute_dataset _ _ _ "MD5Hash" _ hq hfree (by simp [assoc])]
      simp only [List.nil_append]
      rw [createAttribute_dataset _ _ _ "Created" _ hq hfree (by simp [assoc])]
      simp only [List.cons_append, List.nil_append]
      rw [createAttribute_dataset _ _ _ "Modified" _ hq hfree (by simp [assoc])]
      simp only [List.cons_append, List.nil_append]
      rw [createAttribute_dataset _ _ _ "Permissions" _ hq hfree (by simp [assoc])]
      simp [datasetAttrs, hB, hdata, hctx]
  obtain ⟨h, hfill, h1, h2⟩ := hfill
  refine ⟨h, ?_, h1, h2⟩
  unfold storeFile
  simp only []
  rw [nameExists_simple st.file group name hname hgroup]
  by_cases hex : (st.file.find (group ++ [name])).isSome = true
  · simp only [hex, bind, Except.bind, if_true]
    rw [unlink_simple st.file group name hname hex]
    simp only []
    rw [hfill]
    rfl
  · have hex' : (st.file.find (group ++ [name])).isSome = false := by simpa using hex
    have hcl : st.file.cleared (group ++ [name]) = st.file.links := by
      simp [H5File.cleared, hex']
    rw [hcl] at hfill ⊢
    have hfill' : createAndFill H opts st.file group name src = _ := hfill
    simp only [hex', bind, Except.bind, pure, Except.pure]
    rw [hfill']
    rfl

/-- C30, the code at a failing input: with `--chunk=0` the test
`chunk_size[0] == 0`, made on the smaller of the chunk size and the file size,
holds for the file `a.txt` of three bytes `abc`.  `storeFile` takes the branch
written for an empty file: the dataset of three elements keeps its fill
value, no byte of the file is written or hashed, and the attribute `MD5Hash`
is the hash of the empty string, not the one of `abc`. -/
theorem C30_chunk_zero :
    ({ noOpts with chunk := some 0 } : Opts).chunkSize = 0 ∧
    (regFile "a.txt" 11 1 [97, 98, 99]).stat.st_size = 3 ∧
    (storeFile md5Hasher { noOpts with chunk := some 0 } { file := emptyFile } [] "/base/a.txt"
        "a.txt" (regFile "a.txt" 11 1 [97, 98, 99]) : Except Err Packer).toOption.map
      (fun st : Packer => st.file.links)
    = some [(["a.txt"], Node.dataset 1 [3] [0, 0, 0]
        [("Created", AttrVal.int64 6), ("Modified", AttrVal.int64 5),
         ("MD5Hash", AttrVal.str "d41d8cd98f00b204e9800998ecf8427e"),
         ("Permissions", AttrVal.uint32 33188)])] ∧
    digestString (md5 [97, 98, 99]) = "900150983cd24fb0d6963f7d28e17f72" ∧
    (storeFile md5Hasher { noOpts with chunk := some 2 } { file := emptyFile } [] "/base/a.txt"
        "a.txt" (regFile "a.txt" 11 1 [97, 98, 99]) : Except Err Packer).toOption.map
      (fun st : Packer => st.file.links)
    = some [(["a.txt"], Node.dataset 1 [3] [97, 98, 99]
        [("MD5Hash", AttrVal.str "900150983cd24fb0d6963f7d28e17f72"),
         ("Created", AttrVal.int64 6), ("Modified", AttrVal.int64 5),
         ("Permissions", AttrVal.uint32 33188)])] := by
  refine ⟨by decide!, by decide!, by decide!, by decide!, by decide!⟩

/-! ## The command line handed to FUSE -/

/-- A loop that writes two arrays writes each of them as a loop of its own. -/
theorem foldl_set_pair {α β : Type} (f : Nat → α) (g : Nat → β) :
    ∀ (is : List Nat) (x : List α) (y : List β),
      is.foldl (fun (a : List α × List β) i => (a.1.set i (f i), a.2.set i (g i))) (x, y)
        = (is.foldl (fun a i => a.set i (f i)) x, is.foldl (fun b i => b.set i (g i)) y)
  | [], _, _ => rfl
  | i :: is, x, y => by
    simp only [List.foldl_cons]
    exact foldl_set_pair f g is _ _

/-- The cells of an array after a loop that writes the cells `lo`, ..., `lo + n - 1`. -/
theorem foldl_set_getElem {α : Type} (f : Nat → α) :
    ∀ (n lo : Nat) (l : List α) (j : Nat),
      ((List.range' lo n).foldl (fun a i => a.set i (f i)) l)[j]?
        = if lo ≤ j ∧ j < lo + n then (l[j]?).map (fun _ => f j) else l[j]?
  | 0, lo, l, j => by
    have : ¬ (lo ≤ j ∧ j < lo + 0) := by omega
    simp only [List.range', List.foldl_nil]
    rw [if_neg this]
  | n + 1, lo, l, j => by
    simp only [List.range', List.foldl_cons]
    rw [foldl_set_getElem f n (lo + 1) (l.set lo (f lo)) j, List.getElem?_set]
    by_cases h1 : lo = j
    · subst h1
      have h2 : ¬ (lo + 1 ≤ lo ∧ lo < lo + 1 + n) := by omega
      have h3 : lo ≤ lo ∧ lo < lo + (n + 1) := by omega
      rw [if_neg h2, if_pos h3, if_pos rfl]
      by_cases h4 : lo < l.length
      · simp [h4]
      · simp [h4, List.getElem?_eq_none (Nat.le_of_not_lt h4)]
    · rw [if_neg h1]
      by_cases h2 : lo + 1 ≤ j ∧ j < lo + 1 + n
      · have h3 : lo ≤ j ∧ j < lo + (n + 1) := by omega
        rw [if_pos h2, if_pos h3]
      · have h3 : ¬ (lo ≤ j ∧ j < lo + (n + 1)) := by omega
        rw [if_neg h2, if_neg h3]

theorem forLoop_pair {α β : Type} (f : Nat → α) (g : Nat → β) (lo hi : Nat) (x : List α)
    (y : List β) :
    forLoop lo hi (fun i (a : List α × List β) => (a.1.set i (f i), a.2.set i (g i))) (x, y)
      = (forLoop lo hi (fun i a => a.set i (f i)) x, forLoop lo hi (fun i b => b.set i (g i)) y) :=
  foldl_set_pair f g _ x y

theorem forLoop_getElem {α : Type} (f : Nat → α) (lo hi : Nat) (l : List α) (j : Nat) :
    (forLoop lo hi (fun i a => a.set i (f i)) l)[j]?
      = if lo ≤ j ∧ j < hi then (l[j]?).map (fun _ => f j) else l[j]? := by
  unfold forLoop
  rw [foldl_set_getElem]
  by_cases h : lo ≤ j ∧ j < hi
  · rw [if_pos h, if_pos (by omega)]
  · rw [if_neg h, if_neg (by omega)]

/-- The cells of the array of strings `L` with its terminator. -/
theorem holding_getElem (L : List String) (j : Nat) :
    (L.map Slot.arg ++ [Slot.null])[j]?
      = if j < L.length then (L[j]?).map Slot.arg else if j = L.length then some Slot.null
        else none := by
  by_cases h1 : j < L.length
  · rw [if_pos h1, List.getElem?_append_left (by simpa using h1), List.getElem?_map]
  · rw [if_neg h1, List.getElem?_append_right (by simpa using h1)]
    simp only [List.length_map]
    by_cases h2 : j = L.length
    · subst h2; simp
    · rw [if_neg h2]
      have : j - L.length ≠ 0 := by omega
      obtain ⟨k, hk⟩ := Nat.exists_eq_succ_of_ne_zero this
      rw [hk]
      rfl

/-- The constructor leaves the original strings, none of them to be deleted. -/
theorem new_holding (argv : List String) :
    CommandlineModifier.new argv
      = CommandlineModifier.holding argv (List.replicate argv.length false) := by
  unfold CommandlineModifier.new CommandlineModifier.copySlots CommandlineModifier.holding
  simp only [forLoop_pair]
  congr 1
  · apply List.ext_getElem?
    intro j
    simp only [List.getElem?_set', forLoop_getElem, holding_getElem, List.getElem?_replicate]
    by_cases h1 : j < argv.length
    · have h2 : ¬ argv.length = j := by omega
      have h3 : 0 ≤ j ∧ j < argv.length := by omega
      have h4 : j < argv.length + 1 := by omega
      rw [if_neg h2, if_pos h3, if_pos h4, if_pos h1]
      have : argv[j]? = some (argv[j]) := List.getElem?_eq_getElem h1
      simp [this]
    · by_cases h2 : argv.length = j
      · subst h2
        simp
      · have h3 : ¬ (0 ≤ j ∧ j < argv.length) := by omega
        have h4 : ¬ j < argv.length + 1 := by omega
        rw [if_neg h2, if_neg h3, if_neg h4, if_neg h1, if_neg (fun h => h2 h.symm)]
  · apply List.ext_getElem?
    intro j
    simp only [forLoop_getElem, List.getElem?_replicate, List.getElem?_map]
    by_cases h1 : j < argv.length
    · simp [h1]
    · simp [h1]

/-- The two loops of `deleteSlot` leave the array without the cell `i`. -/
theorem delete_loops {α : Type} (B : List α) (d : α) (n i : Nat) (hB : B.length = n)
    (hi : i < n) :
    forLoop i (n - 1) (fun k a => a.set k (B.getD (k + 1) d))
        (forLoop 0 i (fun k a => a.set k (B.getD k d)) (List.replicate (n - 1) d))
      = B.eraseIdx i := by
  apply List.ext_getElem?
  intro j
  simp only [forLoop_getElem, List.getElem?_replicate, List.getElem?_eraseIdx,
    List.getD_eq_getElem?_getD]
  by_cases h1 : j < i
  · have h2 : ¬ (i ≤ j ∧ j < n - 1) := by omega
    have h3 : 0 ≤ j ∧ j < i := by omega
    have h4 : j < n - 1 := by omega
    have h5 : B[j]? = some (B[j]) := List.getElem?_eq_getElem (by omega)
    rw [if_neg h2, if_pos h3, if_pos h4, if_pos h1, h5]
    rfl
  · have h3 : ¬ (0 ≤ j ∧ j < i) := by omega
    rw [if_neg h1, if_neg h3]
    by_cases h2 : j < n - 1
    · have h4 : i ≤ j ∧ j < n - 1 := by omega
      have h5 : B[j + 1]? = some (B[j + 1]) := List.getElem?_eq_getElem (by omega)
      rw [if_pos h4, if_pos h2, h5]
      rfl
    · have h4 : ¬ (i ≤ j ∧ j < n - 1) := by omega
      rw [if_neg h4, if_neg h2, List.getElem?_eq_none (by omega)]

/-- The array of `deleteSlot` after its loops and the write of the terminator. -/
theorem delete_loops_null {α : Type} (A : List α) (d nul : α) (n i : Nat)
    (hA : A.length = n + 1) (hn : A[n]? = some nul) (hi : i < n) :
    (forLoop i (n - 1) (fun k a => a.set k (A.getD (k + 1) d))
        (forLoop 0 i (fun k a => a.set k (A.getD k d)) (List.replicate (n - 1 + 1) d))).set
      (n - 1) nul = A.eraseIdx i := by
  apply List.ext_getElem?
  intro j
  simp only [List.getElem?_set', forLoop_getElem, List.getElem?_replicate,
    List.getElem?_eraseIdx, List.getD_eq_getElem?_getD]
  by_cases h0 : n - 1 = j
  · subst h0
    have h1 : ¬ n - 1 < i := by omega
    have h2 : ¬ (i ≤ n - 1 ∧ n - 1 < n - 1) := by omega
    have h3 : ¬ (0 ≤ n - 1 ∧ n - 1 < i) := by omega
    have h4 : n - 1 < n - 1 + 1 := by omega
    have h5 : n - 1 + 1 = n := by omega
    rw [if_pos rfl, if_neg h2, if_neg h3, if_pos h4, if_neg h1, h5, hn]
    rfl
  · rw [if_neg h0]
    by_cases h1 : j < i
    · have h2 : ¬ (i ≤ j ∧ j < n - 1) := by omega
      have h3 : 0 ≤ j ∧ j < i := by omega
      have h4 : j < n - 1 + 1 := by omega
      have h5 : A[j]? = some (A[j]) := List.getElem?_eq_getElem (by omega)
      rw [if_neg h2, if_pos h3, if_pos h4, if_pos h1, h5]
      rfl
    · have h3 : ¬ (0 ≤ j ∧ j < i) := by omega
      rw [if_neg h1, if_neg h3]
      by_cases h2 : j < n - 1
      · have h4 : i ≤ j ∧ j < n - 1 := by omega
        have h6 : j < n - 1 + 1 := by omega
        have h5 : A[j + 1]? = some (A[j + 1]) := List.getElem?_eq_getElem (by omega)
        rw [if_pos h4, if_pos h6, h5]
        rfl
      · have h4 : ¬ (i ≤ j ∧ j < n - 1) := by omega
        have h6 : ¬ j < n - 1 + 1 := by omega
        rw [if_neg h4, if_neg h6, List.getElem?_eq_none (by omega)]

/-- The method `deleteSlot` removes the string at its index and nothing else. -/
theorem deleteSlot_holding (L : List String) (D : List Bool) (hD : D.length = L.length)
    (i : Nat) (hi : i < L.length) :
    (CommandlineModifier.holding L D).deleteSlot (i : Int)
      = .ok (CommandlineModifier.holding (L.eraseIdx i) (D.eraseIdx i)) := by
  have hguard : ¬ ((i : Int) < 0 ∨ (i : Int) ≥ (L.length : Int)) := by omega
  have hA : (L.map Slot.arg ++ [Slot.null]).length = L.length + 1 := by simp
  have hn : (L.map Slot.arg ++ [Slot.null])[L.length]? = some Slot.null := by
    rw [holding_getElem]; simp
  have h1 := delete_loops_null (L.map Slot.arg ++ [Slot.null]) Slot.junk Slot.null L.length i
    hA hn hi
  have h2 := delete_loops (D.map some) (none : Option Bool) L.length i (by simpa using hD) hi
  have h3 : (L.map Slot.arg ++ [Slot.null]).eraseIdx i
      = (L.eraseIdx i).map Slot.arg ++ [Slot.null] := by
    rw [List.eraseIdx_append_of_lt_length (by simpa using hi)]
    congr 1
    apply List.ext_getElem?
    intro j
    simp only [List.getElem?_eraseIdx, List.getElem?_map]
    split <;> rfl
  have h4 : (D.map some).eraseIdx i = (D.eraseIdx i).map some := by
    apply List.ext_getElem?
    intro j
    simp only [List.getElem?_eraseIdx, List.getElem?_map]
    split <;> rfl
  have h5 : (L.eraseIdx i).length = L.length - 1 := by
    rw [List.length_eraseIdx, if_pos hi]
  unfold CommandlineModifier.deleteSlot CommandlineModifier.holding
  simp only [hguard, if_false, Int.toNat_ofNat, forLoop_pair, h1, h2, h3, h4, h5]
  rfl

/-- The array of `addSlotAt(argcMod)` and `addArgument` after the loops and the
writes that follow them: the old cells before the index, then the new value
and the terminator. -/
theorem add_loops {α : Type} (A : List α) (d nul v : α) (n : Nat) (hA : n ≤ A.length) :
    (((forLoop (n + 1) (n + 1) (fun k a => a.set k (A.getD (k - 1) d))
        (forLoop 0 (min n (n + 1 - 1)) (fun k a => a.set k (A.getD k d))
          (List.replicate (n + 1 + 1) d))).set n nul).set (n + 1) nul).set (n + 1 - 1) v
      = A.take n ++ [v, nul] := by
  apply List.ext_getElem?
  intro j
  have hsub : n + 1 - 1 = n := by omega
  have hl2 : ¬ (n + 1 ≤ j ∧ j < n + 1) := by omega
  simp only [List.getElem?_set', forLoop_getElem, List.getElem?_replicate,
    List.getD_eq_getElem?_getD, hsub, Nat.min_self, hl2, if_false]
  by_cases h1 : j < n
  · have h2 : ¬ n = j := by omega
    have h3 : ¬ n + 1 = j := by omega
    have h4 : 0 ≤ j ∧ j < n := by omega
    have h5 : j < n + 1 + 1 := by omega
    have h6 : A[j]? = some (A[j]) := List.getElem?_eq_getElem (by omega)
    simp only [h2, h3, h4, h5, if_false, if_true, and_self]
    rw [h6, List.getElem?_append_left (by simp; omega), List.getElem?_take_of_lt h1, h6]
    rfl
  · have h4 : ¬ (0 ≤ j ∧ j < n) := by omega
    have hlen : (A.take n).length = n := by simp; omega
    rw [List.getElem?_append_right (by omega), hlen]
    by_cases h2 : n = j
    · subst h2
      have h5 : n < n + 1 + 1 := by omega
      have h3 : ¬ n + 1 = n := by omega
      simp [h3, h4, h5]
    · by_cases h3 : n + 1 = j
      · subst h3
        have h5 : n + 1 < n + 1 + 1 := by omega
        have h7 : ¬ (0 ≤ n + 1 ∧ n + 1 < n) := by omega
        have h8 : n + 1 - n = 1 := by omega
        simp [h5, h2, h7, h8]
      · have h5 : ¬ j < n + 1 + 1 := by omega
        simp only [h2, h3, h4, h5, if_false]
        have : j - n = (j - n - 2) + 2 := by omega
        rw [this]
        rfl

/-- The method `addArgument(arg)` appends the string and nothing else. -/
theorem addArgument_holding (L : List String) (D : List Bool) (hD : D.length = L.length)
    (s : String) :
    (CommandlineModifier.holding L D).addArgument s
      = .ok (CommandlineModifier.holding (L ++ [s]) (D ++ [true])) := by
  have hguard : ¬ (((L.length : Nat) : Int) > (L.length : Int) ∨ ((L.length : Nat) : Int) < 0) := by
    omega
  have h1 := add_loops (L.map Slot.arg ++ [Slot.null]) Slot.junk Slot.null (Slot.arg s) L.length
    (by simp)
  have h2 : (L.map Slot.arg ++ [Slot.null]).take L.length ++ [Slot.arg s, Slot.null]
      = (L ++ [s]).map Slot.arg ++ [Slot.null] := by
    rw [List.take_left' (by simp)]
    simp
  have h3 : ((forLoop (L.length + 1) (L.length + 1)
        (fun k a => a.set k ((D.map some).getD (k - 1) (none : Option Bool)))
        (forLoop 0 (min L.length (L.length + 1 - 1))
          (fun k a => a.set k ((D.map some).getD k none))
          (List.replicate (L.length + 1) none))).set L.length (some false)).set
        (L.length + 1 - 1) (some true)
      = (D ++ [true]).map some := by
    apply List.ext_getElem?
    intro j
    have hsub : L.length + 1 - 1 = L.length := by omega
    have hl2 : ¬ (L.length + 1 ≤ j ∧ j < L.length + 1) := by omega
    simp only [List.getElem?_set', forLoop_getElem, List.getElem?_replicate,
      List.getD_eq_getElem?_getD, hsub, Nat.min_self, List.getElem?_map, hl2, if_false]
    by_cases h1 : j < L.length
    · have h2 : ¬ L.length = j := by omega
      have h4 : 0 ≤ j ∧ j < L.length := by omega
      have h5 : j < L.length + 1 := by omega
      have h6 : D[j]? = some (D[j]) := List.getElem?_eq_getElem (by omega)
      simp only [h2, h4, h5, if_false, if_true, and_self]
      rw [List.getElem?_append_left (by omega), h6]
      rfl
    · have h4 : ¬ (0 ≤ j ∧ j < L.length) := by omega
      rw [List.getElem?_append_right (by omega), hD]
      by_cases h2 : L.length = j
      · subst h2
        simp
      · have h5 : ¬ j < L.length + 1 := by omega
        simp only [h2, h4, h5, if_false]
        have : j - L.length = (j - L.length - 1) + 1 := by omega
        rw [this]
        rfl
  unfold CommandlineModifier.addArgument CommandlineModifier.addSlotAt
    CommandlineModifier.holding
  simp only [hguard, if_false, Int.toNat_ofNat, forLoop_pair, bind, Except.bind, pure,
    Except.pure, h1, h2, h3, List.length_append, List.length_singleton]

/-- C26: for an argument vector `a0, a1, a2, ...` of at least two strings (the
adapter asks for three), the modifier built from it, after
`deleteArgument(1)`, `addArgument("-ofsname=h5vfs")` and `addArgument("-oro")`,
has `getArgc()` one more than it had, and `getArgv()` is `a0, a2, ...`,
`-ofsname=h5vfs`, `-oro` and the terminating `nullptr`.  In general
`deleteArgument` removes the string at its index and `addArgument` appends
its string, the other strings staying as they are and in their order.  The
counts are `int` in the source, so the length is taken below 2^31. -/
theorem C26_fuse_arguments (a0 a1 : String) (rest : List String)
    (_hint : (a0 :: a1 :: rest).length + 1 < 2147483648) :
    (∃ cm : CommandlineModifier,
      fuseArguments (a0 :: a1 :: rest) = .ok cm ∧
      cm.getArgc = (a0 :: a1 :: rest).length + 1 ∧
      cm.getArgv = ((a0 :: rest) ++ ["-ofsname=h5vfs", "-oro"]).map Slot.arg ++ [Slot.null]) ∧
    (∀ (L : List String) (D : List Bool) (i : Nat), D.length = L.length → i < L.length →
      (CommandlineModifier.holding L D).deleteArgument (i : Int)
        = .ok (CommandlineModifier.holding (L.eraseIdx i) (D.eraseIdx i))) ∧
    (∀ (L : List String) (D : List Bool) (s : String), D.length = L.length →
      (CommandlineModifier.holding L D).addArgument s
        = .ok (CommandlineModifier.holding (L ++ [s]) (D ++ [true]))) := by
  refine ⟨?_, fun L D i hD hi => deleteSlot_holding L D hD i hi,
    fun L D s hD => addArgument_holding L D hD s⟩
  have h1 := deleteSlot_holding (a0 :: a1 :: rest) (List.replicate (a0 :: a1 :: rest).length false)
    (by simp) 1 (by simp)
  have hD : ((List.replicate (a0 :: a1 :: rest).length false).eraseIdx 1).length
      = ((a0 :: a1 :: rest).eraseIdx 1).length := by
    simp [List.length_eraseIdx]
  have h2 := addArgument_holding ((a0 :: a1 :: rest).eraseIdx 1)
    ((List.replicate (a0 :: a1 :: rest).length false).eraseIdx 1) hD "-ofsname=h5vfs"
  have h3 := addArgument_holding ((a0 :: a1 :: rest).eraseIdx 1 ++ ["-ofsname=h5vfs"])
    ((List.replicate (a0 :: a1 :: rest).length false).eraseIdx 1 ++ [true])
    (by simp only [List.length_append, List.length_singleton, hD]) "-oro"
  refine ⟨CommandlineModifier.holding ((a0 :: a1 :: rest).eraseIdx 1 ++ ["-ofsname=h5vfs"]
      ++ ["-oro"]) ((List.replicate (a0 :: a1 :: rest).length false).eraseIdx 1 ++ [true]
      ++ [true]), ?_, ?_, ?_⟩
  · unfold fuseArguments CommandlineModifier.deleteArgument
    rw [new_holding]
    simp only [bind, Except.bind]
    have h1' : (CommandlineModifier.holding (a0 :: a1 :: rest)
        (List.replicate (a0 :: a1 :: rest).length false)).deleteSlot 1 = _ := h1
    rw [h1']
    simp only []
    rw [h2]
    simp only []
    exact h3
  · simp [CommandlineModifier.getArgc, CommandlineModifier.holding]
  · simp [CommandlineModifier.getArgv, CommandlineModifier.holding]

/-- C26 at an input: the command line `h5vfs img.h5 /mnt -f`. -/
theorem C26_fuse_arguments_witness :
    (∃ cm : CommandlineModifier,
      fuseArguments ("h5vfs" :: "img.h5" :: ["/mnt", "-f"]) = .ok cm ∧
      cm.getArgc = ("h5vfs" :: "img.h5" :: ["/mnt", "-f"]).length + 1 ∧
      cm.getArgv = (("h5vfs" :: ["/mnt", "-f"]) ++ ["-ofsname=h5vfs", "-oro"]).map Slot.arg
        ++ [Slot.null]) ∧
    (∀ (L : List String) (D : List Bool) (i : Nat), D.length = L.length → i < L.length →
      (CommandlineModifier.holding L D).deleteArgument (i : Int)
        = .ok (CommandlineModifier.holding (L.eraseIdx i) (D.eraseIdx i))) ∧
    (∀ (L : List String) (D : List Bool) (s : String), D.length = L.length →
      (CommandlineModifier.holding L D).addArgument s
        = .ok (CommandlineModifier.holding (L ++ [s]) (D ++ [true]))) :=
  C26_fuse_arguments "h5vfs" "img.h5" ["/mnt", "-f"] (by decide)

/-- The command line `h5vfs img.h5 /mnt -f` as `fuse_main` gets it. -/
theorem fuse_arguments_example :
    fuseArguments ["h5vfs", "img.h5", "/mnt", "-f"] = .ok
      { argcMod := 5
        argvMod := [Slot.arg "h5vfs", Slot.arg "/mnt", Slot.arg "-f", Slot.arg "-ofsname=h5vfs",
                    Slot.arg "-oro", Slot.null]
        argvModDelete := [some false, some false, some false, some true, some true] } := by
  decide

/-! ## Globs for directories -/

/-- C27, the code at a failing input: the command line
`toHDF5 /home/u/base --acceptdir=base --acceptdir=keep`, for a directory `base`
that holds the directories `keep` and `other`.  `parse` puts the two globs
under the key `acceptdir`; the loop of `main` written for them reads the key
`allowdir`, which no argument can fill, and would write the key
`allowdirregex`, so the list `acceptdirregex` that `shouldStore` tests stays
empty, and `other`, which matches neither glob, is stored with its file.  The
same patterns given as `--acceptdirregex` keep `other` out, and
`--rejectdir=other` reaches the list `rejectdirregex` and keeps it out, as does
a glob for files its list; `globToRegex` translates as the claim says. -/
theorem C27_acceptdir_globs_ignored :
    globToRegex "*.t?t" = ".*\\.t.t" ∧
    ((parseArgs ["/home/u/base", "--acceptdir=base", "--acceptdir=keep"]
      : Except String Params).toOption.map
        (fun p : Params => (p.values "acceptdir", (mainGlobs p).values "acceptdirregex",
          (mainGlobs p).values "allowdir", (mainGlobs p).values "allowdirregex")))
      = some (["base", "keep"], [], [], []) ∧
    ((filterOpts ["/home/u/base", "--acceptdir=base", "--acceptdir=keep"]
      : Except String Opts).toOption.bind (fun o : Opts =>
        (packRoots lexEnv md5Hasher o [("/home/u/base", twoDirsTree)] { file := emptyFile }
          : Except Err (Nat × Packer)).toOption.map
          (fun r : Nat × Packer => r.2.file.links.map (fun e => e.1))))
      = some [["base"], ["base", "keep"], ["base", "keep", "f"], ["base", "other"],
              ["base", "other", "g"]] ∧
    ((filterOpts ["/home/u/base", "--acceptdirregex=base", "--acceptdirregex=keep"]
      : Except String Opts).toOption.bind (fun o : Opts =>
        (packRoots lexEnv md5Hasher o [("/home/u/base", twoDirsTree)] { file := emptyFile }
          : Except Err (Nat × Packer)).toOption.map
          (fun r : Nat × Packer => r.2.file.links.map (fun e => e.1))))
      = some [["base"], ["base", "keep"], ["base", "keep", "f"]] ∧
    ((filterOpts ["/home/u/base", "--rejectdir=other"] : Except String Opts).toOption.map
        (fun o : Opts => o.rejectdirregex)) = some ["other"] ∧
    ((filterOpts ["/home/u/base", "--rejectdir=other"]
      : Except String Opts).toOption.bind (fun o : Opts =>
        (packRoots lexEnv md5Hasher o [("/home/u/base", twoDirsTree)] { file := emptyFile }
          : Except Err (Nat × Packer)).toOption.map
          (fun r : Nat × Packer => r.2.file.links.map (fun e => e.1))))
      = some [["base"], ["base", "keep"], ["base", "keep", "f"]] ∧
    ((filterOpts ["/home/u/base", "--acceptfile=*.t?t"] : Except String Opts).toOption.map
        (fun o : Opts => o.acceptfileregex)) = some [".*\\.t.t"] := by
  refine ⟨by decide!, by decide!, by decide!, by decide!, by decide!, by decide!, by decide!⟩

/-! ## The reference counts of the open-file table -/

theorem isDatasetPath_iff (m : Mount) (p : String) (h : isDatasetPath m p = true) :
    m.nameExists p = .ok true ∧
      ∃ q e d b a, m.lookup p true = some q ∧ m.mainfile.find q = some (Node.dataset e d b a) := by
  unfold isDatasetPath at h
  rw [Bool.and_eq_true] at h
  obtain ⟨h1, h2⟩ := h
  refine ⟨of_decide_eq_true h1, ?_⟩
  unfold Mount.object at h2
  cases hl : m.lookup p true with
  | none => simp [hl] at h2
  | some q =>
    cases hf : m.mainfile.find q with
    | none => simp [hl, hf] at h2
    | some node =>
      cases node with
      | dataset e d b a => exact ⟨q, e, d, b, a, rfl, hf⟩
      | group a => simp [hl, hf] at h2
      | soft s => simp [hl, hf] at h2

/-- A call of `h5vfs_open` on a dataset path returns 0 and adds one to the
count of the path. -/
theorem open_counted (m : Mount) (t : OpenFiles) (c : String → Nat) (p : String)
    (hc : Counted c t) (hds : isDatasetPath m p = true) (hlt : c p + 1 < U64) :
    ∃ t', h5vfs_open m t p = .ok (0, t') ∧
      Counted (fun x => if x = p then c p + 1 else c x) t' := by
  obtain ⟨hex, q, e, d, b, a, hlook, hfind⟩ := isDatasetPath_iff m p hds
  unfold h5vfs_open
  simp only [hex, bind, Except.bind, Bool.not_true, Bool.false_eq_true, if_false]
  by_cases h0 : c p = 0
  · have hnone := (hc p).1 h0
    rw [hnone]
    simp only [h5vfsFile.open, hlook, hfind, Bool.false_eq_true, if_false, pure, Except.pure]
    refine ⟨_, rfl, ?_⟩
    intro x
    by_cases hx : x = p
    · subst hx
      simp only [if_true]
      refine ⟨fun h => by omega, fun _ =>
        ⟨{ dataset := q, dim := getDatasetSize e d, isOpen := true, refcount := 1,
           buffer := none }, ?_, ?_, rfl⟩⟩
      · rw [assoc_append_none x t _ hnone]
        simp [assoc]
      · simp only [h0]
    · simp only [hx, if_false]
      rw [assoc_snoc_ne p x _ hx t]
      exact hc x
  · obtain ⟨file, hsome, hrc, hopen⟩ := (hc p).2 (by omega)
    rw [hsome]
    simp only [h5vfsFile.open, hopen, if_true, pure, Except.pure]
    refine ⟨_, rfl, ?_⟩
    intro x
    by_cases hx : x = p
    · subst hx
      simp only [if_true]
      refine ⟨fun h => by omega, fun _ => ⟨_, assoc_assocSet_same x _ t (by simp [hsome]), ?_,
        rfl⟩⟩
      simp only [hrc]
      exact Nat.mod_eq_of_lt hlt
    · simp only [hx, if_false]
      rw [assoc_assocSet_ne p x _ hx t]
      exact hc x

/-- A call of `h5vfs_release` on a path with a positive count returns 0 and
takes one from the count of the path. -/
theorem release_counted (t : OpenFiles) (c : String → Nat) (p : String)
    (hc : Counted c t) (hpos : 0 < c p) (hlt : c p < U64) :
    ∃ t', h5vfs_release t p = (0, t') ∧
      Counted (fun x => if x = p then c p - 1 else c x) t' := by
  obtain ⟨file, hsome, hrc, hopen⟩ := (hc p).2 hpos
  have hnew : (file.refcount + U64 - 1) % U64 = c p - 1 := by
    rw [hrc]
    have : c p + U64 - 1 = (c p - 1) + U64 := by omega
    rw [this, Nat.add_mod_right]
    exact Nat.mod_eq_of_lt (by omega)
  unfold h5vfs_release
  rw [hsome]
  simp only [h5vfsFile.close, hnew]
  by_cases h1 : c p - 1 = 0
  · simp only [h1, if_true]
    refine ⟨_, rfl, ?_⟩
    intro x
    by_cases hx : x = p
    · subst hx
      simp only [if_true]
      refine ⟨fun _ => assoc_filter_drop x _ (fun v => by simp) t, fun h => by omega⟩
    · simp only [hx, if_false]
      rw [assoc_filter_keep x _ (fun v => by simp [hx]) t]
      exact hc x
  · simp only [h1, if_false]
    refine ⟨_, rfl, ?_⟩
    intro x
    by_cases hx : x = p
    · subst hx
      simp only [if_true]
      refine ⟨fun h => absurd h h1, fun _ => ⟨_, assoc_assocSet_same x _ t (by simp [hsome]), rfl,
        hopen⟩⟩
    · simp only [hx, if_false]
      rw [assoc_assocSet_ne p x _ hx t]
      exact hc x

theorem counted_congr (c c' : String → Nat) (t : OpenFiles) (h : ∀ p, c p = c' p)
    (hc : Counted c t) : Counted c' t := by
  intro p
  rw [← h p]
  exact hc p

theorem take_succ_cons {α : Type} (k : Nat) (a : α) (l : List α) :
    (a :: l).take (k + 1) = a :: l.take k := rfl

/-- A sequence of calls in which every path opened is a dataset path and no
path is released more often than its count and its opens allow returns, every
call with 0, and leaves a table that agrees with the counts. -/
theorem runOps_counted (m : Mount) : ∀ (ops : List FileOp) (c : String → Nat) (t : OpenFiles),
    Counted c t →
    (∀ p, FileOp.open p ∈ ops → isDatasetPath m p = true) →
    (∀ k p, releases p (ops.take k) ≤ c p + opens p (ops.take k)) →
    (∀ p, c p + ops.length < U64) →
    ∃ rets t', runOps m ops t = .ok (rets, t') ∧ (∀ r ∈ rets, r = 0) ∧
      Counted (fun p => c p + opens p ops - releases p ops) t'
  | [], c, t, hc, _, _, _ => by
    refine ⟨[], t, rfl, ?_, ?_⟩
    · intro r hr
      exact absurd hr (List.not_mem_nil r)
    · exact counted_congr c _ t (fun p => by simp [opens, releases]) hc
  | FileOp.open q :: ops, c, t, hc, hds, hbal, hlt => by
    have hlq := hlt q
    obtain ⟨t1, h1, hc1⟩ := open_counted m t c q hc (hds q (by simp))
      (by simp only [List.length_cons] at hlq; omega)
    obtain ⟨rets, t2, h2, hz, hc2⟩ := runOps_counted m ops
      (fun x => if x = q then c q + 1 else c x) t1 hc1
      (fun p hp => hds p (by simp [hp]))
      (fun k p => by
        have := hbal (k + 1) p
        simp only [take_succ_cons, releases, opens] at this
        by_cases hp : p = q
        · subst hp; simp only [if_true] at this ⊢; omega
        · have hq : ¬ q = p := fun h => hp h.symm
          simp only [hp, hq, if_false] at this ⊢; omega)
      (fun p => by
        have := hlt p
        have := hlt q
        simp only [List.length_cons] at *
        by_cases hp : p = q
        · subst hp; simp only [if_true]; omega
        · simp only [hp, if_false]; omega)
    refine ⟨0 :: rets, t2, ?_, ?_, ?_⟩
    · simp only [runOps, applyOp, h1, bind, Except.bind, h2, pure, Except.pure]
    · intro r hr
      rcases List.mem_cons.mp hr with h | h
      · exact h
      · exact hz r h
    · refine counted_congr _ _ t2 (fun p => ?_) hc2
      by_cases hp : p = q
      · subst hp; simp only [if_true, opens, releases]; omega
      · have hq : ¬ q = p := fun h => hp h.symm
        simp only [hp, hq, if_false, opens, releases]; omega
  | FileOp.release q :: ops, c, t, hc, hds, hbal, hlt => by
    have hpos : 0 < c q := by
      have := hbal 1 q
      simp only [take_succ_cons, List.take_zero, releases, opens, if_true] at this
      omega
    have hlq := hlt q
    obtain ⟨t1, h1, hc1⟩ := release_counted t c q hc hpos
      (by simp only [List.length_cons] at hlq; omega)
    obtain ⟨rets, t2, h2, hz, hc2⟩ := runOps_counted m ops
      (fun x => if x = q then c q - 1 else c x) t1 hc1
      (fun p hp => hds p (by simp [hp]))
      (fun k p => by
        have := hbal (k + 1) p
        simp only [take_succ_cons, releases, opens] at this
        by_cases hp : p = q
        · subst hp; simp only [if_true] at this ⊢; omega
        · have hq : ¬ q = p := fun h => hp h.symm
          simp only [hp, hq, if_false] at this ⊢; omega)
      (fun p => by
        have := hlt p
        have := hlt q
        simp only [List.length_cons] at *
        by_cases hp : p = q
        · subst hp; simp only [if_true]; omega
        · simp only [hp, if_false]; omega)
    have hbal0 := hbal (ops.length + 1)
    refine ⟨0 :: rets, t2, ?_, ?_, ?_⟩
    · simp only [runOps, applyOp, h1, bind, Except.bind, h2, pure, Except.pure]
    · intro r hr
      rcases List.mem_cons.mp hr with h | h
      · exact h
      · exact hz r h
    · refine counted_congr _ _ t2 (fun p => ?_) hc2
      by_cases hp : p = q
      · subst hp; simp only [if_true, opens, releases]; omega
      · have hq : ¬ q = p := fun h => hp h.symm
        simp only [hp, hq, if_false, opens, releases]; omega

theorem take_take_le {α : Type} (l : List α) (j k : Nat) (h : j ≤ k) :
    (l.take k).take j = l.take j := by
  rw [List.take_take, Nat.min_eq_left h]

/-- C23: let every path opened in a sequence of calls of `h5vfs_open` and
`h5vfs_release` be a dataset path, and let no path be released more often than
it was opened, at any point of the sequence.  Then after each call, the calls
so far have all returned 0, the table holds a path exactly when it was opened
more often than released, and the `refcount` of its entry is the difference,
which is at least 1.  A call of `h5vfs_release` on a path that is not in the
table returns `-ENOENT` and leaves the table as it is. -/
theorem C23_refcount_lifecycle (m : Mount) (ops : List FileOp)
    (hds : ∀ p, FileOp.open p ∈ ops → isDatasetPath m p = true)
    (hbal : ∀ k p, releases p (ops.take k) ≤ opens p (ops.take k))
    (hlen : ops.length < U64) :
    (∀ k, ∃ rets t, runOps m (ops.take k) [] = .ok (rets, t) ∧ (∀ r ∈ rets, r = 0) ∧
      ∀ p, ((assoc p t).isSome = true ↔ releases p (ops.take k) < opens p (ops.take k)) ∧
        ∀ file, assoc p t = some file →
          file.refcount = opens p (ops.take k) - releases p (ops.take k) ∧
            1 ≤ file.refcount) ∧
    (∀ (t : OpenFiles) (p : String), assoc p t = none → h5vfs_release t p = (-ENOENT, t)) := by
  constructor
  · intro k
    have hc0 : Counted (fun _ => 0) ([] : OpenFiles) := fun p =>
      ⟨fun _ => rfl, fun h => absurd h (Nat.lt_irrefl 0)⟩
    obtain ⟨rets, t, hrun, hz, hct⟩ := runOps_counted m (ops.take k) (fun _ => 0) [] hc0
      (fun p hp => hds p (List.mem_of_mem_take hp))
      (fun j p => by
        show releases p ((ops.take k).take j) ≤ 0 + opens p ((ops.take k).take j)
        by_cases hj : j ≤ k
        · rw [take_take_le ops j k hj]
          have := hbal j p
          omega
        · rw [List.take_of_length_le (by
            have := List.length_take_le k ops
            omega)]
          have := hbal k p
          omega)
      (fun p => by
        show 0 + (ops.take k).length < U64
        rw [List.length_take]
        omega)
    refine ⟨rets, t, hrun, hz, fun p => ?_⟩
    obtain ⟨hzero, hposi⟩ := hct p
    simp only [Nat.zero_add] at hzero hposi
    by_cases hlt : releases p (ops.take k) < opens p (ops.take k)
    · obtain ⟨file, hsome, hrc, _⟩ := hposi (by omega)
      refine ⟨⟨fun _ => hlt, fun _ => (by rw [hsome]; rfl)⟩, fun f hf => ?_⟩
      rw [hsome] at hf
      cases hf
      exact ⟨hrc, by omega⟩
    · have hnone := hzero (by omega)
      refine ⟨⟨fun h => (by rw [hnone] at h; cases h), fun h => absurd h hlt⟩, fun f hf => ?_⟩
      rw [hnone] at hf
      cases hf
  · intro t p h
    unfold h5vfs_release
    rw [h]

/-- C23 at an input: the dataset `/base/target` is opened and released. -/
theorem C23_refcount_lifecycle_witness :
    (∀ k, ∃ rets t,
      runOps (mountOf linksArchive)
        ([FileOp.open "/base/target", FileOp.release "/base/target"].take k) [] = .ok (rets, t) ∧
      (∀ r ∈ rets, r = 0) ∧
      ∀ p, ((assoc p t).isSome = true ↔
          releases p ([FileOp.open "/base/target", FileOp.release "/base/target"].take k)
            < opens p ([FileOp.open "/base/target", FileOp.release "/base/target"].take k)) ∧
        ∀ file, assoc p t = some file →
          file.refcount
            = opens p ([FileOp.open "/base/target", FileOp.release "/base/target"].take k)
              - releases p ([FileOp.open "/base/target", FileOp.release "/base/target"].take k) ∧
            1 ≤ file.refcount) ∧
    (∀ (t : OpenFiles) (p : String), assoc p t = none → h5vfs_release t p = (-ENOENT, t)) :=
  C23_refcount_lifecycle (mountOf linksArchive)
    [FileOp.open "/base/target", FileOp.release "/base/target"]
    (fun p hp => by
      simp only [List.mem_cons, FileOp.open.injEq, List.mem_singleton, reduceCtorEq,
        or_false, List.not_mem_nil] at hp
      subst hp
      decide)
    (fun k p => by
      rcases k with _ | _ | k
      · simp [opens, releases]
      · simp [opens, releases]
      · simp only [List.take_succ_cons, List.take_nil, opens, releases]
        omega)
    (by decide)

/-- The table after two calls of `h5vfs_open` and one of `h5vfs_release` on the
dataset `/base/target`, and after the second release. -/
theorem refcount_example :
    (runOps (mountOf linksArchive)
        [FileOp.open "/base/target", FileOp.open "/base/target", FileOp.release "/base/target"] []
      : Except Err (List Int × OpenFiles))
      = .ok ([0, 0, 0], [("/base/target", { dataset := ["base", "target"], dim := 0,
                                            isOpen := true, refcount := 1, buffer := none })]) ∧
    (runOps (mountOf linksArchive)
        [FileOp.open "/base/target", FileOp.open "/base/target", FileOp.release "/base/target",
         FileOp.release "/base/target", FileOp.release "/base/target"] []
      : Except Err (List Int × OpenFiles)) = .ok ([0, 0, 0, 0, -ENOENT], []) := by
  refine ⟨by decide!, by decide!⟩

/-! ## Deferred hard links -/

/-- The loop of `linkDeferredFiles` returns exactly along a course of the drain. -/
theorem foldlM_drained (g : Loc) : ∀ (links : List (String × String)) (f f' : H5File),
    links.foldlM (linkDeferred g) f = .ok f' ↔ Drained g links f f'
  | [], f, f' => by
    constructor
    · intro h
      have : f = f' := Except.ok.inj h
      subst this
      exact Drained.done f
    · intro h
      cases h
      rfl
  | (s, d) :: rest, f, f' => by
    rw [List.foldlM_cons]
    constructor
    · intro h
      obtain ⟨f1, h1, h⟩ := bind_ok _ _ _ h
      unfold linkDeferred at h1
      obtain ⟨b, hb, h1⟩ := bind_ok _ _ _ h1
      cases b with
      | true =>
        simp only [if_true] at h1
        exact Drained.linked s d rest f f1 f' hb h1 ((foldlM_drained g rest f1 f').mp h)
      | false =>
        simp only [Bool.false_eq_true, if_false] at h1
        have : f = f1 := Except.ok.inj h1
        subst this
        exact Drained.skipped s d rest f f' hb ((foldlM_drained g rest f f').mp h)
    · intro h
      cases h with
      | linked _ _ _ _ f1 _ hb hl hrest =>
        have h1 : linkDeferred g f (s, d) = .ok f1 := by
          unfold linkDeferred
          simp only [hb, bind, Except.bind, if_true]
          exact hl
        rw [h1]
        exact (foldlM_drained g rest f1 f').mpr hrest
      | skipped _ _ _ _ _ hb hrest =>
        have h1 : linkDeferred g f (s, d) = .ok f := by
          unfold linkDeferred
          simp only [hb, bind, Except.bind, Bool.false_eq_true, if_false]
          rfl
        rw [h1]
        exact (foldlM_drained g rest f f').mpr hrest

/-- A name that a lookup finds, and that is not the root group, leads to an
object. -/
theorem nameExists_true_find (f : H5File) (g : Loc) (s : String)
    (h : f.nameExists g s = .ok true) (hroot : resolve g s ≠ []) :
    ∃ node, f.find (resolve g s) = some node := by
  unfold H5File.nameExists at h
  by_cases hs : s = ""
  · rw [if_pos hs] at h; cases h
  · rw [if_neg hs] at h
    simp only [hroot, if_false] at h
    by_cases hg : f.isGroup (resolve g s).dropLast = true
    · rw [if_pos hg] at h
      have : (f.find (resolve g s)).isSome = true := Except.ok.inj h
      exact Option.isSome_iff_exists.mp this
    · rw [if_neg hg] at h; cases h

/-- The state of `hardLink` after its first two statements, for the full name
of a plain name in a group: the links at and below the name are gone. -/
theorem hardLink_full (st : Packer) (g q : Loc) (n s : String)
    (hq : PlainLoc q) (hn : simpleName n = true) (hgrp : st.file.isGroup q = true) :
    hardLink st g s (getObjName q ++ "/" ++ n) =
      (H5File.nameExists { st.file with links := st.file.cleared (q ++ [n]) } g s >>=
        fun sourceExists =>
          if (!sourceExists) = true then
            pure { st with calls := st.calls ++ [Call.hardLink s (getObjName q ++ "/" ++ n)]
                           file := { st.file with links := st.file.cleared (q ++ [n]) }
                           deferredLinks := st.deferredLinks ++ [(s, getObjName q ++ "/" ++ n)] }
          else
            H5File.linkHard { st.file with links := st.file.cleared (q ++ [n]) } g s
                (getObjName q ++ "/" ++ n) >>=
              fun file => pure
                { st with calls := st.calls ++ [Call.hardLink s (getObjName q ++ "/" ++ n)]
                          file := file }) := by
  unfold hardLink
  have hd := nameExists_full st.file g q n hq hn hgrp
  cases hex : (st.file.find (q ++ [n])).isSome with
  | true =>
    rw [hex] at hd
    have hu := unlink_full st.file g q n hq hn hex
    simp only [hd, hu, bind, Except.bind, if_true]
  | false =>
    rw [hex] at hd
    have hc : ({ st.file with links := st.file.cleared (q ++ [n]) } : H5File) = st.file := by
      unfold H5File.cleared
      simp [hex]
    rw [hc]
    simp only [hd, bind, Except.bind, Bool.false_eq_true, if_false]
    rfl

/-- C25. Deferred hard links.  `hardLink`, called for the full name of a plain
name in a group as the walker calls it, with a source other than the root
group whose lookup answers: when the source does not exist the call returns
with the pair added at the back of `deferredLinks` and no link under the name;
when it exists the call returns with `deferredLinks` as it was and the name
leading to the object the source leads to.  `linkDeferredFiles` returns exactly
along a course of the drain (`Drained`): the pairs in the order of the queue,
a hard link for each pair whose source exists in the container as the earlier
pairs left it, nothing for the others; and the state it returns has an empty
queue and differs from the state before in nothing but the container. -/
theorem C25_deferred_hard_links (st : Packer) (g q : Loc) (n s : String) (b : Bool)
    (hq : PlainLoc q) (hn : simpleName n = true) (hgrp : st.file.isGroup q = true)
    (hsrc : H5File.nameExists { st.file with links := st.file.cleared (q ++ [n]) } g s = .ok b)
    (hroot : resolve g s ≠ []) :
    (b = false →
      hardLink st g s (getObjName q ++ "/" ++ n) = .ok
        { st with calls := st.calls ++ [Call.hardLink s (getObjName q ++ "/" ++ n)]
                  file := { st.file with links := st.file.cleared (q ++ [n]) }
                  deferredLinks := st.deferredLinks ++ [(s, getObjName q ++ "/" ++ n)] }) ∧
    (b = true → ∃ (node : Node) (st' : Packer),
      H5File.find { st.file with links := st.file.cleared (q ++ [n]) } (resolve g s) = some node ∧
      hardLink st g s (getObjName q ++ "/" ++ n) = .ok st' ∧
      st'.deferredLinks = st.deferredLinks ∧
      st'.file.find (q ++ [n]) = some node) ∧
    (∀ (st0 st1 : Packer) (g0 : Loc), linkDeferredFiles st0 g0 = .ok st1 ↔
      (Drained g0 st0.deferredLinks st0.file st1.file ∧
        st1 = { st0 with file := st1.file, deferredLinks := [] })) := by
  have hfull := hardLink_full st g q n s hq hn hgrp
  have hdq : q ++ [n] ≠ [] := by simp
  obtain ⟨hfree, hgrp1⟩ := cleared_spec st.file q n hgrp
  refine ⟨?_, ?_, ?_⟩
  · intro hb
    subst hb
    rw [hfull, hsrc]
    rfl
  · intro hb
    subst hb
    obtain ⟨node, hnode⟩ := nameExists_true_find _ g s hsrc hroot
    have hins := insert_free st.file.rootAttrs (st.file.cleared (q ++ [n])) q n node "link"
      hfree hgrp1
    have hlink : H5File.linkHard { st.file with links := st.file.cleared (q ++ [n]) } g s
        (getObjName q ++ "/" ++ n) = .ok
        { rootAttrs := st.file.rootAttrs
          links := (st.file.cleared (q ++ [n]) ++ [(q ++ [n], node)]) ++
            ((st.file.cleared (q ++ [n])).filter
              (fun e => (resolve g s).isPrefixOf e.1 && decide (e.1 ≠ resolve g s))).map
              (fun e => (q ++ [n] ++ e.1.drop (resolve g s).length, e.2)) } := by
      unfold H5File.linkHard
      simp only [hnode, hroot, if_false, resolve_fullname g q n hq, parsePath_simple n hn]
      rw [hins]
      rfl
    refine ⟨node,
      { st with calls := st.calls ++ [Call.hardLink s (getObjName q ++ "/" ++ n)]
                file :=
                  { rootAttrs := st.file.rootAttrs
                    links := (st.file.cleared (q ++ [n]) ++ [(q ++ [n], node)]) ++
                      ((st.file.cleared (q ++ [n])).filter
                        (fun e => (resolve g s).isPrefixOf e.1 && decide (e.1 ≠ resolve g s))).map
                        (fun e => (q ++ [n] ++ e.1.drop (resolve g s).length, e.2)) } },
      hnode, ?_, ?_, ?_⟩
    · rw [hfull, hsrc]
      simp only [bind, Except.bind, Bool.not_true, Bool.false_eq_true, if_false]
      rw [hlink]
      rfl
    · rfl
    · show H5File.find _ (q ++ [n]) = some node
      rw [find_mk _ _ _ hdq]
      exact assoc_append_some _ _ _ _ (by
        rw [assoc_append_none _ _ _ hfree]; simp [assoc])
  · intro st0 st1 g0
    unfold linkDeferredFiles
    constructor
    · intro h
      obtain ⟨f1, h1, h⟩ := bind_ok _ _ _ h
      have : ({ st0 with file := f1, deferredLinks := [] } : Packer) = st1 := Except.ok.inj h
      subst this
      exact ⟨(foldlM_drained g0 _ _ _).mp h1, rfl⟩
    · rintro ⟨hd, hst⟩
      rw [(foldlM_drained g0 _ _ _).mpr hd]
      rw [hst]
      rfl

/-- C25 at an input: in the state `chainQueue` a hard link `/base/d` to the
dataset `/base/a` is created at once and the queue stays as it was. -/
theorem C25_deferred_hard_links_witness :
    (∃ (node : Node) (st' : Packer),
      H5File.find { chainQueue.file with links := chainQueue.file.cleared (["base"] ++ ["d"]) }
        (resolve ["base"] "/base/a") = some node ∧
      hardLink chainQueue ["base"] "/base/a" (getObjName ["base"] ++ "/" ++ "d") = .ok st' ∧
      st'.deferredLinks = chainQueue.deferredLinks ∧
      st'.file.find (["base"] ++ ["d"]) = some node) ∧
    (∀ (st0 st1 : Packer) (g0 : Loc), linkDeferredFiles st0 g0 = .ok st1 ↔
      (Drained g0 st0.deferredLinks st0.file st1.file ∧
        st1 = { st0 with file := st1.file, deferredLinks := [] })) :=
  have h := C25_deferred_hard_links chainQueue ["base"] ["base"] "d" "/base/a" true
    (plainLoc_of_simple _ (by decide)) (by decide) (by decide) (by decide!) (by decide)
  ⟨h.2.1 rfl, h.2.2⟩

/-- The drain at inputs.  From `chainQueue` the pair with the missing source
leaves nothing, `b` is linked to `a`, and `c` to the `b` the same drain made.
With the last two pairs in the other order `c` is not linked, its source
being absent when the pair is visited.  A call of `hardLink` for a missing
source puts the pair at the back of the queue. -/
theorem deferred_chain_example :
    linkDeferredFiles chainQueue [] = .ok
      { file :=
          { rootAttrs := []
            links := [(["base"], Node.group []), (["base", "a"], Node.dataset 1 [1] [7] []),
                      (["base", "b"], Node.dataset 1 [1] [7] []),
                      (["base", "c"], Node.dataset 1 [1] [7] [])] }
        deferredLinks := [] } ∧
    linkDeferredFiles
        { chainQueue with
          deferredLinks := [("/base/x", "/base/y"), ("/base/b", "/base/c"), ("/base/a", "/base/b")] }
        [] = .ok
      { file :=
          { rootAttrs := []
            links := [(["base"], Node.group []), (["base", "a"], Node.dataset 1 [1] [7] []),
                      (["base", "b"], Node.dataset 1 [1] [7] [])] }
        deferredLinks := [] } ∧
    hardLink chainQueue ["base"] "/base/z" "/base/w" = .ok
      { chainQueue with
        calls := [Call.hardLink "/base/z" "/base/w"]
        deferredLinks := chainQueue.deferredLinks ++ [("/base/z", "/base/w")] } := by
  decide!

/-! ## A symbolic link to a directory above the base path -/

/-- C7, the code at a failing input: the directory `/home/u/base` holds the
symbolic link `up` with the text `..`.  The resolved path `/home/u/base/..`
has the canonical names `home`, `u`, one fewer than the base path and all
equal to its first names, so `std::mismatch` in `is_subpath`, which is given
no end for the names of the child, reads past the last of them: the behaviour
is undefined.  `shouldStore` has no result, whatever `storeexternalsymlinks`
says, where the claim has `DONT_STORE`, `AS_INTERNAL` or `AS_EXTERNAL_LINK`;
nor has the run of the Packer on the tree.  The same holds for the absolute
text `/home/u`.  A link to `/home/v`, which is no ancestor of the base path,
is decided as the claim says, and so is a link to a path below the base
path. -/
theorem C7_link_to_ancestor :
    normalEnv.weaklyCanonical "/home/u/base" = ["home", "u", "base"] ∧
    normalEnv.weaklyCanonical (pathAppend "/home/u/base" "..") = ["home", "u"] ∧
    is_subpath normalEnv "/home/u/base" (pathAppend "/home/u/base" "..")
      = .error (Err.undefined "std::mismatch") ∧
    shouldStore normalEnv md5Hasher noOpts inBase ["base"] "/home/u/base" "/home/u/base/up"
        "up" (upLink "..") true = .error (Err.undefined "std::mismatch") ∧
    shouldStore normalEnv md5Hasher { noOpts with storeexternalsymlinks := some "file" } inBase
        ["base"] "/home/u/base" "/home/u/base/up" "up" (upLink "..") true
      = .error (Err.undefined "std::mismatch") ∧
    shouldStore normalEnv md5Hasher linkOpts inBase ["base"] "/home/u/base" "/home/u/base/up"
        "up" (upLink "..") true = .error (Err.undefined "std::mismatch") ∧
    shouldStore lexEnv md5Hasher linkOpts inBase ["base"] "/home/u/base" "/home/u/base/up"
        "up" (upLink "/home/u") true = .error (Err.undefined "std::mismatch") ∧
    (packRoots normalEnv md5Hasher noOpts [("/home/u/base", upLinkTree)] { file := emptyFile }
      : Except Err (Nat × Packer)) = .error (Err.undefined "std::mismatch") ∧
    shouldStore normalEnv md5Hasher linkOpts inBase ["base"] "/home/u/base" "/home/u/base/up"
        "up" (upLink "/home/v") true
      = .ok ({ storeType := StoreType.AS_EXTERNAL_LINK, datasetPath := "/home/v" }, inBase) ∧
    shouldStore normalEnv md5Hasher noOpts inBase ["base"] "/home/u/base" "/home/u/base/up"
        "up" (upLink "sub/..") true
      = .ok ({ storeType := StoreType.AS_SOFT_LINK, datasetPath := "/home/u/base/sub/.." },
             inBase) := by
  refine ⟨by decide!, by decide!, by decide!, by decide!, by decide!, by decide!, by decide!,
    by decide!, by decide!, by decide!⟩

/-- A symbolic link to a proper ancestor of the base path: for every link that
passes the filter, whose name is not in the group yet and whose text
`readlink` delivers, if the canonical names of the resolved path are a proper
beginning of those of the base path, the behaviour of `shouldStore` is
undefined. -/
theorem symlink_to_ancestor (env : Env) (H : Hasher) (opts : Opts) (st : Packer)
    (group : Loc) (basePath filepath name : String) (src : Source) (isDir : Bool) (link : String)
    (hlnk : S_ISLNK src.lstat.st_mode = true)
    (hpass : filteredOut env opts name isDir = false)
    (hex : st.file.nameExists group name = .ok false)
    (hread : src.readlink = some link)
    (hanc : env.weaklyCanonical
        (if link.data.head? = some '/' then link else pathAppend basePath link)
      <+: env.weaklyCanonical basePath)
    (hne : env.weaklyCanonical
        (if link.data.head? = some '/' then link else pathAppend basePath link)
      ≠ env.weaklyCanonical basePath) :
    shouldStore env H opts st group basePath filepath name src isDir
      = .error (Err.undefined "std::mismatch") :=
  (symlink_decision_defined env H opts st group basePath filepath name src isDir link hlnk hpass
    hex hread).2.2 _ ((mismatchAtEnd_spec _ _).2.1.mpr ⟨hanc, hne⟩)

/-! ## The count a walk returns is the number of items it stores -/

theorem storeFile_calls (H : Hasher) (opts : Opts) (st : Packer) (g : Loc)
    (filePath name : String) (src : Source) (st' : Packer)
    (h : storeFile H opts st g filePath name src = .ok st') :
    st'.calls = st.calls ++ [Call.storeFile g filePath name] := by
  unfold storeFile at h
  dsimp only at h
  obtain ⟨e, _, h⟩ := bind_ok _ _ _ h
  obtain ⟨f1, _, h, _⟩ := clear_bind _ _ _ _ _ _ h
  obtain ⟨f2, _, h⟩ := bind_ok _ _ _ h
  have hst : _ = st' := Except.ok.inj h
  subst hst
  rfl

theorem softLink_calls (st : Packer) (g : Loc) (source dest : String) (st' : Packer)
    (h : softLink st g source dest = .ok st') :
    st'.calls = st.calls ++ [Call.softLink source dest] := by
  unfold softLink at h
  dsimp only at h
  obtain ⟨e, _, h⟩ := bind_ok _ _ _ h
  obtain ⟨f1, _, h, _⟩ := clear_bind _ _ _ _ _ _ h
  obtain ⟨f2, _, h⟩ := bind_ok _ _ _ h
  have hst : _ = st' := Except.ok.inj h
  subst hst
  rfl

theorem externalLink_calls (st : Packer) (g : Loc) (source dest : String) (st' : Packer)
    (h : externalLink st g source dest = .ok st') :
    st'.calls = st.calls ++ [Call.externalLink source dest] := by
  unfold externalLink at h
  dsimp only at h
  obtain ⟨e, _, h⟩ := bind_ok _ _ _ h
  obtain ⟨f1, _, h, _⟩ := clear_bind _ _ _ _ _ _ h
  obtain ⟨f2, _, h⟩ := bind_ok _ _ _ h
  obtain ⟨f3, _, h⟩ := bind_ok _ _ _ h
  have hst : _ = st' := Except.ok.inj h
  subst hst
  rfl

theorem hardLink_calls (st : Packer) (g : Loc) (source dest : String) (st' : Packer)
    (h : hardLink st g source dest = .ok st') :
    st'.calls = st.calls ++ [Call.hardLink source dest] := by
  unfold hardLink at h
  dsimp only at h
  obtain ⟨e, _, h⟩ := bind_ok _ _ _ h
  obtain ⟨f1, _, h, _⟩ := clear_bind _ _ _ _ _ _ h
  obtain ⟨se, _, h⟩ := bind_ok _ _ _ h
  cases se with
  | false =>
    have hst : _ = st' := Except.ok.inj h
    subst hst
    rfl
  | true =>
    obtain ⟨f2, _, h⟩ := bind_ok _ _ _ h
    have hst : _ = st' := Except.ok.inj h
    subst hst
    rfl

theorem storedBelow_none (g : Loc) (st st' : Packer) (h : st'.calls = st.calls) :
    StoredBelow g 0 st st' :=
  ⟨[], by simp [h], rfl, fun c hc => absurd hc (List.not_mem_nil c)⟩

theorem storedBelow_one (g : Loc) (st st' : Packer) (c : Call)
    (h : st'.calls = st.calls ++ [c]) (hc : g <+: c.place) : StoredBelow g 1 st st' :=
  ⟨[c], h, rfl, fun d hd => by
    rw [List.mem_singleton] at hd
    subst hd
    exact hc⟩

theorem storedBelow_trans {g : Loc} {a b : Nat} {st st1 st2 : Packer}
    (h1 : StoredBelow g a st st1) (h2 : StoredBelow g b st1 st2) :
    StoredBelow g (a + b) st st2 := by
  obtain ⟨n1, e1, l1, p1⟩ := h1
  obtain ⟨n2, e2, l2, p2⟩ := h2
  refine ⟨n1 ++ n2, ?_, ?_, ?_⟩
  · rw [e2, e1, List.append_assoc]
  · rw [List.length_append, l1, l2]
  · intro c hc
    rcases List.mem_append.mp hc with hc | hc
    · exact p1 c hc
    · exact p2 c hc

theorem storedBelow_snoc {g : Loc} {x : String} {n : Nat} {st st' : Packer}
    (h : StoredBelow (g ++ [x]) n st st') : StoredBelow g n st st' := by
  obtain ⟨new, e, l, p⟩ := h
  exact ⟨new, e, l, fun c hc => (List.prefix_append g [x]).trans (p c hc)⟩

theorem storedBelow_from {g : Loc} {n : Nat} {st st1 st' : Packer}
    (hc : st1.calls = st.calls) (h : StoredBelow g n st1 st') : StoredBelow g n st st' := by
  obtain ⟨new, e, l, p⟩ := h
  exact ⟨new, by rw [e, hc], l, p⟩

/-- Whatever the policy, `handleFile` returns 1 when it makes a storing call,
for the name in its group, and 0 when it makes none. -/
theorem handleFile_stored (env : Env) (H : Hasher) (opts : Opts) (st : Packer) (g : Loc)
    (basePath path : String) (src : Source) (n : Nat) (st' : Packer)
    (hname : simpleName (getLastPathChunk path) = true) (hg : PlainLoc g)
    (h : handleFile env H opts st g basePath path src = .ok (n, st')) :
    StoredBelow g n st st' := by
  have hres := resolve_simple g _ hname
  have hpar := parsePath_simple _ hname
  have hfull : g <+: parsePath (getObjName g ++ "/" ++ getLastPathChunk path) := by
    rw [parsePath_fullname g _ hg]
    exact List.prefix_append _ _
  unfold handleFile at h
  dsimp only at h
  obtain ⟨_, _, h⟩ := bind_ok _ _ _ h
  obtain ⟨p, hp, h⟩ := bind_ok _ _ _ h
  obtain ⟨store, st1⟩ := p
  dsimp only at h
  obtain ⟨_, hcalls, _⟩ := shouldStore_file env H opts st g basePath path _ src false store st1 hp
  cases hty : store.storeType with
  | DONT_STORE =>
    rw [hty] at h
    cases h
    exact storedBelow_none g _ _ hcalls
  | AS_INTERNAL =>
    rw [hty] at h
    obtain ⟨st2, h2, h⟩ := bind_ok _ _ _ h
    cases h
    refine storedBelow_from hcalls (storedBelow_one g _ _ _
      (storeFile_calls H opts st1 g path _ src _ h2) ?_)
    show g <+: resolve g (getLastPathChunk path)
    rw [hres]
    exact List.prefix_append _ _
  | AS_HARD_LINK =>
    rw [hty] at h
    obtain ⟨st2, h2, h⟩ := bind_ok _ _ _ h
    cases h
    exact storedBelow_from hcalls (storedBelow_one g _ _ _ (hardLink_calls st1 g _ _ _ h2) hfull)
  | AS_SOFT_LINK =>
    rw [hty] at h
    obtain ⟨st2, h2, h⟩ := bind_ok _ _ _ h
    cases h
    exact storedBelow_from hcalls (storedBelow_one g _ _ _ (softLink_calls st1 g _ _ _ h2) hfull)
  | AS_EXTERNAL_LINK =>
    rw [hty] at h
    obtain ⟨st2, h2, h⟩ := bind_ok _ _ _ h
    cases h
    exact storedBelow_from hcalls
      (storedBelow_one g _ _ _ (externalLink_calls st1 g _ _ _ h2) hfull)

/-- Whatever the policy, `handleDirectory` returns the number of storing calls
made for it, when the loop over the entries does. -/
theorem handleDirectory_stored (env : Env) (H : Hasher) (opts : Opts) (st : Packer) (g : Loc)
    (basePath path : String) (src : Source) (walk : Loc → Packer → Except Err (Nat × Packer))
    (n : Nat) (st' : Packer)
    (hwalk : ∀ (g2 : Loc) (st2 : Packer) (n2 : Nat) (st2' : Packer), PlainLoc g2 →
      walk g2 st2 = .ok (n2, st2') → StoredBelow g2 n2 st2 st2')
    (hname : simpleName (getLastPathChunk path) = true) (hg : PlainLoc g)
    (h : handleDirectory env H opts st g basePath path src walk = .ok (n, st')) :
    StoredBelow g n st st' := by
  have hres := resolve_simple g _ hname
  have hplain := plainLoc_snoc g _ hg hname
  have hfull : g <+: parsePath (getObjName g ++ "/" ++ getLastPathChunk path) := by
    rw [parsePath_fullname g _ hg]
    exact List.prefix_append _ _
  unfold handleDirectory at h
  dsimp only at h
  obtain ⟨existingGroup, hex, h⟩ := bind_ok _ _ _ h
  obtain ⟨p, hp, h⟩ := bind_ok _ _ _ h
  obtain ⟨store, st1⟩ := p
  dsimp only at h
  obtain ⟨_, hcalls, _⟩ := shouldStore_file env H opts st g basePath path _ src true store st1 hp
  by_cases hdont : store.storeType = StoreType.DONT_STORE
  · rw [if_pos hdont] at h
    cases h
    exact storedBelow_none g _ _ hcalls
  · rw [if_neg hdont] at h
    by_cases hsoft : store.storeType = StoreType.AS_SOFT_LINK
    · rw [if_pos hsoft] at h
      obtain ⟨st2, h2, h⟩ := bind_ok _ _ _ h
      cases h
      exact storedBelow_from hcalls
        (storedBelow_one g _ _ _ (softLink_calls st1 g _ _ _ h2) hfull)
    · rw [if_neg hsoft] at h
      cases existingGroup with
      | true =>
        simp only [if_true] at h
        obtain ⟨group, hopen, h⟩ := bind_ok _ _ _ h
        obtain ⟨y, hy, h⟩ := bind_ok _ _ _ h
        cases hy
        obtain ⟨p2, hw, h⟩ := bind_ok _ _ _ h
        obtain ⟨n2, st2⟩ := p2
        dsimp only at h hw
        obtain ⟨hgroup, _⟩ := openGroup_inv _ _ _ _ hopen
        rw [hgroup, hres] at hw
        have hw2 := hwalk _ _ n2 st2 hplain hw
        simp only [Bool.not_true, Bool.and_false, Bool.false_and, Bool.false_eq_true,
          if_false] at h
        cases h
        exact storedBelow_from hcalls (storedBelow_snoc hw2)
      | false =>
        simp only [Bool.false_eq_true, if_false] at h
        obtain ⟨f1, h1, h⟩ := bind_ok _ _ _ h
        obtain ⟨f2, h2, h⟩ := bind_ok _ _ _ h
        obtain ⟨f3, h3, h⟩ := bind_ok _ _ _ h
        obtain ⟨f4, h4, h⟩ := bind_ok _ _ _ h
        obtain ⟨y, hy, h⟩ := bind_ok _ _ _ h
        cases hy
        obtain ⟨p2, hw, h⟩ := bind_ok _ _ _ h
        obtain ⟨n2, st2⟩ := p2
        dsimp only at h hw
        rw [hres] at hw
        have hw2 := hwalk _ _ n2 st2 hplain hw
        have hst : StoredBelow g n2 st st2 :=
          storedBelow_from (show ({ st1 with file := f4 } : Packer).calls = st.calls from hcalls)
            (storedBelow_snoc hw2)
        split at h
        · obtain ⟨f5, h5, h⟩ := bind_ok _ _ _ h
          cases h
          obtain ⟨new, e, l, p⟩ := hst
          exact ⟨new, e, l, p⟩
        · cases h
          exact hst

mutual
/-- Whatever the policy, the count one call of `coalescetoHDF5` returns for a
source with proper names is the number of storing calls it makes, all of them
for places at or below the group it works in. -/
theorem coalesce_stored (env : Env) (H : Hasher) (opts : Opts) (basePath : String) :
    ∀ (src : Source) (path : String) (g : Loc) (st : Packer) (n : Nat) (st' : Packer),
      src.proper = true → simpleName (getLastPathChunk path) = true → PlainLoc g →
      coalescetoHDF5 env H opts basePath src path g st = .ok (n, st') →
      StoredBelow g n st st'
  | Source.mk nm l s r c es, path, g, st, n, st', hp, hname, hg, h => by
    rw [coalescetoHDF5] at h
    rw [Source.proper] at hp
    split at h
    · exact handleDirectory_stored env H opts st g basePath path _ _ n st'
        (fun g2 st2 n2 st2' hg2 hw =>
          walk_stored env H opts basePath es path g2 st2 n2 st2' hp hg2 hw) hname hg h
    · split at h
      · exact handleFile_stored env H opts st g basePath path _ n st' hname hg h
      · split at h
        · exact handleFile_stored env H opts st g basePath path _ n st' hname hg h
        · cases h
          exact storedBelow_none g _ _ rfl
/-- Whatever the policy, the count the loop over entries with proper names
returns is the number of storing calls it makes, all of them for places at or
below the group it fills. -/
theorem walk_stored (env : Env) (H : Hasher) (opts : Opts) (basePath : String) :
    ∀ (es : List Source) (path : String) (g : Loc) (st : Packer) (n : Nat) (st' : Packer),
      properList es = true → PlainLoc g →
      walkEntries env H opts basePath es path g st = .ok (n, st') →
      StoredBelow g n st st'
  | [], path, g, st, n, st', _, hg, h => by
    rw [walkEntries] at h
    cases h
    exact storedBelow_none g _ _ rfl
  | e :: rest, path, g, st, n, st', hp, hg, h => by
    rw [walkEntries] at h
    rw [properList] at hp
    simp only [Bool.and_eq_true] at hp
    obtain ⟨⟨hn, he⟩, hrest⟩ := hp
    obtain ⟨first, h1, h⟩ := bind_ok _ _ _ h
    obtain ⟨others, h2, h⟩ := bind_ok _ _ _ h
    obtain ⟨n1, st1⟩ := first
    obtain ⟨n2, st2⟩ := others
    dsimp only at h h2
    have i1 := coalesce_stored env H opts basePath e _ g st n1 st1 he
      (by rw [getLastPathChunk_entryPath path e.name hn]; exact hn) hg h1
    have i2 := walk_stored env H opts basePath rest path g st1 n2 st2 hrest hg h2
    cases h
    exact storedBelow_trans i1 i2
end

/-- Entry by entry: the count returned for each entry of a directory is the
number of storing calls made for that entry, for places at or below the group
of the directory. -/
theorem walkCounts_stored (env : Env) (H : Hasher) (opts : Opts) (basePath : String) :
    ∀ (es : List Source) (path : String) (g : Loc) (st : Packer) (counts : List Nat)
      (st' : Packer),
      properList es = true → PlainLoc g →
      walkCounts env H opts basePath es path g st = .ok (counts, st') →
      ∃ news : List (List Call), st'.calls = st.calls ++ news.flatten ∧
        news.map List.length = counts ∧ ∀ c ∈ news.flatten, g <+: c.place
  | [], path, g, st, counts, st', _, hg, h => by
    rw [walkCounts] at h
    cases h
    exact ⟨[], by simp, rfl, by simp⟩
  | e :: rest, path, g, st, counts, st', hp, hg, h => by
    rw [walkCounts] at h
    rw [properList] at hp
    simp only [Bool.and_eq_true] at hp
    obtain ⟨⟨hn, he⟩, hrest⟩ := hp
    obtain ⟨first, h1, h⟩ := bind_ok _ _ _ h
    obtain ⟨others, h2, h⟩ := bind_ok _ _ _ h
    obtain ⟨n1, st1⟩ := first
    obtain ⟨c2, st2⟩ := others
    dsimp only at h h2
    obtain ⟨new, e1, l1, p1⟩ := coalesce_stored env H opts basePath e _ g st n1 st1 he
      (by rw [getLastPathChunk_entryPath path e.name hn]; exact hn) hg h1
    obtain ⟨news, e2, l2, p2⟩ :=
      walkCounts_stored env H opts basePath rest path g st1 c2 st2 hrest hg h2
    cases h
    refine ⟨new :: news, ?_, ?_, ?_⟩
    · rw [e2, e1, List.flatten_cons, List.append_assoc]
    · rw [List.map_cons, l1, l2]
    · intro c hc
      rw [List.flatten_cons] at hc
      rcases List.mem_append.mp hc with hc | hc
      · exact p1 c hc
      · exact p2 c hc

/-- An entry that the filter rejects, file or directory, is counted 0 and
leaves the state as it is. -/
theorem coalesce_rejected (env : Env) (H : Hasher) (opts : Opts) (basePath : String)
    (src : Source) (path : String) (g : Loc) (st : Packer)
    (hname : simpleName (getLastPathChunk path) = true) (hgrp : st.file.isGroup g = true)
    (hrej : filteredOut env opts (getLastPathChunk path) (S_ISDIR src.stat.st_mode) = true) :
    coalescetoHDF5 env H opts basePath src path g st = .ok (0, st) := by
  obtain ⟨nm, l, s, r, c, es⟩ := src
  have hex := nameExists_simple st.file g _ hname hgrp
  rw [coalescetoHDF5]
  simp only [Source.stat] at hrej
  by_cases hd : S_ISDIR s.st_mode = true
  · rw [if_pos hd]
    rw [hd] at hrej
    unfold handleDirectory shouldStore
    simp only [hex, hrej, bind, Except.bind, pure, Except.pure, if_true]
  · rw [if_neg hd]
    have hf : filteredOut env opts (getLastPathChunk path) false = true := by
      have : S_ISDIR s.st_mode = false := by simpa using hd
      rw [this] at hrej
      exact hrej
    have hfile : handleFile env H opts st g basePath path (Source.mk nm l s r c es)
        = .ok (0, st) := by
      unfold handleFile shouldStore
      simp only [hex, hf, bind, Except.bind, pure, Except.pure, if_true]
    split
    · exact hfile
    · split
      · exact hfile
      · rfl

/-- The loop over entries that the filter rejects one and all counts 0 for each
and leaves the state as it is. -/
theorem walkCounts_rejected (env : Env) (H : Hasher) (opts : Opts) (basePath : String) :
    ∀ (es : List Source) (path : String) (g : Loc) (st : Packer),
      properList es = true → st.file.isGroup g = true →
      (∀ x ∈ es, filteredOut env opts x.name (S_ISDIR x.stat.st_mode) = true) →
      walkCounts env H opts basePath es path g st = .ok (es.map (fun _ => 0), st)
  | [], path, g, st, _, _, _ => by
    rw [walkCounts]
    rfl
  | e :: rest, path, g, st, hp, hgrp, hrej => by
    rw [walkCounts]
    rw [properList] at hp
    simp only [Bool.and_eq_true] at hp
    obtain ⟨⟨hn, he⟩, hrest⟩ := hp
    have hlast := getLastPathChunk_entryPath path e.name hn
    have h1 := coalesce_rejected env H opts basePath e (entryPath path e.name) g st
      (by rw [hlast]; exact hn) hgrp (by rw [hlast]; exact hrej e (List.mem_cons_self _ _))
    have h2 := walkCounts_rejected env H opts basePath rest path g st hrest hgrp
      (fun x hx => hrej x (List.mem_cons_of_mem _ hx))
    simp only [h1, h2, bind, Except.bind, pure, Except.pure, List.map_cons]

theorem sum_map_zero {α : Type} : ∀ (l : List α), (l.map (fun _ => 0)).sum = 0
  | [] => rfl
  | _ :: l => by
    rw [List.map_cons, List.sum_cons, sum_map_zero l]

theorem pruned_calls (st2 : Packer) (b : Bool) (q : Loc) : (pruned st2 b q).calls = st2.calls := by
  cases b <;> rfl

theorem entered_calls (st1 : Packer) (e : Bool) (q : Loc) (s : Stat) :
    (entered st1 e q s).calls = st1.calls := by
  cases e <;> rfl

/-- C12. Empty-directory pruning: `handleDirectory` is called for a directory
with a plain name whose entries bear proper names; `shouldStore` does not
answer `DONT_STORE` or `AS_SOFT_LINK`; `e` tells whether the name was present
before the call (then as a group).  First, whenever the loop over the entries,
started in the group, returns the counts `counts` for the entries and the state
`st2`: `handleDirectory` returns the sum of the counts; the count of each
entry is the number of storing calls (`storeFile`, `hardLink`, `softLink`,
`externalLink`) made for that entry, all of them for places at or below the
group, so the sum is the number of items stored at or below it; the group is
still there after the loop; and in the state returned the group is gone from
its parent if and only if the sum is zero, the name was not present before the
call and `allowemptydirs` is false: in that case the links at and below the
group are removed from the state after the loop, otherwise that state is
returned as it is.  Second, when the filter rejects every entry of the
directory, `handleDirectory` returns 0 without a storing call, and the group
is gone from the state returned if and only if the name was not present
before the call and `allowemptydirs` is false. -/
theorem C12_empty_directory_pruning (env : Env) (H : Hasher) (opts : Opts) (st : Packer)
    (pg : Loc) (basePath dirPath nm : String) (l s : Stat) (r : Option String) (c : List Byte)
    (es : List Source) (e : Bool) (store : StoreResult) (st1 : Packer)
    (hes : properList es = true) (hname : simpleName (getLastPathChunk dirPath) = true)
    (hpg : PlainLoc pg)
    (hex : st.file.nameExists pg (getLastPathChunk dirPath) = .ok e)
    (hgrp : e = true → st.file.isGroup (pg ++ [getLastPathChunk dirPath]) = true)
    (hstore : shouldStore env H opts st pg basePath dirPath (getLastPathChunk dirPath)
      (Source.mk nm l s r c es) true = .ok (store, st1))
    (hnd : store.storeType ≠ StoreType.DONT_STORE)
    (hns : store.storeType ≠ StoreType.AS_SOFT_LINK) :
    (∀ (counts : List Nat) (st2 : Packer),
      walkCounts env H opts basePath es dirPath (pg ++ [getLastPathChunk dirPath])
        (entered st1 e (pg ++ [getLastPathChunk dirPath]) s) = .ok (counts, st2) →
      ∃ st' : Packer,
        handleDirectory env H opts st pg basePath dirPath (Source.mk nm l s r c es)
          (fun group st => walkEntries env H opts basePath es dirPath group st)
          = .ok (counts.sum, st') ∧
        (∃ news : List (List Call), st'.calls = st.calls ++ news.flatten ∧
          news.map List.length = counts ∧
          ∀ k ∈ news.flatten, pg ++ [getLastPathChunk dirPath] <+: k.place) ∧
        (st2.file.find (pg ++ [getLastPathChunk dirPath])).isSome = true ∧
        (st'.file.find (pg ++ [getLastPathChunk dirPath]) = none ↔
          (counts.sum = 0 ∧ e = false ∧ asBool opts.allowemptydirs false = false)) ∧
        st' = pruned st2 (decide (counts.sum = 0) && !e && !asBool opts.allowemptydirs false)
          (pg ++ [getLastPathChunk dirPath])) ∧
    ((∀ x ∈ es, filteredOut env opts x.name (S_ISDIR x.stat.st_mode) = true) →
      ∃ st' : Packer,
        handleDirectory env H opts st pg basePath dirPath (Source.mk nm l s r c es)
          (fun group st => walkEntries env H opts basePath es dirPath group st)
          = .ok (0, st') ∧
        st'.calls = st.calls ∧
        (st'.file.find (pg ++ [getLastPathChunk dirPath]) = none ↔
          (e = false ∧ asBool opts.allowemptydirs false = false)) ∧
        st' = pruned (entered st1 e (pg ++ [getLastPathChunk dirPath]) s)
          (!e && !asBool opts.allowemptydirs false) (pg ++ [getLastPathChunk dirPath])) := by
  have hres := resolve_simple pg _ hname
  have hq : pg ++ [getLastPathChunk dirPath] ≠ [] := by simp
  have hplain := plainLoc_snoc pg _ hpg hname
  obtain ⟨hfile, hcalls, _⟩ :=
    shouldStore_file env H opts st pg basePath dirPath _ _ true store st1 hstore
  constructor
  · intro counts st2 hwalk
    obtain ⟨st', h1, h2, h3, h4⟩ := handleDirectory_pruning env H opts st pg basePath dirPath nm
      l s r c es e store st1 counts st2 hes hname hpg hex hgrp hstore hnd hns hwalk
    obtain ⟨news, e1, l1, p1⟩ := walkCounts_stored env H opts basePath es dirPath _ _ counts st2
      hes hplain hwalk
    refine ⟨st', h1, ⟨news, ?_, l1, p1⟩, h2, h3, h4⟩
    rw [h4, pruned_calls, e1, entered_calls, hcalls]
  · intro hrej
    have hgroup : (entered st1 e (pg ++ [getLastPathChunk dirPath]) s).file.isGroup
        (pg ++ [getLastPathChunk dirPath]) = true := by
      cases e with
      | true =>
        simp only [entered, if_true, hfile]
        exact hgrp rfl
      | false =>
        obtain ⟨_, _, _, hfree⟩ := nameExists_false_inv _ _ _ hex
        rw [hres, ← hfile] at hfree
        have hfree' : assoc (pg ++ [getLastPathChunk dirPath]) st1.file.links = none := by
          simpa [H5File.find, hq] using hfree
        simp only [entered, Bool.false_eq_true, if_false]
        unfold H5File.isGroup
        rw [find_tip _ _ _ _ hq hfree']
    have hwalk := walkCounts_rejected env H opts basePath es dirPath _ _ hes hgroup hrej
    obtain ⟨st', h1, _, h3, h4⟩ := handleDirectory_pruning env H opts st pg basePath dirPath nm
      l s r c es e store st1 _ _ hes hname hpg hex hgrp hstore hnd hns hwalk
    rw [sum_map_zero] at h1 h3 h4
    have h4' : st' = pruned (entered st1 e (pg ++ [getLastPathChunk dirPath]) s)
        (!e && !asBool opts.allowemptydirs false) (pg ++ [getLastPathChunk dirPath]) := by
      rw [h4]
      simp
    refine ⟨st', h1, ?_, ?_, h4'⟩
    · rw [h4', pruned_calls, entered_calls, hcalls]
    · rw [h3]
      simp

/-- C12 at a concrete input: the directory `/home/u/base` holds only the file
`x.tmp`, which the options reject; the container is new.  The call returns 0,
makes no storing call, and the group `base` is gone. -/
theorem C12_empty_directory_pruning_witness :
    ∃ st' : Packer,
      handleDirectory lexEnv md5Hasher rejectTmp { file := emptyFile } [] "/home/u/base"
        "/home/u/base"
        (Source.mk "base" (dirStat 10) (dirStat 10) none [] [regFile "x.tmp" 11 1 []])
        (fun group st => walkEntries lexEnv md5Hasher rejectTmp "/home/u/base"
          [regFile "x.tmp" 11 1 []] "/home/u/base" group st)
        = .ok (0, st') ∧
      st'.calls = ({ file := emptyFile } : Packer).calls ∧
      (st'.file.find ([] ++ [getLastPathChunk "/home/u/base"]) = none ↔
        (false = false ∧ asBool rejectTmp.allowemptydirs false = false)) ∧
      st' = pruned
        (entered { file := emptyFile, inoMap := [(10, "/home/u/base")] } false
          ([] ++ [getLastPathChunk "/home/u/base"]) (dirStat 10))
        (!false && !asBool rejectTmp.allowemptydirs false)
        ([] ++ [getLastPathChunk "/home/u/base"]) :=
  (C12_empty_directory_pruning lexEnv md5Hasher rejectTmp { file := emptyFile } []
    "/home/u/base" "/home/u/base" "base" (dirStat 10) (dirStat 10) none []
    [regFile "x.tmp" 11 1 []] false { storeType := StoreType.AS_INTERNAL }
    { file := emptyFile, inoMap := [(10, "/home/u/base")] }
    (by decide) (by decide) (fun c hc => by cases hc) rfl (fun h => by cases h) rfl
    (by decide) (by decide)).2
    (fun x hx => by
      rw [List.mem_singleton] at hx
      subst hx
      decide)

end H5VFS
